import Mathlib

/-!
# Grid snapping and path intersection of bpmn-js-test

A shallow embedding of `src/lib/common/GridUtil-1b787f19.js`,
`src/lib/common/GridSnapping-ffa18b54.js` and the path routines of
`src/lib/common/LayoutUtil-be29d3d9.js`.

Numbers are exact rationals: JavaScript doubles are idealised to `ℚ`, so
rounding error, `Infinity` and signed zero are outside the model.  `NaN` is
represented only where the grid code can produce it from an absent property
(`JsNum.nan`).  Where a claim speaks of all floats (`quantize`, `snapEvent`),
the functions are embedded once more with every arithmetic result rounded to
binary64 (`fl64`, `quantize64`, `snapValue64`, `setSnapped64`, `snapEvent64`),
and where it speaks of real coordinates (`curveBBox`), over an ordered field
with its square root (`curveBBoxOver`).

Conventions of the path part:
* `Math.sqrt`, `Math.sin`, `Math.cos`, `Math.tan`, `Math.asin` and `Math.PI` are
  parameters (`MathFns`); theorems state what they assume about them, and
  `ratMath` is a computable instance.
* A path function returns `none` where the JavaScript leaves exact arithmetic on
  numbers: a parameter that converts to `NaN`, a read of an absent array element
  (`undefined`), or an arc recursion deeper than the given fuel.
* The memo tables (`paths`, `cacher`) hand out clones of values computed by the
  same pure functions and are left out.
* Command letters are single characters; upper-casing is that of ASCII.
-/

namespace BpmnJs

/-! ## GridUtil -/

/-- The constant `SPACING` of GridUtil. -/
def SPACING : ℚ := 10

/-- Names of the `Math` rounding functions that `quantize` is called with. -/
inductive RoundFn
  | round
  | ceil
  | floor
  deriving DecidableEq, Repr

/-- The functions `Math.round`, `Math.ceil` and `Math.floor` on exact numbers.
`Math.round` rounds a tie towards plus infinity. -/
def RoundFn.apply : RoundFn → ℚ → ℤ
  | .round, x => ⌊x + 1 / 2⌋
  | .ceil, x => ⌈x⌉
  | .floor, x => ⌊x⌋

/-- The function `quantize(value, quantum, fn)` in exact arithmetic; `fn = none`
is the omitted third argument, replaced by `'round'`.  The same function with
the quotient and the product rounded to binary64 is `quantize64`. -/
def quantize (value quantum : ℚ) (fn : Option RoundFn) : ℚ :=
  let fn := match fn with
    | none => RoundFn.round
    | some f => f
  (fn.apply (value / quantum) : ℚ) * quantum

/-! ## GridSnapping: values -/

/-- The `options` object of `snapValue`: each property is a number or absent. -/
structure SnapOptions where
  offset : Option ℚ
  min : Option ℚ
  max : Option ℚ
  deriving DecidableEq, Repr

/-- Truthiness of an optional numeric property: present and not zero. -/
def truthy : Option ℚ → Bool
  | some q => decide (q ≠ 0)
  | none => false

/-- The method `GridSnapping.prototype.snapValue(value, options)`.  The
`isNumber` tests of the source hold for every present property, properties
being numbers here. -/
def snapValue (value : ℚ) (options : Option SnapOptions) : ℚ :=
  let offset : ℚ :=
    match options with
    | some o => if truthy o.offset then o.offset.getD 0 else 0
    | none => 0
  let value := value + offset
  let value := quantize value SPACING none
  let value :=
    match options with
    | some o =>
      if truthy o.min then
        max value (quantize (o.min.getD 0 + offset) SPACING (some .ceil))
      else value
    | none => value
  let value :=
    match options with
    | some o =>
      if truthy o.max then
        min value (quantize (o.max.getD 0 + offset) SPACING (some .floor))
      else value
    | none => value
  value - offset

/-- The offset used by `snapValue`: the `offset` property, 0 when absent. -/
def offsetOf (options : Option SnapOptions) : ℚ :=
  match options with
  | some o => o.offset.getD 0
  | none => 0

/-! ## GridSnapping: events -/

/-- A JavaScript number held in an event property: a rational or `NaN`. -/
inductive JsNum
  | val (q : ℚ)
  | nan
  deriving DecidableEq, Repr

/-- Addition of JavaScript numbers. -/
def JsNum.add : JsNum → JsNum → JsNum
  | .val a, .val b => .val (a + b)
  | _, _ => .nan

/-- Subtraction of JavaScript numbers. -/
def JsNum.sub : JsNum → JsNum → JsNum
  | .val a, .val b => .val (a - b)
  | _, _ => .nan

/-- Reading a property as a number: an absent property is `undefined`, which
arithmetic turns into `NaN`. -/
def toNum : Option JsNum → JsNum
  | some n => n
  | none => .nan

/-- Loosely typed argument values of `setSnapped` and `isSnapped`. -/
inductive JsVal
  | undefined
  | null
  | bool (b : Bool)
  | num (n : JsNum)
  | str (s : String)
  deriving DecidableEq, Repr

/-- Property lookup `obj[key]` in a list of own properties. -/
def getProp {α : Type} : List (String × α) → String → Option α
  | [], _ => none
  | (k, v) :: rest, key => if k = key then some v else getProp rest key

/-- Property assignment `obj[key] = v`. -/
def setProp {α : Type} : List (String × α) → String → α → List (String × α)
  | [], key, v => [(key, v)]
  | (k, w) :: rest, key, v =>
    if k = key then (k, v) :: rest else (k, w) :: setProp rest key v

/-- An interaction event: its numeric properties (`x`, `y`, `dx`, `dy`, ...)
and its `snapped` object, absent until the first `setSnapped`. -/
structure Event where
  fields : List (String × JsNum)
  snapped : Option (List (String × Bool))
  deriving DecidableEq, Repr

/-- The function `isSnapped(event, axis)`. -/
def isSnapped (event : Event) (axis : JsVal) : JsVal :=
  match event.snapped with
  | none => .bool false
  | some snapped =>
    match axis with
    | .str a =>
      match getProp snapped a with
      | some b => .bool b
      | none => .undefined
    | _ =>
      match getProp snapped "x" with
      | none => .undefined
      | some false => .bool false
      | some true =>
        match getProp snapped "y" with
        | some b => .bool b
        | none => .undefined

/-- The function `setSnapped(event, axis, value)`, as a state transformer: the
event after the call, and either the thrown error message or the returned
previous value (`none` is `undefined`). -/
def setSnapped (event : Event) (axis value : JsVal) :
    Event × Except String (Option JsNum) :=
  match axis with
  | .str a =>
    match value with
    | .bool false =>
      let previousValue := getProp event.fields a
      let snapped := event.snapped.getD []
      ({ event with snapped := some (setProp snapped a false) }, .ok previousValue)
    | .num v =>
      let previousValue := getProp event.fields a
      let snapped := event.snapped.getD []
      let snapped := setProp snapped a true
      let delta := v.sub (toNum previousValue)
      let fields := setProp event.fields a ((toNum (getProp event.fields a)).add delta)
      let fields :=
        setProp fields ("d" ++ a) ((toNum (getProp fields ("d" ++ a))).add delta)
      ({ fields := fields, snapped := some snapped }, .ok previousValue)
    | _ => (event, .error "value must be Number or false")
  | _ => (event, .error "axis must be in [x, y]")

/-- The method `snapValue` applied to a property read `event[axis]`: an absent
or `NaN` coordinate stays `NaN` through every step. -/
def snapValueJs (value : Option JsNum) (options : Option SnapOptions) : JsNum :=
  match toNum value with
  | .val q => .val (snapValue q options)
  | .nan => .nan

/-- The method `GridSnapping.prototype.snapEvent(event, axis, options)`. -/
def snapEvent (event : Event) (axis : String) (options : Option SnapOptions) :
    Event × Except String Unit :=
  let snappedValue := snapValueJs (getProp event.fields axis) options
  let r := setSnapped event (.str axis) (.num snappedValue)
  (r.1, r.2.map fun _ => ())

/-- The method `GridSnapping.prototype.getGridSpacing()`. -/
def getGridSpacing : ℚ := SPACING

/-! ## LayoutUtil: numbers and paths -/

/-- The functions and constants of JavaScript `Math` that have no exact
rational counterpart; they are parameters of the model. -/
structure MathFns where
  PI : ℚ
  sqrt : ℚ → ℚ
  sin : ℚ → ℚ
  cos : ℚ → ℚ
  tan : ℚ → ℚ
  asin : ℚ → ℚ

/-- A path component `[command, ...numericArgs]`, the command being one
character. -/
structure Segment where
  cmd : Char
  args : List ℚ
  deriving DecidableEq, Repr

/-- A path as the public functions accept it: `undefined`/`null`, an SVG path
string, or a list of path components. -/
inductive PathSpec
  | undefined
  | str (s : String)
  | segs (p : List Segment)
  deriving DecidableEq, Repr

/-- The function `Math.round` on exact numbers. -/
def jsRound (x : ℚ) : ℤ := ⌊x + 1 / 2⌋

/-- The function `fixError(number)`. -/
def fixError (number : ℚ) : ℚ := (jsRound (number * 100000000000) : ℚ) / 100000000000

/-- The integer `n` that `x.toFixed(d)` prints for a non-negative `x`: the
nearest to `x * 10^d`, the larger one on a tie. -/
def toFixedDigits (x : ℚ) (d : ℕ) : ℤ := ⌊x * (10 : ℚ) ^ d + 1 / 2⌋

/-- The number `+x.toFixed(d)`: a negative `x` is printed as `-` followed by
the digits of `-x`. -/
def toFixedNum (x : ℚ) (d : ℕ) : ℚ :=
  if x < 0 then -((toFixedDigits (-x) d : ℚ) / (10 : ℚ) ^ d)
  else (toFixedDigits x d : ℚ) / (10 : ℚ) ^ d

/-- The string `x.toFixed(d)` up to its layout: the sign that is printed and the
digits. -/
def toFixedKey (x : ℚ) (d : ℕ) : Bool × ℤ :=
  if x < 0 then (true, toFixedDigits (-x) d) else (false, toFixedDigits x d)

/-! ### parsePathString -/

/-- The class `\d` of the path regular expressions. -/
def isDigitChar (c : Char) : Bool := decide ('0' ≤ c ∧ c ≤ '9')

/-- The class `\s` of the path regular expressions. -/
def isSpaceChar (c : Char) : Bool :=
  c.toNat ∈ [9, 10, 11, 12, 13, 32, 160, 5760, 8192, 8193, 8194, 8195, 8196, 8197, 8198,
    8199, 8200, 8201, 8202, 8232, 8233, 8239, 8287, 12288, 65279]

/-- The class `[a-z]` under the flag `i`. -/
def isCommandChar (c : Char) : Bool :=
  decide (('a' ≤ c ∧ c ≤ 'z') ∨ ('A' ≤ c ∧ c ≤ 'Z'))

/-- One match of `-?\d*\.?\d*(?:e[-+]?\d+)?`, kept in its parts. -/
structure NumToken where
  neg : Bool
  intDigits : List Char
  dot : Bool
  fracDigits : List Char
  exp : Option (Bool × List Char)
  deriving DecidableEq, Repr

/-- Whether the matched text of a token is the empty string. -/
def NumToken.isEmpty (t : NumToken) : Bool :=
  !t.neg && t.intDigits.isEmpty && !t.dot && t.fracDigits.isEmpty && t.exp.isNone

/-- Greedy match of `-?\d*\.?\d*(?:e[-+]?\d+)?` at the head of the input: the
token and the input left after it. -/
def scanNumber (s : List Char) : NumToken × List Char :=
  let (neg, s1) := match s with
    | '-' :: r => (true, r)
    | _ => (false, s)
  let d1 := s1.takeWhile isDigitChar
  let s2 := s1.dropWhile isDigitChar
  let (dot, s3) := match s2 with
    | '.' :: r => (true, r)
    | _ => (false, s2)
  let d2 := s3.takeWhile isDigitChar
  let s4 := s3.dropWhile isDigitChar
  let (exp, s5) := match s4 with
    | e :: r =>
      if e = 'e' ∨ e = 'E' then
        let (eneg, r1) := match r with
          | '-' :: t => (true, t)
          | '+' :: t => (false, t)
          | _ => (false, r)
        let ds := r1.takeWhile isDigitChar
        if ds.isEmpty then (none, s4) else (some (eneg, ds), r1.dropWhile isDigitChar)
      else (none, s4)
    | [] => (none, s4)
  (⟨neg, d1, dot, d2, exp⟩, s5)

/-- Greedy match of one item `-?\d*\.?\d*(?:e[-+]?\d+)?[\s]*,?[\s]*`. -/
def scanItem (s : List Char) : NumToken × List Char :=
  let (tok, s1) := scanNumber s
  let s2 := s1.dropWhile isSpaceChar
  let s3 := match s2 with
    | ',' :: r => r
    | _ => s2
  (tok, s3.dropWhile isSpaceChar)

/-- The repetition `(...)+` of items in `pathCommand`: the first item may be
empty, every later one has to consume input.  Returns the input left after the
match; `fuel` bounds the number of items and the input length suffices. -/
def skipItems : ℕ → List Char → List Char
  | 0, s => s
  | fuel + 1, s =>
    let rest := (scanItem s).2
    if rest.length < s.length then skipItems fuel rest else s

/-- The value of a decimal digit string. -/
def digitsValue (ds : List Char) : ℕ :=
  ds.foldl (fun acc c => acc * 10 + (c.toNat - 48)) 0

/-- The conversion `+b` of a matched token: `none` is `NaN` (no digit in the
mantissa). -/
def NumToken.toNumber (t : NumToken) : Option ℚ :=
  if t.intDigits.isEmpty && t.fracDigits.isEmpty then none
  else
    let mant : ℚ := (digitsValue t.intDigits : ℚ) +
      (digitsValue t.fracDigits : ℚ) / ((10 ^ t.fracDigits.length : ℕ) : ℚ)
    let scaled : ℚ := match t.exp with
      | none => mant
      | some (true, ds) => mant / ((10 ^ digitsValue ds : ℕ) : ℚ)
      | some (false, ds) => mant * ((10 ^ digitsValue ds : ℕ) : ℚ)
    some (if t.neg then -scaled else scaled)

/-- The call `c.replace(pathValues, ...)`: the numbers of the non-empty tokens of
`c`, in order; an empty match advances by one character.  `none` when a token
converts to `NaN`, which the model does not represent. -/
def pathValues : ℕ → List Char → Option (List ℚ)
  | 0, _ => some []
  | fuel + 1, s =>
    let (tok, rest) := scanItem s
    if rest.length < s.length then
      if tok.isEmpty then pathValues fuel rest
      else do
        let v ← tok.toNumber
        let vs ← pathValues fuel rest
        some (v :: vs)
    else
      match s with
      | [] => some []
      | _ :: r => pathValues fuel r

/-- The table `paramCounts`, by lower-case command name. -/
def paramCounts (name : Char) : Option ℕ :=
  if name = 'a' then some 7
  else if name = 'c' then some 6
  else if name = 'h' then some 1
  else if name = 'l' then some 2
  else if name = 'm' then some 2
  else if name = 'q' then some 4
  else if name = 's' then some 4
  else if name = 't' then some 2
  else if name = 'v' then some 1
  else if name = 'z' then some 0
  else none

/-- The loop `while (params.length >= paramCounts[name])` that cuts the
parameters into components of command `b`. -/
def splitParams (b : Char) (count : ℕ) : ℕ → List ℚ → List Segment
  | 0, _ => []
  | fuel + 1, params =>
    if count ≤ params.length then
      if count = 0 then [⟨b, []⟩]
      else ⟨b, params.take count⟩ :: splitParams b count fuel (params.drop count)
    else []

/-- The callback of `String(pathString).replace(pathCommand, ...)` for one
match: command letter `b` and parameters `params`. -/
def commandSegments (b : Char) (params : List ℚ) : List Segment :=
  let name := b.toLower
  let (head, name, b, params) :=
    if name = 'm' ∧ 2 < params.length then
      ([(⟨b, params.take 2⟩ : Segment)], 'l', (if b = 'm' then 'l' else 'L'), params.drop 2)
    else ([], name, b, params)
  match paramCounts name with
  | some count => head ++ splitParams b count (params.length + 1) params
  | none => head

/-- The scan of `String(pathString).replace(pathCommand, ...)` over the input:
every match starts at a letter, skips `[\s,]*` and takes its items. -/
def parseCommands : ℕ → List Char → Option (List Segment)
  | 0, _ => some []
  | fuel + 1, s =>
    match s with
    | [] => some []
    | c :: r =>
      if isCommandChar c then
        let body := r.dropWhile fun ch => isSpaceChar ch || ch = ','
        let rest := skipItems (body.length + 1) body
        let matched := body.take (body.length - rest.length)
        do
          let params ← pathValues (matched.length + 1) matched
          let more ← parseCommands fuel rest
          some (commandSegments c params ++ more)
      else parseCommands fuel r

/-- The function `parsePathString(pathString)`.  The outer `none` marks an input
with a `NaN` parameter; the inner `none` is the result `null`. -/
def parsePathString (pathString : PathSpec) : Option (Option (List Segment)) :=
  match pathString with
  | .undefined => some none
  | .str s =>
    if s.data.isEmpty then some none
    else (parseCommands (s.data.length + 1) s.data).map some
  | .segs [] => some (some [])
  | .segs (a :: p) => some (some (a :: p))

/-! ### pathToAbsolute -/

/-- The running variables `x`, `y`, `mx`, `my` of `pathToAbsolute`. -/
structure AbsState where
  x : ℚ
  y : ℚ
  mx : ℚ
  my : ℚ
  deriving DecidableEq, Repr

/-- The element `r[r.length - 2]` of a component, when it is a number. -/
def secondLast (args : List ℚ) : Option ℚ :=
  if 2 ≤ args.length then args[args.length - 2]? else none

/-- The element `r[r.length - 1]` of a component, when it is a number. -/
def lastArg (args : List ℚ) : Option ℚ :=
  if 1 ≤ args.length then args[args.length - 1]? else none

/-- The loop `r[j] = +pa[j] + ((j % 2) ? x : y)` over the arguments, `j` being
the index of the head. -/
def shiftArgs (x y : ℚ) : ℕ → List ℚ → List ℚ
  | _, [] => []
  | j, a :: rest => (a + (if j % 2 = 1 then x else y)) :: shiftArgs x y (j + 1) rest

/-- One iteration of the loop of `pathToAbsolute`: the component `r` pushed to
the result and the updated variables.  `none` when the JavaScript reads an absent
element. -/
def absStep (st : AbsState) (pa : Segment) : Option (Segment × AbsState) := do
  let pa0 := pa.cmd
  -- first part: the component `r`
  let (r, st) ←
    if pa0 ≠ pa0.toUpper then
      let r0 := pa0.toUpper
      if r0 = 'A' then
        match pa.args with
        | a1 :: a2 :: a3 :: a4 :: a5 :: a6 :: a7 :: _ =>
          some ((⟨r0, [a1, a2, a3, a4, a5, a6 + st.x, a7 + st.y]⟩ : Segment), st)
        | _ => none
      else if r0 = 'V' then
        match pa.args with
        | a1 :: _ => some (⟨r0, [a1 + st.y]⟩, st)
        | _ => none
      else if r0 = 'H' then
        match pa.args with
        | a1 :: _ => some (⟨r0, [a1 + st.x]⟩, st)
        | _ => none
      else if r0 = 'M' then
        match pa.args with
        | a1 :: a2 :: _ =>
          some (⟨r0, shiftArgs st.x st.y 1 pa.args⟩, { st with mx := a1 + st.x, my := a2 + st.y })
        | _ => none
      else some (⟨r0, shiftArgs st.x st.y 1 pa.args⟩, st)
    else some (pa, st)
  -- second part: the current point
  if r.cmd = 'Z' then
    some (r, { st with x := st.mx, y := st.my })
  else if r.cmd = 'H' then do
    let r1 ← r.args[0]?
    some (r, { st with x := r1 })
  else if r.cmd = 'V' then do
    let r1 ← r.args[0]?
    some (r, { st with y := r1 })
  else if r.cmd = 'M' then do
    let a ← secondLast r.args
    let b ← lastArg r.args
    some (r, { x := a, y := b, mx := a, my := b })
  else do
    let a ← secondLast r.args
    let b ← lastArg r.args
    some (r, { st with x := a, y := b })

/-- The loop of `pathToAbsolute` from index `start`. -/
def absLoop : AbsState → List Segment → Option (List Segment)
  | _, [] => some []
  | st, pa :: rest => do
    let (r, st1) ← absStep st pa
    let more ← absLoop st1 rest
    some (r :: more)

/-- The function `pathToAbsolute(pathArray)`.  `none` when a parameter is `NaN`
or an absent element is read; the path cache returns clones of the same value
and is left out. -/
def pathToAbsolute (pathArray : PathSpec) : Option (List Segment) := do
  let parsed ←
    match pathArray with
    | .segs (a :: p) => some (some (a :: p))
    | other => parsePathString other
  match parsed with
  | none => some [⟨'M', [0, 0]⟩]
  | some [] => some [⟨'M', [0, 0]⟩]
  | some (first :: rest) =>
    if first.cmd = 'M' then do
      let x ← first.args[0]?
      let y ← first.args[1]?
      let more ← absLoop ⟨x, y, x, y⟩ rest
      some (⟨'M', [x, y]⟩ :: more)
    else absLoop ⟨0, 0, 0, 0⟩ (first :: rest)

/-! ### Conversions to cubic curves -/

/-- The function `lineToCurve(x1, y1, x2, y2)`. -/
def lineToCurve (x1 y1 x2 y2 : ℚ) : List ℚ := [x1, y1, x2, y2, x2, y2]

/-- The function `qubicToCurve(x1, y1, ax, ay, x2, y2)`. -/
def qubicToCurve (x1 y1 ax ay x2 y2 : ℚ) : List ℚ :=
  let _13 : ℚ := 1 / 3
  let _23 : ℚ := 2 / 3
  [_13 * x1 + _23 * ax, _13 * y1 + _23 * ay, _13 * x2 + _23 * ax, _13 * y2 + _23 * ay, x2, y2]

/-- The local function `rotate(x, y, rad)` of `arcToCurve`. -/
def rotate (m : MathFns) (x y rad : ℚ) : ℚ × ℚ :=
  (x * m.cos rad - y * m.sin rad, x * m.sin rad + y * m.cos rad)

/-- The part of `arcToCurve` shared by the first call and the recursive calls,
from `var df = f2 - f1` on: the points `[m2, m3, m4]` followed by those of the
recursive call.  `none` when the recursion is deeper than `fuel`. -/
def arcSegments (m : MathFns) :
    ℕ → (x1 y1 rx ry sweep_flag x2 y2 f1 f2 cx cy : ℚ) → Option (List (ℚ × ℚ))
  | 0, _, _, _, _, _, _, _, _, _, _, _ => none
  | fuel + 1, x1, y1, rx, ry, sweep_flag, x2, y2, f1, f2, cx, cy => do
    let _120 := m.PI * 120 / 180
    let df := f2 - f1
    let (res, f2, x2, y2) ←
      if |df| > _120 then
        let f2old := f2
        let x2old := x2
        let y2old := y2
        let f2 := f1 + _120 * (if sweep_flag ≠ 0 ∧ f2 > f1 then 1 else -1)
        let x2 := cx + rx * m.cos f2
        let y2 := cy + ry * m.sin f2
        (arcSegments m fuel x2 y2 rx ry sweep_flag x2old y2old f2 f2old cx cy).map
          fun res => (res, f2, x2, y2)
      else some ([], f2, x2, y2)
    let df := f2 - f1
    let c1 := m.cos f1
    let s1 := m.sin f1
    let c2 := m.cos f2
    let s2 := m.sin f2
    let t := m.tan (df / 4)
    let hx := 4 / 3 * rx * t
    let hy := 4 / 3 * ry * t
    let m1 := (x1, y1)
    let m2 := (x1 + hx * s1, y1 - hy * c1)
    let m3 := (x2 + hx * s2, y2 - hy * c2)
    let m4 := (x2, y2)
    let m2 := (2 * m1.1 - m2.1, 2 * m1.2 - m2.2)
    some ([m2, m3, m4] ++ res)

/-- The adjustment of the angles `f1`, `f2` in `arcToCurve`, from
`f1 = x1 < cx ? PI - f1 : f1` to `f2 = f2 - PI * 2`. -/
def arcAngles (m : MathFns) (f1 f2 x1 x2 cx sweep_flag : ℚ) : ℚ × ℚ :=
  let f1 := if x1 < cx then m.PI - f1 else f1
  let f2 := if x2 < cx then m.PI - f2 else f2
  let f1 := if f1 < 0 then m.PI * 2 + f1 else f1
  let f2 := if f2 < 0 then m.PI * 2 + f2 else f2
  let f1 := if sweep_flag ≠ 0 ∧ f1 > f2 then f1 - m.PI * 2 else f1
  let f2 := if ¬ sweep_flag ≠ 0 ∧ f2 > f1 then f2 - m.PI * 2 else f2
  (f1, f2)

/-- The call `arcToCurve(x1, y1, rx, ry, angle, large_arc_flag, sweep_flag, x2, y2)`
without the argument `recursive`: the flat list of control and end points.
Division is that of `ℚ`; where JavaScript divides by zero (a zero radius,
coincident end points) only the values differ from its `NaN`/`Infinity`.
`none` when the recursion is deeper than `fuel`. -/
def arcToCurve (m : MathFns) (fuel : ℕ)
    (x1 y1 rx ry angle large_arc_flag sweep_flag x2 y2 : ℚ) : Option (List ℚ) :=
  let rad := m.PI / 180 * angle
  let xy := rotate m x1 y1 (-rad)
  let x1 := xy.1
  let y1 := xy.2
  let xy := rotate m x2 y2 (-rad)
  let x2 := xy.1
  let y2 := xy.2
  let x := (x1 - x2) / 2
  let y := (y1 - y2) / 2
  let h := (x * x) / (rx * rx) + (y * y) / (ry * ry)
  let r := if h > 1 then (m.sqrt h * rx, m.sqrt h * ry) else (rx, ry)
  let rx := r.1
  let ry := r.2
  let rx2 := rx * rx
  let ry2 := ry * ry
  let k := (if large_arc_flag = sweep_flag then -1 else 1) *
    m.sqrt |(rx2 * ry2 - rx2 * y * y - ry2 * x * x) / (rx2 * y * y + ry2 * x * x)|
  let cx := k * rx * y / ry + (x1 + x2) / 2
  let cy := k * -ry * x / rx + (y1 + y2) / 2
  let f1 := m.asin (toFixedNum ((y1 - cy) / ry) 9)
  let f2 := m.asin (toFixedNum ((y2 - cy) / ry) 9)
  let f := arcAngles m f1 f2 x1 x2 cx sweep_flag
  (arcSegments m fuel x1 y1 rx ry sweep_flag x2 y2 f.1 f.2 cx cy).bind fun res =>
    some (res.flatMap fun p => [(rotate m p.1 p.2 rad).1, (rotate m p.1 p.2 rad).2])

/-! ### pathToCurve -/

/-- The object `attrs` of `pathToCurve`; `qx` and `qy` may be `null`.  The field
`by_` is the property `by`. -/
structure Attrs where
  x : ℚ
  y : ℚ
  bx : ℚ
  by_ : ℚ
  X : ℚ
  Y : ℚ
  qx : Option ℚ
  qy : Option ℚ
  deriving DecidableEq, Repr

/-- The local function `processPath(path, d, pathCommand)` of `pathToCurve`: the
converted component and the updated `d`.  A `null` in `d.qx`, `d.qy` counts as 0
in arithmetic.  `none` when an absent element is read, when an arc component
carries a non-zero eighth argument (the argument `recursive`), or when
`arcToCurve` runs out of fuel. -/
def processPath (m : MathFns) (fuel : ℕ) (path : Segment) (d : Attrs)
    (pathCommand : Option Char) : Option (Segment × Attrs) :=
  let d := if path.cmd = 'T' ∨ path.cmd = 'Q' then d else { d with qx := none, qy := none }
  if path.cmd = 'M' then do
    let p1 ← path.args[0]?
    let p2 ← path.args[1]?
    some (path, { d with X := p1, Y := p2 })
  else if path.cmd = 'A' then
    match path.args with
    | rx :: ry :: angle :: large_arc_flag :: sweep_flag :: x2 :: y2 :: rest =>
      if rest.head? = none ∨ rest.head? = some 0 then do
        let c ← arcToCurve m fuel d.x d.y rx ry angle large_arc_flag sweep_flag x2 y2
        some (⟨'C', c⟩, d)
      else none
    | _ => none
  else if path.cmd = 'S' then
    let n :=
      if pathCommand = some 'C' ∨ pathCommand = some 'S' then
        (d.x * 2 - d.bx, d.y * 2 - d.by_)
      else (d.x, d.y)
    some (⟨'C', n.1 :: n.2 :: path.args⟩, d)
  else if path.cmd = 'T' then do
    let d :=
      if pathCommand = some 'Q' ∨ pathCommand = some 'T' then
        { d with qx := some (d.x * 2 - d.qx.getD 0), qy := some (d.y * 2 - d.qy.getD 0) }
      else { d with qx := some d.x, qy := some d.y }
    let p1 ← path.args[0]?
    let p2 ← path.args[1]?
    some (⟨'C', qubicToCurve d.x d.y (d.qx.getD 0) (d.qy.getD 0) p1 p2⟩, d)
  else if path.cmd = 'Q' then do
    let p1 ← path.args[0]?
    let p2 ← path.args[1]?
    let p3 ← path.args[2]?
    let p4 ← path.args[3]?
    some (⟨'C', qubicToCurve d.x d.y p1 p2 p3 p4⟩, { d with qx := some p1, qy := some p2 })
  else if path.cmd = 'L' then do
    let p1 ← path.args[0]?
    let p2 ← path.args[1]?
    some (⟨'C', lineToCurve d.x d.y p1 p2⟩, d)
  else if path.cmd = 'H' then do
    let p1 ← path.args[0]?
    some (⟨'C', lineToCurve d.x d.y p1 d.y⟩, d)
  else if path.cmd = 'V' then do
    let p1 ← path.args[0]?
    some (⟨'C', lineToCurve d.x d.y d.x p1⟩, d)
  else if path.cmd = 'Z' then
    some (⟨'C', lineToCurve d.x d.y d.X d.Y⟩, d)
  else some (path, d)

/-- The cuts `pi.splice(0, 6)` of `fixArc`: groups of six numbers, the last one
possibly shorter. -/
def chunks6 : List ℚ → List (List ℚ)
  | a :: b :: c :: d :: e :: f :: rest => [a, b, c, d, e, f] :: chunks6 rest
  | [] => []
  | a :: rest => [a :: rest]

/-- The expression `toFloat(v) || fallback` for an element `v` that is a number
or not (`none`: absent, or the command string). -/
def toFloatOr (v : Option ℚ) (fallback : ℚ) : ℚ :=
  match v with
  | some q => if q ≠ 0 then q else fallback
  | none => fallback

/-- The assignments to `attrs.x`, `attrs.y`, `attrs.bx`, `attrs.by` at the end of
an iteration of `pathToCurve`. -/
def updateAttrs (attrs : Attrs) (seg : Segment) : Option Attrs := do
  let x ← secondLast seg.args
  let y ← lastArg seg.args
  let n := seg.args.length
  let bx := toFloatOr (if 4 ≤ n then seg.args[n - 4]? else none) x
  let by_ := toFloatOr (if 3 ≤ n then seg.args[n - 3]? else none) y
  some { attrs with x := x, y := y, bx := bx, by_ := by_ }

/-- The variables of the loop of `pathToCurve`: `attrs`, `pathCommand`, the entry
`pathCommands[i - 1]` and the index `i`. -/
structure CurveState where
  attrs : Attrs
  pathCommand : Option Char
  recorded : Option Char
  i : ℕ
  deriving DecidableEq, Repr

/-- One iteration of the loop of `pathToCurve` on the component `seg`;
`presetA` tells whether `fixArc` has already set `pathCommands[i] = 'A'`.
Returns `curvedPath[i]` after the iteration, the further components spliced in
by `fixArc`, and the updated variables. -/
def curveStep (m : MathFns) (fuel : ℕ) (st : CurveState) (seg : Segment) (presetA : Bool) :
    Option (Segment × List Segment × CurveState) := do
  let pfirst := seg.cmd
  let cur : Option Char := if presetA then some 'A' else none
  let (cur, pathCommand) :=
    if pfirst ≠ 'C' then (some pfirst, if st.i ≠ 0 then st.recorded else st.pathCommand)
    else (cur, st.pathCommand)
  let (path, attrs) ← processPath m fuel seg st.attrs pathCommand
  let cur := if cur ≠ some 'A' ∧ pfirst = 'C' then some 'C' else cur
  let (seg1, extra, cur) :=
    if 7 < path.args.length + 1 then
      match chunks6 path.args with
      | c :: cs => ((⟨'C', c⟩ : Segment), cs.map fun a => (⟨'C', a⟩ : Segment), some 'A')
      | [] => (path, [], cur)
    else (path, [], cur)
  let attrs ← updateAttrs attrs seg1
  some (seg1, extra, ⟨attrs, pathCommand, cur, st.i + 1⟩)

/-- The iterations of `pathToCurve` over the components spliced in by `fixArc`.
Such a component has at most six arguments, so its iteration splices nothing
further. -/
def curveChunks (m : MathFns) (fuel : ℕ) :
    CurveState → List Segment → Option (List Segment × CurveState)
  | st, [] => some ([], st)
  | st, c :: cs => do
    let (seg1, _, st1) ← curveStep m fuel st c true
    let (more, st2) ← curveChunks m fuel st1 cs
    some (seg1 :: more, st2)

/-- The loop of `pathToCurve` over the components of the absolute path. -/
def curveLoop (m : MathFns) (fuel : ℕ) : CurveState → List Segment → Option (List Segment)
  | _, [] => some []
  | st, seg :: rest => do
    let (seg1, extra, st1) ← curveStep m fuel st seg false
    let (segs, st2) ← curveChunks m fuel st1 extra
    let more ← curveLoop m fuel st2 rest
    some (seg1 :: segs ++ more)

/-- The function `pathToCurve(path)`; `fuel` bounds the recursion of
`arcToCurve`.  The path cache returns clones of the same value and is left
out. -/
def pathToCurve (m : MathFns) (fuel : ℕ) (path : PathSpec) : Option (List Segment) := do
  let curvedPath ← pathToAbsolute path
  curveLoop m fuel ⟨⟨0, 0, 0, 0, 0, 0, none, none⟩, none, none, 0⟩ curvedPath

/-! ### Curve mathematics -/

/-- A cubic Bezier curve as the array `[x1, y1, c1x, c1y, c2x, c2y, x2, y2]`;
`b0` to `b7` are its elements. -/
structure Bez where
  b0 : ℚ
  b1 : ℚ
  b2 : ℚ
  b3 : ℚ
  b4 : ℚ
  b5 : ℚ
  b6 : ℚ
  b7 : ℚ
  deriving DecidableEq, Repr

/-- The result of `rectBBox`. -/
structure BBox where
  x : ℚ
  y : ℚ
  width : ℚ
  height : ℚ
  x2 : ℚ
  y2 : ℚ
  deriving DecidableEq, Repr

/-- The function `rectBBox(x, y, width, height)`. -/
def rectBBox (x y width height : ℚ) : BBox :=
  ⟨x, y, width, height, x + width, y + height⟩

/-- The function `rectBBox(bbox)` with one argument. -/
def rectBBoxOf (b : BBox) : BBox := rectBBox b.x b.y b.width b.height

/-- The function `findDotsAtSegment(p1x, p1y, c1x, c1y, c2x, c2y, p2x, p2y, t)`. -/
def findDotsAtSegment (p1x p1y c1x c1y c2x c2y p2x p2y t : ℚ) : ℚ × ℚ :=
  let t1 := 1 - t
  let t13 := t1 ^ 3
  let t12 := t1 ^ 2
  let t2 := t * t
  let t3 := t2 * t
  let x := t13 * p1x + t12 * 3 * t * c1x + t1 * 3 * t * t * c2x + t3 * p2x
  let y := t13 * p1y + t12 * 3 * t * c1y + t1 * 3 * t * t * c2y + t3 * p2y
  (fixError x, fixError y)

/-- The body of the loop `for (var i = 0; i < 2; ++i)` of `curveBBox` for one
axis: the parameters pushed to `tvalues`. -/
def axisRoots (m : MathFns) (p0 p1 p2 p3 : ℚ) : List ℚ :=
  let b := 6 * p0 - 12 * p1 + 6 * p2
  let a := -3 * p0 + 9 * p1 - 9 * p2 + 3 * p3
  let c := 3 * p1 - 3 * p0
  if |a| < 1 / 10 ^ 12 then
    if |b| < 1 / 10 ^ 12 then []
    else
      let t := -c / b
      if 0 < t ∧ t < 1 then [t] else []
  else
    let b2ac := b * b - 4 * c * a
    let sqrtb2ac := m.sqrt b2ac
    if b2ac < 0 then []
    else
      let t1 := (-b + sqrtb2ac) / (2 * a)
      let t2 := (-b - sqrtb2ac) / (2 * a)
      (if 0 < t1 ∧ t1 < 1 then [t1] else []) ++ (if 0 < t2 ∧ t2 < 1 then [t2] else [])

/-- The result of `curveBBox`. -/
structure CurveBox where
  x0 : ℚ
  y0 : ℚ
  x1 : ℚ
  y1 : ℚ
  deriving DecidableEq, Repr

/-- The function `curveBBox(x0, y0, x1, y1, x2, y2, x3, y3)`. -/
def curveBBox (m : MathFns) (x0 y0 x1 y1 x2 y2 x3 y3 : ℚ) : CurveBox :=
  let tvalues := axisRoots m x0 x1 x2 x3 ++ axisRoots m y0 y1 y2 y3
  let at_ := fun (p0 p1 p2 p3 t : ℚ) =>
    let mt := 1 - t
    (mt * mt * mt * p0) + (3 * mt * mt * t * p1) + (3 * mt * t * t * p2) + (t * t * t * p3)
  let bounds0 := tvalues.map (at_ x0 x1 x2 x3) ++ [x0, x3]
  let bounds1 := tvalues.map (at_ y0 y1 y2 y3) ++ [y0, y3]
  ⟨bounds0.foldl min x0, bounds1.foldl min y0, bounds0.foldl max x0, bounds1.foldl max y0⟩

/-- The function `bezierBBox(points)`. -/
def bezierBBox (m : MathFns) (points : Bez) : BBox :=
  let bbox := curveBBox m points.b0 points.b1 points.b2 points.b3 points.b4 points.b5
    points.b6 points.b7
  rectBBox bbox.x0 bbox.y0 (bbox.x1 - bbox.x0) (bbox.y1 - bbox.y0)

/-- The function `isPointInsideBBox(bbox, x, y)`. -/
def isPointInsideBBox (bbox : BBox) (x y : ℚ) : Bool :=
  decide (x ≥ bbox.x ∧ x ≤ bbox.x + bbox.width ∧ y ≥ bbox.y ∧ y ≤ bbox.y + bbox.height)

/-- The function `isBBoxIntersect(bbox1, bbox2)`. -/
def isBBoxIntersect (bbox1 bbox2 : BBox) : Bool :=
  let bbox1 := rectBBoxOf bbox1
  let bbox2 := rectBBoxOf bbox2
  isPointInsideBBox bbox2 bbox1.x bbox1.y
    || isPointInsideBBox bbox2 bbox1.x2 bbox1.y
    || isPointInsideBBox bbox2 bbox1.x bbox1.y2
    || isPointInsideBBox bbox2 bbox1.x2 bbox1.y2
    || isPointInsideBBox bbox1 bbox2.x bbox2.y
    || isPointInsideBBox bbox1 bbox2.x2 bbox2.y
    || isPointInsideBBox bbox1 bbox2.x bbox2.y2
    || isPointInsideBBox bbox1 bbox2.x2 bbox2.y2
    || (decide (bbox1.x < bbox2.x2 ∧ bbox1.x > bbox2.x)
        || decide (bbox2.x < bbox1.x2 ∧ bbox2.x > bbox1.x))
      && (decide (bbox1.y < bbox2.y2 ∧ bbox1.y > bbox2.y)
        || decide (bbox2.y < bbox1.y2 ∧ bbox2.y > bbox1.y))

/-- The function `base3(t, p1, p2, p3, p4)`. -/
def base3 (t p1 p2 p3 p4 : ℚ) : ℚ :=
  let t1 := -3 * p1 + 9 * p2 - 9 * p3 + 3 * p4
  let t2 := t * t1 + 6 * p1 - 12 * p2 + 6 * p3
  t * t2 - 3 * p1 + 3 * p2

/-- The table `Tvalues` of `bezlen`. -/
def Tvalues : List ℚ :=
  [-1252 / 10000, 1252 / 10000, -3678 / 10000, 3678 / 10000, -5873 / 10000, 5873 / 10000,
    -7699 / 10000, 7699 / 10000, -9041 / 10000, 9041 / 10000, -9816 / 10000, 9816 / 10000]

/-- The table `Cvalues` of `bezlen`. -/
def Cvalues : List ℚ :=
  [2491 / 10000, 2491 / 10000, 2335 / 10000, 2335 / 10000, 2032 / 10000, 2032 / 10000,
    1601 / 10000, 1601 / 10000, 1069 / 10000, 1069 / 10000, 472 / 10000, 472 / 10000]

/-- The function `bezlen(x1, y1, x2, y2, x3, y3, x4, y4, z)`; `z = none` is the
omitted argument. -/
def bezlen (m : MathFns) (x1 y1 x2 y2 x3 y3 x4 y4 : ℚ) (z : Option ℚ) : ℚ :=
  let z := match z with
    | none => 1
    | some z => z
  let z := if z > 1 then 1 else if z < 0 then 0 else z
  let z2 := z / 2
  let sum := (List.zip Tvalues Cvalues).foldl (fun sum tc =>
    let ct := z2 * tc.1 + z2
    let xbase := base3 ct x1 x2 x3 x4
    let ybase := base3 ct y1 y2 y3 y4
    let comb := xbase * xbase + ybase * ybase
    sum + tc.2 * m.sqrt comb) 0
  z2 * sum

/-- The function `intersectLines(x1, y1, x2, y2, x3, y3, x4, y4)`; `none` is the
result `undefined`. -/
def intersectLines (x1 y1 x2 y2 x3 y3 x4 y4 : ℚ) : Option (ℚ × ℚ) :=
  if max x1 x2 < min x3 x4 ∨ min x1 x2 > max x3 x4 ∨
      max y1 y2 < min y3 y4 ∨ min y1 y2 > max y3 y4 then none
  else
    let nx := (x1 * y2 - y1 * x2) * (x3 - x4) - (x1 - x2) * (x3 * y4 - y3 * x4)
    let ny := (x1 * y2 - y1 * x2) * (y3 - y4) - (y1 - y2) * (x3 * y4 - y3 * x4)
    let denominator := (x1 - x2) * (y3 - y4) - (y1 - y2) * (x3 - x4)
    if denominator = 0 then none
    else
      let px := fixError (nx / denominator)
      let py := fixError (ny / denominator)
      let px2 := toFixedNum px 2
      let py2 := toFixedNum py 2
      if px2 < toFixedNum (min x1 x2) 2 ∨ px2 > toFixedNum (max x1 x2) 2 ∨
          px2 < toFixedNum (min x3 x4) 2 ∨ px2 > toFixedNum (max x3 x4) 2 ∨
          py2 < toFixedNum (min y1 y2) 2 ∨ py2 > toFixedNum (max y1 y2) 2 ∨
          py2 < toFixedNum (min y3 y4) 2 ∨ py2 > toFixedNum (max y3 y4) 2 then none
      else some (px, py)

/-- The function `isLine(bez)`. -/
def isLine (bez : Bez) : Bool :=
  decide (bez.b0 = bez.b2 ∧ bez.b1 = bez.b3 ∧ bez.b4 = bez.b6 ∧ bez.b5 = bez.b7)

/-! ### Intersections -/

/-- A polyline vertex `{ x, y, t }` of `findBezierIntersections`. -/
structure Dot where
  x : ℚ
  y : ℚ
  t : ℚ
  deriving DecidableEq, Repr

/-- An intersection `{ x, y, t1, t2 }` as `findBezierIntersections` records it. -/
structure BezHit where
  x : ℚ
  y : ℚ
  t1 : ℚ
  t2 : ℚ
  deriving DecidableEq, Repr

/-- The variable `res` of `findBezierIntersections`: a number in counting mode,
a list otherwise. -/
inductive BezResult
  | count (n : ℕ)
  | list (l : List BezHit)
  deriving DecidableEq, Repr

/-- The conversion `~~x`: truncation towards zero, then wrap-around to a signed
32-bit integer. -/
def toInt32 (x : ℚ) : ℤ :=
  let k : ℤ := if 0 ≤ x then ⌊x⌋ else ⌈x⌉
  (k + 2147483648) % 4294967296 - 2147483648

/-- The number of polyline segments `isLine(bez) ? 1 : ~~(l / 5) || 1`. -/
def segmentCount (bez : Bez) (l : ℚ) : ℤ :=
  if isLine bez then 1
  else if toInt32 (l / 5) = 0 then 1 else toInt32 (l / 5)

/-- The loop `for (i = 0; i < n + 1; i++)` that fills `dots1` or `dots2`. -/
def dotsOf (bez : Bez) (n : ℤ) : List Dot :=
  (List.range (n + 1).toNat).map fun i =>
    let p := findDotsAtSegment bez.b0 bez.b1 bez.b2 bez.b3 bez.b4 bez.b5 bez.b6 bez.b7
      ((i : ℚ) / (n : ℚ))
    ⟨p.1, p.2, (i : ℚ) / (n : ℚ)⟩

/-- The coordinate `p[c]` for `c` either `'x'` or `'y'`; `true` stands for `'y'`. -/
def coord (useY : Bool) (x y : ℚ) : ℚ := if useY then y else x

/-- The expression `d.t + abs((is[c] - d[c]) / (d1[c] - d[c])) * (d1.t - d.t)`;
`none` when the division is by zero, where JavaScript yields `NaN` or
`Infinity` and every later comparison fails. -/
def paramAt (useY : Bool) (is : ℚ × ℚ) (d d1 : Dot) : Option ℚ :=
  let den := coord useY d1.x d1.y - coord useY d.x d.y
  if den = 0 then none
  else some (d.t + |(coord useY is.1 is.2 - coord useY d.x d.y) / den| * (d1.t - d.t))

/-- The body of the inner loop of `findBezierIntersections` for the polyline
segments `di`–`di1` and `dj`–`dj1`; the state is the key set `xy` and `res`. -/
def pairStep (justCount : Bool) (di di1 dj dj1 : Dot)
    (st : List ((Bool × ℤ) × (Bool × ℤ)) × BezResult) :
    List ((Bool × ℤ) × (Bool × ℤ)) × BezResult :=
  let ci := decide (|di1.x - di.x| < 1 / 100)
  let cj := decide (|dj1.x - dj.x| < 1 / 100)
  match intersectLines di.x di.y di1.x di1.y dj.x dj.y dj1.x dj1.y with
  | none => st
  | some is =>
    let key := (toFixedKey is.1 9, toFixedKey is.2 9)
    if key ∈ st.1 then st
    else
      let xy := key :: st.1
      match paramAt ci is di di1, paramAt cj is dj dj1 with
      | some t1, some t2 =>
        if t1 ≥ 0 ∧ t1 ≤ 1 ∧ t2 ≥ 0 ∧ t2 ≤ 1 then
          match st.2 with
          | .count n => (xy, if justCount then .count (n + 1) else .count n)
          | .list l => (xy, if justCount then .list l else .list (l ++ [⟨is.1, is.2, t1, t2⟩]))
        else (xy, st.2)
      | _, _ => (xy, st.2)

/-- The double loop `for (i = 0; i < n1; i++) for (var j = 0; j < n2; j++)` of
`findBezierIntersections` over the polylines `dots1` and `dots2`. -/
def polylineIntersections (justCount : Bool) (dots1 dots2 : List Dot) (n1 n2 : ℤ) : BezResult :=
  let res : BezResult := if justCount then .count 0 else .list []
  let pairs1 := (List.zip dots1 dots1.tail).take n1.toNat
  let pairs2 := (List.zip dots2 dots2.tail).take n2.toNat
  (pairs1.foldl (fun st p1 =>
    pairs2.foldl (fun st p2 => pairStep justCount p1.1 p1.2 p2.1 p2.2 st) st) ([], res)).2

/-- The function `findBezierIntersections(bez1, bez2, justCount)`. -/
def findBezierIntersections (m : MathFns) (bez1 bez2 : Bez) (justCount : Bool) : BezResult :=
  let bbox1 := bezierBBox m bez1
  let bbox2 := bezierBBox m bez2
  if !isBBoxIntersect bbox1 bbox2 then
    if justCount then .count 0 else .list []
  else
    let l1 := bezlen m bez1.b0 bez1.b1 bez1.b2 bez1.b3 bez1.b4 bez1.b5 bez1.b6 bez1.b7 none
    let l2 := bezlen m bez2.b0 bez2.b1 bez2.b2 bez2.b3 bez2.b4 bez2.b5 bez2.b6 bez2.b7 none
    let n1 := segmentCount bez1 l1
    let n2 := segmentCount bez2 l2
    polylineIntersections justCount (dotsOf bez1 n1) (dotsOf bez2 n2) n1 n2

/-- An intersection as `findPathIntersections` returns it. -/
structure Intersection where
  x : ℚ
  y : ℚ
  t1 : ℚ
  t2 : ℚ
  segment1 : ℕ
  segment2 : ℕ
  bez1 : Bez
  bez2 : Bez
  deriving DecidableEq, Repr

/-- The result of `findPathIntersections`: a number in counting mode, a list
otherwise. -/
inductive PathResult
  | count (n : ℕ)
  | list (l : List Intersection)
  deriving DecidableEq, Repr

/-- The variables `x`, `y`, `xm`, `ym` that `findPathIntersections` keeps for one
of the paths; `none` is `undefined`. -/
structure Cursor where
  x : Option ℚ
  y : Option ℚ
  xm : Option ℚ
  ym : Option ℚ
  deriving DecidableEq, Repr

/-- The curve of a component that is not a move, and the cursor after it:
`[x, y].concat(p.slice(1))` for a `'C'`, the closing segment otherwise.  `none`
when a coordinate is `undefined` or a `'C'` has not six arguments. -/
def segmentBez (c : Cursor) (p : Segment) : Option (Bez × Cursor) := do
  let x ← c.x
  let y ← c.y
  if p.cmd = 'C' then
    match p.args with
    | [a1, a2, a3, a4, a5, a6] =>
      some (⟨x, y, a1, a2, a3, a4, a5, a6⟩, { c with x := some a5, y := some a6 })
    | _ => none
  else do
    let xm ← c.xm
    let ym ← c.ym
    some (⟨x, y, x, y, xm, ym, xm, ym⟩, { c with x := some xm, y := some ym })

/-- The sum `res += intr` or the concatenation `res.concat(intr)` with the
segment indices and curves attached. -/
def addHits (res : PathResult) (intr : BezResult) (i j : ℕ) (bez1 bez2 : Bez) : PathResult :=
  match res, intr with
  | .count n, .count k => .count (n + k)
  | .list l, .list hits =>
    .list (l ++ hits.map fun h => ⟨h.x, h.y, h.t1, h.t2, i, j, bez1, bez2⟩)
  | res, _ => res

/-- The inner loop of `findPathIntersections` over the components of `path2`
from index `j`, for the curve `bez1` of component `i` of `path1`. -/
def innerLoop (m : MathFns) (justCount : Bool) (i : ℕ) (bez1 : Bez) :
    ℕ → Cursor → List Segment → PathResult → Option (Cursor × PathResult)
  | _, c, [], res => some (c, res)
  | j, c, pj :: rest, res =>
    if pj.cmd = 'M' then
      innerLoop m justCount i bez1 (j + 1)
        ⟨pj.args[0]?, pj.args[1]?, pj.args[0]?, pj.args[1]?⟩ rest res
    else do
      let (bez2, c) ← segmentBez c pj
      let intr := findBezierIntersections m bez1 bez2 justCount
      innerLoop m justCount i bez1 (j + 1) c rest (addHits res intr i j bez1 bez2)

/-- The outer loop of `findPathIntersections` over the components of `path1`
from index `i`; `c1` and `c2` are the variables of the two paths. -/
def outerLoop (m : MathFns) (justCount : Bool) (path2 : List Segment) :
    ℕ → Cursor → Cursor → List Segment → PathResult → Option PathResult
  | _, _, _, [], res => some res
  | i, c1, c2, pi :: rest, res =>
    if pi.cmd = 'M' then
      outerLoop m justCount path2 (i + 1)
        ⟨pi.args[0]?, pi.args[1]?, pi.args[0]?, pi.args[1]?⟩ c2 rest res
    else do
      let (bez1, c1) ← segmentBez c1 pi
      let (c2, res) ← innerLoop m justCount i bez1 0 c2 path2 res
      outerLoop m justCount path2 (i + 1) c1 c2 rest res

/-- The function `findPathIntersections(path1, path2, justCount)`.  `none` when
a path leaves the model (see `pathToCurve`, `segmentBez`). -/
def findPathIntersections (m : MathFns) (fuel : ℕ) (path1 path2 : PathSpec)
    (justCount : Bool) : Option PathResult := do
  let path1 ← pathToCurve m fuel path1
  let path2 ← pathToCurve m fuel path2
  outerLoop m justCount path2 0 ⟨none, none, none, none⟩ ⟨none, none, none, none⟩ path1
    (if justCount then .count 0 else .list [])

/-! ### Well-formed and canonical components -/

/-- A well-formed component: one of the commands M, L, H, V, C, S, Q, T, A, Z in
upper or lower case, with the number of arguments that `paramCounts` gives for
it. -/
def wellFormedSegment (s : Segment) : Bool :=
  (s.cmd, s.args.length) ∈ [('M', 2), ('m', 2), ('L', 2), ('l', 2), ('H', 1), ('h', 1),
    ('V', 1), ('v', 1), ('C', 6), ('c', 6), ('S', 4), ('s', 4), ('Q', 4), ('q', 4),
    ('T', 2), ('t', 2), ('A', 7), ('a', 7), ('Z', 0), ('z', 0)]

/-- A well-formed absolute component: an upper-case command with its number of
arguments. -/
def absoluteSegment (s : Segment) : Bool :=
  (s.cmd, s.args.length) ∈ [('M', 2), ('L', 2), ('H', 1), ('V', 1), ('C', 6), ('S', 4),
    ('Q', 4), ('T', 2), ('A', 7), ('Z', 0)]

/-- A canonical component: a MoveTo `['M', x, y]` or a CubicTo
`['C', c1x, c1y, c2x, c2y, x, y]`. -/
def canonicalSegment (s : Segment) : Bool :=
  (s.cmd, s.args.length) ∈ [('M', 2), ('C', 6)]

/-! ### A computable instance of the `Math` parameters -/

/-- The number of binary digits of `n`, counted with at most `fuel` halvings. -/
def bitLength : ℕ → ℕ → ℕ
  | 0, _ => 0
  | fuel + 1, n => if n = 0 then 0 else bitLength fuel (n / 2) + 1

/-- Integer square root by bisection over the bits below `2 ^ bits`. -/
def natSqrtAux : ℕ → ℕ → ℕ → ℕ
  | 0, _, r => r
  | bits + 1, n, r =>
    if (r + 2 ^ bits) * (r + 2 ^ bits) ≤ n then natSqrtAux bits n (r + 2 ^ bits)
    else natSqrtAux bits n r

/-- Integer square root. -/
def natSqrt (n : ℕ) : ℕ := natSqrtAux (bitLength n n) n 0

/-- A square root on rationals that is exact on squares of rationals and the
quotient of integer square roots otherwise. -/
def ratSqrt (q : ℚ) : ℚ :=
  if q < 0 then 0 else (natSqrt q.num.toNat : ℚ) / (natSqrt q.den : ℚ)

/-- Computable stand-ins for the `Math` parameters, used to instantiate the
theorems: `PI` is 355/113, `sqrt` is exact on squares, `asin` clamps its argument
to `[-PI/2, PI/2]`, and sine, cosine and tangent are low-order polynomials. -/
def ratMath : MathFns where
  PI := 355 / 113
  sqrt := ratSqrt
  sin := fun x => x - x ^ 3 / 6
  cos := fun x => 1 - x ^ 2 / 2
  tan := fun x => x + x ^ 3 / 3
  asin := fun x => max (-(355 / 226)) (min (355 / 226) x)

/-! ### Reference curves -/

/-- The point at parameter `t` of the quadratic Bezier curve with end points
`p0`, `p2` and control point `a`, in one coordinate. -/
def quadraticBezier (p0 a p2 t : ℚ) : ℚ :=
  (1 - t) ^ 2 * p0 + 2 * (1 - t) * t * a + t ^ 2 * p2

/-- The point at parameter `t` of the cubic Bezier curve with end points `p0`,
`p3` and control points `p1`, `p2`, in one coordinate. -/
def cubicBezier (p0 p1 p2 p3 t : ℚ) : ℚ :=
  (1 - t) ^ 3 * p0 + 3 * (1 - t) ^ 2 * t * p1 + 3 * (1 - t) * t ^ 2 * p2 + t ^ 3 * p3

/-! ### The absolute counterpart of a relative command -/

/-- Adding the current point `(x, y)` to every coordinate pair of an argument
list. -/
def addToPairs (x y : ℚ) : List ℚ → List ℚ
  | a :: b :: rest => (a + x) :: (b + y) :: addToPairs x y rest
  | l => l

/-- The absolute counterpart of a relative component at the current point
`(x, y)`, as the specification words it: `x` is added to the argument of `h`, `y`
to that of `v`, for `a` only the end point is shifted, and for every other
command the point is added to every coordinate pair. -/
def absoluteCounterpart (x y : ℚ) (s : Segment) : Segment :=
  if s.cmd = 'h' then ⟨'H', s.args.map (· + x)⟩
  else if s.cmd = 'v' then ⟨'V', s.args.map (· + y)⟩
  else if s.cmd = 'a' then
    match s.args with
    | [rx, ry, rotation, large, sweep, ex, ey] =>
      ⟨'A', [rx, ry, rotation, large, sweep, ex + x, ey + y]⟩
    | _ => s
  else ⟨s.cmd.toUpper, addToPairs x y s.args⟩

/-- Inputs of the path functions that the conversion to curves is specified for:
`undefined`, a string all of whose number tokens are numbers, or a list of
well-formed components. -/
def wellFormedInput : PathSpec → Bool
  | .undefined => true
  | .str s => (parsePathString (.str s)).isSome
  | .segs l => l.all wellFormedSegment

/-- Whether the four variables of a cursor hold numbers. -/
def Cursor.defined (c : Cursor) : Bool :=
  c.x.isSome && c.y.isSome && c.xm.isSome && c.ym.isSome

/-! ## GridSnapping: gesture context, constraints and offsets -/

/-- The modifier keys of an original DOM event that `isCmd` reads. -/
structure OriginalEvent where
  altKey : Bool
  ctrlKey : Bool
  metaKey : Bool
  deriving DecidableEq, Repr

/-- The function `isCmd(event)`. -/
def isCmd (event : OriginalEvent) : Bool :=
  if event.altKey then false else event.ctrlKey || event.metaKey

/-- The axes `'x'` and `'y'` that the event handler iterates over. -/
inductive Axis
  | x
  | y
  deriving DecidableEq, Repr

/-- The string of an axis. -/
def Axis.name : Axis → String
  | .x => "x"
  | .y => "y"

/-- An object with the optional properties `x` and `y`. -/
structure PerAxis (α : Type) where
  x : Option α
  y : Option α
  deriving DecidableEq, Repr

/-- The read `obj[axis]`. -/
def PerAxis.get {α : Type} (p : PerAxis α) : Axis → Option α
  | .x => p.x
  | .y => p.y

/-- The write `obj[axis] = v`. -/
def PerAxis.set {α : Type} (p : PerAxis α) (axis : Axis) (v : α) : PerAxis α :=
  match axis with
  | .x => { p with x := some v }
  | .y => { p with y := some v }

/-- The bounds `{ top, right, bottom, left }`; `none` is `undefined`. -/
structure TRBL where
  top : Option ℚ
  right : Option ℚ
  bottom : Option ℚ
  left : Option ℚ
  deriving DecidableEq, Repr

/-- The object `context.resizeConstraints`. -/
structure ResizeConstraints where
  min : Option TRBL
  max : Option TRBL
  deriving DecidableEq, Repr

/-- The object `snapConstraints[axis]`; `none` is an absent or `undefined`
property. -/
structure AxisConstraints where
  min : Option ℚ
  max : Option ℚ
  deriving DecidableEq, Repr

/-- The object `context.gridSnappingContext`: the two caches and the snap
location. -/
structure GridSnappingContext where
  snapConstraints : Option (PerAxis AxisConstraints)
  snapOffset : Option (PerAxis ℚ)
  snapLocation : Option String
  deriving DecidableEq, Repr

/-- The gesture context `event.context`. -/
structure Context where
  createConstraints : Option TRBL
  resizeConstraints : Option ResizeConstraints
  direction : Option String
  gridSnappingContext : Option GridSnappingContext
  deriving DecidableEq, Repr

/-- The shape `event.shape`. -/
structure Shape where
  id : String
  x : ℚ
  y : ℚ
  width : ℚ
  height : ℚ
  deriving DecidableEq, Repr

/-- An event as the handler of `GridSnapping` receives it: the coordinates and
the `snapped` object, the original DOM event, the shape and the context. -/
structure GestureEvent where
  event : Event
  originalEvent : Option OriginalEvent
  shape : Option Shape
  context : Context
  deriving DecidableEq, Repr

/-- The assignment `context.gridSnappingContext = g` on the context of an event. -/
def GestureEvent.setGridSnappingContext (event : GestureEvent) (g : GridSnappingContext) :
    GestureEvent :=
  { event with context := { event.context with gridSnappingContext := some g } }

/-- The function `isHorizontal(axis)`. -/
def isHorizontal (axis : Axis) : Bool := decide (axis = .x)

/-- The function `isNorth(direction)`. -/
def isNorth (direction : String) : Bool := direction.data.contains 'n'

/-- The function `isWest(direction)`. -/
def isWest (direction : String) : Bool := direction.data.contains 'w'

/-- The part of `getSnapConstraints` from `var direction = context.direction` on:
the properties written to the new object `snapConstraints[axis]`.  `none` is the
`TypeError` of `direction.indexOf` for a missing direction. -/
def computeSnapConstraints (context : Context) (axis : Axis) : Option AxisConstraints := do
  let createConstraints := context.createConstraints
  let resizeConstraints := context.resizeConstraints.getD ⟨none, none⟩
  let c : AxisConstraints := ⟨none, none⟩
  -- create
  let c :=
    match createConstraints with
    | some cc =>
      if isHorizontal axis then { c with min := cc.left, max := cc.right }
      else { c with min := cc.top, max := cc.bottom }
    | none => c
  -- resize
  let c ←
    match resizeConstraints.min with
    | some minResizeConstraints => do
      let direction ← context.direction
      if isHorizontal axis then
        if isWest direction then some { c with max := minResizeConstraints.left }
        else some { c with min := minResizeConstraints.right }
      else
        if isNorth direction then some { c with max := minResizeConstraints.top }
        else some { c with min := minResizeConstraints.bottom }
    | none => some c
  match resizeConstraints.max with
  | some maxResizeConstraints => do
    let direction ← context.direction
    if isHorizontal axis then
      if isWest direction then some { c with min := maxResizeConstraints.left }
      else some { c with max := maxResizeConstraints.right }
    else
      if isNorth direction then some { c with min := maxResizeConstraints.top }
      else some { c with max := maxResizeConstraints.bottom }
  | none => some c

/-- The function `getSnapConstraints(event, axis)` as a state transformer: the
returned constraints and the event with the updated cache.  `none` is a
`TypeError`: no `gridSnappingContext`, or no `direction` where one is read. -/
def getSnapConstraints (event : GestureEvent) (axis : Axis) :
    Option (AxisConstraints × GestureEvent) := do
  let gridSnappingContext ← event.context.gridSnappingContext
  match gridSnappingContext.snapConstraints.bind (·.get axis) with
  | some cached => some (cached, event)
  | none =>
    let snapConstraints := gridSnappingContext.snapConstraints.getD ⟨none, none⟩
    let c ← computeSnapConstraints event.context axis
    some (c, event.setGridSnappingContext
      { gridSnappingContext with snapConstraints := some (snapConstraints.set axis c) })

/-- The test `/pattern/.test(s)` for a pattern of plain characters. -/
def regexTest (pattern s : String) : Bool :=
  s.data.tails.any fun t => pattern.data.isPrefixOf t

/-- The part of `getSnapOffset` after the cache test: the value that
`snapOffset[axis]` holds on return, starting from 0. -/
def computeSnapOffset (shape : Option Shape) (snapLocation : Option String) (axis : Axis)
    (elementRegistry : List String) : ℚ :=
  let offset : ℚ := 0
  match shape with
  | none => offset
  | some shape =>
    let offset :=
      if !elementRegistry.contains shape.id then
        if isHorizontal axis then offset + (shape.x + shape.width / 2)
        else offset + (shape.y + shape.height / 2)
      else offset
    match snapLocation with
    | none => offset
    | some snapLocation =>
      if snapLocation.isEmpty then offset
      else if axis = .x then
        if regexTest "left" snapLocation then offset - shape.width / 2
        else if regexTest "right" snapLocation then offset + shape.width / 2
        else offset
      else
        if regexTest "top" snapLocation then offset - shape.height / 2
        else if regexTest "bottom" snapLocation then offset + shape.height / 2
        else offset

/-- The function `getSnapOffset(event, axis, elementRegistry)` as a state
transformer; `elementRegistry` lists the ids for which `elementRegistry.get`
returns an element.  `none` is a `TypeError` (no `gridSnappingContext`). -/
def getSnapOffset (event : GestureEvent) (axis : Axis) (elementRegistry : List String) :
    Option (ℚ × GestureEvent) := do
  let gridSnappingContext ← event.context.gridSnappingContext
  match gridSnappingContext.snapOffset.bind (·.get axis) with
  | some cached => some (cached, event)
  | none =>
    let snapOffset := gridSnappingContext.snapOffset.getD ⟨none, none⟩
    let offset :=
      computeSnapOffset event.shape gridSnappingContext.snapLocation axis elementRegistry
    some (offset, event.setGridSnappingContext
      { gridSnappingContext with snapOffset := some (snapOffset.set axis offset) })

/-- The cached constraints of an axis. -/
def cachedConstraints (event : GestureEvent) (axis : Axis) : Option AxisConstraints :=
  (event.context.gridSnappingContext.bind (·.snapConstraints)).bind (·.get axis)

/-- The cached offset of an axis. -/
def cachedOffset (event : GestureEvent) (axis : Axis) : Option ℚ :=
  (event.context.gridSnappingContext.bind (·.snapOffset)).bind (·.get axis)

/-! ## GridSnapping: the service and its event handler -/

/-- The configuration `config.gridSnapping`: its property `active`. -/
structure Config where
  active : JsVal
  deriving DecidableEq, Repr

/-- An instance of `GridSnapping`: the constructor variable `active`, the
property `this.active` (`none` until `setActive` runs) and the payloads fired as
`gridSnapping.toggle`. -/
structure GridSnapping where
  initial : Bool
  active : Option Bool
  fired : List Bool
  deriving DecidableEq, Repr

/-- The constructor `GridSnapping(elementRegistry, eventBus, config)`; `none` is a
missing configuration. -/
def GridSnapping.create (config : Option Config) : GridSnapping :=
  let active :=
    match config with
    | none => true
    | some config => decide (config.active ≠ .bool false)
  ⟨active, none, []⟩

/-- The method `setActive(active)`. -/
def GridSnapping.setActive (self : GridSnapping) (active : Bool) : GridSnapping :=
  { self with active := some active, fired := self.fired ++ [active] }

/-- The listener of `diagram.init`. -/
def GridSnapping.diagramInit (self : GridSnapping) : GridSnapping :=
  self.setActive self.initial

/-- The method `isActive()`; `none` is `undefined`. -/
def GridSnapping.isActive (self : GridSnapping) : Option Bool := self.active

/-- The method `toggleActive()`. -/
def GridSnapping.toggleActive (self : GridSnapping) : GridSnapping :=
  self.setActive (!(self.active.getD false))

/-- The body of the `forEach` over the axes in the event handler. -/
def snapAxis (elementRegistry : List String) (event : GestureEvent) (axis : Axis) :
    Option GestureEvent := do
  let (snapOffset, event) ← getSnapOffset event axis elementRegistry
  let offset := if snapOffset ≠ 0 then some snapOffset else none
  let (snapConstraints, event) ← getSnapConstraints event axis
  let options : SnapOptions := ⟨offset, snapConstraints.min, snapConstraints.max⟩
  if isSnapped event.event (.str axis.name) = .bool true then some event
  else some { event with event := (snapEvent event.event axis.name (some options)).1 }

/-- The handler that `GridSnapping` registers for the move and end events.
`none` is a `TypeError` raised by one of the helpers. -/
def GridSnapping.handle (self : GridSnapping) (elementRegistry : List String)
    (event : GestureEvent) : Option GestureEvent :=
  let cmd :=
    match event.originalEvent with
    | some originalEvent => isCmd originalEvent
    | none => false
  if !(self.active.getD false) || cmd then some event
  else
    let event :=
      match event.context.gridSnappingContext with
      | some _ => event
      | none => event.setGridSnappingContext ⟨none, none, none⟩
    [Axis.x, Axis.y].foldlM (snapAxis elementRegistry) event

/-! ### The size of a result -/

/-- The number of intersections that a result of `findBezierIntersections`
stands for. -/
def BezResult.size : BezResult → ℕ
  | .count n => n
  | .list l => l.length

/-- The number of intersections that a result of `findPathIntersections` stands
for. -/
def PathResult.size : PathResult → ℕ
  | .count n => n
  | .list l => l.length

/-! ## LayoutUtil: points, waypoints and the choice of an intersection -/

/-- A point `{ x, y }`. -/
structure Point where
  x : ℚ
  y : ℚ
  deriving DecidableEq, Repr

/-- The function `pointDistance(a, b)`; `none` is a missing point. -/
def pointDistance (m : MathFns) (a b : Option Point) : ℚ :=
  match a, b with
  | some a, some b => m.sqrt ((a.x - b.x) ^ 2 + (a.y - b.y) ^ 2)
  | _, _ => -1

/-- The function `pointsOnLine(p, q, r, accuracy)`.  For `dist = 0` the quotient
is `NaN` or infinite in JavaScript and the comparison fails. -/
def pointsOnLine (m : MathFns) (p q r : Option Point) (accuracy : Option ℚ) : Bool :=
  let accuracy := accuracy.getD 5
  match p, q, r with
  | some p, some q, some r =>
    let val := (q.x - p.x) * (r.y - p.y) - (q.y - p.y) * (r.x - p.x)
    let dist := pointDistance m (some p) (some q)
    if dist = 0 then false else decide (|val / dist| ≤ accuracy)
  | _, _, _ => false

/-- The loop of `filterRedundantWaypoints`.  The array `waypoints` is
`kept.reverse ++ rest` and `idx` is the length of `kept`: the point at `idx` is
the head of `rest`, `splice(idx, 1)` drops it and `idx++` moves it to `kept`. -/
def filterLoop (m : MathFns) : List Point → List Point → List Point
  | kept, [] => kept.reverse
  | kept, point :: rest =>
    let previousPoint := kept.head?
    let nextPoint := rest.head?
    if pointDistance m (some point) nextPoint = 0 ∨
        pointsOnLine m previousPoint nextPoint (some point) none = true then
      filterLoop m kept rest
    else filterLoop m (point :: kept) rest

/-- The function `filterRedundantWaypoints(waypoints)`. -/
def filterRedundantWaypoints (m : MathFns) (waypoints : List Point) : List Point :=
  filterLoop m [] waypoints

/-- The function `roundPoint(point)`. -/
def roundPoint (point : Point) : Point := ⟨jsRound point.x, jsRound point.y⟩

/-- The sort string `i.segment2 + '#' + distance` that
`getElementLineIntersection` builds for an intersection. -/
def sortKey (i : Intersection) : String :=
  let distance : ℤ := if ⌊i.t2 * 100⌋ = 0 then 1 else ⌊i.t2 * 100⌋
  let distance := 100 - distance
  let distance := (if distance < 10 then "0" else "") ++ toString distance
  toString i.segment2 ++ "#" ++ distance

/-- The comparison `a < b` of two strings in JavaScript: lexicographic by
character code, a proper prefix being smaller. -/
def stringLt : List Char → List Char → Bool
  | [], [] => false
  | [], _ :: _ => true
  | _ :: _, [] => false
  | a :: as, b :: bs =>
    if a.toNat < b.toNat then true
    else if b.toNat < a.toNat then false
    else stringLt as bs

/-- The insertion step of `sortBy`: before the first entry with a larger key,
else at the end. -/
def insertSorted {α : Type} (extractor : α → String) (value : α) : List α → List α
  | [] => [value]
  | e :: rest =>
    if stringLt (extractor value).data (extractor e).data then value :: e :: rest
    else e :: insertSorted extractor value rest

/-- Modelled from the spec: `sortBy` is imported from a bundle that is not among
the sources.  It sorts a collection into ascending order of the extracted key,
here a string compared by `<`, and keeps the order of entries with equal keys. -/
def sortBy {α : Type} (collection : List α) (extractor : α → String) : List α :=
  collection.foldl (fun sorted value => insertSorted extractor value sorted) []

/-- The point `{ x, y }` of an intersection. -/
def Intersection.point (i : Intersection) : Point := ⟨i.x, i.y⟩

/-- The part of `getElementLineIntersection` after `getIntersections`: the choice
among the intersections; `none` is `null`. -/
def chooseIntersection (m : MathFns) (intersections : List Intersection) (cropStart : Bool) :
    Option Point :=
  if intersections.length = 1 then
    intersections[0]?.map fun i => roundPoint i.point
  else if intersections.length = 2 ∧
      pointDistance m (intersections[0]?.map (·.point)) (intersections[1]?.map (·.point)) < 1 then
    intersections[0]?.map fun i => roundPoint i.point
  else if intersections.length > 1 then
    let sorted := sortBy intersections sortKey
    (sorted[if cropStart then 0 else sorted.length - 1]?).map fun i => roundPoint i.point
  else none

/-- The function `getElementLineIntersection(elementPath, linePath, cropStart)`.
The outer `none` marks paths that leave the model, the inner `none` is `null`. -/
def getElementLineIntersection (m : MathFns) (fuel : ℕ) (elementPath linePath : PathSpec)
    (cropStart : Bool) : Option (Option Point) :=
  match findPathIntersections m fuel elementPath linePath false with
  | some (.list intersections) => some (chooseIntersection m intersections cropStart)
  | _ => none

/-! ### The angle ranges of an arc -/

/-- The values that a call of `arcToCurve` without `recursive` holds when it
reaches `var df = f2 - f1`. -/
structure ArcParams where
  x1 : ℚ
  y1 : ℚ
  rx : ℚ
  ry : ℚ
  x2 : ℚ
  y2 : ℚ
  f1 : ℚ
  f2 : ℚ
  cx : ℚ
  cy : ℚ
  deriving DecidableEq, Repr

/-- The branch `if (!recursive)` of `arcToCurve`, as in the definition
`arcToCurve` above. -/
def arcParams (m : MathFns) (x1 y1 rx ry angle large_arc_flag sweep_flag x2 y2 : ℚ) :
    ArcParams :=
  let rad := m.PI / 180 * angle
  let xy := rotate m x1 y1 (-rad)
  let x1 := xy.1
  let y1 := xy.2
  let xy := rotate m x2 y2 (-rad)
  let x2 := xy.1
  let y2 := xy.2
  let x := (x1 - x2) / 2
  let y := (y1 - y2) / 2
  let h := (x * x) / (rx * rx) + (y * y) / (ry * ry)
  let r := if h > 1 then (m.sqrt h * rx, m.sqrt h * ry) else (rx, ry)
  let rx := r.1
  let ry := r.2
  let rx2 := rx * rx
  let ry2 := ry * ry
  let k := (if large_arc_flag = sweep_flag then -1 else 1) *
    m.sqrt |(rx2 * ry2 - rx2 * y * y - ry2 * x * x) / (rx2 * y * y + ry2 * x * x)|
  let cx := k * rx * y / ry + (x1 + x2) / 2
  let cy := k * -ry * x / rx + (y1 + y2) / 2
  let f1 := m.asin (toFixedNum ((y1 - cy) / ry) 9)
  let f2 := m.asin (toFixedNum ((y2 - cy) / ry) 9)
  let f := arcAngles m f1 f2 x1 x2 cx sweep_flag
  ⟨x1, y1, rx, ry, x2, y2, f.1, f.2, cx, cy⟩

/-- The point `(cx + rx * math.cos(f), cy + ry * math.sin(f))` of the ellipse at
the angle `f`, where `arcToCurve` cuts an arc. -/
def ellipsePoint (m : MathFns) (rx ry cx cy f : ℚ) : ℚ × ℚ :=
  (cx + rx * m.cos f, cy + ry * m.sin f)

/-- The points `[m2, m3, m4]` that one call of `arcToCurve` emits for the angle
range from `f1` to `f2`, from `var df = f2 - f1` on; `p1` is the point
`(x1, y1)` at `f1` and `p2` the point `(x2, y2)` at `f2`. -/
def arcCubic (m : MathFns) (rx ry : ℚ) (p1 : ℚ × ℚ) (f1 f2 : ℚ) (p2 : ℚ × ℚ) :
    List (ℚ × ℚ) :=
  let df := f2 - f1
  let c1 := m.cos f1
  let s1 := m.sin f1
  let c2 := m.cos f2
  let s2 := m.sin f2
  let t := m.tan (df / 4)
  let hx := 4 / 3 * rx * t
  let hy := 4 / 3 * ry * t
  let m1 := p1
  let m2 := (p1.1 + hx * s1, p1.2 - hy * c1)
  let m3 := (p2.1 + hx * s2, p2.2 - hy * c2)
  let m4 := p2
  let m2 := (2 * m1.1 - m2.1, 2 * m1.2 - m2.2)
  [m2, m3, m4]

/-- The cubics of consecutive angle ranges `spans` of an arc that starts at the
point `p1` and ends at the point `p2`: every range but the last ends at the point
of the ellipse at its end angle, where the next one starts. -/
def spanCubics (m : MathFns) (rx ry cx cy : ℚ) (p2 : ℚ × ℚ) :
    ℚ × ℚ → List (ℚ × ℚ) → List (ℚ × ℚ)
  | _, [] => []
  | p1, [s] => arcCubic m rx ry p1 s.1 s.2 p2
  | p1, s :: s2 :: rest =>
    arcCubic m rx ry p1 s.1 s.2 (ellipsePoint m rx ry cx cy s.2) ++
      spanCubics m rx ry cx cy p2 (ellipsePoint m rx ry cx cy s.2) (s2 :: rest)

/-! ### Exchanging the two paths -/

/-- The hit of `findBezierIntersections` with the roles of the two curves
exchanged. -/
def BezHit.swap (h : BezHit) : BezHit := ⟨h.x, h.y, h.t2, h.t1⟩

/-- The intersection with the roles of the two paths exchanged: `t1` and `t2`,
`segment1` and `segment2`, `bez1` and `bez2`. -/
def Intersection.swap (h : Intersection) : Intersection :=
  ⟨h.x, h.y, h.t2, h.t1, h.segment2, h.segment1, h.bez2, h.bez1⟩

/-- The hits of one call of `findBezierIntersections` as `findPathIntersections`
appends them, with the segment indices and curves attached. -/
def tagHits (i j : ℕ) (bez1 bez2 : Bez) : BezResult → List Intersection
  | .count _ => []
  | .list hits => hits.map fun h => ⟨h.x, h.y, h.t1, h.t2, i, j, bez1, bez2⟩

/-- The curves that a loop of `findPathIntersections` builds for the components
`path` from index `i` on, each with the index of its component; `c` holds the
variables `x`, `y`, `xm`, `ym` on entry. -/
def curvesOf : Cursor → ℕ → List Segment → Option (List (ℕ × Bez))
  | _, _, [] => some []
  | c, i, p :: rest =>
    if p.cmd = 'M' then
      curvesOf ⟨p.args[0]?, p.args[1]?, p.args[0]?, p.args[1]?⟩ (i + 1) rest
    else do
      let (bez, c) ← segmentBez c p
      let more ← curvesOf c (i + 1) rest
      some ((i, bez) :: more)

/-- The key `is.x.toFixed(9) + '#' + is.y.toFixed(9)` of the point that
`intersectLines` finds for the polyline segments `di`–`di1` and `dj`–`dj1`;
`none` when it finds no point. -/
def pairKey (di di1 dj dj1 : Dot) : Option ((Bool × ℤ) × (Bool × ℤ)) :=
  (intersectLines di.x di.y di1.x di1.y dj.x dj.y dj1.x dj1.y).map fun is =>
    (toFixedKey is.1 9, toFixedKey is.2 9)

/-- The hits that the body of the inner loop of `findBezierIntersections`
records for one pair of polyline segments while no key is marked. -/
def pairHits (di di1 dj dj1 : Dot) : List BezHit :=
  match (pairStep false di di1 dj dj1 ([], .list [])).2 with
  | .list l => l
  | .count _ => []

/-- The pairs of consecutive vertices that the double loop of
`findBezierIntersections` visits in a polyline of `n` segments. -/
def polylinePairs (dots : List Dot) (n : ℤ) : List (Dot × Dot) :=
  (List.zip dots dots.tail).take n.toNat

/-- The keys of the points found for all pairs of segments of two polylines, in
the order of the double loop. -/
def polylineKeys (pairs1 pairs2 : List (Dot × Dot)) : List ((Bool × ℤ) × (Bool × ℤ)) :=
  pairs1.flatMap fun p1 => pairs2.flatMap fun p2 => (pairKey p1.1 p1.2 p2.1 p2.2).toList

/-- The hits of all pairs of segments of two polylines, each pair taken on its
own, in the order of the double loop. -/
def polylineHits (pairs1 pairs2 : List (Dot × Dot)) : List BezHit :=
  pairs1.flatMap fun p1 => pairs2.flatMap fun p2 => pairHits p1.1 p1.2 p2.1 p2.2

/-- The keys of the points found for all pairs of polyline segments of
`findBezierIntersections(bez1, bez2)`, in the order of its double loop. -/
def candidateKeys (m : MathFns) (bez1 bez2 : Bez) : List ((Bool × ℤ) × (Bool × ℤ)) :=
  let l1 := bezlen m bez1.b0 bez1.b1 bez1.b2 bez1.b3 bez1.b4 bez1.b5 bez1.b6 bez1.b7 none
  let l2 := bezlen m bez2.b0 bez2.b1 bez2.b2 bez2.b3 bez2.b4 bez2.b5 bez2.b6 bez2.b7 none
  let n1 := segmentCount bez1 l1
  let n2 := segmentCount bez2 l2
  polylineKeys (polylinePairs (dotsOf bez1 n1) n1) (polylinePairs (dotsOf bez2 n2) n2)

/-- The hits of all pairs of polyline segments of
`findBezierIntersections(bez1, bez2)`, each pair taken on its own. -/
def candidateHits (m : MathFns) (bez1 bez2 : Bez) : List BezHit :=
  let l1 := bezlen m bez1.b0 bez1.b1 bez1.b2 bez1.b3 bez1.b4 bez1.b5 bez1.b6 bez1.b7 none
  let l2 := bezlen m bez2.b0 bez2.b1 bez2.b2 bez2.b3 bez2.b4 bez2.b5 bez2.b6 bez2.b7 none
  let n1 := segmentCount bez1 l1
  let n2 := segmentCount bez2 l2
  polylineHits (polylinePairs (dotsOf bez1 n1) n1) (polylinePairs (dotsOf bez2 n2) n2)

/-- No two pairs of polyline segments of the two curves yield points with the
same key, so that no pair is skipped for a key marked by another pair; curves
with disjoint bounding boxes have no pairs to compare. -/
def distinctCandidates (m : MathFns) (bez1 bez2 : Bez) : Bool :=
  !isBBoxIntersect (bezierBBox m bez1) (bezierBBox m bez2) ||
    decide (candidateKeys m bez1 bez2).Nodup

/-! ### `curveBBox` over an ordered field with a square root

The claims on the bounding box speak of curves with real coordinates.  The
definitions of this section are `axisRoots` and `curveBBox` once more, word for
word, with the numbers taken from an ordered field `K` and `Math.sqrt` a
function on `K`; `curveBBox m` above is the instance at `ℚ` with `m.sqrt`. -/

/-- The point at parameter `t` of a cubic Bezier curve, in one coordinate, over
the field `K`; `cubicBezier` is the instance at `ℚ`. -/
def cubicBezierOver {K : Type} [LinearOrderedField K] (p0 p1 p2 p3 t : K) : K :=
  (1 - t) ^ 3 * p0 + 3 * (1 - t) ^ 2 * t * p1 + 3 * (1 - t) * t ^ 2 * p2 + t ^ 3 * p3

/-- The body of the loop `for (var i = 0; i < 2; ++i)` of `curveBBox` for one
axis, over the field `K`: the parameters pushed to `tvalues`. -/
def axisRootsOver {K : Type} [LinearOrderedField K] (sqrt : K → K) (p0 p1 p2 p3 : K) :
    List K :=
  let b := 6 * p0 - 12 * p1 + 6 * p2
  let a := -3 * p0 + 9 * p1 - 9 * p2 + 3 * p3
  let c := 3 * p1 - 3 * p0
  if |a| < 1 / 10 ^ 12 then
    if |b| < 1 / 10 ^ 12 then []
    else
      let t := -c / b
      if 0 < t ∧ t < 1 then [t] else []
  else
    let b2ac := b * b - 4 * c * a
    let sqrtb2ac := sqrt b2ac
    if b2ac < 0 then []
    else
      let t1 := (-b + sqrtb2ac) / (2 * a)
      let t2 := (-b - sqrtb2ac) / (2 * a)
      (if 0 < t1 ∧ t1 < 1 then [t1] else []) ++ (if 0 < t2 ∧ t2 < 1 then [t2] else [])

/-- The result of `curveBBox` over the field `K`. -/
structure CurveBoxOver (K : Type) where
  x0 : K
  y0 : K
  x1 : K
  y1 : K

/-- The function `curveBBox(x0, y0, x1, y1, x2, y2, x3, y3)` over the field
`K`. -/
def curveBBoxOver {K : Type} [LinearOrderedField K] (sqrt : K → K)
    (x0 y0 x1 y1 x2 y2 x3 y3 : K) : CurveBoxOver K :=
  let tvalues := axisRootsOver sqrt x0 x1 x2 x3 ++ axisRootsOver sqrt y0 y1 y2 y3
  let at_ := fun (p0 p1 p2 p3 t : K) =>
    let mt := 1 - t
    (mt * mt * mt * p0) + (3 * mt * mt * t * p1) + (3 * mt * t * t * p2) + (t * t * t * p3)
  let bounds0 := tvalues.map (at_ x0 x1 x2 x3) ++ [x0, x3]
  let bounds1 := tvalues.map (at_ y0 y1 y2 y3) ++ [y0, y3]
  ⟨bounds0.foldl min x0, bounds1.foldl min y0, bounds0.foldl max x0, bounds1.foldl max y0⟩

/-- The derivative `a t^2 + b t + c` of one coordinate of a cubic, with the
coefficients `a`, `b`, `c` that `curveBBox` computes. -/
def bezierDeriv {K : Type} [LinearOrderedField K] (p0 p1 p2 p3 s : K) : K :=
  (-3 * p0 + 9 * p1 - 9 * p2 + 3 * p3) * s ^ 2 + (6 * p0 - 12 * p1 + 6 * p2) * s +
    (3 * p1 - 3 * p0)

/-- The coefficients of the derivative on one axis are outside the tolerance
band of `curveBBox`: the leading coefficient `a` is 0 or at least `1e-12` in
absolute value, and for `a = 0` so is the linear coefficient `b`. -/
def outsideTolerance {K : Type} [LinearOrderedField K] (p0 p1 p2 p3 : K) : Prop :=
  let b := 6 * p0 - 12 * p1 + 6 * p2
  let a := -3 * p0 + 9 * p1 - 9 * p2 + 3 * p3
  (a = 0 ∨ 1 / 10 ^ 12 ≤ |a|) ∧ (a = 0 → b = 0 ∨ 1 / 10 ^ 12 ≤ |b|)

/-- The part of the loop body of `curveBBox` after the assignment of the
coefficients `a`, `b`, `c`: the parameters pushed to `tvalues`, as in
`axisRootsOver`. -/
def quadRoots {K : Type} [LinearOrderedField K] (sqrt : K → K) (a b c : K) : List K :=
  if |a| < 1 / 10 ^ 12 then
    if |b| < 1 / 10 ^ 12 then []
    else
      let t := -c / b
      if 0 < t ∧ t < 1 then [t] else []
  else
    let b2ac := b * b - 4 * c * a
    let sqrtb2ac := sqrt b2ac
    if b2ac < 0 then []
    else
      let t1 := (-b + sqrtb2ac) / (2 * a)
      let t2 := (-b - sqrtb2ac) / (2 * a)
      (if 0 < t1 ∧ t1 < 1 then [t1] else []) ++ (if 0 < t2 ∧ t2 < 1 then [t2] else [])

/-- A function that does not change sign on the interval `[u, v]`. -/
def constSign {K : Type} [LinearOrderedField K] (f : K → K) (u v : K) : Prop :=
  (∀ s, u ≤ s → s ≤ v → 0 ≤ f s) ∨ (∀ s, u ≤ s → s ≤ v → f s ≤ 0)

/-! ## Binary64 arithmetic

JavaScript numbers are IEEE 754 binary64 values.  The claims on `quantize` and
`snapEvent` speak of all floats, so these functions are embedded a second time
with every arithmetic result rounded as the machine rounds it: to the nearest
number with 53 significant binary digits, ties to the even one, on the grid
`2^-1074` below `2^-1022`.  A finite binary64 value is a rational; `none` stands
for a result outside the finite numbers (overflow to `Infinity`, a division by
zero, `NaN`). -/

/-- The number of binary digits of `n`: the least `k` with `n < 2 ^ k`. -/
def binaryDigits (n : ℕ) : ℕ := bitLength n n

/-- The power `2 ^ e` of two with an integer exponent. -/
def twoPow (e : ℤ) : ℚ :=
  if 0 ≤ e then ((2 ^ e.toNat : ℕ) : ℚ) else 1 / ((2 ^ (-e).toNat : ℕ) : ℚ)

/-- The binary exponent of a non-zero number: the `e` with
`2 ^ e ≤ |x| < 2 ^ (e + 1)`. -/
def binade (x : ℚ) : ℤ :=
  let e0 : ℤ := (binaryDigits x.num.natAbs : ℤ) - (binaryDigits x.den : ℤ)
  if twoPow e0 ≤ |x| then e0 else e0 - 1

/-- The exponent of the spacing of the binary64 numbers around `x`: 52 binary
digits below the exponent of `x`, and `-1074` for all `|x| < 2 ^ -1022`. -/
def ulpExp (x : ℚ) : ℤ := max (binade x) (-1022) - 52

/-- The integer nearest to `x`, the even one of the two when `x` lies half-way. -/
def roundHalfEven (x : ℚ) : ℤ :=
  let f := ⌊x⌋
  if x - f < 1 / 2 then f
  else if 1 / 2 < x - f then f + 1
  else if f % 2 = 0 then f else f + 1

/-- The binary64 value of the exact result `x` of an arithmetic operation:
`x` rounded to the nearest multiple of the spacing around it, ties to even;
`none` when the rounded value is `2 ^ 1024` or more in absolute value. -/
def fl64 (x : ℚ) : Option ℚ :=
  if x = 0 then some 0
  else
    let y := (roundHalfEven (x / twoPow (ulpExp x)) : ℚ) * twoPow (ulpExp x)
    if |y| < twoPow 1024 then some y else none

/-- The rational `x` is a finite binary64 value. -/
def isDouble (x : ℚ) : Bool := decide (fl64 x = some x)

/-- The binary64 value that a decimal literal denotes: the nearest one. -/
def literal64 (x : ℚ) : ℚ := (fl64 x).getD 0

/-- The operators `a + b`, `a - b`, `a * b` and `a / b` on binary64 values. -/
def add64 (a b : ℚ) : Option ℚ := fl64 (a + b)

/-- The operator `a - b` on binary64 values. -/
def sub64 (a b : ℚ) : Option ℚ := fl64 (a - b)

/-- The operator `a * b` on binary64 values. -/
def mul64 (a b : ℚ) : Option ℚ := fl64 (a * b)

/-- The operator `a / b` on binary64 values; a division by zero leaves the
finite numbers. -/
def div64 (a b : ℚ) : Option ℚ := if b = 0 then none else fl64 (a / b)

/-- The function `quantize(value, quantum, fn)` in binary64 arithmetic:
`Math[fn](value / quantum) * quantum` with the quotient and the product
rounded.  `Math.round`, `Math.ceil` and `Math.floor` are exact. -/
def quantize64 (value quantum : ℚ) (fn : Option RoundFn) : Option ℚ := do
  let fn := match fn with
    | none => RoundFn.round
    | some f => f
  let q ← div64 value quantum
  mul64 (fn.apply q : ℚ) quantum

/-- The rounding function that `quantize` uses for its third argument: `'round'`
when the argument is omitted. -/
def modeOf : Option RoundFn → RoundFn
  | none => RoundFn.round
  | some f => f

/-- The multiplication `Math[fn](value / quantum) * quantum` of `quantize` is
exact: the quotient is finite and the product of its rounded value with
`quantum` is a binary64 value. -/
def productExact64 (value quantum : ℚ) (fn : Option RoundFn) : Bool :=
  match div64 value quantum with
  | some q => isDouble (((modeOf fn).apply q : ℚ) * quantum)
  | none => false

/-- The multiple of `quantum` half-way below the result of
`quantize(value, quantum)` is a binary64 value: `(k - 1/2) * quantum` for
`k = Math.round(value / quantum)`. -/
def midpointExact64 (value quantum : ℚ) : Bool :=
  match div64 value quantum with
  | some q => isDouble (((RoundFn.round.apply q : ℚ) - 1 / 2) * quantum)
  | none => false

/-- The quotient `value / quantum` does not round to zero unless `value` is
zero. -/
def quotientNonzero64 (value quantum : ℚ) : Bool :=
  decide (div64 value quantum = some 0 → value = 0)

/-- The product `k * quantum` of `quantize`, `k = Math[fn](value / quantum)`, is
finite, `|k| ≤ 2^50`, and the product is not rounded upwards in mode `'ceil'`
and not rounded downwards in mode `'floor'`. -/
def productSafe64 (value quantum : ℚ) (fn : Option RoundFn) : Bool :=
  match div64 value quantum with
  | none => false
  | some q =>
    match mul64 ((modeOf fn).apply q : ℚ) quantum with
    | none => false
    | some r =>
      decide (|(modeOf fn).apply q| ≤ 2 ^ 50) &&
        (match modeOf fn with
          | .round => true
          | .ceil => decide (r ≤ ((modeOf fn).apply q : ℚ) * quantum)
          | .floor => decide (((modeOf fn).apply q : ℚ) * quantum ≤ r))

/-- The block `if (options && options.min) { ... }` of `snapValue` in binary64
arithmetic: `value = Math.max(value, quantize(min + offset, SPACING, 'ceil'))`. -/
def snapMin64 (value offset : ℚ) (options : Option SnapOptions) : Option ℚ :=
  match options with
  | some o =>
    if truthy o.min then do
      let m ← add64 (o.min.getD 0) offset
      let m ← quantize64 m SPACING (some .ceil)
      some (max value m)
    else some value
  | none => some value

/-- The block `if (options && options.max) { ... }` of `snapValue` in binary64
arithmetic: `value = Math.min(value, quantize(max + offset, SPACING, 'floor'))`. -/
def snapMax64 (value offset : ℚ) (options : Option SnapOptions) : Option ℚ :=
  match options with
  | some o =>
    if truthy o.max then do
      let m ← add64 (o.max.getD 0) offset
      let m ← quantize64 m SPACING (some .floor)
      some (min value m)
    else some value
  | none => some value

/-- The method `GridSnapping.prototype.snapValue(value, options)` in binary64
arithmetic: the two additions of the offset, `quantize` and the final
subtraction round their results; `Math.max` and `Math.min` are exact. -/
def snapValue64 (value : ℚ) (options : Option SnapOptions) : Option ℚ := do
  let offset : ℚ :=
    match options with
    | some o => if truthy o.offset then o.offset.getD 0 else 0
    | none => 0
  let value ← add64 value offset
  let value ← quantize64 value SPACING none
  let value ← snapMin64 value offset options
  let value ← snapMax64 value offset options
  sub64 value offset

/-- Addition of JavaScript numbers in binary64 arithmetic. -/
def JsNum.add64 : JsNum → JsNum → Option JsNum
  | .val a, .val b => (BpmnJs.add64 a b).map JsNum.val
  | _, _ => some .nan

/-- Subtraction of JavaScript numbers in binary64 arithmetic. -/
def JsNum.sub64 : JsNum → JsNum → Option JsNum
  | .val a, .val b => (BpmnJs.sub64 a b).map JsNum.val
  | _, _ => some .nan

/-- The function `setSnapped(event, axis, value)` in binary64 arithmetic: the
difference `value - previousValue` and the two sums `+= delta` round their
results. -/
def setSnapped64 (event : Event) (axis value : JsVal) :
    Option (Event × Except String (Option JsNum)) :=
  match axis with
  | .str a =>
    match value with
    | .bool false =>
      let previousValue := getProp event.fields a
      let snapped := event.snapped.getD []
      some ({ event with snapped := some (setProp snapped a false) }, .ok previousValue)
    | .num v => do
      let previousValue := getProp event.fields a
      let snapped := event.snapped.getD []
      let snapped := setProp snapped a true
      let delta ← v.sub64 (toNum previousValue)
      let x ← (toNum (getProp event.fields a)).add64 delta
      let fields := setProp event.fields a x
      let d ← (toNum (getProp fields ("d" ++ a))).add64 delta
      let fields := setProp fields ("d" ++ a) d
      some ({ fields := fields, snapped := some snapped }, .ok previousValue)
    | _ => some (event, .error "value must be Number or false")
  | _ => some (event, .error "axis must be in [x, y]")

/-- The method `snapValue` in binary64 arithmetic applied to a property read
`event[axis]`: an absent or `NaN` coordinate stays `NaN` through every step. -/
def snapValueJs64 (value : Option JsNum) (options : Option SnapOptions) : Option JsNum :=
  match toNum value with
  | .val q => (snapValue64 q options).map JsNum.val
  | .nan => some .nan

/-- The method `GridSnapping.prototype.snapEvent(event, axis, options)` in
binary64 arithmetic. -/
def snapEvent64 (event : Event) (axis : String) (options : Option SnapOptions) :
    Option (Event × Except String Unit) := do
  let snappedValue ← snapValueJs64 (getProp event.fields axis) options
  let r ← setSnapped64 event (.str axis) (.num snappedValue)
  some (r.1, r.2.map fun _ => ())

/-! ## Theorems: quantize -/

theorem RoundFn.apply_intCast (fn : RoundFn) (k : ℤ) : fn.apply (k : ℚ) = k := by
  cases fn
  · show ⌊(k : ℚ) + 1 / 2⌋ = k
    rw [Int.floor_eq_iff]
    constructor <;> norm_num
  · exact Int.ceil_intCast k
  · exact Int.floor_intCast k

theorem quantize_eq_apply (v s : ℚ) (fn : RoundFn) :
    quantize v s (some fn) = (fn.apply (v / s) : ℚ) * s := rfl

theorem quantize_none (v s : ℚ) : quantize v s none = quantize v s (some .round) := rfl

theorem quantize_intCast_mul (k : ℤ) (s : ℚ) (hs : s ≠ 0) (fn : Option RoundFn) :
    quantize ((k : ℚ) * s) s fn = (k : ℚ) * s := by
  cases fn with
  | none => rw [quantize_none, quantize_eq_apply, mul_div_assoc, div_self hs, mul_one,
      RoundFn.apply_intCast]
  | some f => rw [quantize_eq_apply, mul_div_assoc, div_self hs, mul_one,
      RoundFn.apply_intCast]

theorem quantize_onGrid (v s : ℚ) (fn : Option RoundFn) :
    ∃ k : ℤ, quantize v s fn = (k : ℚ) * s := by
  cases fn with
  | none => exact ⟨_, rfl⟩
  | some f => exact ⟨_, rfl⟩

/-- In exact arithmetic `quantize` is idempotent: for every value, every positive
spacing and every rounding mode (the default `round` included), quantizing an
already quantized value returns it unchanged.  The statement in binary64
arithmetic is `quantize64_idempotent`. -/
theorem quantize_exact_idempotent (v s : ℚ) (hs : 0 < s) (fn : Option RoundFn) :
    quantize (quantize v s fn) s fn = quantize v s fn := by
  obtain ⟨k, hk⟩ := quantize_onGrid v s fn
  rw [hk]
  exact quantize_intCast_mul k s hs.ne' fn

theorem quantize_floor_le (v q : ℚ) (hq : 0 < q) : quantize v q (some .floor) ≤ v := by
  rw [quantize_eq_apply]
  have h := Int.floor_le (v / q)
  calc ((⌊v / q⌋ : ℤ) : ℚ) * q ≤ v / q * q := mul_le_mul_of_nonneg_right h hq.le
    _ = v := div_mul_cancel₀ v hq.ne'

theorem le_quantize_ceil (v q : ℚ) (hq : 0 < q) : v ≤ quantize v q (some .ceil) := by
  rw [quantize_eq_apply]
  have h := Int.le_ceil (v / q)
  calc v = v / q * q := (div_mul_cancel₀ v hq.ne').symm
    _ ≤ ((⌈v / q⌉ : ℤ) : ℚ) * q := mul_le_mul_of_nonneg_right h hq.le

theorem quantize_round_near (v q : ℚ) (hq : 0 < q) :
    |quantize v q (some .round) - v| ≤ q / 2 := by
  rw [quantize_eq_apply]
  show |((⌊v / q + 1 / 2⌋ : ℤ) : ℚ) * q - v| ≤ q / 2
  have h1 := Int.floor_le (v / q + 1 / 2)
  have h2 := Int.lt_floor_add_one (v / q + 1 / 2)
  have hv : v = v / q * q := (div_mul_cancel₀ v hq.ne').symm
  rw [abs_le]
  constructor
  · have : (v / q - 1 / 2) * q ≤ ((⌊v / q + 1 / 2⌋ : ℤ) : ℚ) * q :=
      mul_le_mul_of_nonneg_right (by linarith) hq.le
    nlinarith
  · have : ((⌊v / q + 1 / 2⌋ : ℤ) : ℚ) * q ≤ (v / q + 1 / 2) * q :=
      mul_le_mul_of_nonneg_right h1 hq.le
    nlinarith

/-- In exact arithmetic, for a positive quantum `q`, `quantize v q mode` is an
integer multiple of `q`; with `floor` it is the greatest multiple at most `v`,
with `ceil` the least multiple at least `v`, with `round` (also the default) it
is within `q / 2` of `v`; and `quantize 17 10 = 20`, `quantize 14 10 = 10`, the
grid spacing being 10.  The statement in binary64 arithmetic is
`quantize64_spec`. -/
theorem quantize_exact_spec (v q : ℚ) (hq : 0 < q) :
    (∀ fn : Option RoundFn, ∃ k : ℤ, quantize v q fn = (k : ℚ) * q) ∧
    (quantize v q (some .floor) ≤ v ∧
      ∀ k : ℤ, (k : ℚ) * q ≤ v → (k : ℚ) * q ≤ quantize v q (some .floor)) ∧
    (v ≤ quantize v q (some .ceil) ∧
      ∀ k : ℤ, v ≤ (k : ℚ) * q → quantize v q (some .ceil) ≤ (k : ℚ) * q) ∧
    |quantize v q none - v| ≤ q / 2 ∧
    |quantize v q (some .round) - v| ≤ q / 2 ∧
    quantize 17 10 none = 20 ∧ quantize 14 10 none = 10 ∧ SPACING = 10 := by
  refine ⟨fun fn => quantize_onGrid v q fn, ⟨quantize_floor_le v q hq, ?_⟩,
    ⟨le_quantize_ceil v q hq, ?_⟩, ?_, ?_, by decide!, by decide!, rfl⟩
  · intro k hk
    rw [quantize_eq_apply]
    apply mul_le_mul_of_nonneg_right _ hq.le
    have : (k : ℚ) ≤ v / q := (le_div_iff₀ hq).mpr hk
    exact_mod_cast Int.le_floor.mpr this
  · intro k hk
    rw [quantize_eq_apply]
    apply mul_le_mul_of_nonneg_right _ hq.le
    have : v / q ≤ (k : ℚ) := (div_le_iff₀ hq).mpr hk
    exact_mod_cast Int.ceil_le.mpr this
  · rw [quantize_none]
    exact quantize_round_near v q hq
  · exact quantize_round_near v q hq

/-! ## Theorems: snapValue -/

theorem snapValue_none (v : ℚ) : snapValue v none = quantize v SPACING none := by
  simp [snapValue]

theorem snapValue_some (v : ℚ) (o : SnapOptions) :
    snapValue v (some o) =
      (let a := quantize (v + o.offset.getD 0) SPACING none
       let b := if truthy o.min then
           max a (quantize (o.min.getD 0 + o.offset.getD 0) SPACING (some .ceil)) else a
       let c := if truthy o.max then
           min b (quantize (o.max.getD 0 + o.offset.getD 0) SPACING (some .floor)) else b
       c) - o.offset.getD 0 := by
  have hoff : (if truthy o.offset then o.offset.getD 0 else 0) = o.offset.getD 0 := by
    cases h : o.offset with
    | none => simp [truthy]
    | some q =>
      by_cases hq : q = 0
      · simp [truthy, hq]
      · simp [truthy, hq]
  simp only [snapValue, hoff]

/-- For numeric bounds other than 0 both clamps are applied. -/
theorem snapValue_clamped (v : ℚ) (o : Option ℚ) (mn mx : ℚ) (hmn : mn ≠ 0) (hmx : mx ≠ 0) :
    snapValue v (some ⟨o, some mn, some mx⟩) =
      min (max (quantize (v + o.getD 0) SPACING none)
          (quantize (mn + o.getD 0) SPACING (some .ceil)))
        (quantize (mx + o.getD 0) SPACING (some .floor)) - o.getD 0 := by
  rw [snapValue_some]
  simp [truthy, hmn, hmx]

/-- C1. With `min = 0` the lower clamp is skipped: `snapValue(-12, {min: 0})`
is `-10`, whereas clamping to `quantize(0 + 0, 10, 'ceil') = 0` would give `0`;
likewise `snapValue(12, {max: 0})` is `10`, not `0`. -/
theorem snapValue_zero_bound_not_clamped :
    snapValue (-12) (some ⟨none, some 0, none⟩) = -10 ∧
    max (quantize (-12 + 0) SPACING none) (quantize (0 + 0) SPACING (some .ceil)) - 0 = 0 ∧
    snapValue 12 (some ⟨none, none, some 0⟩) = 10 ∧
    min (quantize (12 + 0) SPACING none) (quantize (0 + 0) SPACING (some .floor)) - 0 = 0 := by
  decide!

/-- C2 as stated fails: for `min = 1 ≤ max = 9` no grid point lies between, the
interval `[quantize(1, 10, 'ceil'), quantize(9, 10, 'floor')] = [10, 0]` is empty
and `snapValue(5, {min: 1, max: 9}) = 0` is below its lower end. -/
theorem snapValue_bounds_counterexample :
    (1 : ℚ) ≤ 9 ∧
    ¬ (quantize 1 SPACING (some .ceil) ≤ snapValue 5 (some ⟨none, some 1, some 9⟩) ∧
       snapValue 5 (some ⟨none, some 1, some 9⟩) ≤ quantize 9 SPACING (some .floor)) := by
  decide!

/-- C2, amended. For every value and all bounds `min`, `max` other than 0 with
`quantize(min, 10, 'ceil') ≤ quantize(max, 10, 'floor')`, the result of
`snapValue(v, {min, max})` lies in the closed interval between these two. -/
theorem snapValue_within_bounds (v mn mx : ℚ) (hmn : mn ≠ 0) (hmx : mx ≠ 0)
    (h : quantize mn SPACING (some .ceil) ≤ quantize mx SPACING (some .floor)) :
    quantize mn SPACING (some .ceil) ≤ snapValue v (some ⟨none, some mn, some mx⟩) ∧
    snapValue v (some ⟨none, some mn, some mx⟩) ≤ quantize mx SPACING (some .floor) := by
  rw [snapValue_clamped v none mn mx hmn hmx]
  simp only [Option.getD_none, add_zero, sub_zero]
  exact ⟨le_min (le_max_right _ _) h, min_le_right _ _⟩

theorem snapValue_within_bounds_witness :
    quantize 12 SPACING (some .ceil) ≤ snapValue 47 (some ⟨none, some 12, some 38⟩) ∧
    snapValue 47 (some ⟨none, some 12, some 38⟩) ≤ quantize 38 SPACING (some .floor) :=
  snapValue_within_bounds 47 12 38 (by norm_num) (by norm_num) (by decide!)

/-- C3. For every value and every options object (offset, min and max each
present or absent), `snapValue(v, options) + offset` is an integer multiple of
the grid spacing 10, the offset counting as 0 when absent. -/
theorem snapValue_add_offset_onGrid (v : ℚ) (options : Option SnapOptions) :
    ∃ k : ℤ, snapValue v options + offsetOf options = (k : ℚ) * 10 := by
  cases options with
  | none =>
    obtain ⟨k, hk⟩ := quantize_onGrid v SPACING none
    exact ⟨k, by rw [snapValue_none, hk]; simp [offsetOf, SPACING]⟩
  | some o =>
    rw [snapValue_some]
    simp only [offsetOf, sub_add_cancel]
    obtain ⟨k1, h1⟩ := quantize_onGrid (v + o.offset.getD 0) SPACING none
    obtain ⟨k2, h2⟩ := quantize_onGrid (o.min.getD 0 + o.offset.getD 0) SPACING (some .ceil)
    obtain ⟨k3, h3⟩ := quantize_onGrid (o.max.getD 0 + o.offset.getD 0) SPACING (some .floor)
    have hb : ∃ k : ℤ, (if truthy o.min then
        max (quantize (v + o.offset.getD 0) SPACING none)
          (quantize (o.min.getD 0 + o.offset.getD 0) SPACING (some .ceil))
        else quantize (v + o.offset.getD 0) SPACING none) = (k : ℚ) * 10 := by
      split
      · rcases max_choice (quantize (v + o.offset.getD 0) SPACING none)
          (quantize (o.min.getD 0 + o.offset.getD 0) SPACING (some .ceil)) with h | h
        · exact ⟨k1, by rw [h, h1]; rfl⟩
        · exact ⟨k2, by rw [h, h2]; rfl⟩
      · exact ⟨k1, by rw [h1]; rfl⟩
    obtain ⟨kb, hkb⟩ := hb
    show ∃ k : ℤ, (if truthy o.max then min _ _ else _) = (k : ℚ) * 10
    rw [hkb]
    split
    · rcases min_choice ((kb : ℚ) * 10)
        (quantize (o.max.getD 0 + o.offset.getD 0) SPACING (some .floor)) with h | h
      · exact ⟨kb, h⟩
      · exact ⟨k3, by rw [h, h3]; rfl⟩
    · exact ⟨kb, rfl⟩

/-! ## Theorems: setSnapped and snapEvent -/

theorem getProp_setProp_same {α : Type} (l : List (String × α)) (k : String) (v : α) :
    getProp (setProp l k v) k = some v := by
  induction l with
  | nil => simp [setProp, getProp]
  | cons p rest ih =>
    obtain ⟨k0, w⟩ := p
    by_cases h : k0 = k
    · simp [setProp, getProp, h]
    · simp [setProp, getProp, h, ih]

theorem getProp_setProp_ne {α : Type} (l : List (String × α)) (k k1 : String) (v : α)
    (hne : k ≠ k1) : getProp (setProp l k v) k1 = getProp l k1 := by
  induction l with
  | nil => simp [setProp, getProp, hne]
  | cons p rest ih =>
    obtain ⟨k0, w⟩ := p
    by_cases h : k0 = k
    · subst h
      simp [setProp, getProp, hne]
    · by_cases h1 : k0 = k1
      · subst h1
        simp [setProp, getProp, h]
      · simp [setProp, getProp, h, h1, ih]

theorem delta_axis_ne (a : String) (ha : a = "x" ∨ a = "y") : a ≠ "d" ++ a := by
  rcases ha with rfl | rfl <;> decide

/-- In exact arithmetic, for an event whose coordinate `event[a]` and delta
`event['d' + a]` are numbers and an axis `a` in {x, y}: `snapEvent(event, a,
options)` does not raise, sets `event[a]` to `snapValue(old event[a], options)`,
adds the difference `snapValue(old event[a], options) - old event[a]` to
`event['d' + a]`, and marks the axis snapped (`isSnapped(event, a)` is `true`).
The statement in binary64 arithmetic is `snapEvent64_spec`. -/
theorem snapEvent_exact_spec (ev : Event) (a : String) (ha : a = "x" ∨ a = "y") (v d : ℚ)
    (hv : getProp ev.fields a = some (.val v))
    (hd : getProp ev.fields ("d" ++ a) = some (.val d)) (options : Option SnapOptions) :
    (snapEvent ev a options).2 = .ok () ∧
    getProp (snapEvent ev a options).1.fields a = some (.val (snapValue v options)) ∧
    getProp (snapEvent ev a options).1.fields ("d" ++ a) =
      some (.val (d + (snapValue v options - v))) ∧
    isSnapped (snapEvent ev a options).1 (.str a) = .bool true := by
  have hne := delta_axis_ne a ha
  have hfields : (snapEvent ev a options).1.fields =
      setProp (setProp ev.fields a (.val (snapValue v options))) ("d" ++ a)
        (.val (d + (snapValue v options - v))) := by
    simp [snapEvent, snapValueJs, setSnapped, hv, hd, toNum, JsNum.sub, JsNum.add,
      getProp_setProp_ne _ _ _ _ hne]
  refine ⟨?_, ?_, ?_, ?_⟩
  · simp [snapEvent, snapValueJs, setSnapped, hv, toNum, Except.map]
  · rw [hfields, getProp_setProp_ne _ _ _ _ (Ne.symm hne), getProp_setProp_same]
  · rw [hfields, getProp_setProp_same]
  · simp [snapEvent, snapValueJs, setSnapped, hv, toNum, isSnapped, getProp_setProp_same]

/-- C7. The string `'z'` is not a recognised axis, yet
`setSnapped({x: 1, y: 2, dx: 0, dy: 0}, 'z', 5)` does not raise: it returns
`undefined`, writes `NaN` to `event.z` and `event.dz` and marks `snapped.z`. -/
theorem setSnapped_unknown_axis_no_error :
    setSnapped ⟨[("x", .val 1), ("y", .val 2), ("dx", .val 0), ("dy", .val 0)], none⟩
      (.str "z") (.num (.val 5)) =
    (⟨[("x", .val 1), ("y", .val 2), ("dx", .val 0), ("dy", .val 0), ("z", .nan),
        ("dz", .nan)], some [("z", true)]⟩, .ok none) := by
  rfl

/-- C8. For every string axis, in particular the valid axes `'x'` and `'y'`,
`setSnapped(event, axis, value)` raises exactly when `value` is neither a number
nor `false`, and when it raises the event (its fields and snapped flags) is
unchanged. -/
theorem setSnapped_raises_iff (ev : Event) (a : String) (value : JsVal) :
    ((∃ msg, (setSnapped ev (.str a) value).2 = .error msg) ↔
      ((∀ n, value ≠ .num n) ∧ value ≠ .bool false)) ∧
    (∀ msg, (setSnapped ev (.str a) value).2 = .error msg →
      (setSnapped ev (.str a) value).1 = ev) := by
  cases value with
  | bool b => cases b <;> simp [setSnapped]
  | undefined => simp [setSnapped]
  | null => simp [setSnapped]
  | num n => simp [setSnapped]
  | str s => simp [setSnapped]

/-! ## Theorems: the example intersection -/

theorem pathToAbsolute_diag : pathToAbsolute (.str "M0,0L100,100") =
    some [⟨'M', [0, 0]⟩, ⟨'L', [100, 100]⟩] := by decide!

theorem pathToAbsolute_anti :
    pathToAbsolute (.segs [⟨'M', [0, 100]⟩, ⟨'L', [100, 0]⟩]) =
      some [⟨'M', [0, 100]⟩, ⟨'L', [100, 0]⟩] := by decide!

theorem curveLoop_move_line (m : MathFns) (fuel : ℕ) (a b c d : ℚ) :
    curveLoop m fuel ⟨⟨0, 0, 0, 0, 0, 0, none, none⟩, none, none, 0⟩
      [⟨'M', [a, b]⟩, ⟨'L', [c, d]⟩] = some [⟨'M', [a, b]⟩, ⟨'C', [a, b, c, d, c, d]⟩] := by
  simp [curveLoop, curveStep, processPath, updateAttrs, secondLast, lastArg, curveChunks,
    lineToCurve, toFloatOr]

theorem bezierBBox_diag (m : MathFns) (h : m.sqrt 360000 = 600) :
    bezierBBox m ⟨0, 0, 0, 0, 100, 100, 100, 100⟩ = ⟨0, 0, 100, 100, 100, 100⟩ := by
  norm_num [bezierBBox, curveBBox, axisRoots, rectBBox, h]

theorem bezierBBox_anti (m : MathFns) (h : m.sqrt 360000 = 600) :
    bezierBBox m ⟨0, 100, 0, 100, 100, 0, 100, 0⟩ = ⟨0, 0, 100, 100, 100, 100⟩ := by
  norm_num [bezierBBox, curveBBox, axisRoots, rectBBox, h]

theorem polylineIntersections_cross :
    polylineIntersections false (dotsOf ⟨0, 0, 0, 0, 100, 100, 100, 100⟩ 1)
      (dotsOf ⟨0, 100, 0, 100, 100, 0, 100, 0⟩ 1) 1 1 = .list [⟨50, 50, 1 / 2, 1 / 2⟩] := by
  decide!

theorem findBezierIntersections_cross (m : MathFns) (h : m.sqrt 360000 = 600) :
    findBezierIntersections m ⟨0, 0, 0, 0, 100, 100, 100, 100⟩ ⟨0, 100, 0, 100, 100, 0, 100, 0⟩
      false = .list [⟨50, 50, 1 / 2, 1 / 2⟩] := by
  have hbox : isBBoxIntersect ⟨0, 0, 100, 100, 100, 100⟩ ⟨0, 0, 100, 100, 100, 100⟩ = true := by
    decide!
  have hn1 : ∀ l, segmentCount ⟨0, 0, 0, 0, 100, 100, 100, 100⟩ l = 1 := by
    intro l; simp [segmentCount, isLine]
  have hn2 : ∀ l, segmentCount ⟨0, 100, 0, 100, 100, 0, 100, 0⟩ l = 1 := by
    intro l; simp [segmentCount, isLine]
  simp only [findBezierIntersections, bezierBBox_diag m h, bezierBBox_anti m h, hbox, hn1, hn2]
  exact polylineIntersections_cross

/-- C9. With `Math.sqrt(360000) = 600`, the call
`findPathIntersections('M0,0L100,100', [['M', 0, 100], ['L', 100, 0]])` returns
exactly one intersection, with `x = 50`, `y = 50`, `t1 = 0.5`, `t2 = 0.5`,
`segment1 = 1` and `segment2 = 1` (and the two curves in `bez1`, `bez2`). -/
theorem findPathIntersections_example (m : MathFns) (h : m.sqrt 360000 = 600) (fuel : ℕ) :
    findPathIntersections m fuel (.str "M0,0L100,100")
      (.segs [⟨'M', [0, 100]⟩, ⟨'L', [100, 0]⟩]) false =
    some (.list [⟨50, 50, 1 / 2, 1 / 2, 1, 1, ⟨0, 0, 0, 0, 100, 100, 100, 100⟩,
      ⟨0, 100, 0, 100, 100, 0, 100, 0⟩⟩]) := by
  have h1 : pathToCurve m fuel (.str "M0,0L100,100") =
      some [⟨'M', [0, 0]⟩, ⟨'C', [0, 0, 100, 100, 100, 100]⟩] := by
    simp only [pathToCurve, pathToAbsolute_diag]
    exact curveLoop_move_line m fuel 0 0 100 100
  have h2 : pathToCurve m fuel (.segs [⟨'M', [0, 100]⟩, ⟨'L', [100, 0]⟩]) =
      some [⟨'M', [0, 100]⟩, ⟨'C', [0, 100, 100, 0, 100, 0]⟩] := by
    simp only [pathToCurve, pathToAbsolute_anti]
    exact curveLoop_move_line m fuel 0 100 100 0
  simp [findPathIntersections, h1, h2, outerLoop, innerLoop, segmentBez,
    findBezierIntersections_cross m h, addHits]

theorem ratMath_sqrt : ratMath.sqrt 360000 = 600 := by decide!

theorem findPathIntersections_example_witness :
    ratMath.sqrt 360000 = 600 ∧
    findPathIntersections ratMath 0 (.str "M0,0L100,100")
      (.segs [⟨'M', [0, 100]⟩, ⟨'L', [100, 0]⟩]) false =
    some (.list [⟨50, 50, 1 / 2, 1 / 2, 1, 1, ⟨0, 0, 0, 0, 100, 100, 100, 100⟩,
      ⟨0, 100, 0, 100, 100, 0, 100, 0⟩⟩]) :=
  ⟨ratMath_sqrt, findPathIntersections_example ratMath ratMath_sqrt 0⟩

/-! ## Theorems: normalisation to canonical form -/

theorem absStep_wellFormed (st : AbsState) (pa : Segment) (h : wellFormedSegment pa = true) :
    ∃ r st1, absStep st pa = some (r, st1) ∧ absoluteSegment r = true := by
  obtain ⟨c, args⟩ := pa
  simp only [wellFormedSegment, List.mem_cons, Prod.mk.injEq, decide_eq_true_eq,
    List.mem_singleton] at h
  simp only [List.not_mem_nil, or_false] at h
  rcases args with _ | ⟨a1, _ | ⟨a2, _ | ⟨a3, _ | ⟨a4, _ | ⟨a5, _ | ⟨a6, _ | ⟨a7, _ | ⟨a8, t⟩⟩⟩⟩⟩⟩⟩⟩
  all_goals simp at h
  all_goals repeat' rcases h with h | h
  all_goals simp [absStep, shiftArgs, secondLast, lastArg, absoluteSegment]

theorem absLoop_wellFormed (path : List Segment)
    (h : ∀ s ∈ path, wellFormedSegment s = true) (st : AbsState) :
    ∃ r, absLoop st path = some r ∧ ∀ s ∈ r, absoluteSegment s = true := by
  induction path generalizing st with
  | nil => exact ⟨[], rfl, by simp⟩
  | cons pa rest ih =>
    obtain ⟨r, st1, hstep, hr⟩ := absStep_wellFormed st pa (h pa (List.mem_cons_self _ _))
    obtain ⟨more, hmore, hall⟩ := ih (fun s hs => h s (List.mem_cons_of_mem _ hs)) st1
    refine ⟨r :: more, ?_, ?_⟩
    · simp [absLoop, hstep, hmore]
    · intro s hs
      rcases List.mem_cons.mp hs with rfl | hs
      · exact hr
      · exact hall s hs

theorem pathToAbsolute_wellFormed (path : List Segment)
    (h : ∀ s ∈ path, wellFormedSegment s = true) :
    ∃ r, pathToAbsolute (.segs path) = some r ∧ ∀ s ∈ r, absoluteSegment s = true := by
  cases path with
  | nil => exact ⟨[⟨'M', [0, 0]⟩], rfl, by simp [absoluteSegment]⟩
  | cons first rest =>
    by_cases hM : first.cmd = 'M'
    · have hf := h first (List.mem_cons_self _ _)
      obtain ⟨c, args⟩ := first
      simp only at hM
      subst hM
      rcases args with _ | ⟨a1, _ | ⟨a2, _ | ⟨a3, t⟩⟩⟩ <;> simp [wellFormedSegment] at hf
      obtain ⟨more, hmore, hall⟩ :=
        absLoop_wellFormed rest (fun s hs => h s (List.mem_cons_of_mem _ hs)) ⟨a1, a2, a1, a2⟩
      refine ⟨⟨'M', [a1, a2]⟩ :: more, ?_, ?_⟩
      · simp [pathToAbsolute, hmore]
      · intro s hs
        rcases List.mem_cons.mp hs with rfl | hs
        · simp [absoluteSegment]
        · exact hall s hs
    · obtain ⟨r, hr, hall⟩ := absLoop_wellFormed (first :: rest) h ⟨0, 0, 0, 0⟩
      exact ⟨r, by simp [pathToAbsolute, hM, hr], hall⟩

theorem flatMap_pair_length (f g : ℚ × ℚ → ℚ) (l : List (ℚ × ℚ)) :
    (l.flatMap fun p => [f p, g p]).length = 2 * l.length := by
  induction l with
  | nil => rfl
  | cons a t ih => simp [List.flatMap_cons, ih]; omega

theorem arcSegments_length (m : MathFns) (hPI : 0 < m.PI) (fuel : ℕ) :
    ∀ (x1 y1 rx ry sweep_flag x2 y2 f1 f2 cx cy : ℚ),
      (sweep_flag ≠ 0 → 0 ≤ f2 - f1 ∧ f2 - f1 < fuel * (m.PI * 120 / 180)) →
      (sweep_flag = 0 → -(fuel * (m.PI * 120 / 180)) < f2 - f1 ∧ f2 - f1 ≤ 0) →
      ∃ l, arcSegments m fuel x1 y1 rx ry sweep_flag x2 y2 f1 f2 cx cy = some l ∧
        ∃ k, 1 ≤ k ∧ k ≤ fuel ∧ l.length = 3 * k := by
  induction fuel with
  | zero =>
    intro x1 y1 rx ry sweep_flag x2 y2 f1 f2 cx cy h1 h0
    exfalso
    by_cases hs : sweep_flag = 0
    · have := h0 hs
      simp at this
      linarith
    · have := h1 hs
      simp at this
      linarith
  | succ n ih =>
    intro x1 y1 rx ry sweep_flag x2 y2 f1 f2 cx cy h1 h0
    have h120 : 0 < m.PI * 120 / 180 := by positivity
    by_cases hdf : |f2 - f1| > m.PI * 120 / 180
    · by_cases hs : sweep_flag = 0
      · obtain ⟨hlo, hhi⟩ := h0 hs
        have hneg : f2 - f1 < -(m.PI * 120 / 180) := by
          rcases lt_abs.mp hdf with h | h
          · linarith
          · linarith
        obtain ⟨l, hl, k, hk1, hkn, hlen⟩ := ih
          (cx + rx * m.cos (f1 + m.PI * 120 / 180 * -1))
          (cy + ry * m.sin (f1 + m.PI * 120 / 180 * -1)) rx ry sweep_flag x2 y2
          (f1 + m.PI * 120 / 180 * -1) f2 cx cy (fun h => absurd hs h)
          (fun _ => by
            push_cast at hlo
            constructor <;> linarith)
        subst hs
        simp only [arcSegments, hdf, if_true, ne_eq, not_true_eq_false, false_and,
          if_false, hl]
        simp only [Option.map_some', Option.bind_eq_bind, Option.some_bind, Option.some.injEq,
          exists_eq_left']
        exact ⟨k + 1, by omega, by omega, by simp [hlen]; omega⟩
      · obtain ⟨hlo, hhi⟩ := h1 hs
        have hpos : m.PI * 120 / 180 < f2 - f1 := by
          rcases lt_abs.mp hdf with h | h
          · linarith
          · linarith
        have hgt : f2 > f1 := by linarith
        obtain ⟨l, hl, k, hk1, hkn, hlen⟩ := ih
          (cx + rx * m.cos (f1 + m.PI * 120 / 180 * 1))
          (cy + ry * m.sin (f1 + m.PI * 120 / 180 * 1)) rx ry sweep_flag x2 y2
          (f1 + m.PI * 120 / 180 * 1) f2 cx cy
          (fun _ => by
            push_cast at hhi
            constructor <;> linarith)
          (fun h => absurd h hs)
        simp only [arcSegments, hdf, if_true, ne_eq, hs, not_false_eq_true, hgt, and_self, hl]
        simp only [Option.map_some', Option.bind_eq_bind, Option.some_bind, Option.some.injEq,
          exists_eq_left']
        exact ⟨k + 1, by omega, by omega, by simp [hlen]; omega⟩
    · simp only [arcSegments, hdf, if_false]
      simp only [Option.bind_eq_bind, Option.some_bind, Option.some.injEq, exists_eq_left']
      exact ⟨1, le_refl _, by omega, by simp⟩

theorem arcAngles_bounds (m : MathFns) (hPI : 0 < m.PI) (f1 f2 x1 x2 cx sweep_flag : ℚ)
    (h1 : -(m.PI / 2) ≤ f1 ∧ f1 ≤ m.PI / 2) (h2 : -(m.PI / 2) ≤ f2 ∧ f2 ≤ m.PI / 2) :
    (sweep_flag ≠ 0 → 0 ≤ (arcAngles m f1 f2 x1 x2 cx sweep_flag).2 -
        (arcAngles m f1 f2 x1 x2 cx sweep_flag).1 ∧
      (arcAngles m f1 f2 x1 x2 cx sweep_flag).2 - (arcAngles m f1 f2 x1 x2 cx sweep_flag).1 <
        m.PI * 2) ∧
    (sweep_flag = 0 → -(m.PI * 2) < (arcAngles m f1 f2 x1 x2 cx sweep_flag).2 -
        (arcAngles m f1 f2 x1 x2 cx sweep_flag).1 ∧
      (arcAngles m f1 f2 x1 x2 cx sweep_flag).2 - (arcAngles m f1 f2 x1 x2 cx sweep_flag).1 ≤
        0) := by
  obtain ⟨h1a, h1b⟩ := h1
  obtain ⟨h2a, h2b⟩ := h2
  constructor
  · intro hs
    simp only [arcAngles, hs, ne_eq, not_false_eq_true, true_and, not_true_eq_false, false_and,
      if_false]
    split_ifs <;> constructor <;> linarith
  · intro hs
    simp only [arcAngles, hs, ne_eq, not_true_eq_false, false_and, if_false, not_false_eq_true,
      true_and]
    split_ifs <;> constructor <;> linarith


theorem bind_flatMap_length (o : Option (List (ℚ × ℚ))) (f g : ℚ × ℚ → ℚ) (n : ℕ)
    (h : ∃ l, o = some l ∧ ∃ k, 1 ≤ k ∧ k ≤ n ∧ l.length = 3 * k) :
    ∃ l, (o.bind fun res => some (res.flatMap fun p => [f p, g p])) = some l ∧
      ∃ k, 1 ≤ k ∧ l.length = 6 * k := by
  obtain ⟨l, rfl, k, hk, _, hlen⟩ := h
  refine ⟨_, rfl, k, hk, ?_⟩
  rw [flatMap_pair_length, hlen]
  omega

theorem arcToCurve_length (m : MathFns) (hPI : 0 < m.PI)
    (hasin : ∀ q, -(m.PI / 2) ≤ m.asin q ∧ m.asin q ≤ m.PI / 2) (fuel : ℕ) (hfuel : 3 ≤ fuel)
    (x1 y1 rx ry angle large_arc_flag sweep_flag x2 y2 : ℚ) :
    ∃ l, arcToCurve m fuel x1 y1 rx ry angle large_arc_flag sweep_flag x2 y2 = some l ∧
      ∃ k, 1 ≤ k ∧ l.length = 6 * k := by
  have hf : (3 : ℚ) ≤ fuel := by exact_mod_cast hfuel
  have h120 : m.PI * 2 ≤ fuel * (m.PI * 120 / 180) := by nlinarith
  unfold arcToCurve
  simp only []
  refine bind_flatMap_length _ _ _ fuel
    (arcSegments_length m hPI fuel _ _ _ _ _ _ _ _ _ _ _ ?_ ?_)
  · intro hs
    refine ⟨?_, lt_of_lt_of_le ?_ h120⟩
    · exact ((arcAngles_bounds m hPI _ _ _ _ _ sweep_flag (hasin _) (hasin _)).1 hs).1
    · exact ((arcAngles_bounds m hPI _ _ _ _ _ sweep_flag (hasin _) (hasin _)).1 hs).2
  · intro hs
    refine ⟨lt_of_le_of_lt (neg_le_neg h120) ?_, ?_⟩
    · exact ((arcAngles_bounds m hPI _ _ _ _ _ sweep_flag (hasin _) (hasin _)).2 hs).1
    · exact ((arcAngles_bounds m hPI _ _ _ _ _ sweep_flag (hasin _) (hasin _)).2 hs).2

theorem chunks6_length : ∀ (k : ℕ) (l : List ℚ), l.length = 6 * k →
    (chunks6 l).length = k ∧ ∀ c ∈ chunks6 l, c.length = 6 := by
  intro k
  induction k with
  | zero =>
    intro l h
    have : l = [] := List.length_eq_zero.mp (by simpa using h)
    subst this
    simp [chunks6]
  | succ n ih =>
    intro l h
    rcases l with _ | ⟨a1, _ | ⟨a2, _ | ⟨a3, _ | ⟨a4, _ | ⟨a5, _ | ⟨a6, t⟩⟩⟩⟩⟩⟩
    all_goals simp at h
    all_goals try omega
    have ht : t.length = 6 * n := by omega
    obtain ⟨h1, h2⟩ := ih t ht
    simp [chunks6, h1]
    exact h2

theorem updateAttrs_isSome (attrs : Attrs) (seg : Segment) (h : 2 ≤ seg.args.length) :
    ∃ a, updateAttrs attrs seg = some a := by
  unfold updateAttrs secondLast lastArg
  have h1 : seg.args.length - 2 < seg.args.length := by omega
  have h2 : seg.args.length - 1 < seg.args.length := by omega
  simp [h, List.getElem?_eq_getElem h1, List.getElem?_eq_getElem h2,
    show 1 ≤ seg.args.length by omega]

theorem curveStep_cubic (m : MathFns) (fuel : ℕ) (st : CurveState) (args : List ℚ)
    (h : args.length = 6) (presetA : Bool) :
    ∃ st1, curveStep m fuel st ⟨'C', args⟩ presetA = some (⟨'C', args⟩, [], st1) := by
  obtain ⟨a, ha⟩ := updateAttrs_isSome { st.attrs with qx := none, qy := none } ⟨'C', args⟩
    (by simp [h])
  simp [curveStep, processPath, h, ha]

theorem curveStep_arc (m : MathFns) (hPI : 0 < m.PI)
    (hasin : ∀ q, -(m.PI / 2) ≤ m.asin q ∧ m.asin q ≤ m.PI / 2) (fuel : ℕ) (hfuel : 3 ≤ fuel)
    (st : CurveState) (a1 a2 a3 a4 a5 a6 a7 : ℚ) :
    ∃ seg1 extra st1,
      curveStep m fuel st ⟨'A', [a1, a2, a3, a4, a5, a6, a7]⟩ false = some (seg1, extra, st1) ∧
      canonicalSegment seg1 = true ∧ ∀ e ∈ extra, e.cmd = 'C' ∧ e.args.length = 6 := by
  obtain ⟨c, hc, k, hk, hlen⟩ :=
    arcToCurve_length m hPI hasin fuel hfuel st.attrs.x st.attrs.y a1 a2 a3 a4 a5 a6 a7
  obtain ⟨hcl, hall⟩ := chunks6_length k c hlen
  by_cases hbig : 7 < c.length + 1
  · rcases hch : chunks6 c with _ | ⟨c1, cs⟩
    · rw [hch] at hcl
      simp at hcl
      omega
    · have hc1 : c1.length = 6 := hall c1 (by simp [hch])
      obtain ⟨a, ha⟩ := updateAttrs_isSome { st.attrs with qx := none, qy := none } ⟨'C', c1⟩
        (by simp [hc1])
      refine ⟨⟨'C', c1⟩, cs.map fun a => ⟨'C', a⟩,
        ⟨a, if st.i ≠ 0 then st.recorded else st.pathCommand, some 'A', st.i + 1⟩, ?_, ?_, ?_⟩
      · simp [curveStep, processPath, hc, hbig, hch, ha]
      · simp [canonicalSegment, hc1]
      · intro e he
        obtain ⟨x, hx, rfl⟩ := List.mem_map.mp he
        exact ⟨rfl, hall x (by simp [hch, hx])⟩
  · have hc6 : c.length = 6 := by omega
    obtain ⟨a, ha⟩ := updateAttrs_isSome { st.attrs with qx := none, qy := none } ⟨'C', c⟩
      (by simp [hc6])
    refine ⟨⟨'C', c⟩, [],
      ⟨a, if st.i ≠ 0 then st.recorded else st.pathCommand, some 'A', st.i + 1⟩, ?_, ?_, ?_⟩
    · simp [curveStep, processPath, hc, hbig, ha]
    · simp [canonicalSegment, hc6]
    · simp

theorem curveStep_absolute (m : MathFns) (hPI : 0 < m.PI)
    (hasin : ∀ q, -(m.PI / 2) ≤ m.asin q ∧ m.asin q ≤ m.PI / 2) (fuel : ℕ) (hfuel : 3 ≤ fuel)
    (st : CurveState) (seg : Segment) (h : absoluteSegment seg = true) :
    ∃ seg1 extra st1, curveStep m fuel st seg false = some (seg1, extra, st1) ∧
      canonicalSegment seg1 = true ∧ ∀ e ∈ extra, e.cmd = 'C' ∧ e.args.length = 6 := by
  obtain ⟨c, args⟩ := seg
  simp only [absoluteSegment, List.mem_cons, Prod.mk.injEq, decide_eq_true_eq,
    List.mem_singleton] at h
  simp only [List.not_mem_nil, or_false] at h
  rcases args with _ | ⟨a1, _ | ⟨a2, _ | ⟨a3, _ | ⟨a4, _ | ⟨a5, _ | ⟨a6, _ | ⟨a7, _ | ⟨a8, t⟩⟩⟩⟩⟩⟩⟩⟩
  all_goals simp at h
  all_goals repeat' rcases h with h | h
  all_goals first
    | exact curveStep_arc m hPI hasin fuel hfuel st _ _ _ _ _ _ _
    | (simp [curveStep, processPath, updateAttrs, secondLast, lastArg, lineToCurve,
        qubicToCurve, canonicalSegment]
       exact ⟨_, _, ⟨rfl, rfl⟩, by simp, by simp⟩)

theorem curveChunks_cubic (m : MathFns) (fuel : ℕ) (chunks : List Segment)
    (h : ∀ e ∈ chunks, e.cmd = 'C' ∧ e.args.length = 6) (st : CurveState) :
    ∃ st1, curveChunks m fuel st chunks = some (chunks, st1) := by
  induction chunks generalizing st with
  | nil => exact ⟨st, rfl⟩
  | cons e rest ih =>
    obtain ⟨c, args⟩ := e
    obtain ⟨hc, hlen⟩ := h ⟨c, args⟩ (List.mem_cons_self _ _)
    simp only at hc hlen
    subst hc
    obtain ⟨st1, h1⟩ := curveStep_cubic m fuel st args hlen true
    obtain ⟨st2, h2⟩ := ih (fun e he => h e (List.mem_cons_of_mem _ he)) st1
    exact ⟨st2, by simp [curveChunks, h1, h2]⟩

theorem curveLoop_canonical (m : MathFns) (hPI : 0 < m.PI)
    (hasin : ∀ q, -(m.PI / 2) ≤ m.asin q ∧ m.asin q ≤ m.PI / 2) (fuel : ℕ) (hfuel : 3 ≤ fuel)
    (path : List Segment) (h : ∀ s ∈ path, absoluteSegment s = true) (st : CurveState) :
    ∃ r, curveLoop m fuel st path = some r ∧ ∀ s ∈ r, canonicalSegment s = true := by
  induction path generalizing st with
  | nil => exact ⟨[], rfl, by simp⟩
  | cons seg rest ih =>
    obtain ⟨seg1, extra, st1, hstep, hcan, hextra⟩ :=
      curveStep_absolute m hPI hasin fuel hfuel st seg (h seg (List.mem_cons_self _ _))
    obtain ⟨st2, hchunks⟩ := curveChunks_cubic m fuel extra hextra st1
    obtain ⟨more, hmore, hall⟩ := ih (fun s hs => h s (List.mem_cons_of_mem _ hs)) st2
    refine ⟨seg1 :: extra ++ more, by simp [curveLoop, hstep, hchunks, hmore], ?_⟩
    intro s hs
    rcases List.mem_cons.mp hs with rfl | hs
    · exact hcan
    · rcases List.mem_append.mp hs with hs | hs
      · obtain ⟨hc, hl⟩ := hextra s hs
        obtain ⟨c, args⟩ := s
        simp only at hc hl
        simp [canonicalSegment, hc, hl]
      · exact hall s hs

/-- C10. For every list of well-formed components (commands M, L, H, V, C, S, Q,
T, A, Z in upper or lower case, each with its number of arguments), and `Math`
functions with `PI > 0` and `asin` ranging in `[-PI/2, PI/2]`, `pathToCurve`
returns a path (fuel 3 suffices for the arc recursion) and every component of it
is a MoveTo `['M', x, y]` or a CubicTo `['C', c1x, c1y, c2x, c2y, x, y]`. -/
theorem pathToCurve_canonical (m : MathFns) (hPI : 0 < m.PI)
    (hasin : ∀ q, -(m.PI / 2) ≤ m.asin q ∧ m.asin q ≤ m.PI / 2) (fuel : ℕ) (hfuel : 3 ≤ fuel)
    (path : List Segment) (h : ∀ s ∈ path, wellFormedSegment s = true) :
    ∃ r, pathToCurve m fuel (.segs path) = some r ∧
      ∀ s ∈ r, (s.cmd = 'M' ∧ s.args.length = 2) ∨ (s.cmd = 'C' ∧ s.args.length = 6) := by
  obtain ⟨ab, hab, hall⟩ := pathToAbsolute_wellFormed path h
  obtain ⟨r, hr, hcan⟩ := curveLoop_canonical m hPI hasin fuel hfuel ab hall
    ⟨⟨0, 0, 0, 0, 0, 0, none, none⟩, none, none, 0⟩
  refine ⟨r, by simp [pathToCurve, hab, hr], ?_⟩
  intro s hs
  have := hcan s hs
  simpa [canonicalSegment] using this

theorem ratMath_asin_range (q : ℚ) :
    -(ratMath.PI / 2) ≤ ratMath.asin q ∧ ratMath.asin q ≤ ratMath.PI / 2 := by
  simp only [ratMath]
  constructor
  · norm_num
  · have : min (355 / 226 : ℚ) q ≤ 355 / 226 := min_le_left _ _
    have h2 : max (-(355 / 226) : ℚ) (min (355 / 226) q) ≤ 355 / 226 :=
      max_le (by norm_num) this
    linarith

theorem pathToCurve_canonical_witness :
    ∃ r, pathToCurve ratMath 3 (.segs [⟨'M', [10, 10]⟩, ⟨'a', [20, 20, 0, 1, 1, 40, 40]⟩,
        ⟨'q', [5, 5, 10, 0]⟩, ⟨'z', []⟩]) = some r ∧
      ∀ s ∈ r, (s.cmd = 'M' ∧ s.args.length = 2) ∨ (s.cmd = 'C' ∧ s.args.length = 6) :=
  pathToCurve_canonical ratMath (by norm_num [ratMath]) ratMath_asin_range 3 (le_refl 3) _
    (by decide)

theorem chunks6_length_le (l : List ℚ) : ∀ c ∈ chunks6 l, c.length ≤ 6 := by
  induction l using chunks6.induct with
  | case1 a b c d e f rest ih =>
    intro x hx
    simp only [chunks6, List.mem_cons] at hx
    rcases hx with rfl | hx
    · simp
    · exact ih x hx
  | case2 => simp [chunks6]
  | case3 a rest h =>
    intro x hx
    rcases rest with _ | ⟨b, _ | ⟨c, _ | ⟨d, _ | ⟨e, _ | ⟨f, t⟩⟩⟩⟩⟩
    all_goals simp [chunks6] at hx
    all_goals first
      | (subst hx; simp)
      | exact absurd rfl (h _ _ _ _ _ _)

/-- A component spliced in by `fixArc` has at most six arguments, and its own
iteration splices nothing further: `curveChunks` loses nothing by dropping the
second component of `curveStep`. -/
theorem curveStep_chunk_no_splice (m : MathFns) (fuel : ℕ) (st : CurveState) (l c : List ℚ)
    (hc : c ∈ chunks6 l) (presetA : Bool) (r : Segment × List Segment × CurveState)
    (h : curveStep m fuel st ⟨'C', c⟩ presetA = some r) : r.2.1 = [] := by
  have hlen := chunks6_length_le l c hc
  have hnot : ¬ 7 < c.length + 1 := by omega
  rcases hu : updateAttrs { st.attrs with qx := none, qy := none } ⟨'C', c⟩ with _ | a
  · simp [curveStep, processPath, hnot, hu] at h
  · simp [curveStep, processPath, hnot, hu] at h
    rw [← h]

/-- C11. For `undefined`/`null`, the empty string and the empty component list,
`pathToCurve` returns exactly the one-component path `[['M', 0, 0]]`, whatever
the `Math` functions and the fuel. -/
theorem pathToCurve_empty (m : MathFns) (fuel : ℕ) :
    pathToCurve m fuel .undefined = some [⟨'M', [0, 0]⟩] ∧
    pathToCurve m fuel (.str "") = some [⟨'M', [0, 0]⟩] ∧
    pathToCurve m fuel (.segs []) = some [⟨'M', [0, 0]⟩] := by
  have h1 : pathToAbsolute .undefined = some [⟨'M', [0, 0]⟩] := by decide!
  have h2 : pathToAbsolute (.str "") = some [⟨'M', [0, 0]⟩] := by decide!
  have h3 : pathToAbsolute (.segs []) = some [⟨'M', [0, 0]⟩] := by decide!
  have hloop : curveLoop m fuel ⟨⟨0, 0, 0, 0, 0, 0, none, none⟩, none, none, 0⟩
      [⟨'M', [0, 0]⟩] = some [⟨'M', [0, 0]⟩] := by
    simp [curveLoop, curveStep, processPath, updateAttrs, secondLast, lastArg, curveChunks,
      toFloatOr]
  refine ⟨?_, ?_, ?_⟩
  · simp only [pathToCurve, h1]; exact hloop
  · simp only [pathToCurve, h2]; exact hloop
  · simp only [pathToCurve, h3]; exact hloop

theorem curveLoop_straight (m : MathFns) (fuel : ℕ) (a b c d e f : ℚ) :
    curveLoop m fuel ⟨⟨0, 0, 0, 0, 0, 0, none, none⟩, none, none, 0⟩
      [⟨'M', [a, b]⟩, ⟨'L', [c, d]⟩, ⟨'H', [e]⟩, ⟨'V', [f]⟩, ⟨'Z', []⟩] =
    some [⟨'M', [a, b]⟩, ⟨'C', [a, b, c, d, c, d]⟩, ⟨'C', [c, d, e, d, e, d]⟩,
      ⟨'C', [e, d, e, f, e, f]⟩, ⟨'C', [e, f, a, b, a, b]⟩] := by
  simp [curveLoop, curveStep, processPath, updateAttrs, secondLast, lastArg, curveChunks,
    lineToCurve, toFloatOr]

/-- C13. From the current point `(d.x, d.y)`, `processPath` lowers `L x y` to
`['C', d.x, d.y, x, y, x, y]`, `H x` to `['C', d.x, d.y, x, d.y, x, d.y]`, `V y` to
`['C', d.x, d.y, d.x, y, d.x, y]` and `Z` to `['C', d.x, d.y, d.X, d.Y, d.X, d.Y]`,
`(d.X, d.Y)` being the point of the last MoveTo; accordingly the path
`M a b L c d H e V f Z` becomes `M a b`, `C a b c d c d`, `C c d e d e d`,
`C e d e f e f`, `C e f a b a b`, and `'M0,0L100,100'` becomes
`[['M', 0, 0], ['C', 0, 0, 100, 100, 100, 100]]`. -/
theorem straight_commands_to_cubic (m : MathFns) (fuel : ℕ) (d : Attrs)
    (pathCommand : Option Char) (x y a b c e f g : ℚ) :
    (processPath m fuel ⟨'L', [x, y]⟩ d pathCommand).map (·.1) =
      some ⟨'C', [d.x, d.y, x, y, x, y]⟩ ∧
    (processPath m fuel ⟨'H', [x]⟩ d pathCommand).map (·.1) =
      some ⟨'C', [d.x, d.y, x, d.y, x, d.y]⟩ ∧
    (processPath m fuel ⟨'V', [y]⟩ d pathCommand).map (·.1) =
      some ⟨'C', [d.x, d.y, d.x, y, d.x, y]⟩ ∧
    (processPath m fuel ⟨'Z', []⟩ d pathCommand).map (·.1) =
      some ⟨'C', [d.x, d.y, d.X, d.Y, d.X, d.Y]⟩ ∧
    pathToCurve m fuel (.segs [⟨'M', [a, b]⟩, ⟨'L', [c, e]⟩, ⟨'H', [f]⟩, ⟨'V', [g]⟩, ⟨'Z', []⟩]) =
      some [⟨'M', [a, b]⟩, ⟨'C', [a, b, c, e, c, e]⟩, ⟨'C', [c, e, f, e, f, e]⟩,
        ⟨'C', [f, e, f, g, f, g]⟩, ⟨'C', [f, g, a, b, a, b]⟩] ∧
    pathToCurve m fuel (.str "M0,0L100,100") =
      some [⟨'M', [0, 0]⟩, ⟨'C', [0, 0, 100, 100, 100, 100]⟩] := by
  have habs : pathToAbsolute (.segs [⟨'M', [a, b]⟩, ⟨'L', [c, e]⟩, ⟨'H', [f]⟩, ⟨'V', [g]⟩,
      ⟨'Z', []⟩]) = some [⟨'M', [a, b]⟩, ⟨'L', [c, e]⟩, ⟨'H', [f]⟩, ⟨'V', [g]⟩, ⟨'Z', []⟩] := by
    simp [pathToAbsolute, absLoop, absStep, secondLast, lastArg]
  have hdiag : pathToAbsolute (.str "M0,0L100,100") =
      some [⟨'M', [0, 0]⟩, ⟨'L', [100, 100]⟩] := by decide!
  have hline : curveLoop m fuel ⟨⟨0, 0, 0, 0, 0, 0, none, none⟩, none, none, 0⟩
      [⟨'M', [0, 0]⟩, ⟨'L', [100, 100]⟩] =
      some [⟨'M', [0, 0]⟩, ⟨'C', [0, 0, 100, 100, 100, 100]⟩] := by
    simp [curveLoop, curveStep, processPath, updateAttrs, secondLast, lastArg, curveChunks,
      lineToCurve, toFloatOr]
  refine ⟨?_, ?_, ?_, ?_, ?_, ?_⟩
  · simp [processPath, lineToCurve]
  · simp [processPath, lineToCurve]
  · simp [processPath, lineToCurve]
  · simp [processPath, lineToCurve]
  · simp only [pathToCurve, habs]; exact curveLoop_straight m fuel a b c e f g
  · simp only [pathToCurve, hdiag]; exact hline

/-- C15. The cubic that `processPath` produces for `Q ax ay x2 y2` at the current
point `(d.x, d.y)` has the control points of `qubicToCurve`, and this cubic
evaluates at every parameter `t` to the point of the quadratic Bezier curve
`(d.x, d.y)`, `(ax, ay)`, `(x2, y2)`; so does `findDotsAtSegment`, up to its
`fixError` rounding. -/
theorem qubicToCurve_same_curve (m : MathFns) (fuel : ℕ) (d : Attrs)
    (pathCommand : Option Char) (x1 y1 ax ay x2 y2 t : ℚ) :
    (processPath m fuel ⟨'Q', [ax, ay, x2, y2]⟩ d pathCommand).map (·.1) =
      some ⟨'C', qubicToCurve d.x d.y ax ay x2 y2⟩ ∧
    (∃ c1x c1y c2x c2y, qubicToCurve x1 y1 ax ay x2 y2 = [c1x, c1y, c2x, c2y, x2, y2] ∧
      cubicBezier x1 c1x c2x x2 t = quadraticBezier x1 ax x2 t ∧
      cubicBezier y1 c1y c2y y2 t = quadraticBezier y1 ay y2 t ∧
      findDotsAtSegment x1 y1 c1x c1y c2x c2y x2 y2 t =
        (fixError (quadraticBezier x1 ax x2 t), fixError (quadraticBezier y1 ay y2 t))) := by
  refine ⟨by simp [processPath], _, _, _, _, rfl, ?_, ?_, ?_⟩
  · simp only [cubicBezier, quadraticBezier]; ring
  · simp only [cubicBezier, quadraticBezier]; ring
  · simp only [findDotsAtSegment, quadraticBezier]
    congr 2 <;> ring

/-- C16. A cubic `C 10 10 0 5 20 20` followed by `S 30 30 40 40`: the second
control point is `(0, 5)` and the end point `(20, 20)`, so the reflection is
`(40, 35)`, but `pathToCurve` gives the cubic for `S` the first control point
`(20, 35)`: the zero coordinate `c2x = 0` is replaced by the end point's `x`
in `attrs.bx`. -/
theorem smooth_cubic_zero_control_point (m : MathFns) (fuel : ℕ) :
    pathToCurve m fuel (.segs [⟨'M', [0, 0]⟩, ⟨'C', [10, 10, 0, 5, 20, 20]⟩,
      ⟨'S', [30, 30, 40, 40]⟩]) =
    some [⟨'M', [0, 0]⟩, ⟨'C', [10, 10, 0, 5, 20, 20]⟩, ⟨'C', [20, 35, 30, 30, 40, 40]⟩] ∧
    (2 * 20 - 0 : ℚ) = 40 ∧ (2 * 20 - 5 : ℚ) = 35 := by
  have habs : pathToAbsolute (.segs [⟨'M', [0, 0]⟩, ⟨'C', [10, 10, 0, 5, 20, 20]⟩,
      ⟨'S', [30, 30, 40, 40]⟩]) = some [⟨'M', [0, 0]⟩, ⟨'C', [10, 10, 0, 5, 20, 20]⟩,
      ⟨'S', [30, 30, 40, 40]⟩] := by decide!
  refine ⟨?_, by norm_num, by norm_num⟩
  simp only [pathToCurve, habs]
  simp [curveLoop, curveStep, processPath, updateAttrs, secondLast, lastArg, curveChunks,
    toFloatOr]
  norm_num

/-- With a second control point whose coordinates are not 0, the cubic produced
for `S` starts with the reflection `(2 * px - c2x, 2 * py - c2y)`. -/
theorem smooth_cubic_reflection (m : MathFns) (fuel : ℕ)
    (x0 y0 c1x c1y c2x c2y px py sx sy ex ey : ℚ) (hx : c2x ≠ 0) (hy : c2y ≠ 0) :
    pathToCurve m fuel (.segs [⟨'M', [x0, y0]⟩, ⟨'C', [c1x, c1y, c2x, c2y, px, py]⟩,
      ⟨'S', [sx, sy, ex, ey]⟩]) =
    some [⟨'M', [x0, y0]⟩, ⟨'C', [c1x, c1y, c2x, c2y, px, py]⟩,
      ⟨'C', [px * 2 - c2x, py * 2 - c2y, sx, sy, ex, ey]⟩] := by
  have habs : pathToAbsolute (.segs [⟨'M', [x0, y0]⟩, ⟨'C', [c1x, c1y, c2x, c2y, px, py]⟩,
      ⟨'S', [sx, sy, ex, ey]⟩]) = some [⟨'M', [x0, y0]⟩, ⟨'C', [c1x, c1y, c2x, c2y, px, py]⟩,
      ⟨'S', [sx, sy, ex, ey]⟩] := by
    simp [pathToAbsolute, absLoop, absStep, secondLast, lastArg]
  simp only [pathToCurve, habs]
  simp [curveLoop, curveStep, processPath, updateAttrs, secondLast, lastArg, curveChunks,
    toFloatOr, hx, hy]

/-- C14. For every list of well-formed components `pathToAbsolute` returns a
path with upper-case commands only, and for a relative (lower-case) well-formed
component at current point `(x, y)` an iteration of its loop produces the
absolute counterpart (current point added to every coordinate pair of m, l, c,
s, q, t, `x` to the argument of h, `y` to that of v, the end point only for a)
and continues as it does for that counterpart. -/
theorem pathToAbsolute_relative (path : List Segment)
    (h : ∀ s ∈ path, wellFormedSegment s = true) :
    (∃ r, pathToAbsolute (.segs path) = some r ∧
      ∀ s ∈ r, s.cmd ∈ ['M', 'L', 'H', 'V', 'C', 'S', 'Q', 'T', 'A', 'Z']) ∧
    (∀ s ∈ path, s.cmd ∈ ['m', 'l', 'h', 'v', 'c', 's', 'q', 't', 'a', 'z'] →
      ∀ st : AbsState,
        (absStep st s).map (·.1) = some (absoluteCounterpart st.x st.y s) ∧
        absStep st s = absStep st (absoluteCounterpart st.x st.y s)) := by
  constructor
  · obtain ⟨r, hr, hall⟩ := pathToAbsolute_wellFormed path h
    refine ⟨r, hr, ?_⟩
    intro s hs
    have := hall s hs
    obtain ⟨c, args⟩ := s
    simp only [absoluteSegment, List.mem_cons, Prod.mk.injEq, decide_eq_true_eq,
      List.mem_singleton] at this
    simp only [List.not_mem_nil, or_false] at this
    simp only [List.mem_cons, List.mem_singleton]
    simp only [List.not_mem_nil, or_false]
    tauto
  · intro s hs hlow st
    have hw := h s hs
    obtain ⟨c, args⟩ := s
    simp only [wellFormedSegment, List.mem_cons, Prod.mk.injEq, decide_eq_true_eq,
      List.mem_singleton] at hw
    simp only [List.not_mem_nil, or_false] at hw
    simp only [List.mem_cons, List.mem_singleton] at hlow
    simp only [List.not_mem_nil, or_false] at hlow
    rcases args with _ | ⟨a1, _ | ⟨a2, _ | ⟨a3, _ | ⟨a4, _ | ⟨a5, _ | ⟨a6, _ | ⟨a7, _ | ⟨a8, t⟩⟩⟩⟩⟩⟩⟩⟩
    all_goals simp at hw
    all_goals repeat' rcases hw with hw | hw
    all_goals first
      | (simp at hlow; done)
      | simp [absStep, shiftArgs, secondLast, lastArg, absoluteCounterpart, addToPairs]

theorem pathToAbsolute_relative_witness :
    (absStep ⟨5, 7, 0, 0⟩ ⟨'c', [1, 2, 3, 4, 5, 6]⟩).map (·.1) =
      some (absoluteCounterpart 5 7 ⟨'c', [1, 2, 3, 4, 5, 6]⟩) :=
  ((pathToAbsolute_relative [⟨'M', [5, 7]⟩, ⟨'c', [1, 2, 3, 4, 5, 6]⟩] (by decide)).2
    ⟨'c', [1, 2, 3, 4, 5, 6]⟩ (by simp) (by simp) ⟨5, 7, 0, 0⟩).1

theorem paramCounts_lower (b : Char) (count : ℕ) (h : paramCounts b = some count) :
    (b, count) ∈ [('m', 2), ('l', 2), ('h', 1), ('v', 1), ('c', 6), ('s', 4), ('q', 4),
      ('t', 2), ('a', 7), ('z', 0)] := by
  unfold paramCounts at h
  by_cases e1 : b = 'a'
  · subst e1; rw [if_pos rfl] at h; cases h; decide
  rw [if_neg e1] at h
  by_cases e2 : b = 'c'
  · subst e2; rw [if_pos rfl] at h; cases h; decide
  rw [if_neg e2] at h
  by_cases e3 : b = 'h'
  · subst e3; rw [if_pos rfl] at h; cases h; decide
  rw [if_neg e3] at h
  by_cases e4 : b = 'l'
  · subst e4; rw [if_pos rfl] at h; cases h; decide
  rw [if_neg e4] at h
  by_cases e5 : b = 'm'
  · subst e5; rw [if_pos rfl] at h; cases h; decide
  rw [if_neg e5] at h
  by_cases e6 : b = 'q'
  · subst e6; rw [if_pos rfl] at h; cases h; decide
  rw [if_neg e6] at h
  by_cases e7 : b = 's'
  · subst e7; rw [if_pos rfl] at h; cases h; decide
  rw [if_neg e7] at h
  by_cases e8 : b = 't'
  · subst e8; rw [if_pos rfl] at h; cases h; decide
  rw [if_neg e8] at h
  by_cases e9 : b = 'v'
  · subst e9; rw [if_pos rfl] at h; cases h; decide
  rw [if_neg e9] at h
  by_cases e10 : b = 'z'
  · subst e10; rw [if_pos rfl] at h; cases h; decide
  rw [if_neg e10] at h
  cases h

theorem toLower_cases (c : Char) : c.toLower = c ∨ (65 ≤ c.toNat ∧ c.toNat ≤ 90) := by
  by_cases h : c.toNat ≥ 65 ∧ c.toNat ≤ 90
  · right; exact h
  · left; simp [Char.toLower, h]

theorem upper_cases (c : Char) (h1 : 65 ≤ c.toNat) (h2 : c.toNat ≤ 90) :
    c ∈ ['A', 'B', 'C', 'D', 'E', 'F', 'G', 'H', 'I', 'J', 'K', 'L', 'M', 'N', 'O', 'P', 'Q',
      'R', 'S', 'T', 'U', 'V', 'W', 'X', 'Y', 'Z'] := by
  have hc : c = Char.ofNat c.toNat := (Char.ofNat_toNat c).symm
  generalize c.toNat = n at *
  subst hc
  interval_cases n <;> decide

theorem paramCounts_upper : ∀ c ∈ ['A', 'B', 'C', 'D', 'E', 'F', 'G', 'H', 'I', 'J', 'K', 'L',
      'M', 'N', 'O', 'P', 'Q', 'R', 'S', 'T', 'U', 'V', 'W', 'X', 'Y', 'Z'],
    (paramCounts c.toLower).all (fun n => decide ((c, n) ∈ [('M', 2), ('L', 2), ('H', 1),
      ('V', 1), ('C', 6), ('S', 4), ('Q', 4), ('T', 2), ('A', 7), ('Z', 0)]) &&
      decide (c.toLower = 'm' → c = 'M')) = true := by decide

theorem lower_table_sub : ∀ p ∈ [('m', 2), ('l', 2), ('h', 1), ('v', 1), ('c', 6), ('s', 4),
      ('q', 4), ('t', 2), ('a', 7), ('z', 0)],
    p ∈ [('M', 2), ('m', 2), ('L', 2), ('l', 2), ('H', 1), ('h', 1),
    ('V', 1), ('v', 1), ('C', 6), ('c', 6), ('S', 4), ('s', 4), ('Q', 4), ('q', 4),
    ('T', 2), ('t', 2), ('A', 7), ('a', 7), ('Z', 0), ('z', 0)] := by decide

theorem upper_table_sub : ∀ p ∈ [('M', 2), ('L', 2), ('H', 1),
      ('V', 1), ('C', 6), ('S', 4), ('Q', 4), ('T', 2), ('A', 7), ('Z', 0)],
    p ∈ [('M', 2), ('m', 2), ('L', 2), ('l', 2), ('H', 1), ('h', 1),
    ('V', 1), ('v', 1), ('C', 6), ('c', 6), ('S', 4), ('s', 4), ('Q', 4), ('q', 4),
    ('T', 2), ('t', 2), ('A', 7), ('a', 7), ('Z', 0), ('z', 0)] := by decide

theorem paramCounts_wellFormed (b : Char) (count : ℕ) (h : paramCounts b.toLower = some count)
    (args : List ℚ) (hl : args.length = count) :
    wellFormedSegment ⟨b, args⟩ = true ∧ (b.toLower = 'm' → b = 'm' ∨ b = 'M') := by
  rcases toLower_cases b with h1 | ⟨h1, h2⟩
  · rw [h1] at h ⊢
    refine ⟨?_, fun h5 => Or.inl h5⟩
    have h3 := paramCounts_lower b count h
    simp only [wellFormedSegment, hl, decide_eq_true_eq]
    exact lower_table_sub _ h3
  · have := paramCounts_upper b (upper_cases b h1 h2)
    rw [h] at this
    simp only [Option.all_some, Bool.and_eq_true, decide_eq_true_eq] at this
    obtain ⟨h3, h4⟩ := this
    refine ⟨?_, fun h5 => Or.inr (h4 h5)⟩
    simp only [wellFormedSegment, hl, decide_eq_true_eq]
    exact upper_table_sub _ h3

theorem splitParams_mem (b : Char) (count : ℕ) : ∀ (fuel : ℕ) (params : List ℚ),
    ∀ s ∈ splitParams b count fuel params, s.cmd = b ∧ s.args.length = count := by
  intro fuel
  induction fuel with
  | zero => intro params s hs; simp [splitParams] at hs
  | succ n ih =>
    intro params s hs
    simp only [splitParams] at hs
    split_ifs at hs with h1 h2
    · simp only [List.mem_singleton] at hs
      subst hs
      simp [h2]
    · rcases List.mem_cons.mp hs with rfl | hs
      · simp [h1]
      · exact ih _ s hs
    · simp at hs

theorem commandSegments_wellFormed (b : Char) (params : List ℚ) :
    ∀ s ∈ commandSegments b params, wellFormedSegment s = true := by
  intro s hs
  by_cases h1 : b.toLower = 'm' ∧ 2 < params.length
  · obtain ⟨hm, hlen⟩ := h1
    have hpc : paramCounts b.toLower = some 2 := by rw [hm]; rfl
    have hb := (paramCounts_wellFormed b 2 hpc [0, 0] rfl).2 hm
    have hl : paramCounts 'l' = some 2 := rfl
    simp only [commandSegments, hm, hlen, and_self, if_true, hl] at hs
    rcases List.mem_append.mp hs with hs | hs
    · simp only [List.mem_singleton] at hs
      subst hs
      have : (params.take 2).length = 2 := by simp; omega
      rcases hb with rfl | rfl <;> simp [wellFormedSegment, this]
    · obtain ⟨hc, hl2⟩ := splitParams_mem _ _ _ _ s hs
      obtain ⟨c, args⟩ := s
      simp only at hc hl2
      rcases hb with rfl | rfl <;> simp at hc <;> subst hc <;> simp [wellFormedSegment, hl2]
  · simp only [commandSegments, h1, if_false] at hs
    rcases hpc : paramCounts b.toLower with _ | count
    · simp [hpc] at hs
    · simp only [hpc, List.nil_append] at hs
      obtain ⟨hc, hl2⟩ := splitParams_mem _ _ _ _ s hs
      obtain ⟨c, args⟩ := s
      simp only at hc hl2
      subst hc
      exact (paramCounts_wellFormed c count hpc args hl2).1

theorem parseCommands_wellFormed : ∀ (fuel : ℕ) (s : List Char) (segs : List Segment),
    parseCommands fuel s = some segs → ∀ seg ∈ segs, wellFormedSegment seg = true := by
  intro fuel
  induction fuel with
  | zero =>
    intro s segs h seg hseg
    simp [parseCommands] at h
    subst h
    simp at hseg
  | succ n ih =>
    intro s segs h seg hseg
    cases s with
    | nil =>
      simp [parseCommands] at h
      subst h
      simp at hseg
    | cons c r =>
      simp only [parseCommands] at h
      split_ifs at h with hc
      · simp only [Option.bind_eq_bind, Option.bind_eq_some, Option.some.injEq] at h
        obtain ⟨params, -, more, hmore, rfl⟩ := h
        rcases List.mem_append.mp hseg with hs | hs
        · exact commandSegments_wellFormed c params seg hs
        · exact ih _ more hmore seg hs
      · exact ih r segs h seg hseg

theorem pathToAbsolute_str (s : String) (segs : List Segment) (hne : s.data.isEmpty = false)
    (h : parseCommands (s.data.length + 1) s.data = some segs) :
    pathToAbsolute (.str s) = pathToAbsolute (.segs segs) := by
  have h1 : parseCommands (s.length + 1) s.data = some segs := h
  cases segs <;> simp [pathToAbsolute, parsePathString, h1, hne]

theorem pathToAbsolute_input (path : PathSpec) (h : wellFormedInput path = true) :
    ∃ r, pathToAbsolute path = some r ∧ ∀ s ∈ r, absoluteSegment s = true := by
  cases path with
  | undefined => exact ⟨[⟨'M', [0, 0]⟩], rfl, by simp [absoluteSegment]⟩
  | str s =>
    by_cases hne : s.data.isEmpty = true
    · exact ⟨[⟨'M', [0, 0]⟩], by simp [pathToAbsolute, parsePathString, hne],
        by simp [absoluteSegment]⟩
    · simp only [Bool.not_eq_true] at hne
      simp only [wellFormedInput, parsePathString, hne, Bool.false_eq_true, if_false,
        Option.isSome_map'] at h
      obtain ⟨segs, hsegs⟩ := Option.isSome_iff_exists.mp h
      rw [pathToAbsolute_str s segs hne hsegs]
      exact pathToAbsolute_wellFormed segs (parseCommands_wellFormed _ _ segs hsegs)
  | segs l =>
    simp only [wellFormedInput, List.all_eq_true] at h
    exact pathToAbsolute_wellFormed l h

/-- C12, counterexample. A component with the unknown command `X`, and a `C`
component with three arguments, pass through `pathToCurve` unchanged: the result
is returned but holds a component that is neither a MoveTo nor a CubicTo. -/
theorem pathToCurve_malformed_counterexample :
    pathToCurve ratMath 3 (.segs [⟨'M', [0, 0]⟩, ⟨'X', [1, 2]⟩]) =
      some [⟨'M', [0, 0]⟩, ⟨'X', [1, 2]⟩] ∧
    canonicalSegment ⟨'X', [1, 2]⟩ = false ∧
    pathToCurve ratMath 3 (.segs [⟨'M', [0, 0]⟩, ⟨'C', [1, 2, 3]⟩]) =
      some [⟨'M', [0, 0]⟩, ⟨'C', [1, 2, 3]⟩] ∧
    canonicalSegment ⟨'C', [1, 2, 3]⟩ = false := by
  decide!

/-- C12, amended. For the input `undefined`, for every string all of whose number
tokens are numbers, and for every list of well-formed components (a leading
MoveTo is not required), `pathToCurve` returns a path and every component of it is
a MoveTo `['M', x, y]` or a CubicTo with six coordinates; `Math` functions with
`PI > 0` and `asin` ranging in `[-PI/2, PI/2]`, fuel 3 for the arc recursion. -/
theorem pathToCurve_wellFormedInput (m : MathFns) (hPI : 0 < m.PI)
    (hasin : ∀ q, -(m.PI / 2) ≤ m.asin q ∧ m.asin q ≤ m.PI / 2) (fuel : ℕ) (hfuel : 3 ≤ fuel)
    (path : PathSpec) (h : wellFormedInput path = true) :
    ∃ r, pathToCurve m fuel path = some r ∧ ∀ s ∈ r, canonicalSegment s = true := by
  obtain ⟨ab, hab, hall⟩ := pathToAbsolute_input path h
  obtain ⟨r, hr, hcan⟩ := curveLoop_canonical m hPI hasin fuel hfuel ab hall
    ⟨⟨0, 0, 0, 0, 0, 0, none, none⟩, none, none, 0⟩
  exact ⟨r, by simp [pathToCurve, hab, hr], hcan⟩

theorem pathToCurve_wellFormedInput_witness :
    wellFormedInput (.str "L10,10x3h5z") = true ∧
    ∃ r, pathToCurve ratMath 3 (.str "L10,10x3h5z") = some r ∧
      ∀ s ∈ r, canonicalSegment s = true :=
  ⟨by decide!, pathToCurve_wellFormedInput ratMath (by norm_num [ratMath]) ratMath_asin_range 3
    (le_refl 3) _ (by decide!)⟩

theorem pathToCurve_single_move (m : MathFns) (fuel : ℕ) (x y : ℚ) :
    pathToCurve m fuel (.segs [⟨'M', [x, y]⟩]) = some [⟨'M', [x, y]⟩] := by
  simp [pathToCurve, pathToAbsolute, absLoop, curveLoop, curveStep, processPath, updateAttrs,
    secondLast, lastArg, curveChunks, toFloatOr]

theorem outerLoop_single_move (m : MathFns) (justCount : Bool) (x y : ℚ) (path1 : List Segment)
    (h : ∀ s ∈ path1, canonicalSegment s = true) :
    ∀ (i : ℕ) (a b am bm : ℚ) (c2 : Cursor) (res : PathResult),
      outerLoop m justCount [⟨'M', [x, y]⟩] i ⟨some a, some b, some am, some bm⟩ c2 path1 res =
        some res := by
  induction path1 with
  | nil => intro i a b am bm c2 res; rfl
  | cons seg rest ih =>
    intro i a b am bm c2 res
    have hseg := h seg (List.mem_cons_self _ _)
    have hrest := ih (fun s hs => h s (List.mem_cons_of_mem _ hs))
    obtain ⟨c, args⟩ := seg
    simp only [canonicalSegment, List.mem_cons, Prod.mk.injEq, List.mem_singleton,
      List.not_mem_nil, or_false, decide_eq_true_eq] at hseg
    rcases hseg with ⟨rfl, hl⟩ | ⟨rfl, hl⟩
    · rcases args with _ | ⟨a1, _ | ⟨a2, _ | ⟨a3, t⟩⟩⟩ <;> simp at hl
      simp [outerLoop, hrest]
    · rcases args with _ | ⟨a1, _ | ⟨a2, _ | ⟨a3, _ | ⟨a4, _ | ⟨a5, _ | ⟨a6, _ | ⟨a7, t⟩⟩⟩⟩⟩⟩⟩ <;>
        simp at hl
      simp [outerLoop, segmentBez, innerLoop, hrest]

/-- C20. A path that is a single MoveTo intersects nothing.  For every point
`(x, y)` and every path `P` that `pathToCurve` normalises to `r`,
`findPathIntersections([['M', x, y]], P)` returns the empty list, and 0 in
counting mode; so does `findPathIntersections(P, [['M', x, y]])` when `r` is
canonical and starts with a MoveTo, as it does for well-formed `P` that starts
with a move. -/
theorem findPathIntersections_single_move (m : MathFns) (fuel : ℕ) (x y : ℚ) (P : PathSpec)
    (r : List Segment) (justCount : Bool) (hr : pathToCurve m fuel P = some r) :
    findPathIntersections m fuel (.segs [⟨'M', [x, y]⟩]) P justCount =
      some (if justCount then .count 0 else .list []) ∧
    ((∀ s ∈ r, canonicalSegment s = true) → (∃ a b rest, r = ⟨'M', [a, b]⟩ :: rest) →
      findPathIntersections m fuel P (.segs [⟨'M', [x, y]⟩]) justCount =
        some (if justCount then .count 0 else .list [])) := by
  constructor
  · simp [findPathIntersections, pathToCurve_single_move, hr, outerLoop]
  · rintro hcan ⟨a, b, rest, rfl⟩
    have hrest := outerLoop_single_move m justCount x y rest
      (fun s hs => hcan s (List.mem_cons_of_mem _ hs))
    simp [findPathIntersections, pathToCurve_single_move, hr, outerLoop, hrest]

theorem findPathIntersections_single_move_witness :
    findPathIntersections ratMath 3 (.segs [⟨'M', [5, 5]⟩]) (.str "M0,0L10,10") false =
      some (.list []) ∧
    findPathIntersections ratMath 3 (.str "M0,0L10,10") (.segs [⟨'M', [5, 5]⟩]) false =
      some (.list []) :=
  have h := findPathIntersections_single_move ratMath 3 5 5 (.str "M0,0L10,10")
    [⟨'M', [0, 0]⟩, ⟨'C', [0, 0, 10, 10, 10, 10]⟩] false (by decide!)
  ⟨h.1, h.2 (by decide) ⟨0, 0, _, rfl⟩⟩

theorem foldl_invariant {α β : Type} (P : α → Prop) (f : α → β → α)
    (hf : ∀ a b, P a → P (f a b)) : ∀ (l : List β) (a : α), P a → P (l.foldl f a) := by
  intro l
  induction l with
  | nil => intro a ha; exact ha
  | cons b rest ih => intro a ha; exact ih _ (hf a b ha)

theorem pairStep_list (justCount : Bool) (di di1 dj dj1 : Dot)
    (st : List ((Bool × ℤ) × (Bool × ℤ)) × BezResult) (h : ∃ l, st.2 = .list l) :
    ∃ l, (pairStep justCount di di1 dj dj1 st).2 = .list l := by
  obtain ⟨l, hl⟩ := h
  unfold pairStep
  generalize intersectLines di.x di.y di1.x di1.y dj.x dj.y dj1.x dj1.y = o
  cases o with
  | none => exact ⟨l, hl⟩
  | some is =>
    simp only
    by_cases hk : (toFixedKey is.1 9, toFixedKey is.2 9) ∈ st.1
    · rw [if_pos hk]
      exact ⟨l, hl⟩
    · rw [if_neg hk]
      generalize paramAt (decide (|di1.x - di.x| < 1 / 100)) is di di1 = p1
      generalize paramAt (decide (|dj1.x - dj.x| < 1 / 100)) is dj dj1 = p2
      cases p1 with
      | none => exact ⟨l, hl⟩
      | some t1 =>
        cases p2 with
        | none => exact ⟨l, hl⟩
        | some t2 =>
          simp only
          by_cases ht : t1 ≥ 0 ∧ t1 ≤ 1 ∧ t2 ≥ 0 ∧ t2 ≤ 1
          · rw [if_pos ht, hl]
            cases justCount <;> simp
          · rw [if_neg ht]
            exact ⟨l, hl⟩

theorem polylineIntersections_list (dots1 dots2 : List Dot) (n1 n2 : ℤ) :
    ∃ l, polylineIntersections false dots1 dots2 n1 n2 = .list l := by
  unfold polylineIntersections
  refine foldl_invariant
    (fun (st : List ((Bool × ℤ) × (Bool × ℤ)) × BezResult) => ∃ l, st.2 = BezResult.list l)
    _ ?_ _ _ ⟨[], rfl⟩
  intro st p1 hst
  refine foldl_invariant
    (fun (st : List ((Bool × ℤ) × (Bool × ℤ)) × BezResult) => ∃ l, st.2 = BezResult.list l)
    _ ?_ _ _ hst
  intro st p2 hst
  exact pairStep_list _ _ _ _ _ st hst

theorem findBezierIntersections_list (m : MathFns) (bez1 bez2 : Bez) :
    ∃ l, findBezierIntersections m bez1 bez2 false = .list l := by
  unfold findBezierIntersections
  simp only [Bool.false_eq_true, if_false]
  split_ifs
  · exact ⟨[], rfl⟩
  · exact polylineIntersections_list _ _ _ _

theorem segmentBez_defined (c : Cursor) (hc : c.defined = true) (p : Segment)
    (hp : canonicalSegment p = true) (hM : p.cmd ≠ 'M') :
    ∃ bez c1, segmentBez c p = some (bez, c1) ∧ c1.defined = true := by
  obtain ⟨x, y, xm, ym⟩ := c
  obtain ⟨cmd, args⟩ := p
  simp only [Cursor.defined, Bool.and_eq_true, Option.isSome_iff_exists] at hc
  obtain ⟨⟨⟨⟨x, rfl⟩, ⟨y, rfl⟩⟩, ⟨xm, rfl⟩⟩, ⟨ym, rfl⟩⟩ := hc
  simp only [canonicalSegment, List.mem_cons, Prod.mk.injEq, List.mem_singleton,
    List.not_mem_nil, or_false, decide_eq_true_eq] at hp
  rcases hp with ⟨rfl, hl⟩ | ⟨rfl, hl⟩
  · exact absurd rfl hM
  · rcases args with _ | ⟨a1, _ | ⟨a2, _ | ⟨a3, _ | ⟨a4, _ | ⟨a5, _ | ⟨a6, _ | ⟨a7, t⟩⟩⟩⟩⟩⟩⟩ <;>
      simp at hl
    simp only [segmentBez, Cursor.defined]
    exact ⟨_, _, rfl, rfl⟩

theorem innerLoop_sorted (m : MathFns) (i : ℕ) (bez1 : Bez) (r1 r2 : List Segment)
    (hi : ∃ s, r1[i]? = some s ∧ s.cmd = 'C') :
    ∀ (suffix : List Segment) (j : ℕ) (c : Cursor) (l : List Intersection),
      r2.drop j = suffix → (∀ s ∈ suffix, canonicalSegment s = true) →
      (c.defined = true ∨ ∃ a b rest, suffix = ⟨'M', [a, b]⟩ :: rest) →
      (∀ h ∈ l, (∃ s, r1[h.segment1]? = some s ∧ s.cmd = 'C') ∧
        (∃ s, r2[h.segment2]? = some s ∧ s.cmd = 'C') ∧
        (h.segment1 < i ∨ (h.segment1 = i ∧ h.segment2 < j))) →
      l.Pairwise (fun a b => a.segment1 < b.segment1 ∨
        (a.segment1 = b.segment1 ∧ a.segment2 ≤ b.segment2)) →
      ∃ c1 l1, innerLoop m false i bez1 j c suffix (.list l) = some (c1, .list l1) ∧
        c1.defined = true ∧
        (∀ h ∈ l1, (∃ s, r1[h.segment1]? = some s ∧ s.cmd = 'C') ∧
          (∃ s, r2[h.segment2]? = some s ∧ s.cmd = 'C') ∧ h.segment1 < i + 1) ∧
        l1.Pairwise (fun a b => a.segment1 < b.segment1 ∨
          (a.segment1 = b.segment1 ∧ a.segment2 ≤ b.segment2)) := by
  intro suffix
  induction suffix with
  | nil =>
    intro j c l _ _ hc hl hp
    rcases hc with hc | ⟨a, b, rest, h⟩
    · refine ⟨c, l, rfl, hc, ?_, hp⟩
      intro h hh
      obtain ⟨h1, h2, h3⟩ := hl h hh
      exact ⟨h1, h2, by omega⟩
    · simp at h
  | cons pj rest ih =>
    intro j c l hdrop hcan hc hl hp
    have hj : r2[j]? = some pj := by
      have := @List.getElem?_drop _ r2 j 0
      rw [hdrop] at this
      simpa using this.symm
    have hdrop1 : r2.drop (j + 1) = rest := by
      rw [← List.tail_drop, hdrop]
      rfl
    have hcanj := hcan pj (List.mem_cons_self _ _)
    have hcanr : ∀ s ∈ rest, canonicalSegment s = true :=
      fun s hs => hcan s (List.mem_cons_of_mem _ hs)
    by_cases hM : pj.cmd = 'M'
    · obtain ⟨cmd, args⟩ := pj
      simp only at hM
      subst hM
      simp only [canonicalSegment, List.mem_cons, Prod.mk.injEq, List.mem_singleton,
        List.not_mem_nil, or_false, decide_eq_true_eq] at hcanj
      rcases hcanj with ⟨-, hlen⟩ | ⟨hcm, -⟩
      · rcases args with _ | ⟨a1, _ | ⟨a2, _ | ⟨a3, t⟩⟩⟩ <;> simp at hlen
        obtain ⟨c1, l1, hloop, hrest⟩ := ih (j + 1) ⟨some a1, some a2, some a1, some a2⟩ l hdrop1
          hcanr (Or.inl rfl)
          (fun h hh => by
            obtain ⟨h1, h2, h3⟩ := hl h hh
            exact ⟨h1, h2, by omega⟩) hp
        exact ⟨c1, l1, by simp [innerLoop, hloop], hrest⟩
      · simp at hcm
    · have hcd : c.defined = true := by
        rcases hc with hc | ⟨a, b, rest1, h⟩
        · exact hc
        · simp only [List.cons.injEq] at h
          exact absurd (by rw [h.1]) hM
      obtain ⟨bez2, c2, hseg, hc2⟩ := segmentBez_defined c hcd pj hcanj hM
      obtain ⟨hits, hhits⟩ := findBezierIntersections_list m bez1 bez2
      have hC : pj.cmd = 'C' := by
        obtain ⟨cmd, args⟩ := pj
        simp only [canonicalSegment, List.mem_cons, Prod.mk.injEq, List.mem_singleton,
          List.not_mem_nil, or_false, decide_eq_true_eq] at hcanj
        rcases hcanj with ⟨h, -⟩ | ⟨h, -⟩
        · exact absurd h hM
        · exact h
      obtain ⟨c1, l1, hloop, hrest⟩ := ih (j + 1) c2
        (l ++ hits.map fun h => ⟨h.x, h.y, h.t1, h.t2, i, j, bez1, bez2⟩) hdrop1 hcanr
        (Or.inl hc2)
        (fun h hh => by
          rcases List.mem_append.mp hh with hh | hh
          · obtain ⟨h1, h2, h3⟩ := hl h hh
            exact ⟨h1, h2, by omega⟩
          · obtain ⟨b, -, rfl⟩ := List.mem_map.mp hh
            exact ⟨hi, ⟨pj, hj, hC⟩, Or.inr ⟨rfl, Nat.lt_succ_self _⟩⟩)
        (by
          rw [List.pairwise_append]
          refine ⟨hp, ?_, ?_⟩
          · rw [List.pairwise_map]
            exact List.pairwise_of_forall (fun _ _ => Or.inr ⟨rfl, le_refl _⟩)
          · intro a ha b hb
            obtain ⟨b0, -, rfl⟩ := List.mem_map.mp hb
            obtain ⟨-, -, h3⟩ := hl a ha
            rcases h3 with h3 | ⟨h3, h4⟩
            · exact Or.inl h3
            · exact Or.inr ⟨h3, le_of_lt h4⟩)
      refine ⟨c1, l1, ?_, hrest⟩
      simp [innerLoop, hM, hseg, hhits, addHits, hloop]

theorem outerLoop_sorted (m : MathFns) (r1 r2 : List Segment)
    (hcan2 : ∀ s ∈ r2, canonicalSegment s = true)
    (hM2 : ∃ a b rest, r2 = ⟨'M', [a, b]⟩ :: rest) :
    ∀ (suffix : List Segment) (i : ℕ) (c1 c2 : Cursor) (l : List Intersection),
      r1.drop i = suffix → (∀ s ∈ suffix, canonicalSegment s = true) →
      (c1.defined = true ∨ ∃ a b rest, suffix = ⟨'M', [a, b]⟩ :: rest) →
      (∀ h ∈ l, (∃ s, r1[h.segment1]? = some s ∧ s.cmd = 'C') ∧
        (∃ s, r2[h.segment2]? = some s ∧ s.cmd = 'C') ∧ h.segment1 < i) →
      l.Pairwise (fun a b => a.segment1 < b.segment1 ∨
        (a.segment1 = b.segment1 ∧ a.segment2 ≤ b.segment2)) →
      ∃ l1, outerLoop m false r2 i c1 c2 suffix (.list l) = some (.list l1) ∧
        (∀ h ∈ l1, (∃ s, r1[h.segment1]? = some s ∧ s.cmd = 'C') ∧
          (∃ s, r2[h.segment2]? = some s ∧ s.cmd = 'C')) ∧
        l1.Pairwise (fun a b => a.segment1 < b.segment1 ∨
          (a.segment1 = b.segment1 ∧ a.segment2 ≤ b.segment2)) := by
  intro suffix
  induction suffix with
  | nil =>
    intro i c1 c2 l _ _ _ hl hp
    exact ⟨l, rfl, fun h hh => ⟨(hl h hh).1, (hl h hh).2.1⟩, hp⟩
  | cons pi rest ih =>
    intro i c1 c2 l hdrop hcan hc hl hp
    have hj : r1[i]? = some pi := by
      have := @List.getElem?_drop _ r1 i 0
      rw [hdrop] at this
      simpa using this.symm
    have hdrop1 : r1.drop (i + 1) = rest := by
      rw [← List.tail_drop, hdrop]
      rfl
    have hcani := hcan pi (List.mem_cons_self _ _)
    have hcanr : ∀ s ∈ rest, canonicalSegment s = true :=
      fun s hs => hcan s (List.mem_cons_of_mem _ hs)
    by_cases hM : pi.cmd = 'M'
    · obtain ⟨cmd, args⟩ := pi
      simp only at hM
      subst hM
      simp only [canonicalSegment, List.mem_cons, Prod.mk.injEq, List.mem_singleton,
        List.not_mem_nil, or_false, decide_eq_true_eq] at hcani
      rcases hcani with ⟨-, hlen⟩ | ⟨hcm, -⟩
      · rcases args with _ | ⟨a1, _ | ⟨a2, _ | ⟨a3, t⟩⟩⟩ <;> simp at hlen
        obtain ⟨l1, hloop, hrest⟩ := ih (i + 1) ⟨some a1, some a2, some a1, some a2⟩ c2 l hdrop1
          hcanr (Or.inl rfl)
          (fun h hh => by
            obtain ⟨h1, h2, h3⟩ := hl h hh
            exact ⟨h1, h2, by omega⟩) hp
        exact ⟨l1, by simp [outerLoop, hloop], hrest⟩
      · simp at hcm
    · have hcd : c1.defined = true := by
        rcases hc with hc | ⟨a, b, rest1, h⟩
        · exact hc
        · simp only [List.cons.injEq] at h
          exact absurd (by rw [h.1]) hM
      obtain ⟨bez1, c1n, hseg, hc1n⟩ := segmentBez_defined c1 hcd pi hcani hM
      have hC : pi.cmd = 'C' := by
        obtain ⟨cmd, args⟩ := pi
        simp only [canonicalSegment, List.mem_cons, Prod.mk.injEq, List.mem_singleton,
          List.not_mem_nil, or_false, decide_eq_true_eq] at hcani
        rcases hcani with ⟨h, -⟩ | ⟨h, -⟩
        · exact absurd h hM
        · exact h
      obtain ⟨c2n, l1, hinner, -, hl1, hp1⟩ := innerLoop_sorted m i bez1 r1 r2 ⟨pi, hj, hC⟩ r2 0
        c2 l rfl hcan2 (Or.inr hM2)
        (fun h hh => by
          obtain ⟨h1, h2, h3⟩ := hl h hh
          exact ⟨h1, h2, Or.inl h3⟩) hp
      obtain ⟨l2, hloop, hrest⟩ := ih (i + 1) c1n c2n l1 hdrop1 hcanr (Or.inl hc1n) hl1 hp1
      refine ⟨l2, ?_, hrest⟩
      simp [outerLoop, hM, hseg, hinner, hloop]

/-- C19. When `pathToCurve` normalises the paths `A` and `B` to canonical paths
`r1` and `r2` that start with a MoveTo, `findPathIntersections(A, B)` returns a
list in which every `segment1` is the zero-based index of a `'C'` component of
`r1`, every `segment2` that of a `'C'` component of `r2`, and the pairs
`(segment1, segment2)` are in lexicographically non-decreasing order. -/
theorem findPathIntersections_segments_sorted (m : MathFns) (fuel : ℕ) (A B : PathSpec)
    (r1 r2 : List Segment) (h1 : pathToCurve m fuel A = some r1)
    (h2 : pathToCurve m fuel B = some r2)
    (hcan1 : ∀ s ∈ r1, canonicalSegment s = true) (hcan2 : ∀ s ∈ r2, canonicalSegment s = true)
    (hM1 : ∃ a b rest, r1 = ⟨'M', [a, b]⟩ :: rest)
    (hM2 : ∃ a b rest, r2 = ⟨'M', [a, b]⟩ :: rest) :
    ∃ l, findPathIntersections m fuel A B false = some (.list l) ∧
      (∀ h ∈ l, (∃ s, r1[h.segment1]? = some s ∧ s.cmd = 'C') ∧
        (∃ s, r2[h.segment2]? = some s ∧ s.cmd = 'C')) ∧
      l.Pairwise (fun a b => a.segment1 < b.segment1 ∨
        (a.segment1 = b.segment1 ∧ a.segment2 ≤ b.segment2)) := by
  obtain ⟨l, hl, hrest⟩ := outerLoop_sorted m r1 r2 hcan2 hM2 r1 0 ⟨none, none, none, none⟩
    ⟨none, none, none, none⟩ [] rfl hcan1 (Or.inr hM1) (by simp) List.Pairwise.nil
  exact ⟨l, by simp [findPathIntersections, h1, h2, hl], hrest⟩

theorem findPathIntersections_segments_sorted_witness :
    ∃ l, findPathIntersections ratMath 3 (.str "M0,0L10,10") (.str "M0,10L10,0") false =
        some (.list l) ∧
      (∀ h ∈ l, (∃ s, [(⟨'M', [0, 0]⟩ : Segment), ⟨'C', [0, 0, 10, 10, 10, 10]⟩][h.segment1]? =
          some s ∧ s.cmd = 'C') ∧
        (∃ s, [(⟨'M', [0, 10]⟩ : Segment), ⟨'C', [0, 10, 10, 0, 10, 0]⟩][h.segment2]? =
          some s ∧ s.cmd = 'C')) ∧
      l.Pairwise (fun a b => a.segment1 < b.segment1 ∨
        (a.segment1 = b.segment1 ∧ a.segment2 ≤ b.segment2)) :=
  findPathIntersections_segments_sorted ratMath 3 (.str "M0,0L10,10") (.str "M0,10L10,0")
    [⟨'M', [0, 0]⟩, ⟨'C', [0, 0, 10, 10, 10, 10]⟩] [⟨'M', [0, 10]⟩, ⟨'C', [0, 10, 10, 0, 10, 0]⟩]
    (by decide!) (by decide!) (by decide) (by decide) ⟨0, 0, _, rfl⟩ ⟨0, 10, _, rfl⟩

/-! ## Theorems: constraints, offsets and the event handler -/

/-- C23. On a context whose constraint cache is empty, `getSnapConstraints`
returns for `createConstraints` without `resizeConstraints` the bounds
`{min: left, max: right}` on the x axis and `{min: top, max: bottom}` on the y
axis; for `resizeConstraints {min, max}` and a direction `d` it returns on the x
axis `max = min.left`, `min = max.left` when `d` contains `'w'` and
`min = min.right`, `max = max.right` otherwise, and on the y axis
`max = min.top`, `min = max.top` when `d` contains `'n'` and `min = min.bottom`,
`max = max.bottom` otherwise. -/
theorem getSnapConstraints_fresh (ev : GestureEvent) (offsets : Option (PerAxis ℚ))
    (location : Option String)
    (hfresh : ev.context.gridSnappingContext = some ⟨none, offsets, location⟩) :
    (∀ cc, ev.context.createConstraints = some cc → ev.context.resizeConstraints = none →
      (getSnapConstraints ev .x).map (·.1) = some ⟨cc.left, cc.right⟩ ∧
      (getSnapConstraints ev .y).map (·.1) = some ⟨cc.top, cc.bottom⟩) ∧
    (∀ mn mx d, ev.context.resizeConstraints = some ⟨some mn, some mx⟩ →
      ev.context.direction = some d →
      (getSnapConstraints ev .x).map (·.1) =
        some (if 'w' ∈ d.data then ⟨mx.left, mn.left⟩ else ⟨mn.right, mx.right⟩) ∧
      (getSnapConstraints ev .y).map (·.1) =
        some (if 'n' ∈ d.data then ⟨mx.top, mn.top⟩ else ⟨mn.bottom, mx.bottom⟩)) := by
  constructor
  · intro cc hcc hrc
    simp [getSnapConstraints, computeSnapConstraints, hfresh, hcc, hrc, isHorizontal,
      PerAxis.get]
  · intro mn mx d hrc hd
    constructor
    · by_cases hw : 'w' ∈ d.data <;>
        cases hc : ev.context.createConstraints <;>
        simp [getSnapConstraints, computeSnapConstraints, hfresh, hrc, hd, hc, isHorizontal,
          isWest, hw, PerAxis.get]
    · by_cases hn : 'n' ∈ d.data <;>
        cases hc : ev.context.createConstraints <;>
        simp [getSnapConstraints, computeSnapConstraints, hfresh, hrc, hd, hc, isHorizontal,
          isNorth, hn, PerAxis.get]

theorem getSnapConstraints_fresh_witness :
    (getSnapConstraints ⟨⟨[], none⟩, none, none,
        ⟨none, some ⟨some ⟨some 10, some 20, some 30, some 40⟩,
          some ⟨some 1, some 2, some 3, some 4⟩⟩, some "nw", some ⟨none, none, none⟩⟩⟩ .x).map
        (·.1) =
      some (if 'w' ∈ "nw".data then ⟨some 4, some 40⟩ else ⟨some 20, some 2⟩) :=
  ((getSnapConstraints_fresh ⟨⟨[], none⟩, none, none,
      ⟨none, some ⟨some ⟨some 10, some 20, some 30, some 40⟩,
        some ⟨some 1, some 2, some 3, some 4⟩⟩, some "nw", some ⟨none, none, none⟩⟩⟩ none none
      rfl).2 ⟨some 10, some 20, some 30, some 40⟩ ⟨some 1, some 2, some 3, some 4⟩ "nw" rfl
      rfl).1

theorem getSnapConstraints_cases (ev : GestureEvent) (a : Axis) (c : AxisConstraints)
    (ev1 : GestureEvent) (h : getSnapConstraints ev a = some (c, ev1)) :
    (cachedConstraints ev a = some c ∧ ev1 = ev) ∨
    (cachedConstraints ev a = none ∧ ∃ g, ev.context.gridSnappingContext = some g ∧
      ev1 = ev.setGridSnappingContext
        { g with snapConstraints := some ((g.snapConstraints.getD ⟨none, none⟩).set a c) }) := by
  unfold getSnapConstraints at h
  rcases hg : ev.context.gridSnappingContext with _ | g
  · simp [hg] at h
  · rw [hg] at h
    simp only [Option.bind_eq_bind, Option.some_bind] at h
    rcases hc : g.snapConstraints.bind (·.get a) with _ | cached
    · right
      rw [hc] at h
      simp only [Option.bind_eq_some] at h
      obtain ⟨c1, -, h⟩ := h
      simp only [Option.some.injEq, Prod.mk.injEq] at h
      obtain ⟨rfl, rfl⟩ := h
      exact ⟨by simp [cachedConstraints, hg, hc], g, rfl, rfl⟩
    · left
      rw [hc] at h
      simp only [Option.some.injEq, Prod.mk.injEq] at h
      obtain ⟨rfl, rfl⟩ := h
      exact ⟨by simp [cachedConstraints, hg, hc], rfl⟩

theorem getSnapOffset_cases (ev : GestureEvent) (a : Axis) (reg : List String) (o : ℚ)
    (ev1 : GestureEvent) (h : getSnapOffset ev a reg = some (o, ev1)) :
    (cachedOffset ev a = some o ∧ ev1 = ev) ∨
    (cachedOffset ev a = none ∧ ∃ g, ev.context.gridSnappingContext = some g ∧
      ev1 = ev.setGridSnappingContext
        { g with snapOffset := some ((g.snapOffset.getD ⟨none, none⟩).set a o) }) := by
  unfold getSnapOffset at h
  rcases hg : ev.context.gridSnappingContext with _ | g
  · simp [hg] at h
  · rw [hg] at h
    simp only [Option.bind_eq_bind, Option.some_bind] at h
    rcases hc : g.snapOffset.bind (·.get a) with _ | cached
    · right
      rw [hc] at h
      simp only [Option.some.injEq, Prod.mk.injEq] at h
      obtain ⟨rfl, rfl⟩ := h
      exact ⟨by simp [cachedOffset, hg, hc], g, rfl, rfl⟩
    · left
      rw [hc] at h
      simp only [Option.some.injEq, Prod.mk.injEq] at h
      obtain ⟨rfl, rfl⟩ := h
      exact ⟨by simp [cachedOffset, hg, hc], rfl⟩

theorem PerAxis.get_set {α : Type} (p : PerAxis α) (a b : Axis) (v : α) :
    (p.set a v).get b = if b = a then some v else p.get b := by
  cases a <;> cases b <;> simp [PerAxis.set, PerAxis.get]

theorem getSnapConstraints_cached (ev : GestureEvent) (a : Axis) (c : AxisConstraints)
    (h : cachedConstraints ev a = some c) : getSnapConstraints ev a = some (c, ev) := by
  unfold cachedConstraints at h
  rcases hg : ev.context.gridSnappingContext with _ | g
  · simp [hg] at h
  · simp only [hg, Option.some_bind] at h
    simp [getSnapConstraints, hg, h]

theorem getSnapOffset_cached (ev : GestureEvent) (a : Axis) (reg : List String) (o : ℚ)
    (h : cachedOffset ev a = some o) : getSnapOffset ev a reg = some (o, ev) := by
  unfold cachedOffset at h
  rcases hg : ev.context.gridSnappingContext with _ | g
  · simp [hg] at h
  · simp only [hg, Option.some_bind] at h
    simp [getSnapOffset, hg, h]

theorem cached_after_constraints (ev ev1 : GestureEvent) (b : Axis) (r : AxisConstraints)
    (h : getSnapConstraints ev b = some (r, ev1)) (a : Axis) :
    cachedOffset ev1 a = cachedOffset ev a ∧ cachedConstraints ev1 b = some r ∧
    ∀ c, cachedConstraints ev a = some c → cachedConstraints ev1 a = some c := by
  rcases getSnapConstraints_cases ev b r ev1 h with ⟨hc, rfl⟩ | ⟨hc, g, hg, rfl⟩
  · exact ⟨rfl, hc, fun c hc1 => hc1⟩
  · refine ⟨by simp [cachedOffset, GestureEvent.setGridSnappingContext, hg],
      by simp [cachedConstraints, GestureEvent.setGridSnappingContext, PerAxis.get_set], ?_⟩
    intro c hca
    have hab : a ≠ b := by
      rintro rfl
      rw [hc] at hca
      cases hca
    simp only [cachedConstraints, hg, Option.some_bind] at hca
    rcases hs : g.snapConstraints with _ | p
    · simp [hs] at hca
    · simp only [hs, Option.some_bind] at hca
      simp [cachedConstraints, GestureEvent.setGridSnappingContext, PerAxis.get_set, hab, hs,
        hca]

theorem cached_after_offset (ev ev1 : GestureEvent) (b : Axis) (reg : List String) (r : ℚ)
    (h : getSnapOffset ev b reg = some (r, ev1)) (a : Axis) :
    cachedConstraints ev1 a = cachedConstraints ev a ∧ cachedOffset ev1 b = some r ∧
    ∀ o, cachedOffset ev a = some o → cachedOffset ev1 a = some o := by
  rcases getSnapOffset_cases ev b reg r ev1 h with ⟨hc, rfl⟩ | ⟨hc, g, hg, rfl⟩
  · exact ⟨rfl, hc, fun c hc1 => hc1⟩
  · refine ⟨by simp [cachedConstraints, GestureEvent.setGridSnappingContext, hg],
      by simp [cachedOffset, GestureEvent.setGridSnappingContext, PerAxis.get_set], ?_⟩
    intro c hca
    have hab : a ≠ b := by
      rintro rfl
      rw [hc] at hca
      cases hca
    simp only [cachedOffset, hg, Option.some_bind] at hca
    rcases hs : g.snapOffset with _ | p
    · simp [hs] at hca
    · simp only [hs, Option.some_bind] at hca
      simp [cachedOffset, GestureEvent.setGridSnappingContext, PerAxis.get_set, hab, hs, hca]

/-- C24. Constraints and offsets are computed at most once per axis.  A call of
`getSnapConstraints` for an axis stores the value it returns in the cache of the
gesture context; whenever the cache holds a value for the axis, a call returns
that value and leaves the event as it is, whatever `createConstraints`,
`resizeConstraints`, `direction`, shape, registry and snap location are; and no
call of `getSnapConstraints` or `getSnapOffset`, for either axis, changes a value
that the cache holds.  The same holds for `getSnapOffset`. -/
theorem snap_cache_computed_once (a : Axis) :
    (∀ ev c ev1, getSnapConstraints ev a = some (c, ev1) → cachedConstraints ev1 a = some c) ∧
    (∀ ev c, cachedConstraints ev a = some c → getSnapConstraints ev a = some (c, ev)) ∧
    (∀ ev c b r ev1, cachedConstraints ev a = some c →
      getSnapConstraints ev b = some (r, ev1) → cachedConstraints ev1 a = some c) ∧
    (∀ ev c b reg r ev1, cachedConstraints ev a = some c →
      getSnapOffset ev b reg = some (r, ev1) → cachedConstraints ev1 a = some c) ∧
    (∀ ev reg o ev1, getSnapOffset ev a reg = some (o, ev1) → cachedOffset ev1 a = some o) ∧
    (∀ ev reg o, cachedOffset ev a = some o → getSnapOffset ev a reg = some (o, ev)) ∧
    (∀ ev o b r ev1, cachedOffset ev a = some o →
      getSnapConstraints ev b = some (r, ev1) → cachedOffset ev1 a = some o) ∧
    (∀ ev o b reg r ev1, cachedOffset ev a = some o →
      getSnapOffset ev b reg = some (r, ev1) → cachedOffset ev1 a = some o) := by
  refine ⟨?_, ?_, ?_, ?_, ?_, ?_, ?_, ?_⟩
  · intro ev c ev1 h
    exact (cached_after_constraints ev ev1 a c h a).2.1
  · exact fun ev c h => getSnapConstraints_cached ev a c h
  · intro ev c b r ev1 hc h
    exact (cached_after_constraints ev ev1 b r h a).2.2 c hc
  · intro ev c b reg r ev1 hc h
    rw [(cached_after_offset ev ev1 b reg r h a).1]
    exact hc
  · intro ev reg o ev1 h
    exact (cached_after_offset ev ev1 a reg o h a).2.1
  · exact fun ev reg o h => getSnapOffset_cached ev a reg o h
  · intro ev o b r ev1 hc h
    rw [(cached_after_constraints ev ev1 b r h a).1]
    exact hc
  · intro ev o b reg r ev1 hc h
    exact (cached_after_offset ev ev1 b reg r h a).2.2 o hc

theorem snap_cache_computed_once_witness :
    cachedConstraints ⟨⟨[], none⟩, none, none, ⟨some ⟨some 1, some 2, some 3, some 4⟩, none, none,
      some ⟨some ⟨some ⟨some 4, some 2⟩, none⟩, none, none⟩⟩⟩ .x = some ⟨some 4, some 2⟩ :=
  (snap_cache_computed_once .x).1
    ⟨⟨[], none⟩, none, none, ⟨some ⟨some 1, some 2, some 3, some 4⟩, none, none,
      some ⟨none, none, none⟩⟩⟩ ⟨some 4, some 2⟩ _ (by decide)

/-- C25, counterexample. A shape at `x = 5` of width 100 that is not in the
registry, with no snap location, gets the offset 55 on the x axis, not its
half-extent 50. -/
theorem getSnapOffset_position_counterexample :
    (getSnapOffset ⟨⟨[], none⟩, none, some ⟨"s", 5, 7, 100, 80⟩,
        ⟨none, none, none, some ⟨none, none, none⟩⟩⟩ .x []).map (·.1) = some 55 ∧
    (55 : ℚ) ≠ 100 / 2 := by
  decide!

/-- C25, amended. For a shape that the registry does not hold and no snap
location, the offset that `getSnapOffset` computes on an empty offset cache is
`shape.x + shape.width / 2` on the x axis and `shape.y + shape.height / 2` on the
y axis: the half-extent exactly when the shape is positioned at 0. -/
theorem getSnapOffset_unplaced (ev : GestureEvent) (shape : Shape) (reg : List String)
    (constraints : Option (PerAxis AxisConstraints))
    (hfresh : ev.context.gridSnappingContext = some ⟨constraints, none, none⟩)
    (hshape : ev.shape = some shape) (hreg : shape.id ∉ reg) :
    (getSnapOffset ev .x reg).map (·.1) = some (shape.x + shape.width / 2) ∧
    (getSnapOffset ev .y reg).map (·.1) = some (shape.y + shape.height / 2) ∧
    (shape.x = 0 → (getSnapOffset ev .x reg).map (·.1) = some (shape.width / 2)) ∧
    (shape.y = 0 → (getSnapOffset ev .y reg).map (·.1) = some (shape.height / 2)) := by
  have hx : (getSnapOffset ev .x reg).map (·.1) = some (shape.x + shape.width / 2) := by
    simp [getSnapOffset, computeSnapOffset, hfresh, hshape, hreg, isHorizontal, PerAxis.get]
  have hy : (getSnapOffset ev .y reg).map (·.1) = some (shape.y + shape.height / 2) := by
    simp [getSnapOffset, computeSnapOffset, hfresh, hshape, hreg, isHorizontal, PerAxis.get]
  refine ⟨hx, hy, ?_, ?_⟩
  · intro h0
    rw [hx, h0, zero_add]
  · intro h0
    rw [hy, h0, zero_add]

theorem getSnapOffset_unplaced_witness :
    (getSnapOffset ⟨⟨[], none⟩, none, some ⟨"s", 5, 7, 100, 80⟩,
        ⟨none, none, none, some ⟨none, none, none⟩⟩⟩ .x ["t"]).map (·.1) = some (5 + 100 / 2) :=
  (getSnapOffset_unplaced ⟨⟨[], none⟩, none, some ⟨"s", 5, 7, 100, 80⟩,
    ⟨none, none, none, some ⟨none, none, none⟩⟩⟩ ⟨"s", 5, 7, 100, 80⟩ ["t"] none rfl rfl
    (by decide)).1

/-- C26. On an empty offset cache and for a shape, a snap location shifts the
offset that `getSnapOffset` computes without one: on the x axis by
`-shape.width / 2` when the location contains `left`, else by `+shape.width / 2`
when it contains `right`; on the y axis by `-shape.height / 2` when it contains
`top`, else by `+shape.height / 2` when it contains `bottom`; and not at all
otherwise.  Without a shape the offset is 0. -/
theorem getSnapOffset_location (ev : GestureEvent) (reg : List String)
    (constraints : Option (PerAxis AxisConstraints)) (location : String)
    (hfresh : ev.context.gridSnappingContext = some ⟨constraints, none, some location⟩) :
    (∀ shape, ev.shape = some shape →
      ∀ a, ∃ base,
        (getSnapOffset (ev.setGridSnappingContext ⟨constraints, none, none⟩) a reg).map (·.1) =
          some base ∧
        (getSnapOffset ev a reg).map (·.1) = some (
          match a with
          | .x =>
            if regexTest "left" location then base - shape.width / 2
            else if regexTest "right" location then base + shape.width / 2
            else base
          | .y =>
            if regexTest "top" location then base - shape.height / 2
            else if regexTest "bottom" location then base + shape.height / 2
            else base)) ∧
    (ev.shape = none → ∀ a, (getSnapOffset ev a reg).map (·.1) = some 0) := by
  constructor
  · intro shape hshape a
    have hempty : location.isEmpty = true → ∀ p ∈ ["left", "right", "top", "bottom"],
        regexTest p location = false := by
      intro h
      have : location = "" := by simpa [String.isEmpty_iff] using h
      subst this
      decide
    by_cases hreg : shape.id ∈ reg <;> by_cases hl : location.isEmpty = true <;> cases a <;>
      simp [getSnapOffset, computeSnapOffset, GestureEvent.setGridSnappingContext, hfresh,
        hshape, hreg, hl, isHorizontal, PerAxis.get]
    all_goals simp [hempty hl]
  · intro hshape a
    simp [getSnapOffset, computeSnapOffset, hfresh, hshape, PerAxis.get]

theorem snapEvent_fields_other (ev : Event) (a k : String) (o : Option SnapOptions)
    (h1 : a ≠ k) (h2 : "d" ++ a ≠ k) :
    getProp (snapEvent ev a o).1.fields k = getProp ev.fields k := by
  simp [snapEvent, setSnapped, getProp_setProp_ne _ _ _ _ h1, getProp_setProp_ne _ _ _ _ h2]

theorem snapEvent_snapped (ev : Event) (a : String) (o : Option SnapOptions) :
    (snapEvent ev a o).1.snapped = some (setProp (ev.snapped.getD []) a true) := by
  simp [snapEvent, setSnapped]

theorem isSnapped_snapEvent_self (ev : Event) (a : String) (o : Option SnapOptions) :
    isSnapped (snapEvent ev a o).1 (.str a) = .bool true := by
  simp [isSnapped, snapEvent_snapped, getProp_setProp_same]

theorem isSnapped_snapEvent_other (ev : Event) (a k : String) (o : Option SnapOptions)
    (h : a ≠ k) :
    isSnapped (snapEvent ev a o).1 (.str k) = .bool true ↔ isSnapped ev (.str k) = .bool true := by
  simp only [isSnapped, snapEvent_snapped, getProp_setProp_ne _ _ _ _ h]
  rcases ev.snapped with _ | s
  · simp [getProp]
  · simp

theorem getSnapOffset_frame (ev ev1 : GestureEvent) (a : Axis) (reg : List String) (o : ℚ)
    (h : getSnapOffset ev a reg = some (o, ev1)) :
    ev1.event = ev.event ∧ ev1.originalEvent = ev.originalEvent := by
  rcases getSnapOffset_cases ev a reg o ev1 h with ⟨-, rfl⟩ | ⟨-, g, -, rfl⟩
  · exact ⟨rfl, rfl⟩
  · exact ⟨rfl, rfl⟩

theorem getSnapConstraints_frame (ev ev1 : GestureEvent) (a : Axis) (c : AxisConstraints)
    (h : getSnapConstraints ev a = some (c, ev1)) :
    ev1.event = ev.event ∧ ev1.originalEvent = ev.originalEvent := by
  rcases getSnapConstraints_cases ev a c ev1 h with ⟨-, rfl⟩ | ⟨-, g, -, rfl⟩
  · exact ⟨rfl, rfl⟩
  · exact ⟨rfl, rfl⟩

theorem snapAxis_cases (reg : List String) (ev ev1 : GestureEvent) (a : Axis)
    (h : snapAxis reg ev a = some ev1) :
    ∃ o evA c evB, getSnapOffset ev a reg = some (o, evA) ∧
      getSnapConstraints evA a = some (c, evB) ∧
      ((isSnapped ev.event (.str a.name) = .bool true ∧ ev1 = evB) ∨
        (isSnapped ev.event (.str a.name) ≠ .bool true ∧ ∃ opts,
          ev1 = { evB with event := (snapEvent ev.event a.name opts).1 })) := by
  unfold snapAxis at h
  simp only [Option.bind_eq_bind, Option.bind_eq_some] at h
  obtain ⟨⟨o, evA⟩, hA, ⟨c, evB⟩, hB, h⟩ := h
  simp only at hB h
  have hev : evB.event = ev.event := by
    rw [(getSnapConstraints_frame evA evB a c hB).1, (getSnapOffset_frame ev evA a reg o hA).1]
  refine ⟨o, evA, c, evB, hA, hB, ?_⟩
  rw [hev] at h
  by_cases hs : isSnapped ev.event (.str a.name) = .bool true
  · left
    rw [if_pos hs] at h
    simp only [Option.some.injEq] at h
    exact ⟨hs, h.symm⟩
  · right
    rw [if_neg hs] at h
    simp only [Option.some.injEq] at h
    exact ⟨hs, _, h.symm⟩

theorem snapAxis_post (reg : List String) (ev ev1 : GestureEvent) (a : Axis)
    (h : snapAxis reg ev a = some ev1) :
    (isSnapped ev.event (.str a.name) = .bool true → ev1.event = ev.event) ∧
    (∀ k, a.name ≠ k → "d" ++ a.name ≠ k →
      getProp ev1.event.fields k = getProp ev.event.fields k) ∧
    (∀ k, a.name ≠ k → (isSnapped ev1.event (.str k) = .bool true ↔
      isSnapped ev.event (.str k) = .bool true)) ∧
    isSnapped ev1.event (.str a.name) = .bool true ∧
    ev1.originalEvent = ev.originalEvent ∧
    (∃ o, cachedOffset ev1 a = some o) ∧ (∃ c, cachedConstraints ev1 a = some c) ∧
    (∀ b o, cachedOffset ev b = some o → cachedOffset ev1 b = some o) ∧
    (∀ b c, cachedConstraints ev b = some c → cachedConstraints ev1 b = some c) := by
  obtain ⟨o, evA, c, evB, hA, hB, hcase⟩ := snapAxis_cases reg ev ev1 a h
  have hAf := getSnapOffset_frame ev evA a reg o hA
  have hBf := getSnapConstraints_frame evA evB a c hB
  have hAc := cached_after_offset ev evA a reg o hA
  have hBc := cached_after_constraints evA evB a c hB
  have hevB : evB.event = ev.event := by rw [hBf.1, hAf.1]
  have horig : evB.originalEvent = ev.originalEvent := by rw [hBf.2, hAf.2]
  have hoff : cachedOffset evB a = some o := by
    rw [(hBc a).1]
    exact (hAc a).2.1
  have hcon : cachedConstraints evB a = some c := (hBc a).2.1
  have hoffs : ∀ b o1, cachedOffset ev b = some o1 → cachedOffset evB b = some o1 := by
    intro b o1 hb
    rw [(hBc b).1]
    exact (hAc b).2.2 o1 hb
  have hcons : ∀ b c1, cachedConstraints ev b = some c1 → cachedConstraints evB b = some c1 := by
    intro b c1 hb
    refine (hBc b).2.2 c1 ?_
    rw [(hAc b).1]
    exact hb
  rcases hcase with ⟨hs, rfl⟩ | ⟨hs, opts, rfl⟩
  · refine ⟨fun _ => hevB, fun k _ _ => by rw [hevB], fun k _ => by rw [hevB], by rw [hevB, hs],
      horig, ⟨o, hoff⟩, ⟨c, hcon⟩, hoffs, hcons⟩
  · refine ⟨fun hs1 => absurd hs1 hs, ?_, ?_, ?_, horig, ⟨o, hoff⟩, ⟨c, hcon⟩, hoffs, hcons⟩
    · intro k h1 h2
      exact snapEvent_fields_other ev.event a.name k opts h1 h2
    · intro k h1
      exact isSnapped_snapEvent_other ev.event a.name k opts h1
    · exact isSnapped_snapEvent_self ev.event a.name opts

theorem snapAxis_fixed (reg : List String) (ev : GestureEvent) (a : Axis)
    (ho : ∃ o, cachedOffset ev a = some o) (hc : ∃ c, cachedConstraints ev a = some c)
    (hs : isSnapped ev.event (.str a.name) = .bool true) : snapAxis reg ev a = some ev := by
  obtain ⟨o, ho⟩ := ho
  obtain ⟨c, hc⟩ := hc
  simp [snapAxis, getSnapOffset_cached ev a reg o ho, getSnapConstraints_cached ev a c hc, hs]

theorem handle_cases (self : GridSnapping) (reg : List String) (ev ev1 : GestureEvent)
    (h : self.handle reg ev = some ev1) :
    ev1 = ev ∨ ∃ ev0 evX, ev0.event = ev.event ∧ ev0.originalEvent = ev.originalEvent ∧
      snapAxis reg ev0 .x = some evX ∧ snapAxis reg evX .y = some ev1 ∧
      self.active = some true ∧
      (match ev.originalEvent with
        | some originalEvent => isCmd originalEvent
        | none => false) = false := by
  unfold GridSnapping.handle at h
  simp only [] at h
  split_ifs at h with hc
  · left
    simp only [Option.some.injEq] at h
    exact h.symm
  · right
    simp only [Bool.or_eq_true, Bool.not_eq_true', not_or, Bool.not_eq_false] at hc
    have hact : self.active = some true := by
      rcases hself : self.active with _ | b
      · simp [hself] at hc
      · simp [hself] at hc
        rw [hc.1]
    simp only [List.foldlM, Option.bind_eq_bind, Option.bind_eq_some, Option.pure_def] at h
    obtain ⟨evX, hX, ev2, hY, h2⟩ := h
    simp only [Option.some.injEq] at h2
    subst h2
    refine ⟨_, evX, ?_, ?_, hX, hY, hact, by simpa using hc.2⟩
    · rcases ev.context.gridSnappingContext with _ | g <;> rfl
    · rcases ev.context.gridSnappingContext with _ | g <;> rfl

/-- C27. The event handler never snaps twice.  When `isSnapped(event, axis)` is
`true` as the handler starts, a run of the handler leaves `event[axis]` and
`event['d' + axis]` as they are; and running the handler on the event that a
first run returns gives back that event, its `x`, `y`, `dx`, `dy` included. -/
theorem handle_no_double_snap (self : GridSnapping) (reg : List String)
    (ev ev1 : GestureEvent) (h : self.handle reg ev = some ev1) :
    (∀ a : Axis, isSnapped ev.event (.str a.name) = .bool true →
      getProp ev1.event.fields a.name = getProp ev.event.fields a.name ∧
      getProp ev1.event.fields ("d" ++ a.name) = getProp ev.event.fields ("d" ++ a.name)) ∧
    self.handle reg ev1 = some ev1 := by
  rcases handle_cases self reg ev ev1 h with rfl | ⟨ev0, evX, he0, ho0, hX, hY, hact, hcmd⟩
  · exact ⟨fun a _ => ⟨rfl, rfl⟩, h⟩
  · have pX := snapAxis_post reg ev0 evX .x hX
    have pY := snapAxis_post reg evX ev1 .y hY
    constructor
    · intro a ha
      cases a with
      | x =>
        rw [← he0] at ha ⊢
        rw [pY.2.1 Axis.x.name (by decide) (by decide),
          pY.2.1 ("d" ++ Axis.x.name) (by decide) (by decide), pX.1 ha]
        exact ⟨rfl, rfl⟩
      | y =>
        rw [← he0] at ha ⊢
        have hy : isSnapped evX.event (.str Axis.y.name) = .bool true :=
          (pX.2.2.1 Axis.y.name (by decide)).mpr ha
        rw [pY.1 hy, pX.2.1 Axis.y.name (by decide) (by decide),
          pX.2.1 ("d" ++ Axis.y.name) (by decide) (by decide)]
        exact ⟨rfl, rfl⟩
    · have hsx : isSnapped ev1.event (.str Axis.x.name) = .bool true :=
        (pY.2.2.1 Axis.x.name (by decide)).mpr pX.2.2.2.1
      have hsy : isSnapped ev1.event (.str Axis.y.name) = .bool true := pY.2.2.2.1
      obtain ⟨ox, hox⟩ := pX.2.2.2.2.2.1
      obtain ⟨cx, hcx⟩ := pX.2.2.2.2.2.2.1
      have hox1 := pY.2.2.2.2.2.2.2.1 .x ox hox
      have hcx1 := pY.2.2.2.2.2.2.2.2 .x cx hcx
      have fx := snapAxis_fixed reg ev1 .x ⟨ox, hox1⟩ ⟨cx, hcx1⟩ hsx
      have fy := snapAxis_fixed reg ev1 .y pY.2.2.2.2.2.1 pY.2.2.2.2.2.2.1 hsy
      have horig : ev1.originalEvent = ev.originalEvent := by
        rw [pY.2.2.2.2.1, pX.2.2.2.2.1, ho0]
      have hg : ∃ g, ev1.context.gridSnappingContext = some g := by
        obtain ⟨o, ho⟩ := pY.2.2.2.2.2.1
        rcases hg : ev1.context.gridSnappingContext with _ | g
        · simp [cachedOffset, hg] at ho
        · exact ⟨g, rfl⟩
      obtain ⟨g, hg⟩ := hg
      unfold GridSnapping.handle
      simp only [horig, hcmd, hact, hg, List.foldlM, fx, fy]
      simp [fy]

theorem handle_no_double_snap_witness :
    (GridSnapping.create none).diagramInit.handle []
      ⟨⟨[("x", .val 20), ("y", .val 0), ("dx", .val 3), ("dy", .val (-4))],
        some [("x", true), ("y", true)]⟩, none, none, ⟨none, none, none,
        some ⟨some ⟨some ⟨none, none⟩, some ⟨none, none⟩⟩, some ⟨some 0, some 0⟩, none⟩⟩⟩ =
    some ⟨⟨[("x", .val 20), ("y", .val 0), ("dx", .val 3), ("dy", .val (-4))],
        some [("x", true), ("y", true)]⟩, none, none, ⟨none, none, none,
        some ⟨some ⟨some ⟨none, none⟩, some ⟨none, none⟩⟩, some ⟨some 0, some 0⟩, none⟩⟩⟩ :=
  (handle_no_double_snap (GridSnapping.create none).diagramInit []
    ⟨⟨[("x", .val 17), ("y", .val 4), ("dx", .val 0), ("dy", .val 0)], none⟩, none, none,
      ⟨none, none, none, none⟩⟩ _ (by decide!)).2

theorem getProp_setProp {α : Type} (l : List (String × α)) (a k : String) (v : α) :
    getProp (setProp l a v) k = if a = k then some v else getProp l k := by
  by_cases h : a = k
  · subst h
    simp [getProp_setProp_same]
  · simp [h, getProp_setProp_ne _ _ _ _ h]

/-- C28. The two axes are snapped independently.  `snapEvent` on the x axis
leaves `event.y`, `event.dy` and the truth of `isSnapped(event, 'y')` as they
are, and conversely; and snapping x then y gives an event with the same
properties and the same snapped flags as snapping y then x, for every event and
all options. -/
theorem snapEvent_axes_independent (ev : Event) (ox oy : Option SnapOptions) :
    (getProp (snapEvent ev "x" ox).1.fields "y" = getProp ev.fields "y" ∧
      getProp (snapEvent ev "x" ox).1.fields "dy" = getProp ev.fields "dy" ∧
      (isSnapped (snapEvent ev "x" ox).1 (.str "y") = .bool true ↔
        isSnapped ev (.str "y") = .bool true)) ∧
    (getProp (snapEvent ev "y" oy).1.fields "x" = getProp ev.fields "x" ∧
      getProp (snapEvent ev "y" oy).1.fields "dx" = getProp ev.fields "dx" ∧
      (isSnapped (snapEvent ev "y" oy).1 (.str "x") = .bool true ↔
        isSnapped ev (.str "x") = .bool true)) ∧
    (∀ k, getProp (snapEvent (snapEvent ev "x" ox).1 "y" oy).1.fields k =
      getProp (snapEvent (snapEvent ev "y" oy).1 "x" ox).1.fields k) ∧
    (∀ k, isSnapped (snapEvent (snapEvent ev "x" ox).1 "y" oy).1 (.str k) =
      isSnapped (snapEvent (snapEvent ev "y" oy).1 "x" ox).1 (.str k)) := by
  refine ⟨⟨?_, ?_, ?_⟩, ⟨?_, ?_, ?_⟩, ?_, ?_⟩
  · exact snapEvent_fields_other ev "x" "y" ox (by decide) (by decide)
  · exact snapEvent_fields_other ev "x" "dy" ox (by decide) (by decide)
  · exact isSnapped_snapEvent_other ev "x" "y" ox (by decide)
  · exact snapEvent_fields_other ev "y" "x" oy (by decide) (by decide)
  · exact snapEvent_fields_other ev "y" "dx" oy (by decide) (by decide)
  · exact isSnapped_snapEvent_other ev "y" "x" oy (by decide)
  · intro k
    have hxy : ("x" : String) ≠ "y" := by decide
    have hyx : ("y" : String) ≠ "x" := by decide
    have h1 : ("d" ++ "x" : String) ≠ "y" := by decide
    have h2 : ("d" ++ "y" : String) ≠ "x" := by decide
    have h3 : ("d" ++ "x" : String) ≠ "d" ++ "y" := by decide
    have h4 : ("d" ++ "y" : String) ≠ "d" ++ "x" := by decide
    have h5 : ("x" : String) ≠ "d" ++ "y" := by decide
    have h6 : ("y" : String) ≠ "d" ++ "x" := by decide
    simp only [snapEvent, setSnapped, getProp_setProp, hxy, hyx, h1, h2, h3, h4, h5, h6,
      if_false]
    by_cases k1 : "x" = k
    · subst k1
      simp [hxy, hyx, h1, h2, h3, h4, h5, h6, h5.symm, h6.symm, h1.symm, h2.symm]
    by_cases k2 : "y" = k
    · subst k2
      simp [hxy, hyx, h1, h2, h3, h4, h5, h6, h5.symm, h6.symm, h1.symm, h2.symm]
    by_cases k3 : "dx" = k
    · subst k3
      simp [hxy, hyx, h1, h2, h3, h4, h5, h6, h5.symm, h6.symm, h1.symm, h2.symm]
    by_cases k4 : "dy" = k
    · subst k4
      simp [hxy, hyx, h1, h2, h3, h4, h5, h6, h5.symm, h6.symm, h1.symm, h2.symm]
    simp [k1, k2, k3, k4]
  · intro k
    simp only [isSnapped, snapEvent_snapped, Option.getD_some, getProp_setProp]
    by_cases k1 : "x" = k <;> by_cases k2 : "y" = k <;> simp [k1, k2]

/-- C29. After `diagram.init` an instance of `GridSnapping` is inactive exactly
when a configuration is present and its `active` is the value `false`; for every
other configuration, a missing one included, `isActive()` is `true`. -/
theorem gridSnapping_active_by_default (config : Option Config) :
    ((GridSnapping.create config).diagramInit.isActive = some false ↔
      ∃ c, config = some c ∧ c.active = .bool false) ∧
    ((GridSnapping.create config).diagramInit.isActive = some true ↔
      ¬ ∃ c, config = some c ∧ c.active = .bool false) := by
  rcases config with _ | c
  · simp [GridSnapping.create, GridSnapping.diagramInit, GridSnapping.setActive,
      GridSnapping.isActive]
  · by_cases h : c.active = .bool false <;>
      simp [GridSnapping.create, GridSnapping.diagramInit, GridSnapping.setActive,
        GridSnapping.isActive, h]

theorem onGrid_max {x y : ℚ} (hx : ∃ k : ℤ, x = (k : ℚ) * SPACING)
    (hy : ∃ k : ℤ, y = (k : ℚ) * SPACING) : ∃ k : ℤ, max x y = (k : ℚ) * SPACING := by
  rcases max_choice x y with h | h <;> rw [h] <;> assumption

theorem onGrid_min {x y : ℚ} (hx : ∃ k : ℤ, x = (k : ℚ) * SPACING)
    (hy : ∃ k : ℤ, y = (k : ℚ) * SPACING) : ∃ k : ℤ, min x y = (k : ℚ) * SPACING := by
  rcases min_choice x y with h | h <;> rw [h] <;> assumption

theorem quantize_fixes_grid (x : ℚ) (hx : ∃ k : ℤ, x = (k : ℚ) * SPACING)
    (fn : Option RoundFn) : quantize x SPACING fn = x := by
  obtain ⟨k, rfl⟩ := hx
  exact quantize_intCast_mul k SPACING (by norm_num [SPACING]) fn

/-- C38. In exact arithmetic `snapValue` is idempotent: for every value and
every options, snapping the snapped value again with the same options returns
it unchanged. -/
theorem snapValue_idempotent (v : ℚ) (options : Option SnapOptions) :
    snapValue (snapValue v options) options = snapValue v options := by
  cases options with
  | none =>
    rw [snapValue_none, snapValue_none]
    exact quantize_fixes_grid _ (quantize_onGrid v SPACING none) none
  | some o =>
    rw [snapValue_some, snapValue_some]
    simp only [sub_add_cancel]
    have ha := quantize_onGrid (v + o.offset.getD 0) SPACING none
    have hA := quantize_onGrid (o.min.getD 0 + o.offset.getD 0) SPACING (some .ceil)
    have hB := quantize_onGrid (o.max.getD 0 + o.offset.getD 0) SPACING (some .floor)
    generalize quantize (v + o.offset.getD 0) SPACING none = a at ha ⊢
    generalize quantize (o.min.getD 0 + o.offset.getD 0) SPACING (some .ceil) = A at hA ⊢
    generalize quantize (o.max.getD 0 + o.offset.getD 0) SPACING (some .floor) = B at hB ⊢
    congr 1
    by_cases hmin : truthy o.min = true <;> by_cases hmax : truthy o.max = true <;>
      simp only [hmin, hmax, if_true, if_false, Bool.false_eq_true]
    · rw [quantize_fixes_grid _ (onGrid_min (onGrid_max ha hA) hB)]
      rcases le_total (max a A) B with h | h
      · rw [min_eq_left h, max_eq_left (le_max_right a A), min_eq_left h]
      · rw [min_eq_right h, min_eq_right (le_max_left B A)]
    · rw [quantize_fixes_grid _ (onGrid_max ha hA), max_eq_left (le_max_right a A)]
    · rw [quantize_fixes_grid _ (onGrid_min ha hB), min_eq_left (min_le_right a B)]
    · rw [quantize_fixes_grid _ ha]

theorem delta_name_ne (a : String) : a ≠ "d" ++ a := by
  intro h
  have h1 := congrArg String.length h
  rw [String.length_append] at h1
  have h2 : "d".length = 1 := rfl
  omega

/-- C39. For an event whose `event[a]` and `event['d' + a]` are numbers:
`setSnapped(event, a, v)` with a number `v` returns the old `event[a]`, leaves
the difference `event[a] - event['d' + a]` as it was and marks the axis snapped;
`setSnapped(event, a, false)` returns the old `event[a]`, changes no coordinate
and marks the axis not snapped. -/
theorem setSnapped_consistent (ev : Event) (a : String) (p d : ℚ)
    (hp : getProp ev.fields a = some (.val p))
    (hd : getProp ev.fields ("d" ++ a) = some (.val d)) :
    (∀ v : ℚ, (setSnapped ev (.str a) (.num (.val v))).2 = .ok (some (.val p)) ∧
      (∃ p1 d1, getProp (setSnapped ev (.str a) (.num (.val v))).1.fields a = some (.val p1) ∧
        getProp (setSnapped ev (.str a) (.num (.val v))).1.fields ("d" ++ a) =
          some (.val d1) ∧ p1 - d1 = p - d) ∧
      isSnapped (setSnapped ev (.str a) (.num (.val v))).1 (.str a) = .bool true) ∧
    ((setSnapped ev (.str a) (.bool false)).2 = .ok (some (.val p)) ∧
      (setSnapped ev (.str a) (.bool false)).1.fields = ev.fields ∧
      isSnapped (setSnapped ev (.str a) (.bool false)).1 (.str a) = .bool false) := by
  have hne := delta_name_ne a
  constructor
  · intro v
    refine ⟨by simp [setSnapped, hp], ⟨p + (v - p), d + (v - p), ?_, ?_, by ring⟩, ?_⟩
    · simp [setSnapped, hp, hd, toNum, JsNum.sub, JsNum.add, getProp_setProp, hne, hne.symm]
    · simp [setSnapped, hp, hd, toNum, JsNum.sub, JsNum.add, getProp_setProp, hne, hne.symm]
    · simp [setSnapped, isSnapped, getProp_setProp]
  · simp [setSnapped, hp, isSnapped, getProp_setProp]

theorem setSnapped_consistent_witness :
    (setSnapped ⟨[("x", .val 17), ("y", .val 4), ("dx", .val 2), ("dy", .val 0)], none⟩
      (.str "x") (.bool false)).1.fields =
      [("x", .val 17), ("y", .val 4), ("dx", .val 2), ("dy", .val 0)] :=
  (setSnapped_consistent ⟨[("x", .val 17), ("y", .val 4), ("dx", .val 2), ("dy", .val 0)], none⟩
    "x" 17 2 (by decide) (by decide)).2.2.1

/-! ## Theorems: polyline segment count, bounding boxes and line intersection -/

theorem toInt32_of_nonneg (x : ℚ) (h0 : 0 ≤ x) (h1 : x < 2147483648) : toInt32 x = ⌊x⌋ := by
  have hf0 : 0 ≤ ⌊x⌋ := Int.floor_nonneg.mpr h0
  have hf1 : ⌊x⌋ < 2147483648 := by
    rw [Int.floor_lt]
    exact_mod_cast h1
  simp only [toInt32, h0, if_true]
  rw [Int.emod_eq_of_lt (by omega) (by omega)]
  omega

/-- C30, counterexample. The cubic from (0, 0) to (8, 0) with control points at
one and two thirds is not classified straight and has the estimated length 8;
it gets `~~(8 / 5) || 1 = 1` polyline segment, whereas `max(1, round(8 / 5))`
is 2. -/
theorem segmentCount_truncates_counterexample :
    isLine ⟨0, 0, 8 / 3, 0, 16 / 3, 0, 8, 0⟩ = false ∧
    bezlen ratMath 0 0 (8 / 3) 0 (16 / 3) 0 8 0 none = 8 ∧
    segmentCount ⟨0, 0, 8 / 3, 0, 16 / 3, 0, 8, 0⟩
      (bezlen ratMath 0 0 (8 / 3) 0 (16 / 3) 0 8 0 none) = 1 ∧
    max 1 (jsRound (bezlen ratMath 0 0 (8 / 3) 0 (16 / 3) 0 8 0 none / 5)) = 2 := by
  decide!

/-- C30, amended. A curve that `isLine` classifies as straight gets exactly 1
polyline segment; any other curve of estimated length `L` with
`0 ≤ L < 5 * 2^31` gets `max(1, floor(L / 5))` segments, the quotient being
truncated, not rounded; and the polyline of `n` segments has `n + 1`
vertices. -/
theorem segmentCount_spec (bez : Bez) (l : ℚ) :
    (isLine bez = true → segmentCount bez l = 1) ∧
    (isLine bez = false → 0 ≤ l → l < 5 * 2147483648 →
      segmentCount bez l = max 1 ⌊l / 5⌋) ∧
    (∀ n : ℤ, (dotsOf bez n).length = (n + 1).toNat) := by
  refine ⟨?_, ?_, ?_⟩
  · intro h
    simp [segmentCount, h]
  · intro h h0 h1
    have e := toInt32_of_nonneg (l / 5) (by positivity) (by linarith)
    have hf0 : 0 ≤ ⌊l / 5⌋ := Int.floor_nonneg.mpr (by positivity)
    simp only [segmentCount, h, e, Bool.false_eq_true, if_false]
    split_ifs with hz
    · rw [hz]
      rfl
    · rw [max_eq_right]
      omega
  · intro n
    simp [dotsOf, Function.comp_def]

theorem segmentCount_spec_witness :
    segmentCount ⟨0, 0, 8 / 3, 0, 16 / 3, 0, 8, 0⟩ 8 = max 1 ⌊(8 : ℚ) / 5⌋ :=
  (segmentCount_spec ⟨0, 0, 8 / 3, 0, 16 / 3, 0, 8, 0⟩ 8).2.1 (by decide!) (by norm_num)
    (by norm_num)

theorem isBBoxIntersect_iff_cases (a b : BBox) :
    isBBoxIntersect a b = true ↔
      ((a.x ≥ b.x ∧ a.x ≤ b.x + b.width ∧ a.y ≥ b.y ∧ a.y ≤ b.y + b.height) ∨
      (a.x + a.width ≥ b.x ∧ a.x + a.width ≤ b.x + b.width ∧ a.y ≥ b.y ∧
        a.y ≤ b.y + b.height) ∨
      (a.x ≥ b.x ∧ a.x ≤ b.x + b.width ∧ a.y + a.height ≥ b.y ∧
        a.y + a.height ≤ b.y + b.height) ∨
      (a.x + a.width ≥ b.x ∧ a.x + a.width ≤ b.x + b.width ∧ a.y + a.height ≥ b.y ∧
        a.y + a.height ≤ b.y + b.height) ∨
      (b.x ≥ a.x ∧ b.x ≤ a.x + a.width ∧ b.y ≥ a.y ∧ b.y ≤ a.y + a.height) ∨
      (b.x + b.width ≥ a.x ∧ b.x + b.width ≤ a.x + a.width ∧ b.y ≥ a.y ∧
        b.y ≤ a.y + a.height) ∨
      (b.x ≥ a.x ∧ b.x ≤ a.x + a.width ∧ b.y + b.height ≥ a.y ∧
        b.y + b.height ≤ a.y + a.height) ∨
      (b.x + b.width ≥ a.x ∧ b.x + b.width ≤ a.x + a.width ∧ b.y + b.height ≥ a.y ∧
        b.y + b.height ≤ a.y + a.height) ∨
      (((a.x < b.x + b.width ∧ a.x > b.x) ∨ (b.x < a.x + a.width ∧ b.x > a.x)) ∧
        ((a.y < b.y + b.height ∧ a.y > b.y) ∨ (b.y < a.y + a.height ∧ b.y > a.y)))) := by
  simp only [isBBoxIntersect, isPointInsideBBox, rectBBoxOf, rectBBox, Bool.or_eq_true,
    Bool.and_eq_true, decide_eq_true_eq, or_assoc]

theorem isBBoxIntersect_common_point (a b : BBox) (haw : 0 ≤ a.width) (hah : 0 ≤ a.height)
    (hbw : 0 ≤ b.width) (hbh : 0 ≤ b.height) :
    isBBoxIntersect a b = true ↔
      ∃ x y, isPointInsideBBox a x y = true ∧ isPointInsideBBox b x y = true := by
  rw [isBBoxIntersect_iff_cases]
  simp only [isPointInsideBBox, decide_eq_true_eq]
  constructor
  · rintro (h | h | h | h | h | h | h | h | ⟨hx, hy⟩)
    · exact ⟨a.x, a.y, ⟨le_refl _, by linarith, le_refl _, by linarith⟩, h⟩
    · exact ⟨a.x + a.width, a.y, ⟨by linarith, le_refl _, le_refl _, by linarith⟩, h⟩
    · exact ⟨a.x, a.y + a.height, ⟨le_refl _, by linarith, by linarith, le_refl _⟩, h⟩
    · exact ⟨a.x + a.width, a.y + a.height,
        ⟨by linarith, le_refl _, by linarith, le_refl _⟩, h⟩
    · exact ⟨b.x, b.y, h, ⟨le_refl _, by linarith, le_refl _, by linarith⟩⟩
    · exact ⟨b.x + b.width, b.y, h, ⟨by linarith, le_refl _, le_refl _, by linarith⟩⟩
    · exact ⟨b.x, b.y + b.height, h, ⟨le_refl _, by linarith, by linarith, le_refl _⟩⟩
    · exact ⟨b.x + b.width, b.y + b.height, h,
        ⟨by linarith, le_refl _, by linarith, le_refl _⟩⟩
    · rcases hx with hx | hx <;> rcases hy with hy | hy
      · exact ⟨a.x, a.y, ⟨le_refl _, by linarith, le_refl _, by linarith⟩,
          ⟨by linarith, by linarith, by linarith, by linarith⟩⟩
      · exact ⟨a.x, b.y, ⟨le_refl _, by linarith, by linarith, by linarith⟩,
          ⟨by linarith, by linarith, le_refl _, by linarith⟩⟩
      · exact ⟨b.x, a.y, ⟨by linarith, by linarith, le_refl _, by linarith⟩,
          ⟨le_refl _, by linarith, by linarith, by linarith⟩⟩
      · exact ⟨b.x, b.y, ⟨by linarith, by linarith, by linarith, by linarith⟩,
          ⟨le_refl _, by linarith, le_refl _, by linarith⟩⟩
  · rintro ⟨x, y, ⟨h1, h2, h3, h4⟩, ⟨h5, h6, h7, h8⟩⟩
    rcases le_total b.x a.x with hx | hx <;> rcases le_total b.y a.y with hy | hy
    · exact Or.inl ⟨hx, by linarith, hy, by linarith⟩
    · by_cases c1 : a.y + a.height ≤ b.y + b.height
      · exact Or.inr (Or.inr (Or.inl ⟨hx, by linarith, by linarith, c1⟩))
      · by_cases c2 : b.x + b.width ≤ a.x + a.width
        · exact Or.inr (Or.inr (Or.inr (Or.inr (Or.inr (Or.inl
            ⟨by linarith, c2, hy, by linarith⟩)))))
        · by_cases c3 : a.x ≤ b.x
          · exact Or.inr (Or.inr (Or.inr (Or.inr (Or.inl
              ⟨c3, by linarith, hy, by linarith⟩))))
          · by_cases c4 : a.y = b.y
            · exact Or.inl ⟨hx, by linarith, by linarith, by linarith⟩
            · refine Or.inr (Or.inr (Or.inr (Or.inr (Or.inr (Or.inr (Or.inr (Or.inr
                ⟨Or.inl ⟨by linarith, by linarith⟩, Or.inr ⟨by linarith, ?_⟩⟩)))))))
              exact lt_of_le_of_ne hy c4
    · by_cases c1 : a.x + a.width ≤ b.x + b.width
      · exact Or.inr (Or.inl ⟨by linarith, c1, hy, by linarith⟩)
      · by_cases c2 : b.y + b.height ≤ a.y + a.height
        · exact Or.inr (Or.inr (Or.inr (Or.inr (Or.inr (Or.inr (Or.inl
            ⟨hx, by linarith, by linarith, c2⟩))))))
        · by_cases c3 : a.y ≤ b.y
          · exact Or.inr (Or.inr (Or.inr (Or.inr (Or.inl
              ⟨hx, by linarith, c3, by linarith⟩))))
          · by_cases c4 : a.x = b.x
            · exact Or.inl ⟨by linarith, by linarith, hy, by linarith⟩
            · refine Or.inr (Or.inr (Or.inr (Or.inr (Or.inr (Or.inr (Or.inr (Or.inr
                ⟨Or.inr ⟨by linarith, ?_⟩, Or.inl ⟨by linarith, by linarith⟩⟩)))))))
              exact lt_of_le_of_ne hx c4
    · exact Or.inr (Or.inr (Or.inr (Or.inr (Or.inl ⟨hx, by linarith, hy, by linarith⟩))))

/-- C37. For rectangles of non-negative width and height `isBBoxIntersect(a, b)`
is `true` exactly when the two closed rectangles share a point, and the test is
symmetric in its arguments. -/
theorem isBBoxIntersect_spec (a b : BBox) (haw : 0 ≤ a.width) (hah : 0 ≤ a.height)
    (hbw : 0 ≤ b.width) (hbh : 0 ≤ b.height) :
    (isBBoxIntersect a b = true ↔
      ∃ x y, isPointInsideBBox a x y = true ∧ isPointInsideBBox b x y = true) ∧
    isBBoxIntersect a b = isBBoxIntersect b a := by
  have h1 := isBBoxIntersect_common_point a b haw hah hbw hbh
  have h2 := isBBoxIntersect_common_point b a hbw hbh haw hah
  refine ⟨h1, ?_⟩
  rw [Bool.eq_iff_iff, h1, h2]
  constructor
  · rintro ⟨x, y, ha, hb⟩
    exact ⟨x, y, hb, ha⟩
  · rintro ⟨x, y, hb, ha⟩
    exact ⟨x, y, ha, hb⟩

theorem isBBoxIntersect_spec_witness :
    isBBoxIntersect (rectBBox 0 4 10 2) (rectBBox 4 0 2 10) =
      isBBoxIntersect (rectBBox 4 0 2 10) (rectBBox 0 4 10 2) :=
  (isBBoxIntersect_spec (rectBBox 0 4 10 2) (rectBBox 4 0 2 10) (by norm_num [rectBBox])
    (by norm_num [rectBBox]) (by norm_num [rectBBox]) (by norm_num [rectBBox])).2

theorem foldl_min_le {K : Type} [LinearOrder K] (l : List K) :
    ∀ a : K, l.foldl min a ≤ a ∧ ∀ x ∈ l, l.foldl min a ≤ x := by
  induction l with
  | nil => intro a; exact ⟨le_refl _, by simp⟩
  | cons b rest ih =>
    intro a
    obtain ⟨h1, h2⟩ := ih (min a b)
    refine ⟨le_trans h1 (min_le_left _ _), ?_⟩
    intro x hx
    rcases List.mem_cons.mp hx with rfl | hx
    · exact le_trans h1 (min_le_right _ _)
    · exact h2 x hx

theorem le_foldl_max {K : Type} [LinearOrder K] (l : List K) :
    ∀ a : K, a ≤ l.foldl max a ∧ ∀ x ∈ l, x ≤ l.foldl max a := by
  induction l with
  | nil => intro a; exact ⟨le_refl _, by simp⟩
  | cons b rest ih =>
    intro a
    obtain ⟨h1, h2⟩ := ih (max a b)
    refine ⟨le_trans (le_max_left _ _) h1, ?_⟩
    intro x hx
    rcases List.mem_cons.mp hx with rfl | hx
    · exact le_trans (le_max_right _ _) h1
    · exact h2 x hx

theorem bezierBBox_nonneg (m : MathFns) (bez : Bez) :
    0 ≤ (bezierBBox m bez).width ∧ 0 ≤ (bezierBBox m bez).height := by
  simp only [bezierBBox, curveBBox, rectBBox, sub_nonneg]
  exact ⟨le_trans (foldl_min_le _ _).1 (le_foldl_max _ _).1,
    le_trans (foldl_min_le _ _).1 (le_foldl_max _ _).1⟩

/-- C32. For two cubic segments whose bounding boxes have no point in common,
`findBezierIntersections` returns the empty list, and 0 in counting mode. -/
theorem findBezierIntersections_disjoint (m : MathFns) (bez1 bez2 : Bez) (justCount : Bool)
    (h : ¬ ∃ x y, isPointInsideBBox (bezierBBox m bez1) x y = true ∧
      isPointInsideBBox (bezierBBox m bez2) x y = true) :
    findBezierIntersections m bez1 bez2 justCount =
      if justCount then .count 0 else .list [] := by
  have hb : isBBoxIntersect (bezierBBox m bez1) (bezierBBox m bez2) = false := by
    rw [← Bool.not_eq_true]
    intro hi
    exact h ((isBBoxIntersect_common_point _ _ (bezierBBox_nonneg m bez1).1
      (bezierBBox_nonneg m bez1).2 (bezierBBox_nonneg m bez2).1
      (bezierBBox_nonneg m bez2).2).mp hi)
  simp [findBezierIntersections, hb]

theorem findBezierIntersections_disjoint_witness :
    findBezierIntersections ratMath ⟨0, 0, 0, 0, 10, 10, 10, 10⟩
      ⟨20, 0, 20, 0, 30, 10, 30, 10⟩ false = .list [] :=
  findBezierIntersections_disjoint ratMath ⟨0, 0, 0, 0, 10, 10, 10, 10⟩
    ⟨20, 0, 20, 0, 30, 10, 30, 10⟩ false (by
      intro hex
      have hi := (isBBoxIntersect_common_point _ _
        (bezierBBox_nonneg ratMath ⟨0, 0, 0, 0, 10, 10, 10, 10⟩).1
        (bezierBBox_nonneg ratMath ⟨0, 0, 0, 0, 10, 10, 10, 10⟩).2
        (bezierBBox_nonneg ratMath ⟨20, 0, 20, 0, 30, 10, 30, 10⟩).1
        (bezierBBox_nonneg ratMath ⟨20, 0, 20, 0, 30, 10, 30, 10⟩).2).mpr hex
      have hf : isBBoxIntersect (bezierBBox ratMath ⟨0, 0, 0, 0, 10, 10, 10, 10⟩)
          (bezierBBox ratMath ⟨20, 0, 20, 0, 30, 10, 30, 10⟩) = false := by decide!
      rw [hf] at hi
      exact Bool.false_ne_true hi)

theorem intersectLines_parallel (x1 y1 x2 y2 x3 y3 x4 y4 : ℚ)
    (h : (x1 - x2) * (y3 - y4) - (y1 - y2) * (x3 - x4) = 0) :
    intersectLines x1 y1 x2 y2 x3 y3 x4 y4 = none := by
  unfold intersectLines
  split_ifs with h1
  · rfl
  · simp [h]

theorem pairStep_self (justCount : Bool) (d0 d1 : Dot)
    (st : List ((Bool × ℤ) × (Bool × ℤ)) × BezResult) :
    pairStep justCount d0 d1 d0 d1 st = st := by
  have h := intersectLines_parallel d0.x d0.y d1.x d1.y d0.x d0.y d1.x d1.y (by ring)
  unfold pairStep
  generalize intersectLines d0.x d0.y d1.x d1.y d0.x d0.y d1.x d1.y = o at h
  subst h
  rfl

theorem polylineIntersections_self (justCount : Bool) (d0 d1 : Dot) :
    polylineIntersections justCount [d0, d1] [d0, d1] 1 1 =
      if justCount then .count 0 else .list [] := by
  simp only [polylineIntersections, List.tail_cons, List.zip_cons_cons, List.zip_nil_right,
    Int.toNat_one, List.take_succ_cons, List.take_zero, List.foldl_cons, List.foldl_nil,
    pairStep_self]

theorem dotsOf_one (bez : Bez) : ∃ d0 d1, dotsOf bez 1 = [d0, d1] := ⟨_, _, rfl⟩

theorem findBezierIntersections_self_line (m : MathFns) (bez : Bez) (justCount : Bool)
    (hl : isLine bez = true) :
    findBezierIntersections m bez bez justCount = if justCount then .count 0 else .list [] := by
  obtain ⟨d0, d1, hd⟩ := dotsOf_one bez
  unfold findBezierIntersections
  simp only [segmentCount, hl, if_true, hd, polylineIntersections_self]
  split_ifs <;> rfl

/-- C33. `intersectLines` reports no intersection whenever the direction
determinant `(x1-x2)*(y3-y4) - (y1-y2)*(x3-x4)` is zero, zero-length and
collinear overlapping segments included; the division is reached only for a
non-zero determinant.  In particular the path of one straight segment from
`(a, b)` to `(c, d)` intersected with itself yields no intersection. -/
theorem intersectLines_zero_determinant :
    (∀ x1 y1 x2 y2 x3 y3 x4 y4 : ℚ, (x1 - x2) * (y3 - y4) - (y1 - y2) * (x3 - x4) = 0 →
      intersectLines x1 y1 x2 y2 x3 y3 x4 y4 = none) ∧
    (∀ (m : MathFns) (fuel : ℕ) (a b c d : ℚ) (justCount : Bool),
      findPathIntersections m fuel (.segs [⟨'M', [a, b]⟩, ⟨'L', [c, d]⟩])
        (.segs [⟨'M', [a, b]⟩, ⟨'L', [c, d]⟩]) justCount =
        some (if justCount then .count 0 else .list [])) := by
  constructor
  · exact intersectLines_parallel
  · intro m fuel a b c d justCount
    have hp : pathToCurve m fuel (.segs [⟨'M', [a, b]⟩, ⟨'L', [c, d]⟩]) =
        some [⟨'M', [a, b]⟩, ⟨'C', [a, b, c, d, c, d]⟩] := by
      simp [pathToCurve, pathToAbsolute, absLoop, absStep, secondLast, lastArg,
        curveLoop_move_line]
    have hs := findBezierIntersections_self_line m ⟨a, b, a, b, c, d, c, d⟩ justCount
      (by simp [isLine])
    cases justCount <;>
      simp [findPathIntersections, hp, outerLoop, innerLoop, segmentBez, hs, addHits] at hs ⊢

theorem intersectLines_zero_determinant_witness :
    intersectLines 0 0 10 10 5 5 20 20 = none :=
  intersectLines_zero_determinant.1 0 0 10 10 5 5 20 20 (by norm_num)

theorem pairStep_range (justCount : Bool) (di di1 dj dj1 : Dot)
    (st : List ((Bool × ℤ) × (Bool × ℤ)) × BezResult)
    (h : ∀ l, st.2 = .list l → ∀ hit ∈ l, 0 ≤ hit.t1 ∧ hit.t1 ≤ 1 ∧ 0 ≤ hit.t2 ∧ hit.t2 ≤ 1) :
    ∀ l, (pairStep justCount di di1 dj dj1 st).2 = .list l →
      ∀ hit ∈ l, 0 ≤ hit.t1 ∧ hit.t1 ≤ 1 ∧ 0 ≤ hit.t2 ∧ hit.t2 ≤ 1 := by
  unfold pairStep
  generalize intersectLines di.x di.y di1.x di1.y dj.x dj.y dj1.x dj1.y = o
  cases o with
  | none => exact h
  | some is =>
    simp only
    by_cases hk : (toFixedKey is.1 9, toFixedKey is.2 9) ∈ st.1
    · rw [if_pos hk]
      exact h
    · rw [if_neg hk]
      generalize paramAt (decide (|di1.x - di.x| < 1 / 100)) is di di1 = p1
      generalize paramAt (decide (|dj1.x - dj.x| < 1 / 100)) is dj dj1 = p2
      cases p1 with
      | none => exact h
      | some t1 =>
        cases p2 with
        | none => exact h
        | some t2 =>
          simp only
          by_cases ht : t1 ≥ 0 ∧ t1 ≤ 1 ∧ t2 ≥ 0 ∧ t2 ≤ 1
          · rw [if_pos ht]
            rcases hst : st.2 with n | l0
            · cases justCount <;> simp
            · cases justCount
              · simp only [Bool.false_eq_true, if_false, BezResult.list.injEq]
                rintro l rfl hit hhit
                rcases List.mem_append.mp hhit with hh | hh
                · exact h l0 hst hit hh
                · simp only [List.mem_singleton] at hh
                  subst hh
                  exact ht
              · simp only [if_true, BezResult.list.injEq]
                rintro l rfl
                exact h l0 hst
          · rw [if_neg ht]
            exact h

theorem findBezierIntersections_range (m : MathFns) (bez1 bez2 : Bez) (justCount : Bool)
    (l : List BezHit) (h : findBezierIntersections m bez1 bez2 justCount = .list l) :
    ∀ hit ∈ l, 0 ≤ hit.t1 ∧ hit.t1 ≤ 1 ∧ 0 ≤ hit.t2 ∧ hit.t2 ≤ 1 := by
  unfold findBezierIntersections at h
  simp only [] at h
  by_cases hb : (!isBBoxIntersect (bezierBBox m bez1) (bezierBBox m bez2)) = true
  · rw [if_pos hb] at h
    cases justCount
    · simp only [Bool.false_eq_true, if_false, BezResult.list.injEq] at h
      subst h
      simp
    · simp at h
  · rw [if_neg hb] at h
    unfold polylineIntersections at h
    refine foldl_invariant
      (fun (st : List ((Bool × ℤ) × (Bool × ℤ)) × BezResult) =>
        ∀ l, st.2 = .list l → ∀ hit ∈ l, 0 ≤ hit.t1 ∧ hit.t1 ≤ 1 ∧ 0 ≤ hit.t2 ∧ hit.t2 ≤ 1)
      _ ?_ _ _ ?_ l h
    · intro st p1 hst
      refine foldl_invariant
        (fun (st : List ((Bool × ℤ) × (Bool × ℤ)) × BezResult) =>
          ∀ l, st.2 = .list l → ∀ hit ∈ l, 0 ≤ hit.t1 ∧ hit.t1 ≤ 1 ∧ 0 ≤ hit.t2 ∧ hit.t2 ≤ 1)
        _ ?_ _ _ hst
      intro st p2 hst
      exact pairStep_range _ _ _ _ _ st hst
    · intro l0 hl0
      cases justCount
      · simp only [Bool.false_eq_true, if_false, BezResult.list.injEq] at hl0
        subst hl0
        simp
      · simp at hl0

theorem addHits_range (res : PathResult) (intr : BezResult) (i j : ℕ) (bez1 bez2 : Bez)
    (hres : ∀ l, res = .list l → ∀ hit ∈ l, 0 ≤ hit.t1 ∧ hit.t1 ≤ 1 ∧ 0 ≤ hit.t2 ∧ hit.t2 ≤ 1)
    (hintr : ∀ l, intr = .list l →
      ∀ hit ∈ l, 0 ≤ hit.t1 ∧ hit.t1 ≤ 1 ∧ 0 ≤ hit.t2 ∧ hit.t2 ≤ 1) :
    ∀ l, addHits res intr i j bez1 bez2 = .list l →
      ∀ hit ∈ l, 0 ≤ hit.t1 ∧ hit.t1 ≤ 1 ∧ 0 ≤ hit.t2 ∧ hit.t2 ≤ 1 := by
  intro l hl hit hhit
  cases res with
  | count n => cases intr <;> simp [addHits] at hl
  | list l0 =>
    cases intr with
    | count k =>
      simp only [addHits, PathResult.list.injEq] at hl
      subst hl
      exact hres _ rfl hit hhit
    | list hits =>
      simp only [addHits, PathResult.list.injEq] at hl
      subst hl
      rcases List.mem_append.mp hhit with hh | hh
      · exact hres _ rfl hit hh
      · obtain ⟨b, hb, rfl⟩ := List.mem_map.mp hh
        exact hintr _ rfl b hb

theorem innerLoop_range (m : MathFns) (justCount : Bool) (i : ℕ) (bez1 : Bez) :
    ∀ (path2 : List Segment) (j : ℕ) (c : Cursor) (res : PathResult) (c1 : Cursor)
      (res1 : PathResult),
      (∀ l, res = .list l → ∀ hit ∈ l, 0 ≤ hit.t1 ∧ hit.t1 ≤ 1 ∧ 0 ≤ hit.t2 ∧ hit.t2 ≤ 1) →
      innerLoop m justCount i bez1 j c path2 res = some (c1, res1) →
      ∀ l, res1 = .list l → ∀ hit ∈ l, 0 ≤ hit.t1 ∧ hit.t1 ≤ 1 ∧ 0 ≤ hit.t2 ∧ hit.t2 ≤ 1 := by
  intro path2
  induction path2 with
  | nil =>
    intro j c res c1 res1 hres h
    simp only [innerLoop, Option.some.injEq, Prod.mk.injEq] at h
    rw [← h.2]
    exact hres
  | cons pj rest ih =>
    intro j c res c1 res1 hres h
    simp only [innerLoop] at h
    split_ifs at h with hM
    · exact ih _ _ _ _ _ hres h
    · simp only [Option.bind_eq_bind, Option.bind_eq_some] at h
      obtain ⟨⟨bez2, c2⟩, -, h⟩ := h
      exact ih _ _ _ _ _ (addHits_range res _ i j bez1 bez2 hres
        (fun l hl => findBezierIntersections_range m bez1 bez2 justCount l hl)) h

theorem outerLoop_range (m : MathFns) (justCount : Bool) (path2 : List Segment) :
    ∀ (path1 : List Segment) (i : ℕ) (c1 c2 : Cursor) (res res1 : PathResult),
      (∀ l, res = .list l → ∀ hit ∈ l, 0 ≤ hit.t1 ∧ hit.t1 ≤ 1 ∧ 0 ≤ hit.t2 ∧ hit.t2 ≤ 1) →
      outerLoop m justCount path2 i c1 c2 path1 res = some res1 →
      ∀ l, res1 = .list l → ∀ hit ∈ l, 0 ≤ hit.t1 ∧ hit.t1 ≤ 1 ∧ 0 ≤ hit.t2 ∧ hit.t2 ≤ 1 := by
  intro path1
  induction path1 with
  | nil =>
    intro i c1 c2 res res1 hres h
    simp only [outerLoop, Option.some.injEq] at h
    rw [← h]
    exact hres
  | cons pi rest ih =>
    intro i c1 c2 res res1 hres h
    simp only [outerLoop] at h
    split_ifs at h with hM
    · exact ih _ _ _ _ _ hres h
    · simp only [Option.bind_eq_bind, Option.bind_eq_some] at h
      obtain ⟨⟨bez1, c1n⟩, -, ⟨c2n, res2⟩, hin, h⟩ := h
      exact ih _ _ _ _ _ (innerLoop_range m justCount i bez1 path2 0 c2 res c2n res2 hres hin) h

/-- C34. Every intersection in a list that `findPathIntersections` or
`findBezierIntersections` returns has `0 ≤ t1 ≤ 1` and `0 ≤ t2 ≤ 1`. -/
theorem intersections_parameters_in_range (m : MathFns) :
    (∀ (fuel : ℕ) (A B : PathSpec) (l : List Intersection),
      findPathIntersections m fuel A B false = some (.list l) →
      ∀ hit ∈ l, 0 ≤ hit.t1 ∧ hit.t1 ≤ 1 ∧ 0 ≤ hit.t2 ∧ hit.t2 ≤ 1) ∧
    (∀ (bez1 bez2 : Bez) (l : List BezHit),
      findBezierIntersections m bez1 bez2 false = .list l →
      ∀ hit ∈ l, 0 ≤ hit.t1 ∧ hit.t1 ≤ 1 ∧ 0 ≤ hit.t2 ∧ hit.t2 ≤ 1) := by
  constructor
  · intro fuel A B l h
    simp only [findPathIntersections, Option.bind_eq_bind, Option.bind_eq_some] at h
    obtain ⟨r1, -, r2, -, h⟩ := h
    exact outerLoop_range m false r2 r1 0 _ _ _ _ (by simp) h l rfl
  · intro bez1 bez2 l h
    exact findBezierIntersections_range m bez1 bez2 false l h

theorem intersections_parameters_in_range_witness :
    ∀ hit ∈ [(⟨50, 50, 1 / 2, 1 / 2⟩ : BezHit)],
      0 ≤ hit.t1 ∧ hit.t1 ≤ 1 ∧ 0 ≤ hit.t2 ∧ hit.t2 ≤ 1 :=
  (intersections_parameters_in_range ratMath).2 ⟨0, 0, 0, 0, 100, 100, 100, 100⟩
    ⟨0, 100, 0, 100, 100, 0, 100, 0⟩ _ (by decide!)

theorem pairStep_count_list (di di1 dj dj1 : Dot) (xy : List ((Bool × ℤ) × (Bool × ℤ)))
    (l : List BezHit) :
    ∃ l1, pairStep false di di1 dj dj1 (xy, .list l) =
        ((pairStep false di di1 dj dj1 (xy, .list l)).1, .list l1) ∧
      pairStep true di di1 dj dj1 (xy, .count l.length) =
        ((pairStep false di di1 dj dj1 (xy, .list l)).1, .count l1.length) := by
  unfold pairStep
  generalize intersectLines di.x di.y di1.x di1.y dj.x dj.y dj1.x dj1.y = o
  cases o with
  | none => exact ⟨l, rfl, rfl⟩
  | some is =>
    simp only
    by_cases hk : (toFixedKey is.1 9, toFixedKey is.2 9) ∈ xy
    · simp only [if_pos hk]
      exact ⟨l, rfl, rfl⟩
    · simp only [if_neg hk]
      generalize paramAt (decide (|di1.x - di.x| < 1 / 100)) is di di1 = p1
      generalize paramAt (decide (|dj1.x - dj.x| < 1 / 100)) is dj dj1 = p2
      cases p1 with
      | none => exact ⟨l, rfl, rfl⟩
      | some t1 =>
        cases p2 with
        | none => exact ⟨l, rfl, rfl⟩
        | some t2 =>
          simp only
          by_cases ht : t1 ≥ 0 ∧ t1 ≤ 1 ∧ t2 ≥ 0 ∧ t2 ≤ 1
          · simp only [if_pos ht, Bool.false_eq_true, if_false, if_true]
            exact ⟨_, rfl, by simp⟩
          · simp only [if_neg ht]
            exact ⟨l, rfl, rfl⟩

theorem foldl_count_list {β : Type} (f g : List ((Bool × ℤ) × (Bool × ℤ)) × BezResult → β →
      List ((Bool × ℤ) × (Bool × ℤ)) × BezResult)
    (h : ∀ xy l b, ∃ l1, g (xy, .list l) b = ((g (xy, .list l) b).1, .list l1) ∧
      f (xy, .count l.length) b = ((g (xy, .list l) b).1, .count l1.length)) :
    ∀ (bs : List β) xy l, ∃ l1, bs.foldl g (xy, .list l) = ((bs.foldl g (xy, .list l)).1, .list l1) ∧
      bs.foldl f (xy, .count l.length) = ((bs.foldl g (xy, .list l)).1, .count l1.length) := by
  intro bs
  induction bs with
  | nil => intro xy l; exact ⟨l, rfl, rfl⟩
  | cons b rest ih =>
    intro xy l
    obtain ⟨l1, h1, h2⟩ := h xy l b
    obtain ⟨l2, h3, h4⟩ := ih (g (xy, .list l) b).1 l1
    refine ⟨l2, ?_, ?_⟩
    · simp only [List.foldl_cons]
      rw [h1]
      exact h3
    · simp only [List.foldl_cons]
      rw [h2, h1]
      exact h4

theorem pairs_count_list (pairs1 pairs2 : List (Dot × Dot)) :
    ∃ l1, (pairs1.foldl (fun st p1 =>
          pairs2.foldl (fun st p2 => pairStep false p1.1 p1.2 p2.1 p2.2 st) st)
        ([], .list [])).2 = .list l1 ∧
      (pairs1.foldl (fun st p1 =>
          pairs2.foldl (fun st p2 => pairStep true p1.1 p1.2 p2.1 p2.2 st) st)
        ([], .count 0)).2 = .count l1.length := by
  obtain ⟨l1, h1, h2⟩ := foldl_count_list
    (fun st (p1 : Dot × Dot) =>
      pairs2.foldl (fun st (p2 : Dot × Dot) => pairStep true p1.1 p1.2 p2.1 p2.2 st) st)
    (fun st (p1 : Dot × Dot) =>
      pairs2.foldl (fun st (p2 : Dot × Dot) => pairStep false p1.1 p1.2 p2.1 p2.2 st) st)
    (fun xy l p1 => foldl_count_list
      (fun st (p2 : Dot × Dot) => pairStep true p1.1 p1.2 p2.1 p2.2 st)
      (fun st (p2 : Dot × Dot) => pairStep false p1.1 p1.2 p2.1 p2.2 st)
      (fun xy l p2 => pairStep_count_list p1.1 p1.2 p2.1 p2.2 xy l) pairs2 xy l)
    pairs1 [] []
  refine ⟨l1, ?_, ?_⟩
  · rw [h1]
  · exact congrArg Prod.snd h2

theorem findBezierIntersections_count_list (m : MathFns) (bez1 bez2 : Bez) :
    ∃ l, findBezierIntersections m bez1 bez2 false = .list l ∧
      findBezierIntersections m bez1 bez2 true = .count l.length := by
  unfold findBezierIntersections
  simp only []
  by_cases hb : (!isBBoxIntersect (bezierBBox m bez1) (bezierBBox m bez2)) = true
  · simp only [if_pos hb]
    exact ⟨[], rfl, rfl⟩
  · simp only [if_neg hb]
    unfold polylineIntersections
    simp only [Bool.false_eq_true, if_false, if_true]
    exact pairs_count_list _ _

theorem innerLoop_count_list (m : MathFns) (i : ℕ) (bez1 : Bez) :
    ∀ (path2 : List Segment) (j : ℕ) (c : Cursor) (l : List Intersection),
      (innerLoop m false i bez1 j c path2 (.list l) = none ∧
        innerLoop m true i bez1 j c path2 (.count l.length) = none) ∨
      ∃ c1 l1, innerLoop m false i bez1 j c path2 (.list l) = some (c1, .list l1) ∧
        innerLoop m true i bez1 j c path2 (.count l.length) = some (c1, .count l1.length) := by
  intro path2
  induction path2 with
  | nil => intro j c l; exact Or.inr ⟨c, l, rfl, rfl⟩
  | cons pj rest ih =>
    intro j c l
    simp only [innerLoop]
    by_cases hM : pj.cmd = 'M'
    · simp only [if_pos hM]
      exact ih _ _ _
    · simp only [if_neg hM]
      rcases hs : segmentBez c pj with _ | ⟨bez2, c2⟩
      · exact Or.inl ⟨by simp, by simp⟩
      · obtain ⟨hits, h1, h2⟩ := findBezierIntersections_count_list m bez1 bez2
        simp only [Option.bind_eq_bind, Option.some_bind, h1, h2, addHits]
        have := ih (j + 1) c2 (l ++ hits.map fun h => ⟨h.x, h.y, h.t1, h.t2, i, j, bez1, bez2⟩)
        simpa using this

theorem outerLoop_count_list (m : MathFns) (path2 : List Segment) :
    ∀ (path1 : List Segment) (i : ℕ) (c1 c2 : Cursor) (l : List Intersection),
      (outerLoop m false path2 i c1 c2 path1 (.list l) = none ∧
        outerLoop m true path2 i c1 c2 path1 (.count l.length) = none) ∨
      ∃ l1, outerLoop m false path2 i c1 c2 path1 (.list l) = some (.list l1) ∧
        outerLoop m true path2 i c1 c2 path1 (.count l.length) = some (.count l1.length) := by
  intro path1
  induction path1 with
  | nil => intro i c1 c2 l; exact Or.inr ⟨l, rfl, rfl⟩
  | cons pi rest ih =>
    intro i c1 c2 l
    simp only [outerLoop]
    by_cases hM : pi.cmd = 'M'
    · simp only [if_pos hM]
      exact ih _ _ _ _
    · simp only [if_neg hM]
      rcases hs : segmentBez c1 pi with _ | ⟨bez1, c1n⟩
      · exact Or.inl ⟨by simp, by simp⟩
      · simp only [Option.bind_eq_bind, Option.some_bind]
        rcases innerLoop_count_list m i bez1 path2 0 c2 l with ⟨h1, h2⟩ | ⟨c2n, l1, h1, h2⟩
        · exact Or.inl ⟨by simp [h1], by simp [h2]⟩
        · simp only [h1, h2, Option.some_bind]
          exact ih _ _ _ _

/-- C35. Counting mode agrees with list mode: for all paths `A` and `B`,
`findPathIntersections(A, B, true)` is the length of the list
`findPathIntersections(A, B, false)` (and both leave the model together). -/
theorem findPathIntersections_count_eq_length (m : MathFns) (fuel : ℕ) (A B : PathSpec) :
    findPathIntersections m fuel A B true =
      (findPathIntersections m fuel A B false).map fun r => .count r.size := by
  simp only [findPathIntersections]
  rcases pathToCurve m fuel A with _ | r1
  · rfl
  · rcases pathToCurve m fuel B with _ | r2
    · rfl
    · simp only [Option.bind_eq_bind, Option.some_bind, if_true, Bool.false_eq_true, if_false]
      rcases outerLoop_count_list m r2 r1 0 ⟨none, none, none, none⟩ ⟨none, none, none, none⟩ []
        with ⟨h1, h2⟩ | ⟨l1, h1, h2⟩
      · rw [h1]
        exact h2
      · rw [h1]
        exact h2

theorem jsRound_mono {x y : ℚ} (h : x ≤ y) : jsRound x ≤ jsRound y :=
  Int.floor_le_floor (by linarith)

theorem fixError_mono {x y : ℚ} (h : x ≤ y) : fixError x ≤ fixError y := by
  unfold fixError
  have h1 : jsRound (x * 100000000000) ≤ jsRound (y * 100000000000) :=
    jsRound_mono (by linarith)
  have h2 : ((jsRound (x * 100000000000) : ℤ) : ℚ) ≤ ((jsRound (y * 100000000000) : ℤ) : ℚ) := by
    exact_mod_cast h1
  exact div_le_div_of_nonneg_right h2 (by norm_num)

theorem fixError_grid (x : ℚ) (h : ∃ k : ℤ, x = (k : ℚ) / 100000000000) : fixError x = x := by
  obtain ⟨k, rfl⟩ := h
  unfold fixError jsRound
  have : (k : ℚ) / 100000000000 * 100000000000 + 1 / 2 = ((k : ℤ) : ℚ) + 1 / 2 := by ring
  rw [this]
  have hf : ⌊((k : ℤ) : ℚ) + 1 / 2⌋ = k := by
    rw [Int.floor_eq_iff]
    constructor <;> linarith
  rw [hf]

theorem toFixedDigits_mono (d : ℕ) {x y : ℚ} (h : x ≤ y) :
    toFixedDigits x d ≤ toFixedDigits y d := by
  unfold toFixedDigits
  apply Int.floor_le_floor
  have : (0 : ℚ) < (10 : ℚ) ^ d := by positivity
  nlinarith

theorem toFixedDigits_nonneg (d : ℕ) {x : ℚ} (h : 0 ≤ x) : 0 ≤ toFixedDigits x d := by
  unfold toFixedDigits
  apply Int.floor_nonneg.mpr
  positivity

theorem toFixedNum_mono (d : ℕ) {x y : ℚ} (h : x ≤ y) : toFixedNum x d ≤ toFixedNum y d := by
  have hp : (0 : ℚ) < (10 : ℚ) ^ d := by positivity
  unfold toFixedNum
  by_cases hx : x < 0 <;> by_cases hy : y < 0
  · rw [if_pos hx, if_pos hy, neg_le_neg_iff]
    have := toFixedDigits_mono d (neg_le_neg h)
    exact div_le_div_of_nonneg_right (by exact_mod_cast this) hp.le
  · rw [if_pos hx, if_neg hy]
    have h1 : (0 : ℚ) ≤ (toFixedDigits (-x) d : ℚ) / (10 : ℚ) ^ d :=
      div_nonneg (by exact_mod_cast toFixedDigits_nonneg d (by linarith)) hp.le
    have h2 : (0 : ℚ) ≤ (toFixedDigits y d : ℚ) / (10 : ℚ) ^ d :=
      div_nonneg (by exact_mod_cast toFixedDigits_nonneg d (by linarith)) hp.le
    linarith
  · exfalso
    linarith
  · rw [if_neg hx, if_neg hy]
    have := toFixedDigits_mono d h
    exact div_le_div_of_nonneg_right (by exact_mod_cast this) hp.le

theorem convex_between (a b s : ℚ) (h0 : 0 ≤ s) (h1 : s ≤ 1) :
    min a b ≤ a + s * (b - a) ∧ a + s * (b - a) ≤ max a b := by
  rcases le_total a b with h | h
  · rw [min_eq_left h, max_eq_right h]
    constructor <;> nlinarith
  · rw [min_eq_right h, max_eq_left h]
    constructor <;> nlinarith

theorem grid_min_max {a b : ℚ} (ha : ∃ k : ℤ, a = (k : ℚ) / 100000000000)
    (hb : ∃ k : ℤ, b = (k : ℚ) / 100000000000) :
    (∃ k : ℤ, min a b = (k : ℚ) / 100000000000) ∧
    (∃ k : ℤ, max a b = (k : ℚ) / 100000000000) := by
  constructor
  · rcases min_choice a b with h | h <;> rw [h] <;> assumption
  · rcases max_choice a b with h | h <;> rw [h] <;> assumption

theorem toFixed_within {lo hi v : ℚ} (hlo : ∃ k : ℤ, lo = (k : ℚ) / 100000000000)
    (hhi : ∃ k : ℤ, hi = (k : ℚ) / 100000000000) (h1 : lo ≤ v) (h2 : v ≤ hi) :
    ¬ toFixedNum (fixError v) 2 < toFixedNum lo 2 ∧
    ¬ toFixedNum (fixError v) 2 > toFixedNum hi 2 := by
  have e1 := fixError_mono h1
  have e2 := fixError_mono h2
  rw [fixError_grid lo hlo] at e1
  rw [fixError_grid hi hhi] at e2
  exact ⟨not_lt.mpr (toFixedNum_mono 2 e1), not_lt.mpr (toFixedNum_mono 2 e2)⟩

/-- C36, counterexample. The horizontal segment from (0, 0) to
(0.004999999999999, 0) and the vertical segment through its end point are not
parallel and meet in that end point, yet `intersectLines` reports nothing:
`fixError` rounds the x coordinate to 0.005, which `toFixed(2)` prints as 0.01,
above the 0.00 printed for the segment's largest x. -/
theorem intersectLines_missed_crossing_counterexample :
    intersectLines 0 0 (4999999999999 / 1000000000000000) 0
      (4999999999999 / 1000000000000000) (-1) (4999999999999 / 1000000000000000) 1 = none ∧
    ((0 : ℚ) - 4999999999999 / 1000000000000000) * (-1 - 1) -
      (0 - 0) * (4999999999999 / 1000000000000000 - 4999999999999 / 1000000000000000) ≠ 0 ∧
    (0 : ℚ) + 1 * (4999999999999 / 1000000000000000 - 0) =
      4999999999999 / 1000000000000000 + 1 / 2 * (4999999999999 / 1000000000000000 -
        4999999999999 / 1000000000000000) ∧
    (0 : ℚ) + 1 * (0 - 0) = -1 + 1 / 2 * (1 - -1) := by
  decide!

/-- C36, amended. For two segments whose end-point coordinates are multiples of
`1e-11`, that are not parallel and have a common point
`P = (x1, y1) + s (x2 - x1, y2 - y1) = (x3, y3) + u (x4 - x3, y4 - y3)` with
`s` and `u` in `[0, 1]`, `intersectLines` returns the point `P` with both
coordinates passed through `fixError`. -/
theorem intersectLines_finds_crossing (x1 y1 x2 y2 x3 y3 x4 y4 s u : ℚ)
    (hgrid : ∀ c ∈ [x1, y1, x2, y2, x3, y3, x4, y4], ∃ k : ℤ, c = (k : ℚ) / 100000000000)
    (hs0 : 0 ≤ s) (hs1 : s ≤ 1) (hu0 : 0 ≤ u) (hu1 : u ≤ 1)
    (hden : (x1 - x2) * (y3 - y4) - (y1 - y2) * (x3 - x4) ≠ 0)
    (hx : x1 + s * (x2 - x1) = x3 + u * (x4 - x3))
    (hy : y1 + s * (y2 - y1) = y3 + u * (y4 - y3)) :
    intersectLines x1 y1 x2 y2 x3 y3 x4 y4 =
      some (fixError (x1 + s * (x2 - x1)), fixError (y1 + s * (y2 - y1))) := by
  have gx1 := hgrid x1 (by simp)
  have gy1 := hgrid y1 (by simp)
  have gx2 := hgrid x2 (by simp)
  have gy2 := hgrid y2 (by simp)
  have gx3 := hgrid x3 (by simp)
  have gy3 := hgrid y3 (by simp)
  have gx4 := hgrid x4 (by simp)
  have gy4 := hgrid y4 (by simp)
  have bx12 := convex_between x1 x2 s hs0 hs1
  have by12 := convex_between y1 y2 s hs0 hs1
  have bx34 := convex_between x3 x4 u hu0 hu1
  have by34 := convex_between y3 y4 u hu0 hu1
  rw [← hx] at bx34
  rw [← hy] at by34
  have hnx : ((x1 * y2 - y1 * x2) * (x3 - x4) - (x1 - x2) * (x3 * y4 - y3 * x4)) /
      ((x1 - x2) * (y3 - y4) - (y1 - y2) * (x3 - x4)) = x1 + s * (x2 - x1) := by
    rw [div_eq_iff hden]
    linear_combination (x2 - x1) * (y3 - y4) * hx + (x2 - x1) * (x4 - x3) * hy
  have hny : ((x1 * y2 - y1 * x2) * (y3 - y4) - (y1 - y2) * (x3 * y4 - y3 * x4)) /
      ((x1 - x2) * (y3 - y4) - (y1 - y2) * (x3 - x4)) = y1 + s * (y2 - y1) := by
    rw [div_eq_iff hden]
    linear_combination -(y1 - y2) * (y3 - y4) * hx - (y1 - y2) * (x4 - x3) * hy
  unfold intersectLines
  have hpre : ¬ (max x1 x2 < min x3 x4 ∨ min x1 x2 > max x3 x4 ∨
      max y1 y2 < min y3 y4 ∨ min y1 y2 > max y3 y4) := by
    rintro (h | h | h | h)
    · linarith [bx12.2, bx34.1]
    · linarith [bx12.1, bx34.2]
    · linarith [by12.2, by34.1]
    · linarith [by12.1, by34.2]
  rw [if_neg hpre]
  simp only [if_neg hden, hnx, hny]
  have t1 := toFixed_within (grid_min_max gx1 gx2).1 (grid_min_max gx1 gx2).2 bx12.1 bx12.2
  have t2 := toFixed_within (grid_min_max gx3 gx4).1 (grid_min_max gx3 gx4).2 bx34.1 bx34.2
  have t3 := toFixed_within (grid_min_max gy1 gy2).1 (grid_min_max gy1 gy2).2 by12.1 by12.2
  have t4 := toFixed_within (grid_min_max gy3 gy4).1 (grid_min_max gy3 gy4).2 by34.1 by34.2
  rw [if_neg]
  rintro (h | h | h | h | h | h | h | h)
  · exact t1.1 h
  · exact t1.2 h
  · exact t2.1 h
  · exact t2.2 h
  · exact t3.1 h
  · exact t3.2 h
  · exact t4.1 h
  · exact t4.2 h

theorem intersectLines_finds_crossing_witness :
    intersectLines 0 0 10 10 0 10 10 0 =
      some (fixError (0 + 1 / 2 * (10 - 0)), fixError (0 + 1 / 2 * (10 - 0))) :=
  intersectLines_finds_crossing 0 0 10 10 0 10 10 0 (1 / 2) (1 / 2)
    (by
      intro c hc
      simp only [List.mem_cons, List.mem_singleton, List.not_mem_nil, or_false] at hc
      rcases hc with rfl | rfl | rfl | rfl | rfl | rfl | rfl | rfl
      all_goals first
        | (refine ⟨0, ?_⟩; norm_num; done)
        | (refine ⟨1000000000000, ?_⟩; norm_num; done))
    (by norm_num) (by norm_num) (by norm_num) (by norm_num) (by norm_num) (by norm_num)
    (by norm_num)

theorem getSnapOffset_location_witness :
    ∃ base,
      (getSnapOffset ((⟨⟨[], none⟩, none, some ⟨"s", 5, 7, 100, 80⟩,
          ⟨none, none, none, some ⟨none, none, some "top-left"⟩⟩⟩ :
          GestureEvent).setGridSnappingContext ⟨none, none, none⟩) .x []).map (·.1) =
        some base ∧
      (getSnapOffset ⟨⟨[], none⟩, none, some ⟨"s", 5, 7, 100, 80⟩,
          ⟨none, none, none, some ⟨none, none, some "top-left"⟩⟩⟩ .x []).map (·.1) =
        some (if regexTest "left" "top-left" then base - (100 : ℚ) / 2
          else if regexTest "right" "top-left" then base + (100 : ℚ) / 2 else base) :=
  (getSnapOffset_location ⟨⟨[], none⟩, none, some ⟨"s", 5, 7, 100, 80⟩,
    ⟨none, none, none, some ⟨none, none, some "top-left"⟩⟩⟩ [] none "top-left" rfl).1
    ⟨"s", 5, 7, 100, 80⟩ rfl .x

/-! ## Theorems: waypoints and the choice of an intersection -/

theorem filterLoop_cons (m : MathFns) (kept : List Point) (point : Point) (rest : List Point) :
    filterLoop m kept (point :: rest) =
      if pointDistance m (some point) rest.head? = 0 ∨
          pointsOnLine m kept.head? rest.head? (some point) none = true then
        filterLoop m kept rest
      else filterLoop m (point :: kept) rest := by
  rw [filterLoop]

theorem filterLoop_sublist (m : MathFns) : ∀ (rest kept : List Point),
    ∃ r, filterLoop m kept rest = kept.reverse ++ r ∧ r.Sublist rest := by
  intro rest
  induction rest with
  | nil => intro kept; exact ⟨[], by simp [filterLoop], List.Sublist.refl _⟩
  | cons point rest ih =>
    intro kept
    rw [filterLoop_cons]
    split_ifs
    · obtain ⟨r, h1, h2⟩ := ih kept
      exact ⟨r, h1, h2.cons _⟩
    · obtain ⟨r, h1, h2⟩ := ih (point :: kept)
      exact ⟨point :: r, by simp [h1], h2.cons₂ _⟩

theorem filterLoop_getLast (m : MathFns) : ∀ (rest kept : List Point), rest ≠ [] →
    (filterLoop m kept rest).getLast? = rest.getLast? := by
  intro rest
  induction rest with
  | nil => intro kept h; exact absurd rfl h
  | cons point rest ih =>
    intro kept _
    rw [filterLoop_cons]
    cases rest with
    | nil =>
      have h1 : pointDistance m (some point) ([] : List Point).head? = -1 := rfl
      have h2 : pointsOnLine m kept.head? ([] : List Point).head? (some point) none = false := by
        cases kept <;> rfl
      rw [h1, h2]
      norm_num [filterLoop]
    | cons q rest1 =>
      have e : (point :: q :: rest1).getLast? = (q :: rest1).getLast? := by simp
      rw [e]
      split_ifs
      · exact ih kept (by simp)
      · exact ih (point :: kept) (by simp)

theorem pointsOnLine_distance (m : MathFns) (p q r : Option Point) (acc : Option ℚ)
    (h : pointsOnLine m p q r acc = true) :
    ∃ p1 q1, p = some p1 ∧ q = some q1 ∧ pointDistance m (some p1) (some q1) ≠ 0 := by
  rcases p with _ | p1 <;> rcases q with _ | q1 <;> rcases r with _ | r1 <;>
    simp only [pointsOnLine, Bool.false_eq_true] at h
  refine ⟨p1, q1, rfl, rfl, ?_⟩
  intro h0
  simp [h0] at h

theorem filterLoop_chain (m : MathFns) : ∀ (rest kept : List Point),
    (∀ a ∈ rest, ∀ b ∈ rest, pointDistance m (some a) (some b) = 0 → a = b) →
    List.Chain' (fun a b => pointDistance m (some a) (some b) ≠ 0)
      (kept.reverse ++ rest.head?.toList) →
    List.Chain' (fun a b => pointDistance m (some a) (some b) ≠ 0) (filterLoop m kept rest) := by
  intro rest
  induction rest with
  | nil =>
    intro kept _ hinv
    simpa [filterLoop] using hinv
  | cons point rest ih =>
    intro kept H hinv
    have Hrest : ∀ a ∈ rest, ∀ b ∈ rest, pointDistance m (some a) (some b) = 0 → a = b :=
      fun a ha b hb => H a (List.mem_cons_of_mem _ ha) b (List.mem_cons_of_mem _ hb)
    simp only [List.head?_cons, Option.toList_some] at hinv
    rw [filterLoop_cons]
    split_ifs with hc
    · apply ih kept Hrest
      rcases hc with hc | hc
      · cases rest with
        | nil =>
          exfalso
          have h1 : pointDistance m (some point) ([] : List Point).head? = -1 := rfl
          rw [h1] at hc
          norm_num at hc
        | cons q rest1 =>
          simp only [List.head?_cons] at hc
          have hq : point = q := H point (List.mem_cons_self _ _) q (by simp) hc
          subst hq
          simpa using hinv
      · obtain ⟨p1, q1, hp, hq, hd⟩ := pointsOnLine_distance m _ _ _ _ hc
        rw [hq]
        simp only [Option.toList_some]
        rw [List.chain'_append] at hinv ⊢
        refine ⟨hinv.1, List.chain'_singleton _, ?_⟩
        intro x hx y hy
        rw [List.getLast?_reverse, hp] at hx
        simp only [Option.mem_def, Option.some.injEq, List.head?_cons] at hx hy
        subst hx
        subst hy
        exact hd
    · apply ih (point :: kept) Hrest
      rw [List.reverse_cons]
      rw [List.chain'_append]
      refine ⟨hinv, ?_, ?_⟩
      · cases rest <;> simp
      · intro x hx y hy
        simp only [List.getLast?_append, List.getLast?_singleton, Option.mem_def] at hx
        have hx1 : x = point := by
          simpa [Option.or] using hx.symm
        subst hx1
        cases rest with
        | nil => simp at hy
        | cons q rest1 =>
          simp only [List.head?_cons, Option.toList_some, Option.mem_def,
            Option.some.injEq] at hy
          subst hy
          intro h0
          exact hc (Or.inl (by simpa using h0))

/-- C40. `filterRedundantWaypoints` returns, for every list of waypoints, a
sublist of the input (same points, same order) that keeps the last waypoint of a
non-empty input; and when `pointDistance` is 0 only between equal points of the
list, as it is for the exact square root, no two consecutive points of the result
are at distance 0. -/
theorem filterRedundantWaypoints_spec (m : MathFns) (waypoints : List Point) :
    (filterRedundantWaypoints m waypoints).Sublist waypoints ∧
    (waypoints ≠ [] →
      (filterRedundantWaypoints m waypoints).getLast? = waypoints.getLast?) ∧
    ((∀ a ∈ waypoints, ∀ b ∈ waypoints, pointDistance m (some a) (some b) = 0 → a = b) →
      List.Chain' (fun a b => pointDistance m (some a) (some b) ≠ 0)
        (filterRedundantWaypoints m waypoints)) := by
  refine ⟨?_, ?_, ?_⟩
  · obtain ⟨r, h1, h2⟩ := filterLoop_sublist m waypoints []
    simp only [filterRedundantWaypoints, h1, List.reverse_nil, List.nil_append]
    exact h2
  · exact filterLoop_getLast m waypoints []
  · intro H
    apply filterLoop_chain m waypoints [] H
    cases waypoints <;> simp

theorem filterRedundantWaypoints_spec_witness :
    List.Chain' (fun a b => pointDistance ratMath (some a) (some b) ≠ 0)
      (filterRedundantWaypoints ratMath
        [⟨0, 0⟩, ⟨0, 0⟩, ⟨5, 0⟩, ⟨10, 0⟩, ⟨10, 10⟩, ⟨10, 10⟩]) :=
  (filterRedundantWaypoints_spec ratMath
    [⟨0, 0⟩, ⟨0, 0⟩, ⟨5, 0⟩, ⟨10, 0⟩, ⟨10, 10⟩, ⟨10, 10⟩]).2.2 (by decide!)

/-- C21. `getElementLineIntersection` returns `null` when the paths have no
intersection, the one intersection with `x` and `y` rounded to integers when
there is exactly one, and the first of two intersections, rounded, when there
are exactly two at a distance below 1. -/
theorem getElementLineIntersection_few (m : MathFns) (fuel : ℕ)
    (elementPath linePath : PathSpec) (cropStart : Bool) :
    (findPathIntersections m fuel elementPath linePath false = some (.list []) →
      getElementLineIntersection m fuel elementPath linePath cropStart = some none) ∧
    (∀ i, findPathIntersections m fuel elementPath linePath false = some (.list [i]) →
      getElementLineIntersection m fuel elementPath linePath cropStart =
        some (some ⟨jsRound i.x, jsRound i.y⟩)) ∧
    (∀ i j, findPathIntersections m fuel elementPath linePath false = some (.list [i, j]) →
      pointDistance m (some ⟨i.x, i.y⟩) (some ⟨j.x, j.y⟩) < 1 →
      getElementLineIntersection m fuel elementPath linePath cropStart =
        some (some ⟨jsRound i.x, jsRound i.y⟩)) := by
  refine ⟨?_, ?_, ?_⟩
  · intro h
    simp [getElementLineIntersection, h, chooseIntersection]
  · intro i h
    simp [getElementLineIntersection, h, chooseIntersection, roundPoint, Intersection.point]
  · intro i j h hd
    simp [getElementLineIntersection, h, chooseIntersection, roundPoint, Intersection.point, hd]

theorem getElementLineIntersection_few_witness :
    getElementLineIntersection ratMath 3 (.str "M0,0L100,100") (.str "M0,100L100,0") true =
      some (some ⟨jsRound 50, jsRound 50⟩) :=
  (getElementLineIntersection_few ratMath 3 (.str "M0,0L100,100") (.str "M0,100L100,0")
    true).2.1 ⟨50, 50, 1 / 2, 1 / 2, 1, 1, ⟨0, 0, 0, 0, 100, 100, 100, 100⟩,
      ⟨0, 100, 0, 100, 100, 0, 100, 0⟩⟩ (by decide!)

/-- C22. A line of ten segments that crosses the element on its segments 2 and
10: the sort strings are `2#50` and `10#63`, the string `10#63` sorts first, and
for `cropStart` the code returns the crossing (5, 4) on segment 10, not the
crossing (5, 0) on the lowest-numbered segment 2. -/
theorem getElementLineIntersection_segment_order :
    (findPathIntersections ratMath 3 (.str "M5,-10L5,10")
      (.str "M0,0L1,0L9,0L9,1L8,1L8,2L9,2L9,3L8,3L8,4L0,4") false).map
      (fun r => match r with
        | .list l => l.map fun (i : Intersection) => (i.x, i.y, i.t2, i.segment2, sortKey i)
        | .count _ => []) =
      some [(5, 0, 1 / 2, 2, "2#50"), (5, 4, 3 / 8, 10, "10#63")] ∧
    stringLt "10#63".data "2#50".data = true ∧
    getElementLineIntersection ratMath 3 (.str "M5,-10L5,10")
      (.str "M0,0L1,0L9,0L9,1L8,1L8,2L9,2L9,3L8,3L8,4L0,4") true = some (some ⟨5, 4⟩) ∧
    getElementLineIntersection ratMath 3 (.str "M5,-10L5,10")
      (.str "M0,0L1,0L9,0L9,1L8,1L8,2L9,2L9,3L8,3L8,4L0,4") false = some (some ⟨5, 0⟩) := by
  decide!

/-! ## Theorems: the cubics of an arc -/

theorem arcToCurve_eq_params (m : MathFns) (fuel : ℕ)
    (x1 y1 rx ry angle large_arc_flag sweep_flag x2 y2 : ℚ) :
    arcToCurve m fuel x1 y1 rx ry angle large_arc_flag sweep_flag x2 y2 =
      (arcSegments m fuel (arcParams m x1 y1 rx ry angle large_arc_flag sweep_flag x2 y2).x1
        (arcParams m x1 y1 rx ry angle large_arc_flag sweep_flag x2 y2).y1
        (arcParams m x1 y1 rx ry angle large_arc_flag sweep_flag x2 y2).rx
        (arcParams m x1 y1 rx ry angle large_arc_flag sweep_flag x2 y2).ry sweep_flag
        (arcParams m x1 y1 rx ry angle large_arc_flag sweep_flag x2 y2).x2
        (arcParams m x1 y1 rx ry angle large_arc_flag sweep_flag x2 y2).y2
        (arcParams m x1 y1 rx ry angle large_arc_flag sweep_flag x2 y2).f1
        (arcParams m x1 y1 rx ry angle large_arc_flag sweep_flag x2 y2).f2
        (arcParams m x1 y1 rx ry angle large_arc_flag sweep_flag x2 y2).cx
        (arcParams m x1 y1 rx ry angle large_arc_flag sweep_flag x2 y2).cy).bind fun res =>
        some (res.flatMap fun p =>
          [(rotate m p.1 p.2 (m.PI / 180 * angle)).1, (rotate m p.1 p.2 (m.PI / 180 * angle)).2]) :=
  rfl

theorem arcSegments_spans (m : MathFns) (hPI : 0 < m.PI) (fuel : ℕ) :
    ∀ (x1 y1 rx ry sweep_flag x2 y2 f1 f2 cx cy : ℚ),
      arcSegments m fuel x1 y1 rx ry sweep_flag x2 y2 f1 f2 cx cy = none ∨
      ∃ spans : List (ℚ × ℚ),
        arcSegments m fuel x1 y1 rx ry sweep_flag x2 y2 f1 f2 cx cy =
          some (spanCubics m rx ry cx cy (x2, y2) (x1, y1) spans) ∧
        spans.head?.map Prod.fst = some f1 ∧ spans.getLast?.map Prod.snd = some f2 ∧
        spans.Chain' (fun s t => s.2 = t.1) ∧
        ∀ s ∈ spans, |s.2 - s.1| ≤ m.PI * 120 / 180 := by
  have h120 : 0 ≤ m.PI * 120 / 180 := by positivity
  induction fuel with
  | zero =>
    intro x1 y1 rx ry sweep_flag x2 y2 f1 f2 cx cy
    exact Or.inl rfl
  | succ n ih =>
    intro x1 y1 rx ry sweep_flag x2 y2 f1 f2 cx cy
    by_cases hdf : |f2 - f1| > m.PI * 120 / 180
    · rcases ih
          (cx + rx * m.cos (f1 + m.PI * 120 / 180 * (if sweep_flag ≠ 0 ∧ f2 > f1 then 1 else -1)))
          (cy + ry * m.sin (f1 + m.PI * 120 / 180 * (if sweep_flag ≠ 0 ∧ f2 > f1 then 1 else -1)))
          rx ry sweep_flag x2 y2
          (f1 + m.PI * 120 / 180 * (if sweep_flag ≠ 0 ∧ f2 > f1 then 1 else -1)) f2 cx cy
        with h1 | ⟨spans, h1, hhead, hlast, hchain, hall⟩
      · left
        simp only [arcSegments, hdf, if_true, h1, Option.map_none', Option.bind_eq_bind,
          Option.none_bind]
      · right
        cases spans with
        | nil => simp at hhead
        | cons s rest =>
          refine ⟨(f1, f1 + m.PI * 120 / 180 * (if sweep_flag ≠ 0 ∧ f2 > f1 then 1 else -1)) ::
            s :: rest, ?_, rfl, ?_, ?_, ?_⟩
          · simp only [arcSegments, hdf, if_true, h1, Option.map_some', Option.bind_eq_bind,
              Option.some_bind, spanCubics, arcCubic, ellipsePoint]
          · rw [List.getLast?_cons_cons]
            exact hlast
          · refine List.Chain'.cons ?_ hchain
            simp only [List.head?_cons, Option.map_some', Option.some.injEq] at hhead
            exact hhead.symm
          · intro t ht
            rcases List.mem_cons.mp ht with rfl | ht
            · simp only [add_sub_cancel_left]
              split_ifs
              · simp [abs_of_nonneg h120]
              · simp [abs_of_nonneg h120]
            · exact hall t ht
    · right
      refine ⟨[(f1, f2)], ?_, rfl, rfl, List.chain'_singleton _, ?_⟩
      · simp only [arcSegments, hdf, if_false, Option.bind_eq_bind, Option.some_bind,
          spanCubics, arcCubic, List.append_nil]
      · intro s hs
        simp only [List.mem_singleton] at hs
        subst hs
        exact not_lt.mp hdf

theorem spanCubics_length (m : MathFns) (rx ry cx cy : ℚ) (p2 : ℚ × ℚ) :
    ∀ (spans : List (ℚ × ℚ)) (p1 : ℚ × ℚ),
      (spanCubics m rx ry cx cy p2 p1 spans).length = 3 * spans.length := by
  intro spans
  induction spans with
  | nil => intro p1; rfl
  | cons s rest ih =>
    intro p1
    cases rest with
    | nil => rfl
    | cons s2 rest2 =>
      rw [spanCubics, List.length_append, ih]
      simp only [arcCubic, List.length_cons, List.length_nil]
      omega

/-- C31. For every arc command with positive radii and distinct end points,
`Math` functions with `PI > 0` and `asin` ranging in `[-PI/2, PI/2]`, and fuel
3 or more: `arcToCurve` returns `6 * k` numbers for a `k ≥ 1`.  They are the
rotated points `m2, m3, m4` of `k` cubics, each computed by the formulas of the
code from one of `k` consecutive angle ranges `spans`: the first range starts at
the start angle `f1` of the arc, the last ends at its end angle `f2`, each ends
where the next starts, a cubic starts and ends at the points of the ellipse at
the ends of its range (the first at the start point, the last at the end point of
the arc), and no range spans more than 120 degrees. -/
theorem arcToCurve_spans (m : MathFns) (hPI : 0 < m.PI)
    (hasin : ∀ q, -(m.PI / 2) ≤ m.asin q ∧ m.asin q ≤ m.PI / 2) (fuel : ℕ) (hfuel : 3 ≤ fuel)
    (x1 y1 rx ry angle large_arc_flag sweep_flag x2 y2 : ℚ)
    (_hrx : 0 < rx) (_hry : 0 < ry) (_hne : (x1, y1) ≠ (x2, y2)) :
    ∃ (l : List ℚ) (spans : List (ℚ × ℚ)),
      arcToCurve m fuel x1 y1 rx ry angle large_arc_flag sweep_flag x2 y2 = some l ∧
      1 ≤ spans.length ∧ l.length = 6 * spans.length ∧
      l = (spanCubics m (arcParams m x1 y1 rx ry angle large_arc_flag sweep_flag x2 y2).rx
          (arcParams m x1 y1 rx ry angle large_arc_flag sweep_flag x2 y2).ry
          (arcParams m x1 y1 rx ry angle large_arc_flag sweep_flag x2 y2).cx
          (arcParams m x1 y1 rx ry angle large_arc_flag sweep_flag x2 y2).cy
          ((arcParams m x1 y1 rx ry angle large_arc_flag sweep_flag x2 y2).x2,
            (arcParams m x1 y1 rx ry angle large_arc_flag sweep_flag x2 y2).y2)
          ((arcParams m x1 y1 rx ry angle large_arc_flag sweep_flag x2 y2).x1,
            (arcParams m x1 y1 rx ry angle large_arc_flag sweep_flag x2 y2).y1) spans).flatMap
        (fun p => [(rotate m p.1 p.2 (m.PI / 180 * angle)).1,
          (rotate m p.1 p.2 (m.PI / 180 * angle)).2]) ∧
      spans.head?.map Prod.fst =
        some (arcParams m x1 y1 rx ry angle large_arc_flag sweep_flag x2 y2).f1 ∧
      spans.getLast?.map Prod.snd =
        some (arcParams m x1 y1 rx ry angle large_arc_flag sweep_flag x2 y2).f2 ∧
      spans.Chain' (fun s t => s.2 = t.1) ∧
      ∀ s ∈ spans, |s.2 - s.1| ≤ m.PI * 120 / 180 := by
  obtain ⟨l, hl, -⟩ := arcToCurve_length m hPI hasin fuel hfuel x1 y1 rx ry angle
    large_arc_flag sweep_flag x2 y2
  rw [arcToCurve_eq_params] at hl
  rcases arcSegments_spans m hPI fuel
      (arcParams m x1 y1 rx ry angle large_arc_flag sweep_flag x2 y2).x1
      (arcParams m x1 y1 rx ry angle large_arc_flag sweep_flag x2 y2).y1
      (arcParams m x1 y1 rx ry angle large_arc_flag sweep_flag x2 y2).rx
      (arcParams m x1 y1 rx ry angle large_arc_flag sweep_flag x2 y2).ry sweep_flag
      (arcParams m x1 y1 rx ry angle large_arc_flag sweep_flag x2 y2).x2
      (arcParams m x1 y1 rx ry angle large_arc_flag sweep_flag x2 y2).y2
      (arcParams m x1 y1 rx ry angle large_arc_flag sweep_flag x2 y2).f1
      (arcParams m x1 y1 rx ry angle large_arc_flag sweep_flag x2 y2).f2
      (arcParams m x1 y1 rx ry angle large_arc_flag sweep_flag x2 y2).cx
      (arcParams m x1 y1 rx ry angle large_arc_flag sweep_flag x2 y2).cy
    with h1 | ⟨spans, h1, hhead, hlast, hchain, hall⟩
  · rw [h1] at hl
    simp at hl
  · rw [h1] at hl
    simp only [Option.some_bind, Option.some.injEq] at hl
    have hk : 1 ≤ spans.length := by
      cases spans with
      | nil => simp at hhead
      | cons s rest => simp
    refine ⟨l, spans, ?_, hk, ?_, hl.symm, hhead, hlast, hchain, hall⟩
    · rw [arcToCurve_eq_params, h1]
      simp only [Option.some_bind, Option.some.injEq]
      exact hl
    · rw [← hl, flatMap_pair_length, spanCubics_length]
      omega

theorem arcToCurve_spans_witness :
    ∃ (l : List ℚ) (spans : List (ℚ × ℚ)),
      arcToCurve ratMath 3 10 10 20 20 0 1 1 50 50 = some l ∧
      1 ≤ spans.length ∧ l.length = 6 * spans.length ∧
      l = (spanCubics ratMath (arcParams ratMath 10 10 20 20 0 1 1 50 50).rx
          (arcParams ratMath 10 10 20 20 0 1 1 50 50).ry
          (arcParams ratMath 10 10 20 20 0 1 1 50 50).cx
          (arcParams ratMath 10 10 20 20 0 1 1 50 50).cy
          ((arcParams ratMath 10 10 20 20 0 1 1 50 50).x2,
            (arcParams ratMath 10 10 20 20 0 1 1 50 50).y2)
          ((arcParams ratMath 10 10 20 20 0 1 1 50 50).x1,
            (arcParams ratMath 10 10 20 20 0 1 1 50 50).y1) spans).flatMap
        (fun p => [(rotate ratMath p.1 p.2 (ratMath.PI / 180 * 0)).1,
          (rotate ratMath p.1 p.2 (ratMath.PI / 180 * 0)).2]) ∧
      spans.head?.map Prod.fst = some (arcParams ratMath 10 10 20 20 0 1 1 50 50).f1 ∧
      spans.getLast?.map Prod.snd = some (arcParams ratMath 10 10 20 20 0 1 1 50 50).f2 ∧
      spans.Chain' (fun s t => s.2 = t.1) ∧
      ∀ s ∈ spans, |s.2 - s.1| ≤ ratMath.PI * 120 / 180 :=
  arcToCurve_spans ratMath (by norm_num [ratMath]) ratMath_asin_range 3 (le_refl 3)
    10 10 20 20 0 1 1 50 50 (by norm_num) (by norm_num) (by decide)

/-! ## Theorems: the bounding box of a cubic -/

theorem cubicBezier_simpson {K : Type} [LinearOrderedField K] (p0 p1 p2 p3 u v : K) :
    cubicBezierOver p0 p1 p2 p3 v - cubicBezierOver p0 p1 p2 p3 u =
      (v - u) / 6 * (bezierDeriv p0 p1 p2 p3 u + 4 * bezierDeriv p0 p1 p2 p3 ((u + v) / 2) +
        bezierDeriv p0 p1 p2 p3 v) := by
  simp only [cubicBezierOver, bezierDeriv]
  ring

theorem cubicBezier_mono {K : Type} [LinearOrderedField K] (p0 p1 p2 p3 u v : K) (huv : u ≤ v)
    (h : ∀ s, u ≤ s → s ≤ v → 0 ≤ bezierDeriv p0 p1 p2 p3 s) :
    cubicBezierOver p0 p1 p2 p3 u ≤ cubicBezierOver p0 p1 p2 p3 v := by
  have e := cubicBezier_simpson p0 p1 p2 p3 u v
  have h1 := h u (le_refl _) huv
  have h2 := h ((u + v) / 2) (by linarith) (by linarith)
  have h3 := h v huv (le_refl _)
  have h4 : 0 ≤ (v - u) / 6 := by linarith
  have h5 := mul_nonneg h4 (by linarith : 0 ≤ bezierDeriv p0 p1 p2 p3 u +
    4 * bezierDeriv p0 p1 p2 p3 ((u + v) / 2) + bezierDeriv p0 p1 p2 p3 v)
  linarith

theorem cubicBezier_anti {K : Type} [LinearOrderedField K] (p0 p1 p2 p3 u v : K) (huv : u ≤ v)
    (h : ∀ s, u ≤ s → s ≤ v → bezierDeriv p0 p1 p2 p3 s ≤ 0) :
    cubicBezierOver p0 p1 p2 p3 v ≤ cubicBezierOver p0 p1 p2 p3 u := by
  have e := cubicBezier_simpson p0 p1 p2 p3 u v
  have h1 := h u (le_refl _) huv
  have h2 := h ((u + v) / 2) (by linarith) (by linarith)
  have h3 := h v huv (le_refl _)
  have h4 : 0 ≤ (v - u) / 6 := by linarith
  have h5 := mul_nonneg h4 (by linarith : 0 ≤ -(bezierDeriv p0 p1 p2 p3 u +
    4 * bezierDeriv p0 p1 p2 p3 ((u + v) / 2) + bezierDeriv p0 p1 p2 p3 v))
  linarith

theorem cubicBezier_between {K : Type} [LinearOrderedField K]
    (p0 p1 p2 p3 u v t : K) (hut : u ≤ t) (htv : t ≤ v)
    (h : constSign (bezierDeriv p0 p1 p2 p3) u v) :
    min (cubicBezierOver p0 p1 p2 p3 u) (cubicBezierOver p0 p1 p2 p3 v) ≤
        cubicBezierOver p0 p1 p2 p3 t ∧
      cubicBezierOver p0 p1 p2 p3 t ≤
        max (cubicBezierOver p0 p1 p2 p3 u) (cubicBezierOver p0 p1 p2 p3 v) := by
  rcases h with h | h
  · have h1 := cubicBezier_mono p0 p1 p2 p3 u t hut (fun s hs1 hs2 => h s hs1 (le_trans hs2 htv))
    have h2 := cubicBezier_mono p0 p1 p2 p3 t v htv (fun s hs1 hs2 => h s (le_trans hut hs1) hs2)
    exact ⟨le_trans (min_le_left _ _) h1, le_trans h2 (le_max_right _ _)⟩
  · have h1 := cubicBezier_anti p0 p1 p2 p3 u t hut (fun s hs1 hs2 => h s hs1 (le_trans hs2 htv))
    have h2 := cubicBezier_anti p0 p1 p2 p3 t v htv (fun s hs1 hs2 => h s (le_trans hut hs1) hs2)
    exact ⟨le_trans (min_le_right _ _) h2, le_trans h1 (le_max_left _ _)⟩

theorem constSign_const {K : Type} [LinearOrderedField K]
    (c u v : K) : constSign (fun _ => c) u v := by
  rcases le_total 0 c with h | h
  · exact Or.inl fun _ _ _ => h
  · exact Or.inr fun _ _ _ => h

theorem constSign_linear {K : Type} [LinearOrderedField K]
    (r u v : K) (h : r ≤ u ∨ v ≤ r) : constSign (fun s => s - r) u v := by
  rcases h with h | h
  · refine Or.inl fun s hs _ => ?_
    show 0 ≤ s - r
    linarith
  · refine Or.inr fun s _ hs => ?_
    show s - r ≤ 0
    linarith

theorem constSign_mul {K : Type} [LinearOrderedField K]
    (f g : K → K) (u v : K) (hf : constSign f u v) (hg : constSign g u v) :
    constSign (fun s => f s * g s) u v := by
  rcases hf with hf | hf <;> rcases hg with hg | hg
  · exact Or.inl fun s h1 h2 => mul_nonneg (hf s h1 h2) (hg s h1 h2)
  · exact Or.inr fun s h1 h2 => mul_nonpos_of_nonneg_of_nonpos (hf s h1 h2) (hg s h1 h2)
  · exact Or.inr fun s h1 h2 => mul_nonpos_of_nonpos_of_nonneg (hf s h1 h2) (hg s h1 h2)
  · exact Or.inl fun s h1 h2 => mul_nonneg_of_nonpos_of_nonpos (hf s h1 h2) (hg s h1 h2)

theorem constSign_congr {K : Type} [LinearOrderedField K]
    (f g : K → K) (u v : K) (h : ∀ s, f s = g s) (hf : constSign f u v) :
    constSign g u v := by
  have : f = g := funext h
  rw [← this]
  exact hf

theorem cut_points {K : Type} [LinearOrderedField K]
    (R : List K) (hR : ∀ r ∈ R, 0 < r ∧ r < 1) (t : K) (ht0 : 0 ≤ t)
    (ht1 : t ≤ 1) :
    ∃ u v, (u = 0 ∨ u ∈ R) ∧ (v = 1 ∨ v ∈ R) ∧ 0 ≤ u ∧ v ≤ 1 ∧ u ≤ t ∧ t ≤ v ∧
      ∀ r ∈ R, r ≤ u ∨ v ≤ r := by
  induction R with
  | nil => exact ⟨0, 1, Or.inl rfl, Or.inl rfl, le_refl _, le_refl _, ht0, ht1, by simp⟩
  | cons r rest ih =>
    obtain ⟨u, v, hu, hv, hu0, hv1, hut, htv, hall⟩ :=
      ih (fun x hx => hR x (List.mem_cons_of_mem _ hx))
    have hr := hR r (List.mem_cons_self _ _)
    have hu' : u = 0 ∨ u ∈ r :: rest := hu.imp id (List.mem_cons_of_mem _)
    have hv' : v = 1 ∨ v ∈ r :: rest := hv.imp id (List.mem_cons_of_mem _)
    rcases le_total r t with hrt | hrt
    · rcases le_total r u with hru | hru
      · refine ⟨u, v, hu', hv', hu0, hv1, hut, htv, ?_⟩
        intro x hx
        rcases List.mem_cons.mp hx with rfl | hx
        · exact Or.inl hru
        · exact hall x hx
      · refine ⟨r, v, Or.inr (List.mem_cons_self _ _), hv', hr.1.le, hv1, hrt, htv, ?_⟩
        intro x hx
        rcases List.mem_cons.mp hx with rfl | hx
        · exact Or.inl (le_refl _)
        · rcases hall x hx with h | h
          · exact Or.inl (le_trans h hru)
          · exact Or.inr h
    · rcases le_total v r with hvr | hvr
      · refine ⟨u, v, hu', hv', hu0, hv1, hut, htv, ?_⟩
        intro x hx
        rcases List.mem_cons.mp hx with rfl | hx
        · exact Or.inr hvr
        · exact hall x hx
      · refine ⟨u, r, hu', Or.inr (List.mem_cons_self _ _), hu0, hr.2.le, hut, hrt, ?_⟩
        intro x hx
        rcases List.mem_cons.mp hx with rfl | hx
        · exact Or.inr (le_refl _)
        · rcases hall x hx with h | h
          · exact Or.inl h
          · exact Or.inr (le_trans hvr h)

theorem root_outside {K : Type} [LinearOrderedField K] (r u v : K) (hu0 : 0 ≤ u) (hv1 : v ≤ 1)
    (h : ∀ x ∈ (if 0 < r ∧ r < 1 then [r] else []), x ≤ u ∨ v ≤ x) : r ≤ u ∨ v ≤ r := by
  by_cases hr : 0 < r ∧ r < 1
  · rw [if_pos hr] at h
    exact h r (List.mem_singleton_self r)
  · rcases not_and_or.mp hr with h1 | h1
    · exact Or.inl (le_trans (not_lt.mp h1) hu0)
    · exact Or.inr (le_trans hv1 (not_lt.mp h1))

theorem quad_constSign {K : Type} [LinearOrderedField K]
    (sqrt : K → K) (a b c u v : K) (hu0 : 0 ≤ u) (hv1 : v ≤ 1)
    (ha : a = 0 ∨ 1 / 10 ^ 12 ≤ |a|) (hb : a = 0 → b = 0 ∨ 1 / 10 ^ 12 ≤ |b|)
    (hs : 0 ≤ b * b - 4 * c * a →
      sqrt (b * b - 4 * c * a) * sqrt (b * b - 4 * c * a) = b * b - 4 * c * a)
    (hall : ∀ r ∈ quadRoots sqrt a b c, r ≤ u ∨ v ≤ r) :
    constSign (fun s => a * s ^ 2 + b * s + c) u v := by
  have htol : (0 : K) < 1 / 10 ^ 12 := by norm_num
  unfold quadRoots at hall
  simp only [] at hall
  by_cases hsmall : |a| < 1 / 10 ^ 12
  · have ha0 : a = 0 := by
      rcases ha with h | h
      · exact h
      · exact absurd hsmall (not_lt.mpr h)
    subst ha0
    rw [if_pos hsmall] at hall
    by_cases hbs : |b| < 1 / 10 ^ 12
    · have hb0 : b = 0 := by
        rcases hb rfl with h | h
        · exact h
        · exact absurd hbs (not_lt.mpr h)
      subst hb0
      exact constSign_congr _ _ u v (fun s => by ring) (constSign_const c u v)
    · rw [if_neg hbs] at hall
      have hbne : b ≠ 0 := by
        rintro rfl
        simp at hbs
      have hr := root_outside (-c / b) u v hu0 hv1 hall
      refine constSign_congr _ _ u v (fun s => ?_)
        (constSign_mul _ _ u v (constSign_const b u v) (constSign_linear (-c / b) u v hr))
      field_simp
      ring
  · rw [if_neg hsmall] at hall
    have hane : a ≠ 0 := by
      rintro rfl
      simp at hsmall
    by_cases hd : b * b - 4 * c * a < 0
    · rcases lt_or_gt_of_ne hane with hneg | hpos
      · refine Or.inr fun s _ _ => ?_
        show a * s ^ 2 + b * s + c ≤ 0
        nlinarith [sq_nonneg (2 * a * s + b)]
      · refine Or.inl fun s _ _ => ?_
        show 0 ≤ a * s ^ 2 + b * s + c
        nlinarith [sq_nonneg (2 * a * s + b)]
    · rw [if_neg hd] at hall
      have hsq := hs (not_lt.mp hd)
      have h1 := root_outside _ u v hu0 hv1
        (fun x hx => hall x (List.mem_append_left _ hx))
      have h2 := root_outside _ u v hu0 hv1
        (fun x hx => hall x (List.mem_append_right _ hx))
      refine constSign_congr _ _ u v (fun s => ?_)
        (constSign_mul _ _ u v (constSign_const a u v)
          (constSign_mul _ _ u v (constSign_linear _ u v h1) (constSign_linear _ u v h2)))
      field_simp
      linear_combination (-a) * hsq

theorem axisRootsOver_eq_quadRoots {K : Type} [LinearOrderedField K]
    (sqrt : K → K) (p0 p1 p2 p3 : K) :
    axisRootsOver sqrt p0 p1 p2 p3 = quadRoots sqrt (-3 * p0 + 9 * p1 - 9 * p2 + 3 * p3)
      (6 * p0 - 12 * p1 + 6 * p2) (3 * p1 - 3 * p0) := rfl

theorem bezierDeriv_constSign {K : Type} [LinearOrderedField K] (sqrt : K → K)
    (p0 p1 p2 p3 u v : K)
    (htol : outsideTolerance p0 p1 p2 p3) (hsqrt : ∀ d : K, 0 ≤ d → sqrt d * sqrt d = d)
    (hu0 : 0 ≤ u) (hv1 : v ≤ 1)
    (hall : ∀ r ∈ axisRootsOver sqrt p0 p1 p2 p3, r ≤ u ∨ v ≤ r) :
    constSign (bezierDeriv p0 p1 p2 p3) u v := by
  obtain ⟨ha, hb⟩ := htol
  rw [axisRootsOver_eq_quadRoots] at hall
  exact quad_constSign sqrt _ _ _ u v hu0 hv1 ha hb (hsqrt _) hall

theorem axisRootsOver_range {K : Type} [LinearOrderedField K] (sqrt : K → K) (p0 p1 p2 p3 : K) :
    ∀ r ∈ axisRootsOver sqrt p0 p1 p2 p3, 0 < r ∧ r < 1 := by
  intro r hr
  unfold axisRootsOver at hr
  simp only [] at hr
  split_ifs at hr
  all_goals
    simp only [List.mem_append, List.mem_singleton, List.not_mem_nil, or_false, false_or,
      or_self] at hr
  all_goals first
    | (subst hr; assumption)
    | (rcases hr with rfl | rfl <;> assumption)

theorem axis_enclosed {K : Type} [LinearOrderedField K] (sqrt : K → K) (p0 p1 p2 p3 : K)
    (htol : outsideTolerance p0 p1 p2 p3) (hsqrt : ∀ d : K, 0 ≤ d → sqrt d * sqrt d = d)
    (T : List K) (hT : ∀ r ∈ axisRootsOver sqrt p0 p1 p2 p3, r ∈ T) (g : K → K)
    (hg : ∀ s, g s = cubicBezierOver p0 p1 p2 p3 s) (t : K) (ht0 : 0 ≤ t) (ht1 : t ≤ 1) :
    (T.map g ++ [p0, p3]).foldl min p0 ≤ cubicBezierOver p0 p1 p2 p3 t ∧
    cubicBezierOver p0 p1 p2 p3 t ≤ (T.map g ++ [p0, p3]).foldl max p0 := by
  obtain ⟨u, v, hu, hv, hu0, hv1, hut, htv, hall⟩ :=
    cut_points (axisRootsOver sqrt p0 p1 p2 p3) (axisRootsOver_range sqrt p0 p1 p2 p3) t ht0 ht1
  have hsign := bezierDeriv_constSign sqrt p0 p1 p2 p3 u v htol hsqrt hu0 hv1 hall
  obtain ⟨hlo, hhi⟩ := cubicBezier_between p0 p1 p2 p3 u v t hut htv hsign
  have hmem : ∀ w, (w = 0 ∨ w = 1 ∨ w ∈ axisRootsOver sqrt p0 p1 p2 p3) →
      cubicBezierOver p0 p1 p2 p3 w ∈ T.map g ++ [p0, p3] := by
    intro w hw
    rcases hw with rfl | rfl | hw
    · have : cubicBezierOver p0 p1 p2 p3 0 = p0 := by simp [cubicBezierOver]
      rw [this]
      simp
    · have : cubicBezierOver p0 p1 p2 p3 1 = p3 := by simp [cubicBezierOver]
      rw [this]
      simp
    · rw [← hg w]
      exact List.mem_append_left _ (List.mem_map_of_mem g (hT w hw))
  have hu1 := hmem u (hu.elim Or.inl fun h => Or.inr (Or.inr h))
  have hv2 := hmem v (hv.elim (fun h => Or.inr (Or.inl h)) fun h => Or.inr (Or.inr h))
  have hmin := (foldl_min_le (T.map g ++ [p0, p3]) p0).2
  have hmax := (le_foldl_max (T.map g ++ [p0, p3]) p0).2
  exact ⟨le_trans (le_min (hmin _ hu1) (hmin _ hv2)) hlo,
    le_trans hhi (max_le (hmax _ hu1) (hmax _ hv2))⟩


theorem cubicBezierOver_rat (p0 p1 p2 p3 t : ℚ) :
    cubicBezierOver p0 p1 p2 p3 t = cubicBezier p0 p1 p2 p3 t := rfl

theorem curveBBoxOver_rat (m : MathFns) (x0 y0 x1 y1 x2 y2 x3 y3 : ℚ) :
    (curveBBoxOver m.sqrt x0 y0 x1 y1 x2 y2 x3 y3).x0 =
        (curveBBox m x0 y0 x1 y1 x2 y2 x3 y3).x0 ∧
      (curveBBoxOver m.sqrt x0 y0 x1 y1 x2 y2 x3 y3).y0 =
        (curveBBox m x0 y0 x1 y1 x2 y2 x3 y3).y0 ∧
      (curveBBoxOver m.sqrt x0 y0 x1 y1 x2 y2 x3 y3).x1 =
        (curveBBox m x0 y0 x1 y1 x2 y2 x3 y3).x1 ∧
      (curveBBoxOver m.sqrt x0 y0 x1 y1 x2 y2 x3 y3).y1 =
        (curveBBox m x0 y0 x1 y1 x2 y2 x3 y3).y1 :=
  ⟨rfl, rfl, rfl, rfl⟩

/-- C17, counterexample. For the cubic with x coordinates `0, 1e-14, 1e-14, 0`
both coefficients `a = 0` and `b = -6e-14` are below the tolerance `1e-12`, no
extremum is looked for and `curveBBox` returns the x range `[0, 0]`, whereas
the curve point at `t = 1/2` has `x = 0.75e-14 > 0`. -/
theorem curveBBox_tolerance_counterexample :
    (curveBBox ratMath 0 0 (1 / 100000000000000) 0 (1 / 100000000000000) 0 0 0).x1 = 0 ∧
    ¬ cubicBezier 0 (1 / 100000000000000) (1 / 100000000000000) 0 (1 / 2) ≤
      (curveBBox ratMath 0 0 (1 / 100000000000000) 0 (1 / 100000000000000) 0 0 0).x1 := by
  decide!

/-- C17, amended. For every cubic with real coordinates and the real square
root as `Math.sqrt`: when on each axis the leading coefficient of the
derivative is 0 or at least `1e-12` in absolute value, and likewise the linear
coefficient if the leading one is 0, the box of `curveBBox` encloses the curve:
every curve point at `t` in `[0, 1]` has `x0 ≤ x(t) ≤ x1` and
`y0 ≤ y(t) ≤ y1`. -/
theorem curveBBox_encloses (x0 y0 x1 y1 x2 y2 x3 y3 : ℝ)
    (hx : outsideTolerance x0 x1 x2 x3) (hy : outsideTolerance y0 y1 y2 y3)
    (t : ℝ) (ht0 : 0 ≤ t) (ht1 : t ≤ 1) :
    (curveBBoxOver Real.sqrt x0 y0 x1 y1 x2 y2 x3 y3).x0 ≤ cubicBezierOver x0 x1 x2 x3 t ∧
    cubicBezierOver x0 x1 x2 x3 t ≤ (curveBBoxOver Real.sqrt x0 y0 x1 y1 x2 y2 x3 y3).x1 ∧
    (curveBBoxOver Real.sqrt x0 y0 x1 y1 x2 y2 x3 y3).y0 ≤ cubicBezierOver y0 y1 y2 y3 t ∧
    cubicBezierOver y0 y1 y2 y3 t ≤ (curveBBoxOver Real.sqrt x0 y0 x1 y1 x2 y2 x3 y3).y1 := by
  have hsqrt : ∀ d : ℝ, 0 ≤ d → Real.sqrt d * Real.sqrt d = d := fun d hd =>
    Real.mul_self_sqrt hd
  have hX := axis_enclosed Real.sqrt x0 x1 x2 x3 hx hsqrt
    (axisRootsOver Real.sqrt x0 x1 x2 x3 ++ axisRootsOver Real.sqrt y0 y1 y2 y3)
    (fun r hr => List.mem_append_left _ hr)
    (fun t => (1 - t) * (1 - t) * (1 - t) * x0 + 3 * (1 - t) * (1 - t) * t * x1 +
      3 * (1 - t) * t * t * x2 + t * t * t * x3)
    (fun s => by simp only [cubicBezierOver]; ring) t ht0 ht1
  have hY := axis_enclosed Real.sqrt y0 y1 y2 y3 hy hsqrt
    (axisRootsOver Real.sqrt x0 x1 x2 x3 ++ axisRootsOver Real.sqrt y0 y1 y2 y3)
    (fun r hr => List.mem_append_right _ hr)
    (fun t => (1 - t) * (1 - t) * (1 - t) * y0 + 3 * (1 - t) * (1 - t) * t * y1 +
      3 * (1 - t) * t * t * y2 + t * t * t * y3)
    (fun s => by simp only [cubicBezierOver]; ring) t ht0 ht1
  exact ⟨hX.1, hX.2, hY.1, hY.2⟩

theorem curveBBox_encloses_witness :
    (curveBBoxOver Real.sqrt 0 0 1 10 2 20 0 30).x0 ≤ cubicBezierOver (0 : ℝ) 1 2 0 (1 / 2) ∧
    cubicBezierOver (0 : ℝ) 1 2 0 (1 / 2) ≤ (curveBBoxOver Real.sqrt 0 0 1 10 2 20 0 30).x1 ∧
    (curveBBoxOver Real.sqrt 0 0 1 10 2 20 0 30).y0 ≤
      cubicBezierOver (0 : ℝ) 10 20 30 (1 / 2) ∧
    cubicBezierOver (0 : ℝ) 10 20 30 (1 / 2) ≤
      (curveBBoxOver Real.sqrt 0 0 1 10 2 20 0 30).y1 :=
  curveBBox_encloses 0 0 1 10 2 20 0 30 (by norm_num [outsideTolerance])
    (by norm_num [outsideTolerance]) (1 / 2) (by norm_num) (by norm_num)

/-! ## Theorems: exchanging the two paths -/

theorem or4_swap (A B C D : Prop) : (B ∨ A ∨ D ∨ C) ↔ (A ∨ B ∨ C ∨ D) := by tauto

theorem or8_swap (A B C D E F G H : Prop) :
    (C ∨ D ∨ A ∨ B ∨ G ∨ H ∨ E ∨ F) ↔ (A ∨ B ∨ C ∨ D ∨ E ∨ F ∨ G ∨ H) := by tauto

theorem intersectLines_swap (x1 y1 x2 y2 x3 y3 x4 y4 : ℚ) :
    intersectLines x3 y3 x4 y4 x1 y1 x2 y2 = intersectLines x1 y1 x2 y2 x3 y3 x4 y4 := by
  have hnx : (x3 * y4 - y3 * x4) * (x1 - x2) - (x3 - x4) * (x1 * y2 - y1 * x2) =
      -((x1 * y2 - y1 * x2) * (x3 - x4) - (x1 - x2) * (x3 * y4 - y3 * x4)) := by ring
  have hny : (x3 * y4 - y3 * x4) * (y1 - y2) - (y3 - y4) * (x1 * y2 - y1 * x2) =
      -((x1 * y2 - y1 * x2) * (y3 - y4) - (y1 - y2) * (x3 * y4 - y3 * x4)) := by ring
  have hden : (x3 - x4) * (y1 - y2) - (y3 - y4) * (x1 - x2) =
      -((x1 - x2) * (y3 - y4) - (y1 - y2) * (x3 - x4)) := by ring
  simp only [intersectLines, hnx, hny, hden, neg_div_neg_eq, neg_eq_zero, gt_iff_lt]
  exact if_congr (or4_swap _ _ _ _) rfl
    (if_congr Iff.rfl rfl (if_congr (or8_swap _ _ _ _ _ _ _ _) rfl rfl))

theorem pairKey_swap (di di1 dj dj1 : Dot) :
    pairKey dj dj1 di di1 = pairKey di di1 dj dj1 := by
  unfold pairKey
  rw [intersectLines_swap]

theorem pairHits_swap (di di1 dj dj1 : Dot) :
    pairHits dj dj1 di di1 = (pairHits di di1 dj dj1).map BezHit.swap := by
  unfold pairHits pairStep
  rw [intersectLines_swap]
  cases intersectLines di.x di.y di1.x di1.y dj.x dj.y dj1.x dj1.y with
  | none => rfl
  | some is =>
    simp only [List.not_mem_nil, if_false, Bool.false_eq_true, List.nil_append]
    cases paramAt (decide (|di1.x - di.x| < 1 / 100)) is di di1 with
    | none =>
      cases paramAt (decide (|dj1.x - dj.x| < 1 / 100)) is dj dj1 <;> rfl
    | some t1 =>
      cases paramAt (decide (|dj1.x - dj.x| < 1 / 100)) is dj dj1 with
      | none => rfl
      | some t2 =>
        by_cases h : t1 ≥ 0 ∧ t1 ≤ 1 ∧ t2 ≥ 0 ∧ t2 ≤ 1
        · have h2 : t2 ≥ 0 ∧ t2 ≤ 1 ∧ t1 ≥ 0 ∧ t1 ≤ 1 := ⟨h.2.2.1, h.2.2.2, h.1, h.2.1⟩
          simp only [if_pos h, if_pos h2]
          rfl
        · have h2 : ¬ (t2 ≥ 0 ∧ t2 ≤ 1 ∧ t1 ≥ 0 ∧ t1 ≤ 1) :=
            fun h3 => h ⟨h3.2.2.1, h3.2.2.2, h3.1, h3.2.1⟩
          simp only [if_neg h, if_neg h2]
          rfl

theorem pairStep_fresh (di di1 dj dj1 : Dot) (xy : List ((Bool × ℤ) × (Bool × ℤ)))
    (l : List BezHit) (h : ∀ k, pairKey di di1 dj dj1 = some k → k ∉ xy) :
    pairStep false di di1 dj dj1 (xy, .list l) =
      ((pairKey di di1 dj dj1).toList ++ xy, .list (l ++ pairHits di di1 dj dj1)) := by
  unfold pairHits pairStep
  unfold pairKey at h ⊢
  cases hi : intersectLines di.x di.y di1.x di1.y dj.x dj.y dj1.x dj1.y with
  | none => simp
  | some is =>
    have hk := h _ (by rw [hi]; rfl)
    simp only [hk, List.not_mem_nil, if_false, Bool.false_eq_true, List.nil_append,
      Option.map_some', Option.toList_some, List.singleton_append]
    cases paramAt (decide (|di1.x - di.x| < 1 / 100)) is di di1 with
    | none =>
      cases paramAt (decide (|dj1.x - dj.x| < 1 / 100)) is dj dj1 <;> simp
    | some t1 =>
      cases paramAt (decide (|dj1.x - dj.x| < 1 / 100)) is dj dj1 with
      | none => simp
      | some t2 =>
        by_cases h : t1 ≥ 0 ∧ t1 ≤ 1 ∧ t2 ≥ 0 ∧ t2 ≤ 1
        · simp only [if_pos h]
        · simp only [if_neg h, List.append_nil]

theorem inner_fresh (p1 : Dot × Dot) :
    ∀ (ps2 : List (Dot × Dot)) (xy : List ((Bool × ℤ) × (Bool × ℤ))) (l : List BezHit),
      (ps2.flatMap fun p2 => (pairKey p1.1 p1.2 p2.1 p2.2).toList).Nodup →
      (∀ k ∈ ps2.flatMap fun p2 => (pairKey p1.1 p1.2 p2.1 p2.2).toList, k ∉ xy) →
      ∃ xy2, ps2.foldl (fun st p2 => pairStep false p1.1 p1.2 p2.1 p2.2 st) (xy, .list l) =
          (xy2, .list (l ++ ps2.flatMap fun p2 => pairHits p1.1 p1.2 p2.1 p2.2)) ∧
        ∀ k, k ∈ xy2 ↔
          k ∈ xy ∨ k ∈ ps2.flatMap fun p2 => (pairKey p1.1 p1.2 p2.1 p2.2).toList := by
  intro ps2
  induction ps2 with
  | nil => intro xy l _ _; exact ⟨xy, by simp, by simp⟩
  | cons p2 rest ih =>
    intro xy l hnd hxy
    rw [List.flatMap_cons, List.nodup_append] at hnd
    obtain ⟨_, hnd2, hdis⟩ := hnd
    have hfresh : ∀ k, pairKey p1.1 p1.2 p2.1 p2.2 = some k → k ∉ xy := by
      intro k hk
      apply hxy
      rw [List.flatMap_cons, hk]
      simp
    rw [List.foldl_cons, pairStep_fresh _ _ _ _ _ _ hfresh]
    obtain ⟨xy2, h2, hmem⟩ := ih ((pairKey p1.1 p1.2 p2.1 p2.2).toList ++ xy)
      (l ++ pairHits p1.1 p1.2 p2.1 p2.2) hnd2 (by
        intro k hk hin
        rcases List.mem_append.mp hin with h1 | h1
        · exact hdis h1 hk
        · exact hxy k (by rw [List.flatMap_cons]; exact List.mem_append_right _ hk) h1)
    refine ⟨xy2, ?_, ?_⟩
    · rw [h2, List.flatMap_cons, List.append_assoc]
    · intro k
      rw [hmem, List.flatMap_cons, List.mem_append, List.mem_append]
      tauto

theorem outer_fresh (ps2 : List (Dot × Dot)) :
    ∀ (ps1 : List (Dot × Dot)) (xy : List ((Bool × ℤ) × (Bool × ℤ))) (l : List BezHit),
      (ps1.flatMap fun p1 => ps2.flatMap fun p2 =>
        (pairKey p1.1 p1.2 p2.1 p2.2).toList).Nodup →
      (∀ k ∈ ps1.flatMap fun p1 => ps2.flatMap fun p2 =>
        (pairKey p1.1 p1.2 p2.1 p2.2).toList, k ∉ xy) →
      (ps1.foldl (fun st p1 =>
          ps2.foldl (fun st p2 => pairStep false p1.1 p1.2 p2.1 p2.2 st) st) (xy, .list l)).2 =
        .list (l ++ ps1.flatMap fun p1 => ps2.flatMap fun p2 =>
          pairHits p1.1 p1.2 p2.1 p2.2) := by
  intro ps1
  induction ps1 with
  | nil => intro xy l _ _; simp
  | cons p1 rest ih =>
    intro xy l hnd hxy
    rw [List.flatMap_cons, List.nodup_append] at hnd
    obtain ⟨hnd1, hnd2, hdis⟩ := hnd
    obtain ⟨xy2, h2, hmem⟩ := inner_fresh p1 ps2 xy l hnd1 (by
      intro k hk
      exact hxy k (by rw [List.flatMap_cons]; exact List.mem_append_left _ hk))
    rw [List.foldl_cons, h2, ih xy2 _ hnd2 (by
      intro k hk hin
      rcases (hmem k).mp hin with h1 | h1
      · exact hxy k (by rw [List.flatMap_cons]; exact List.mem_append_right _ hk) h1
      · exact hdis h1 hk), List.flatMap_cons, List.append_assoc]

theorem flatMap_comm_perm {α β γ : Type} (l1 : List α) (l2 : List β) (f : α → β → List γ) :
    (l1.flatMap fun a => l2.flatMap fun b => f a b).Perm
      (l2.flatMap fun b => l1.flatMap fun a => f a b) := by
  induction l1 with
  | nil => simp
  | cons a rest ih =>
    simp only [List.flatMap_cons]
    exact (List.Perm.append_left _ ih).trans (List.flatMap_append_perm l2 _ _)

theorem isBBoxIntersect_comm (m : MathFns) (bez1 bez2 : Bez) :
    isBBoxIntersect (bezierBBox m bez2) (bezierBBox m bez1) =
      isBBoxIntersect (bezierBBox m bez1) (bezierBBox m bez2) := by
  have n1 := bezierBBox_nonneg m bez1
  have n2 := bezierBBox_nonneg m bez2
  rw [Bool.eq_iff_iff, isBBoxIntersect_common_point _ _ n2.1 n2.2 n1.1 n1.2,
    isBBoxIntersect_common_point _ _ n1.1 n1.2 n2.1 n2.2]
  constructor <;> rintro ⟨x, y, h1, h2⟩ <;> exact ⟨x, y, h2, h1⟩

theorem bezHit_swap_swap (h : BezHit) : h.swap.swap = h := rfl

theorem intersection_swap_swap (h : Intersection) : h.swap.swap = h := rfl

theorem mem_map_swap (l : List BezHit) (h : BezHit) :
    h.swap ∈ l.map BezHit.swap ↔ h ∈ l := by
  constructor
  · intro hm
    obtain ⟨a, ha, e⟩ := List.mem_map.mp hm
    have e2 := congrArg BezHit.swap e
    rw [bezHit_swap_swap, bezHit_swap_swap] at e2
    exact e2 ▸ ha
  · intro hm
    exact List.mem_map_of_mem _ hm

theorem polylineIntersections_fresh (dots1 dots2 : List Dot) (n1 n2 : ℤ)
    (hnd : (polylineKeys (polylinePairs dots1 n1) (polylinePairs dots2 n2)).Nodup) :
    polylineIntersections false dots1 dots2 n1 n2 =
      .list (polylineHits (polylinePairs dots1 n1) (polylinePairs dots2 n2)) := by
  unfold polylineIntersections
  simp only [Bool.false_eq_true, if_false]
  exact (outer_fresh _ _ [] [] hnd (by simp)).trans (by rw [List.nil_append]; rfl)

theorem polylineKeys_swap_nodup (ps1 ps2 : List (Dot × Dot))
    (hnd : (polylineKeys ps1 ps2).Nodup) : (polylineKeys ps2 ps1).Nodup := by
  have h := (List.Perm.nodup_iff (flatMap_comm_perm ps1 ps2
    fun p1 p2 => (pairKey p1.1 p1.2 p2.1 p2.2).toList)).mp hnd
  unfold polylineKeys
  simpa only [pairKey_swap] using h

theorem polylineHits_mem_swap (ps1 ps2 : List (Dot × Dot)) (h : BezHit) :
    h ∈ polylineHits ps1 ps2 ↔ h.swap ∈ polylineHits ps2 ps1 := by
  simp only [polylineHits, List.mem_flatMap]
  constructor
  · rintro ⟨p1, hp1, p2, hp2, hh⟩
    refine ⟨p2, hp2, p1, hp1, ?_⟩
    rw [pairHits_swap]
    exact (mem_map_swap _ _).mpr hh
  · rintro ⟨p2, hp2, p1, hp1, hh⟩
    refine ⟨p1, hp1, p2, hp2, ?_⟩
    rw [pairHits_swap] at hh
    exact (mem_map_swap _ _).mp hh

theorem findBezierIntersections_fresh (m : MathFns) (bez1 bez2 : Bez)
    (hb : isBBoxIntersect (bezierBBox m bez1) (bezierBBox m bez2) = true)
    (hnd : (candidateKeys m bez1 bez2).Nodup) :
    findBezierIntersections m bez1 bez2 false = .list (candidateHits m bez1 bez2) := by
  unfold findBezierIntersections
  simp only [hb, Bool.not_true, Bool.false_eq_true, if_false]
  exact polylineIntersections_fresh _ _ _ _ hnd

theorem findBezierIntersections_mem_swap (m : MathFns) (bez1 bez2 : Bez)
    (hd : distinctCandidates m bez1 bez2 = true) :
    ∃ l1 l2, findBezierIntersections m bez1 bez2 false = .list l1 ∧
      findBezierIntersections m bez2 bez1 false = .list l2 ∧ ∀ h, h ∈ l1 ↔ h.swap ∈ l2 := by
  by_cases hb : isBBoxIntersect (bezierBBox m bez1) (bezierBBox m bez2) = true
  · simp only [distinctCandidates, hb, Bool.not_true, Bool.false_or, decide_eq_true_eq] at hd
    exact ⟨candidateHits m bez1 bez2, candidateHits m bez2 bez1,
      findBezierIntersections_fresh m bez1 bez2 hb hd,
      findBezierIntersections_fresh m bez2 bez1 ((isBBoxIntersect_comm m bez1 bez2).trans hb)
        (polylineKeys_swap_nodup _ _ hd),
      polylineHits_mem_swap _ _⟩
  · simp only [Bool.not_eq_true] at hb
    refine ⟨[], [], ?_, ?_, by simp⟩
    · unfold findBezierIntersections
      simp [hb]
    · unfold findBezierIntersections
      simp [isBBoxIntersect_comm m bez1 bez2, hb]

theorem tagHits_mem_swap (i j : ℕ) (bez1 bez2 : Bez) (l1 l2 : List BezHit)
    (hsw : ∀ h, h ∈ l1 ↔ h.swap ∈ l2) (h : Intersection) :
    h ∈ tagHits i j bez1 bez2 (.list l1) ↔ h.swap ∈ tagHits j i bez2 bez1 (.list l2) := by
  simp only [tagHits, List.mem_map]
  constructor
  · rintro ⟨a, ha, rfl⟩
    exact ⟨a.swap, (hsw a).mp ha, rfl⟩
  · rintro ⟨a, ha, e⟩
    refine ⟨a.swap, (hsw a.swap).mpr (by rw [bezHit_swap_swap]; exact ha), ?_⟩
    have e2 := congrArg Intersection.swap e
    rw [intersection_swap_swap] at e2
    rw [← e2]
    rfl

theorem curvesOf_move (c c2 : Cursor) (i : ℕ) (a : List ℚ) (rest : List Segment) :
    curvesOf c i (⟨'M', a⟩ :: rest) = curvesOf c2 i (⟨'M', a⟩ :: rest) := by
  simp only [curvesOf, if_true]

theorem innerLoop_curves (m : MathFns) (i : ℕ) (bez1 : Bez) :
    ∀ (path2 : List Segment) (j : ℕ) (c : Cursor) (l : List Intersection)
      (cs : List (ℕ × Bez)), curvesOf c j path2 = some cs →
      ∃ c2, innerLoop m false i bez1 j c path2 (.list l) =
        some (c2, .list (l ++ cs.flatMap fun jb =>
          tagHits i jb.1 bez1 jb.2 (findBezierIntersections m bez1 jb.2 false))) := by
  intro path2
  induction path2 with
  | nil =>
    intro j c l cs h
    simp only [curvesOf, Option.some.injEq] at h
    subst h
    exact ⟨c, by simp [innerLoop]⟩
  | cons p rest ih =>
    intro j c l cs h
    by_cases hM : p.cmd = 'M'
    · rw [curvesOf, if_pos hM] at h
      rw [innerLoop, if_pos hM]
      exact ih _ _ _ _ h
    · rw [curvesOf, if_neg hM] at h
      rw [innerLoop, if_neg hM]
      cases hs : segmentBez c p with
      | none => rw [hs] at h; simp at h
      | some bc =>
        obtain ⟨bez2, c3⟩ := bc
        rw [hs] at h
        simp only [Option.bind_eq_bind, Option.some_bind] at h ⊢
        cases hm : curvesOf c3 (j + 1) rest with
        | none => rw [hm] at h; simp at h
        | some more =>
          rw [hm] at h
          simp only [Option.some_bind, Option.some.injEq] at h
          subst h
          obtain ⟨hits, hh⟩ := findBezierIntersections_list m bez1 bez2
          obtain ⟨c2, h2⟩ := ih (j + 1) c3
            (l ++ tagHits i j bez1 bez2 (findBezierIntersections m bez1 bez2 false)) more hm
          refine ⟨c2, ?_⟩
          rw [List.flatMap_cons, ← List.append_assoc, ← h2, hh]
          rfl

theorem outerLoop_curves (m : MathFns) (path2 : List Segment) (cs2 : List (ℕ × Bez))
    (h2 : ∀ c, curvesOf c 0 path2 = some cs2) :
    ∀ (path1 : List Segment) (i : ℕ) (c1 c2 : Cursor) (l : List Intersection)
      (cs1 : List (ℕ × Bez)), curvesOf c1 i path1 = some cs1 →
      outerLoop m false path2 i c1 c2 path1 (.list l) =
        some (.list (l ++ cs1.flatMap fun ib => cs2.flatMap fun jb =>
          tagHits ib.1 jb.1 ib.2 jb.2 (findBezierIntersections m ib.2 jb.2 false))) := by
  intro path1
  induction path1 with
  | nil =>
    intro i c1 c2 l cs1 h
    simp only [curvesOf, Option.some.injEq] at h
    subst h
    simp [outerLoop]
  | cons p rest ih =>
    intro i c1 c2 l cs1 h
    by_cases hM : p.cmd = 'M'
    · rw [curvesOf, if_pos hM] at h
      rw [outerLoop, if_pos hM]
      exact ih _ _ _ _ _ h
    · rw [curvesOf, if_neg hM] at h
      rw [outerLoop, if_neg hM]
      cases hs : segmentBez c1 p with
      | none => rw [hs] at h; simp at h
      | some bc =>
        obtain ⟨bez1, c3⟩ := bc
        rw [hs] at h
        simp only [Option.bind_eq_bind, Option.some_bind] at h ⊢
        cases hm : curvesOf c3 (i + 1) rest with
        | none => rw [hm] at h; simp at h
        | some more =>
          rw [hm] at h
          simp only [Option.some_bind, Option.some.injEq] at h
          subst h
          obtain ⟨c4, h4⟩ := innerLoop_curves m i bez1 path2 0 c2 l cs2 (h2 c2)
          rw [h4]
          simp only [Option.some_bind]
          rw [ih (i + 1) c3 c4 _ more hm, List.flatMap_cons, List.append_assoc]

/-- C18, counterexample. The curve `M0,0 C0,0 0,0 122,0` runs along the x axis
and is cut into 24 polyline segments, the first ending at x = 122/13824; the
curve `M3.762,5 C0.012,0 -3.738,-5 -7.488,-10` is cut into 3, with a vertex at
`(0.012, 0)` on the first curve.  With the first curve as `path1` the crossing
is not reported; with the paths exchanged it is. -/
theorem findPathIntersections_asymmetric_counterexample :
    findPathIntersections ratMath 3 (.segs [⟨'M', [0, 0]⟩, ⟨'C', [0, 0, 0, 0, 122, 0]⟩])
      (.segs [⟨'M', [3762 / 1000, 5]⟩,
        ⟨'C', [12 / 1000, 0, -3738 / 1000, -5, -7488 / 1000, -10]⟩]) false = some (.list []) ∧
    findPathIntersections ratMath 3
      (.segs [⟨'M', [3762 / 1000, 5]⟩,
        ⟨'C', [12 / 1000, 0, -3738 / 1000, -5, -7488 / 1000, -10]⟩])
      (.segs [⟨'M', [0, 0]⟩, ⟨'C', [0, 0, 0, 0, 122, 0]⟩]) false =
      some (.list [⟨3 / 250, 0, 1 / 3, 6495138889 / 148263888888, 1, 1,
        ⟨3762 / 1000, 5, 12 / 1000, 0, -3738 / 1000, -5, -7488 / 1000, -10⟩,
        ⟨0, 0, 0, 0, 0, 0, 122, 0⟩⟩]) ∧
    distinctCandidates ratMath ⟨0, 0, 0, 0, 0, 0, 122, 0⟩
      ⟨3762 / 1000, 5, 12 / 1000, 0, -3738 / 1000, -5, -7488 / 1000, -10⟩ = false := by
  decide!

/-- C18, amended. For two paths whose normalised forms `r1` and `r2` start with
a move, and such that for every curve of the one and every curve of the other no
two pairs of polyline segments yield points with the same key
(`distinctCandidates`: no crossing is found twice, as it is at a shared polyline
vertex), `findPathIntersections(A, B)` and `findPathIntersections(B, A)` return
lists with the same members up to the exchange of `t1`/`t2`,
`segment1`/`segment2` and `bez1`/`bez2`; in particular they report the same set
of `(x, y)` points. -/
theorem findPathIntersections_symmetric (m : MathFns) (fuel : ℕ) (A B : PathSpec)
    (r1 r2 : List Segment) (cs1 cs2 : List (ℕ × Bez))
    (h1 : pathToCurve m fuel A = some r1) (h2 : pathToCurve m fuel B = some r2)
    (hM1 : ∃ a rest, r1 = ⟨'M', a⟩ :: rest) (hM2 : ∃ a rest, r2 = ⟨'M', a⟩ :: rest)
    (hc1 : curvesOf ⟨none, none, none, none⟩ 0 r1 = some cs1)
    (hc2 : curvesOf ⟨none, none, none, none⟩ 0 r2 = some cs2)
    (hd : ∀ ib ∈ cs1, ∀ jb ∈ cs2, distinctCandidates m ib.2 jb.2 = true) :
    ∃ l1 l2, findPathIntersections m fuel A B false = some (.list l1) ∧
      findPathIntersections m fuel B A false = some (.list l2) ∧
      (∀ h, h ∈ l1 ↔ h.swap ∈ l2) ∧
      ∀ x y, (∃ h ∈ l1, h.x = x ∧ h.y = y) ↔ (∃ h ∈ l2, h.x = x ∧ h.y = y) := by
  have hc1a : ∀ c, curvesOf c 0 r1 = some cs1 := by
    obtain ⟨a, rest, rfl⟩ := hM1
    intro c
    rw [curvesOf_move c ⟨none, none, none, none⟩]
    exact hc1
  have hc2a : ∀ c, curvesOf c 0 r2 = some cs2 := by
    obtain ⟨a, rest, rfl⟩ := hM2
    intro c
    rw [curvesOf_move c ⟨none, none, none, none⟩]
    exact hc2
  have hsw : ∀ h, h ∈ (cs1.flatMap fun ib => cs2.flatMap fun jb =>
        tagHits ib.1 jb.1 ib.2 jb.2 (findBezierIntersections m ib.2 jb.2 false)) ↔
      h.swap ∈ (cs2.flatMap fun jb => cs1.flatMap fun ib =>
        tagHits jb.1 ib.1 jb.2 ib.2 (findBezierIntersections m jb.2 ib.2 false)) := by
    intro h
    simp only [List.mem_flatMap]
    constructor
    · rintro ⟨ib, hib, jb, hjb, hh⟩
      obtain ⟨l1, l2, e1, e2, hl⟩ := findBezierIntersections_mem_swap m ib.2 jb.2 (hd ib hib jb hjb)
      refine ⟨jb, hjb, ib, hib, ?_⟩
      rw [e1] at hh
      rw [e2]
      exact (tagHits_mem_swap _ _ _ _ l1 l2 hl h).mp hh
    · rintro ⟨jb, hjb, ib, hib, hh⟩
      obtain ⟨l1, l2, e1, e2, hl⟩ := findBezierIntersections_mem_swap m ib.2 jb.2 (hd ib hib jb hjb)
      refine ⟨ib, hib, jb, hjb, ?_⟩
      rw [e2] at hh
      rw [e1]
      exact (tagHits_mem_swap _ _ _ _ l1 l2 hl h).mpr hh
  refine ⟨_, _, ?_, ?_, hsw, ?_⟩
  · simp only [findPathIntersections, h1, h2, Option.bind_eq_bind, Option.some_bind,
      Bool.false_eq_true, if_false]
    rw [outerLoop_curves m r2 cs2 hc2a r1 0 _ _ [] cs1 hc1, List.nil_append]
  · simp only [findPathIntersections, h1, h2, Option.bind_eq_bind, Option.some_bind,
      Bool.false_eq_true, if_false]
    rw [outerLoop_curves m r1 cs1 hc1a r2 0 _ _ [] cs2 hc2, List.nil_append]
  · intro x y
    constructor
    · rintro ⟨h, hh, hx, hy⟩
      exact ⟨h.swap, (hsw h).mp hh, hx, hy⟩
    · rintro ⟨h, hh, hx, hy⟩
      exact ⟨h.swap, (hsw h.swap).mpr hh, hx, hy⟩

theorem findPathIntersections_symmetric_witness :
    ∃ l1 l2, findPathIntersections ratMath 3 (.str "M0,0C0,40,40,40,40,0")
        (.str "M0,20C20,-10,20,50,45,20") false = some (.list l1) ∧
      findPathIntersections ratMath 3 (.str "M0,20C20,-10,20,50,45,20")
        (.str "M0,0C0,40,40,40,40,0") false = some (.list l2) ∧
      (∀ h, h ∈ l1 ↔ h.swap ∈ l2) ∧
      ∀ x y, (∃ h ∈ l1, h.x = x ∧ h.y = y) ↔ (∃ h ∈ l2, h.x = x ∧ h.y = y) :=
  findPathIntersections_symmetric ratMath 3 (.str "M0,0C0,40,40,40,40,0")
    (.str "M0,20C20,-10,20,50,45,20")
    [⟨'M', [0, 0]⟩, ⟨'C', [0, 40, 40, 40, 40, 0]⟩]
    [⟨'M', [0, 20]⟩, ⟨'C', [20, -10, 20, 50, 45, 20]⟩]
    [(1, ⟨0, 0, 0, 40, 40, 40, 40, 0⟩)] [(1, ⟨0, 20, 20, -10, 20, 50, 45, 20⟩)]
    (by decide!) (by decide!) ⟨_, _, rfl⟩ ⟨_, _, rfl⟩ (by decide!) (by decide!) (by decide!)

/-! ## Theorems: binary64 rounding -/

theorem twoPow_eq (e : ℤ) : twoPow e = (2 : ℚ) ^ e := by
  unfold twoPow
  by_cases h : 0 ≤ e
  · rw [if_pos h]
    obtain ⟨n, rfl⟩ := Int.eq_ofNat_of_zero_le h
    simp
  · rw [if_neg h]
    obtain ⟨n, hn⟩ := Int.exists_eq_neg_ofNat (le_of_lt (not_le.mp h))
    subst hn
    simp

theorem twoPow_pos (e : ℤ) : 0 < twoPow e := by
  rw [twoPow_eq]
  positivity

theorem twoPow_add (a b : ℤ) : twoPow (a + b) = twoPow a * twoPow b := by
  rw [twoPow_eq, twoPow_eq, twoPow_eq, zpow_add₀ (by norm_num)]

theorem twoPow_le (a b : ℤ) : twoPow a ≤ twoPow b ↔ a ≤ b := by
  rw [twoPow_eq, twoPow_eq]
  exact zpow_le_zpow_iff_right₀ (by norm_num)

theorem twoPow_lt (a b : ℤ) : twoPow a < twoPow b ↔ a < b := by
  rw [twoPow_eq, twoPow_eq]
  exact zpow_lt_zpow_iff_right₀ (by norm_num)

theorem twoPow_natCast (n : ℕ) : twoPow (n : ℤ) = ((2 ^ n : ℕ) : ℚ) := by
  rw [twoPow_eq]
  simp

theorem twoPow_succ (a : ℤ) : twoPow (a + 1) = 2 * twoPow a := by
  rw [twoPow_add, mul_comm]
  congr 1

theorem bitLength_zero (fuel : ℕ) : bitLength fuel 0 = 0 := by
  cases fuel <;> simp [bitLength]

theorem bitLength_spec : ∀ (fuel n : ℕ), n ≤ fuel →
    n < 2 ^ bitLength fuel n ∧ (n ≠ 0 → 2 ^ bitLength fuel n ≤ 2 * n) := by
  intro fuel
  induction fuel with
  | zero =>
    intro n hn
    have : n = 0 := by omega
    subst this
    simp [bitLength]
  | succ f ih =>
    intro n hn
    by_cases h0 : n = 0
    · subst h0
      simp [bitLength]
    · have hle : n / 2 ≤ f := by omega
      obtain ⟨h1, h2⟩ := ih (n / 2) hle
      simp only [bitLength, h0, if_false, pow_succ]
      refine ⟨by omega, fun _ => ?_⟩
      by_cases h3 : n / 2 = 0
      · rw [h3, bitLength_zero]
        omega
      · have := h2 h3
        omega

theorem binaryDigits_spec (n : ℕ) (hn : n ≠ 0) :
    n < 2 ^ binaryDigits n ∧ 2 ^ binaryDigits n ≤ 2 * n :=
  ⟨(bitLength_spec n n (le_refl n)).1, (bitLength_spec n n (le_refl n)).2 hn⟩

theorem abs_eq_natAbs_div (x : ℚ) : |x| = (x.num.natAbs : ℚ) / (x.den : ℚ) := by
  have h := Rat.num_div_den x
  have hd : (0 : ℚ) < x.den := by exact_mod_cast x.den_pos
  conv_lhs => rw [← h]
  rw [abs_div, abs_of_pos hd]
  congr 1
  rw [Nat.cast_natAbs]
  simp

theorem binade_spec (x : ℚ) (hx : x ≠ 0) :
    twoPow (binade x) ≤ |x| ∧ |x| < twoPow (binade x + 1) := by
  have hp : x.num.natAbs ≠ 0 := by
    simpa using hx
  have hd : x.den ≠ 0 := x.den_nz
  obtain ⟨p1, p2⟩ := binaryDigits_spec _ hp
  obtain ⟨d1, d2⟩ := binaryDigits_spec _ hd
  have hdq : (0 : ℚ) < x.den := by exact_mod_cast x.den_pos
  have p1q : (x.num.natAbs : ℚ) < 2 ^ binaryDigits x.num.natAbs := by exact_mod_cast p1
  have p2q : (2 : ℚ) ^ binaryDigits x.num.natAbs ≤ 2 * x.num.natAbs := by exact_mod_cast p2
  have d1q : (x.den : ℚ) < 2 ^ binaryDigits x.den := by exact_mod_cast d1
  have d2q : (2 : ℚ) ^ binaryDigits x.den ≤ 2 * x.den := by exact_mod_cast d2
  have hP : (0 : ℚ) < 2 ^ binaryDigits x.num.natAbs := by positivity
  have hD : (0 : ℚ) < 2 ^ binaryDigits x.den := by positivity
  have habs := abs_eq_natAbs_div x
  have e0 : twoPow ((binaryDigits x.num.natAbs : ℤ) - (binaryDigits x.den : ℤ)) =
      (2 : ℚ) ^ binaryDigits x.num.natAbs / (2 : ℚ) ^ binaryDigits x.den := by
    rw [twoPow_eq, zpow_sub₀ (by norm_num)]
    simp
  have hlow : twoPow ((binaryDigits x.num.natAbs : ℤ) - (binaryDigits x.den : ℤ) - 1) ≤ |x| := by
    have : twoPow ((binaryDigits x.num.natAbs : ℤ) - (binaryDigits x.den : ℤ) - 1) * 2 =
        twoPow ((binaryDigits x.num.natAbs : ℤ) - (binaryDigits x.den : ℤ)) := by
      rw [mul_comm, ← twoPow_succ]
      congr 1
      ring
    have h2 : twoPow ((binaryDigits x.num.natAbs : ℤ) - (binaryDigits x.den : ℤ)) ≤ 2 * |x| := by
      rw [e0, habs, div_le_iff₀ hD]
      have : 2 * ((x.num.natAbs : ℚ) / x.den) * 2 ^ binaryDigits x.den =
          2 * x.num.natAbs * (2 ^ binaryDigits x.den / x.den) := by
        field_simp
      rw [this]
      have h3 : (1 : ℚ) ≤ 2 ^ binaryDigits x.den / x.den := by
        rw [le_div_iff₀ hdq]
        linarith
      nlinarith
    linarith
  have hhigh : |x| < twoPow ((binaryDigits x.num.natAbs : ℤ) - (binaryDigits x.den : ℤ) + 1) := by
    rw [twoPow_succ, e0, habs, div_lt_iff₀ hdq]
    have : 2 * ((2 : ℚ) ^ binaryDigits x.num.natAbs / 2 ^ binaryDigits x.den) * x.den =
        2 ^ binaryDigits x.num.natAbs * (2 * x.den / 2 ^ binaryDigits x.den) := by
      field_simp
      ring
    rw [this]
    have h3 : (1 : ℚ) ≤ 2 * x.den / 2 ^ binaryDigits x.den := by
      rw [le_div_iff₀ hD]
      linarith
    nlinarith
  unfold binade
  simp only []
  split_ifs with h
  · exact ⟨h, hhigh⟩
  · refine ⟨hlow, ?_⟩
    rw [sub_add_cancel]
    exact not_le.mp h

theorem binade_unique (x : ℚ) (e : ℤ) (h1 : twoPow e ≤ |x|) (h2 : |x| < twoPow (e + 1)) :
    binade x = e := by
  have hx : x ≠ 0 := by
    rintro rfl
    have := twoPow_pos e
    simp at h1
    linarith
  obtain ⟨b1, b2⟩ := binade_spec x hx
  have h3 : binade x < e + 1 := (twoPow_lt _ _).mp (lt_of_le_of_lt b1 h2)
  have h4 : e < binade x + 1 := (twoPow_lt _ _).mp (lt_of_le_of_lt h1 b2)
  omega

theorem binade_mono (x y : ℚ) (hx : x ≠ 0) (hxy : |x| ≤ |y|) : binade x ≤ binade y := by
  have hy : y ≠ 0 := by
    rintro rfl
    simp at hxy
    exact hx hxy
  obtain ⟨b1, -⟩ := binade_spec x hx
  obtain ⟨-, c2⟩ := binade_spec y hy
  have : binade x < binade y + 1 := (twoPow_lt _ _).mp (lt_of_le_of_lt (le_trans b1 hxy) c2)
  omega

theorem binade_neg (x : ℚ) : binade (-x) = binade x := by
  unfold binade
  simp

theorem ulpExp_neg (x : ℚ) : ulpExp (-x) = ulpExp x := by
  unfold ulpExp
  rw [binade_neg]

theorem ulpExp_ge (x : ℚ) : -1074 ≤ ulpExp x := by
  unfold ulpExp
  have := le_max_right (binade x) (-1022)
  omega

theorem ulpExp_mono (x y : ℚ) (hx : x ≠ 0) (hxy : |x| ≤ |y|) : ulpExp x ≤ ulpExp y := by
  unfold ulpExp
  have := binade_mono x y hx hxy
  have := max_le_max_right (-1022) this
  omega

theorem abs_lt_ulp (x : ℚ) (hx : x ≠ 0) : |x| < twoPow (ulpExp x + 53) := by
  obtain ⟨-, b2⟩ := binade_spec x hx
  refine lt_of_lt_of_le b2 ((twoPow_le _ _).mpr ?_)
  unfold ulpExp
  have := le_max_left (binade x) (-1022)
  omega

theorem binade_ge_of_normal (x : ℚ) (hx : twoPow (-1022) ≤ |x|) : -1022 ≤ binade x := by
  have hx0 : x ≠ 0 := by
    rintro rfl
    have := twoPow_pos (-1022)
    simp at hx
    linarith
  obtain ⟨-, b2⟩ := binade_spec x hx0
  have : (-1022 : ℤ) < binade x + 1 := (twoPow_lt _ _).mp (lt_of_le_of_lt hx b2)
  omega

theorem ulp_le_abs (x : ℚ) (hx : twoPow (-1022) ≤ |x|) : twoPow (ulpExp x + 52) ≤ |x| := by
  have hb := binade_ge_of_normal x hx
  have hx0 : x ≠ 0 := by
    rintro rfl
    have := twoPow_pos (-1022)
    simp at hx
    linarith
  obtain ⟨b1, -⟩ := binade_spec x hx0
  have : ulpExp x + 52 = binade x := by
    unfold ulpExp
    rw [max_eq_left hb]
    ring
  rw [this]
  exact b1

theorem roundHalfEven_near (x : ℚ) :
    |(roundHalfEven x : ℚ) - x| ≤ 1 / 2 ∧
      (|(roundHalfEven x : ℚ) - x| = 1 / 2 → roundHalfEven x % 2 = 0) := by
  have h1 := Int.floor_le x
  have h2 := Int.lt_floor_add_one x
  unfold roundHalfEven
  simp only []
  by_cases ha : x - ⌊x⌋ < 1 / 2
  · rw [if_pos ha]
    have e : |((⌊x⌋ : ℤ) : ℚ) - x| = x - ⌊x⌋ := by
      rw [abs_sub_comm, abs_of_nonneg (by linarith)]
    rw [e]
    exact ⟨ha.le, fun h => absurd h (ne_of_lt ha)⟩
  · rw [if_neg ha]
    by_cases hb : 1 / 2 < x - ⌊x⌋
    · rw [if_pos hb]
      have e : |((⌊x⌋ + 1 : ℤ) : ℚ) - x| = 1 - (x - ⌊x⌋) := by
        push_cast
        rw [abs_of_nonneg (by linarith)]
        ring
      rw [e]
      exact ⟨by linarith, fun h => absurd h (by linarith)⟩
    · rw [if_neg hb]
      have hc : x - ⌊x⌋ = 1 / 2 := le_antisymm (not_lt.mp hb) (not_lt.mp ha)
      by_cases hd : ⌊x⌋ % 2 = 0
      · rw [if_pos hd]
        have e : |((⌊x⌋ : ℤ) : ℚ) - x| = 1 / 2 := by
          rw [abs_sub_comm, abs_of_nonneg (by linarith), hc]
        exact ⟨e.le, fun _ => hd⟩
      · rw [if_neg hd]
        have e : |((⌊x⌋ + 1 : ℤ) : ℚ) - x| = 1 / 2 := by
          push_cast
          rw [abs_of_nonneg (by linarith)]
          linarith
        exact ⟨e.le, fun _ => by omega⟩

theorem roundHalfEven_unique (x : ℚ) (n : ℤ) (h1 : |(n : ℚ) - x| ≤ 1 / 2)
    (h2 : |(n : ℚ) - x| = 1 / 2 → n % 2 = 0) : roundHalfEven x = n := by
  obtain ⟨r1, r2⟩ := roundHalfEven_near x
  have a1 := abs_le.mp h1
  have b1 := abs_le.mp r1
  have hd : ((roundHalfEven x - n : ℤ) : ℚ) ≤ 1 ∧ (-1 : ℚ) ≤ ((roundHalfEven x - n : ℤ) : ℚ) := by
    push_cast
    constructor <;> linarith [a1.1, a1.2, b1.1, b1.2]
  have hd1 : roundHalfEven x - n ≤ 1 := by exact_mod_cast hd.1
  have hd2 : -1 ≤ roundHalfEven x - n := by exact_mod_cast hd.2
  rcases (by omega : roundHalfEven x - n = 0 ∨ roundHalfEven x - n = 1 ∨
      roundHalfEven x - n = -1) with h | h | h
  · omega
  · exfalso
    have hq : ((roundHalfEven x : ℤ) : ℚ) = n + 1 := by
      have : roundHalfEven x = n + 1 := by omega
      rw [this]
      push_cast
      ring
    have e1 : (n : ℚ) - x = -(1 / 2) := by linarith [a1.1, b1.2]
    have e2 : ((roundHalfEven x : ℤ) : ℚ) - x = 1 / 2 := by linarith
    have p1 := h2 (by rw [e1, abs_neg, abs_of_pos (by norm_num)])
    have p2 := r2 (by rw [e2, abs_of_pos (by norm_num)])
    omega
  · exfalso
    have hq : ((roundHalfEven x : ℤ) : ℚ) = n - 1 := by
      have : roundHalfEven x = n - 1 := by omega
      rw [this]
      push_cast
      ring
    have e1 : (n : ℚ) - x = 1 / 2 := by linarith [a1.2, b1.1]
    have e2 : ((roundHalfEven x : ℤ) : ℚ) - x = -(1 / 2) := by linarith
    have p1 := h2 (by rw [e1, abs_of_pos (by norm_num)])
    have p2 := r2 (by rw [e2, abs_neg, abs_of_pos (by norm_num)])
    omega

theorem roundHalfEven_intCast (n : ℤ) : roundHalfEven (n : ℚ) = n :=
  roundHalfEven_unique _ n (by simp) (by simp)

theorem roundHalfEven_neg (x : ℚ) : roundHalfEven (-x) = -roundHalfEven x := by
  obtain ⟨r1, r2⟩ := roundHalfEven_near x
  have e : |((-roundHalfEven x : ℤ) : ℚ) - -x| = |(roundHalfEven x : ℚ) - x| := by
    push_cast
    rw [← abs_neg]
    congr 1
    ring
  refine roundHalfEven_unique _ _ (by rw [e]; exact r1) ?_
  intro h
  rw [e] at h
  have := r2 h
  omega

theorem roundHalfEven_mono (x y : ℚ) (hxy : x ≤ y) : roundHalfEven x ≤ roundHalfEven y := by
  rcases eq_or_lt_of_le hxy with rfl | hlt
  · exact le_refl _
  · have a := abs_le.mp (roundHalfEven_near x).1
    have b := abs_le.mp (roundHalfEven_near y).1
    have h : ((roundHalfEven x : ℤ) : ℚ) < (roundHalfEven y : ℚ) + 1 := by linarith [a.2, b.1]
    have h2 : roundHalfEven x < roundHalfEven y + 1 := by exact_mod_cast h
    omega

theorem roundHalfEven_nonneg (x : ℚ) (hx : 0 ≤ x) : 0 ≤ roundHalfEven x := by
  have := roundHalfEven_mono 0 x hx
  rwa [show (0 : ℚ) = ((0 : ℤ) : ℚ) by simp, roundHalfEven_intCast] at this

theorem fl64_zero : fl64 0 = some 0 := by
  simp [fl64]

theorem fl64_eq_some (x y : ℚ) (hx : x ≠ 0) :
    fl64 x = some y ↔
      y = (roundHalfEven (x / twoPow (ulpExp x)) : ℚ) * twoPow (ulpExp x) ∧
        |y| < twoPow 1024 := by
  unfold fl64
  rw [if_neg hx]
  simp only []
  constructor
  · intro h
    split_ifs at h with hlt
    · have := Option.some.inj h
      subst this
      exact ⟨rfl, hlt⟩
  · rintro ⟨rfl, hlt⟩
    rw [if_pos hlt]

theorem fl64_neg (x : ℚ) : fl64 (-x) = (fl64 x).map fun y => -y := by
  by_cases hx : x = 0
  · subst hx
    simp [fl64_zero]
  · have hnx : -x ≠ 0 := neg_ne_zero.mpr hx
    unfold fl64
    rw [if_neg hx, if_neg hnx]
    simp only [ulpExp_neg, neg_div, roundHalfEven_neg, Int.cast_neg, neg_mul, abs_neg]
    split_ifs <;> simp

theorem fl64_of_grid (x : ℚ) (n : ℤ) (hx : x = n * twoPow (ulpExp x))
    (hlt : |x| < twoPow 1024) : fl64 x = some x := by
  by_cases h0 : x = 0
  · rw [h0]
    exact fl64_zero
  · rw [fl64_eq_some x x h0]
    refine ⟨?_, hlt⟩
    have hpos := twoPow_pos (ulpExp x)
    have : x / twoPow (ulpExp x) = n := by
      rw [div_eq_iff hpos.ne']
      exact hx
    rw [this, roundHalfEven_intCast]
    exact hx

theorem fl64_dyadic (n j : ℤ) (hj : -1074 ≤ j) (hn : |n| < 2 ^ 53)
    (hlt : |(n : ℚ) * twoPow j| < twoPow 1024) :
    fl64 (n * twoPow j) = some (n * twoPow j) := by
  by_cases h0 : (n : ℚ) * twoPow j = 0
  · rw [h0]
    exact fl64_zero
  · have hjpos := twoPow_pos j
    have habs : |(n : ℚ) * twoPow j| < twoPow (j + 53) := by
      rw [abs_mul, abs_of_pos hjpos, twoPow_add, mul_comm (twoPow j)]
      apply mul_lt_mul_of_pos_right _ hjpos
      have h53 : twoPow 53 = ((2 ^ 53 : ℤ) : ℚ) := by
        rw [twoPow_eq]
        norm_num
      rw [h53, ← Int.cast_abs]
      exact_mod_cast hn
    obtain ⟨b1, -⟩ := binade_spec _ h0
    have hb : binade ((n : ℚ) * twoPow j) < j + 53 := (twoPow_lt _ _).mp (lt_of_le_of_lt b1 habs)
    have hu : ulpExp ((n : ℚ) * twoPow j) ≤ j := by
      unfold ulpExp
      rcases max_cases (binade ((n : ℚ) * twoPow j)) (-1022) with ⟨h, -⟩ | ⟨h, -⟩ <;> omega
    obtain ⟨d, hd⟩ := Int.eq_ofNat_of_zero_le (sub_nonneg.mpr hu)
    have hsplit : twoPow j = ((2 ^ d : ℕ) : ℚ) * twoPow (ulpExp ((n : ℚ) * twoPow j)) := by
      rw [← twoPow_natCast, ← twoPow_add, ← hd]
      congr 1
      ring
    refine fl64_of_grid _ (n * (2 ^ d : ℕ)) ?_ hlt
    conv_lhs => rw [hsplit]
    push_cast
    ring

theorem fl64_intCast (n : ℤ) (hn : |n| < 2 ^ 53) : fl64 (n : ℚ) = some (n : ℚ) := by
  have h := fl64_dyadic n 0 (by norm_num) hn (by
    have h1 : twoPow 0 = 1 := by simp [twoPow]
    rw [h1, mul_one, twoPow_eq]
    have : ((|n| : ℤ) : ℚ) < ((2 ^ 53 : ℤ) : ℚ) := by exact_mod_cast hn
    have h2 : (((2 : ℤ) ^ 53 : ℤ) : ℚ) < (2 : ℚ) ^ (1024 : ℤ) := by norm_num
    calc |(n : ℚ)| = ((|n| : ℤ) : ℚ) := by simp
      _ < _ := this
      _ < _ := h2)
  have h1 : twoPow 0 = 1 := by simp [twoPow]
  rwa [h1, mul_one] at h

theorem fl64_idem (x y : ℚ) (h : fl64 x = some y) : fl64 y = some y := by
  by_cases hx : x = 0
  · subst hx
    rw [fl64_zero] at h
    rw [← Option.some.inj h]
    exact fl64_zero
  · obtain ⟨hy, hlt⟩ := (fl64_eq_some x y hx).mp h
    have hu := ulpExp_ge x
    have hupos := twoPow_pos (ulpExp x)
    have hbound := abs_lt_ulp x hx
    have hq : |x / twoPow (ulpExp x)| < (2 : ℚ) ^ 53 := by
      rw [abs_div, abs_of_pos hupos, div_lt_iff₀ hupos]
      have : twoPow (ulpExp x + 53) = (2 : ℚ) ^ 53 * twoPow (ulpExp x) := by
        rw [twoPow_add, mul_comm]
        congr 1
      rw [← this]
      exact hbound
    have hq2 := abs_lt.mp hq
    have hN1 : roundHalfEven (x / twoPow (ulpExp x)) ≤ 2 ^ 53 := by
      have := roundHalfEven_mono _ (((2 ^ 53 : ℤ)) : ℚ) (by push_cast; exact hq2.2.le)
      rwa [roundHalfEven_intCast] at this
    have hN2 : -(2 ^ 53) ≤ roundHalfEven (x / twoPow (ulpExp x)) := by
      have := roundHalfEven_mono (((-(2 ^ 53) : ℤ)) : ℚ) _ (by push_cast; exact hq2.1.le)
      rwa [roundHalfEven_intCast] at this
    rcases (by omega : (-(2 ^ 53) < roundHalfEven (x / twoPow (ulpExp x)) ∧
          roundHalfEven (x / twoPow (ulpExp x)) < 2 ^ 53) ∨
        roundHalfEven (x / twoPow (ulpExp x)) = 2 ^ 53 ∨
        roundHalfEven (x / twoPow (ulpExp x)) = -(2 ^ 53)) with hc | hc | hc
    · rw [hy]
      exact fl64_dyadic _ _ hu (abs_lt.mpr hc) (by rw [← hy]; exact hlt)
    · have e : y = ((2 ^ 52 : ℤ) : ℚ) * twoPow (ulpExp x + 1) := by
        rw [hy, hc, twoPow_succ]
        push_cast
        ring
      rw [e]
      exact fl64_dyadic _ _ (by omega) (by norm_num) (by rw [← e]; exact hlt)
    · have e : y = ((-(2 ^ 52) : ℤ) : ℚ) * twoPow (ulpExp x + 1) := by
        rw [hy, hc, twoPow_succ]
        push_cast
        ring
      rw [e]
      exact fl64_dyadic _ _ (by omega) (by norm_num) (by rw [← e]; exact hlt)

theorem roundHalfEven_abs_le (q : ℚ) (k : ℤ) (h : |q| ≤ k) : |roundHalfEven q| ≤ k := by
  have hq := abs_le.mp h
  have h1 := roundHalfEven_mono q k hq.2
  have h2 := roundHalfEven_mono (((-k : ℤ)) : ℚ) q (by push_cast; exact hq.1)
  rw [roundHalfEven_intCast] at h1 h2
  exact abs_le.mpr ⟨h2, h1⟩

theorem roundHalfEven_abs_ge (q : ℚ) (k : ℤ) (h : (k : ℚ) ≤ |q|) : k ≤ |roundHalfEven q| := by
  rcases le_total 0 q with hq | hq
  · rw [abs_of_nonneg hq] at h
    have h1 := roundHalfEven_mono k q h
    rw [roundHalfEven_intCast] at h1
    exact le_trans h1 (le_abs_self _)
  · rw [abs_of_nonpos hq] at h
    have h1 := roundHalfEven_mono q (((-k : ℤ)) : ℚ) (by push_cast; linarith)
    rw [roundHalfEven_intCast] at h1
    have := neg_abs_le (roundHalfEven q)
    omega

/-- The rounded value of a non-zero `x`, its integer coefficient `N` on the
grid of `x`, and the bounds of `N`. -/
theorem fl64_grid (x a : ℚ) (hx : x ≠ 0) (h : fl64 x = some a) :
    ∃ N : ℤ, a = N * twoPow (ulpExp x) ∧ |(N : ℚ) - x / twoPow (ulpExp x)| ≤ 1 / 2 ∧
      |N| ≤ 2 ^ 53 ∧ (twoPow (-1022) ≤ |x| → 2 ^ 52 ≤ |N|) ∧ |a| < twoPow 1024 := by
  obtain ⟨ha, hlt⟩ := (fl64_eq_some x a hx).mp h
  have hupos := twoPow_pos (ulpExp x)
  refine ⟨roundHalfEven (x / twoPow (ulpExp x)), ha, (roundHalfEven_near _).1, ?_, ?_, hlt⟩
  · apply roundHalfEven_abs_le
    rw [abs_div, abs_of_pos hupos, div_le_iff₀ hupos]
    have h1 := abs_lt_ulp x hx
    rw [twoPow_add, mul_comm] at h1
    have h53 : twoPow 53 = ((2 ^ 53 : ℤ) : ℚ) := by
      rw [twoPow_eq]
      norm_num
    rw [h53] at h1
    exact h1.le
  · intro hn
    apply roundHalfEven_abs_ge
    rw [abs_div, abs_of_pos hupos, le_div_iff₀ hupos]
    have h1 := ulp_le_abs x hn
    rw [twoPow_add, mul_comm] at h1
    have h52 : twoPow 52 = ((2 ^ 52 : ℤ) : ℚ) := by
      rw [twoPow_eq]
      norm_num
    rw [h52] at h1
    exact h1

theorem fl64_nonneg (x a : ℚ) (hx : 0 ≤ x) (h : fl64 x = some a) : 0 ≤ a := by
  by_cases h0 : x = 0
  · subst h0
    rw [fl64_zero] at h
    rw [← Option.some.inj h]
  · obtain ⟨ha, -⟩ := (fl64_eq_some x a h0).mp h
    rw [ha]
    have hupos := twoPow_pos (ulpExp x)
    have := roundHalfEven_nonneg (x / twoPow (ulpExp x)) (div_nonneg hx hupos.le)
    have h2 : (0 : ℚ) ≤ (roundHalfEven (x / twoPow (ulpExp x)) : ℚ) := by exact_mod_cast this
    exact mul_nonneg h2 hupos.le

theorem fl64_nonpos (x a : ℚ) (hx : x ≤ 0) (h : fl64 x = some a) : a ≤ 0 := by
  have h1 : fl64 (-x) = some (-a) := by
    rw [fl64_neg, h]
    rfl
  have := fl64_nonneg (-x) (-a) (by linarith) h1
  linarith

theorem fl64_mono_pos (x y a b : ℚ) (hx : 0 < x) (hxy : x ≤ y) (ha : fl64 x = some a)
    (hb : fl64 y = some b) : a ≤ b := by
  have hy : 0 < y := lt_of_lt_of_le hx hxy
  obtain ⟨ea, -⟩ := (fl64_eq_some x a hx.ne').mp ha
  obtain ⟨eb, -⟩ := (fl64_eq_some y b hy.ne').mp hb
  have hu := ulpExp_mono x y hx.ne' (by rw [abs_of_pos hx, abs_of_pos hy]; exact hxy)
  have hxpos := twoPow_pos (ulpExp x)
  have hypos := twoPow_pos (ulpExp y)
  rcases eq_or_lt_of_le hu with he | hlt
  · rw [ea, eb, he]
    apply mul_le_mul_of_nonneg_right _ hypos.le
    have := roundHalfEven_mono (x / twoPow (ulpExp y)) (y / twoPow (ulpExp y))
      (div_le_div_of_nonneg_right hxy hypos.le)
    rw [← he] at this ⊢
    exact_mod_cast this
  · obtain ⟨N, eN, -, hN, -, -⟩ := fl64_grid x a hx.ne' ha
    have hby : -1022 < binade y := by
      have : ulpExp x < ulpExp y := hlt
      unfold ulpExp at this
      rcases max_cases (binade x) (-1022) with ⟨h1, -⟩ | ⟨h1, -⟩ <;>
        rcases max_cases (binade y) (-1022) with ⟨h2, h3⟩ | ⟨h2, h3⟩ <;> omega
    have hyn : twoPow (-1022) ≤ |y| := by
      obtain ⟨b1, -⟩ := binade_spec y hy.ne'
      exact le_trans ((twoPow_le _ _).mpr hby.le) b1
    obtain ⟨M, eM, -, -, hM, -⟩ := fl64_grid y b hy.ne' hb
    have hM2 := hM hyn
    have hb0 := fl64_nonneg y b hy.le hb
    have hMpos : (2 : ℤ) ^ 52 ≤ M := by
      rcases le_total 0 M with h0 | h0
      · rwa [abs_of_nonneg h0] at hM2
      · exfalso
        rw [abs_of_nonpos h0] at hM2
        have hMq : (M : ℚ) < 0 := by
          have : M < 0 := by omega
          exact_mod_cast this
        have : b < 0 := by
          rw [eM]
          exact mul_neg_of_neg_of_pos hMq hypos
        linarith
    have h1 : a ≤ twoPow (ulpExp x + 53) := by
      rw [eN, twoPow_add, mul_comm (twoPow (ulpExp x))]
      apply mul_le_mul_of_nonneg_right _ hxpos.le
      have h53 : twoPow 53 = ((2 ^ 53 : ℤ) : ℚ) := by
        rw [twoPow_eq]
        norm_num
      rw [h53]
      have := (abs_le.mp hN).2
      exact_mod_cast this
    have h2 : twoPow (ulpExp y + 52) ≤ b := by
      rw [eM, twoPow_add, mul_comm (twoPow (ulpExp y))]
      apply mul_le_mul_of_nonneg_right _ hypos.le
      have h52 : twoPow 52 = ((2 ^ 52 : ℤ) : ℚ) := by
        rw [twoPow_eq]
        norm_num
      rw [h52]
      exact_mod_cast hMpos
    have h3 : twoPow (ulpExp x + 53) ≤ twoPow (ulpExp y + 52) := (twoPow_le _ _).mpr (by omega)
    linarith

theorem fl64_mono (x y a b : ℚ) (hxy : x ≤ y) (ha : fl64 x = some a) (hb : fl64 y = some b) :
    a ≤ b := by
  rcases lt_trichotomy 0 x with hx | hx | hx
  · exact fl64_mono_pos x y a b hx hxy ha hb
  · subst hx
    rw [fl64_zero] at ha
    rw [← Option.some.inj ha]
    exact fl64_nonneg y b hxy hb
  · rcases le_or_lt 0 y with hy | hy
    · exact le_trans (fl64_nonpos x a hx.le ha) (fl64_nonneg y b hy hb)
    · have h1 : fl64 (-x) = some (-a) := by
        rw [fl64_neg, ha]
        rfl
      have h2 : fl64 (-y) = some (-b) := by
        rw [fl64_neg, hb]
        rfl
      have := fl64_mono_pos (-y) (-x) (-b) (-a) (by linarith) (by linarith) h2 h1
      linarith

/-- The rounding error of a result in the normal range is at most `2^-53` of
the rounded value, and less when the value was rounded away from zero. -/
theorem fl64_error (x a : ℚ) (hn : twoPow (-1022) ≤ |x|) (h : fl64 x = some a) :
    |x - a| ≤ twoPow (-53) * |a| ∧ (|x| < |a| → |x - a| < twoPow (-53) * |a|) := by
  have hx : x ≠ 0 := by
    rintro rfl
    have := twoPow_pos (-1022)
    simp at hn
    linarith
  obtain ⟨N, eN, hnear, -, hN, -⟩ := fl64_grid x a hx h
  have hN2 := hN hn
  have hupos := twoPow_pos (ulpExp x)
  have herr : |x - a| ≤ twoPow (ulpExp x - 1) := by
    have e1 : x - a = -(((N : ℚ) - x / twoPow (ulpExp x)) * twoPow (ulpExp x)) := by
      rw [eN]
      field_simp
    rw [e1, abs_neg, abs_mul, abs_of_pos hupos]
    have e2 : twoPow (ulpExp x - 1) = 1 / 2 * twoPow (ulpExp x) := by
      have := twoPow_succ (ulpExp x - 1)
      rw [sub_add_cancel] at this
      rw [this]
      ring
    rw [e2]
    exact mul_le_mul_of_nonneg_right hnear hupos.le
  have habs : |a| = (|N| : ℤ) * twoPow (ulpExp x) := by
    rw [eN, abs_mul, abs_of_pos hupos]
    simp
  have hlow : twoPow (ulpExp x + 52) ≤ |a| := by
    rw [habs, twoPow_add, mul_comm (twoPow (ulpExp x))]
    apply mul_le_mul_of_nonneg_right _ hupos.le
    have h52 : twoPow 52 = ((2 ^ 52 : ℤ) : ℚ) := by
      rw [twoPow_eq]
      norm_num
    rw [h52]
    exact_mod_cast hN2
  have e3 : twoPow (-53) * twoPow (ulpExp x + 52) = twoPow (ulpExp x - 1) := by
    rw [← twoPow_add]
    congr 1
    ring
  have h53 := twoPow_pos (-53)
  constructor
  · calc |x - a| ≤ twoPow (ulpExp x - 1) := herr
      _ = twoPow (-53) * twoPow (ulpExp x + 52) := e3.symm
      _ ≤ twoPow (-53) * |a| := mul_le_mul_of_nonneg_left hlow h53.le
  · intro hlt
    have h4 := ulp_le_abs x hn
    calc |x - a| ≤ twoPow (ulpExp x - 1) := herr
      _ = twoPow (-53) * twoPow (ulpExp x + 52) := e3.symm
      _ < twoPow (-53) * |a| := mul_lt_mul_of_pos_left (lt_of_le_of_lt h4 hlt) h53

theorem fl64_fixed_grid (x : ℚ) (hx : x ≠ 0) (h : fl64 x = some x) :
    ∃ N : ℤ, x = N * twoPow (ulpExp x) := by
  obtain ⟨N, eN, -⟩ := fl64_grid x x hx h
  exact ⟨N, eN⟩

theorem grid_coarser (x : ℚ) (n u1 u2 : ℤ) (hx : x = n * twoPow u2) (hu : u1 ≤ u2) :
    ∃ m : ℤ, x = m * twoPow u1 := by
  obtain ⟨d, hd⟩ := Int.eq_ofNat_of_zero_le (sub_nonneg.mpr hu)
  refine ⟨n * (2 ^ d : ℕ), ?_⟩
  have : twoPow u2 = ((2 ^ d : ℕ) : ℚ) * twoPow u1 := by
    rw [← twoPow_natCast, ← twoPow_add, ← hd]
    congr 1
    ring
  rw [hx, this]
  push_cast
  ring

theorem grid_gap (a b : ℚ) (n m u : ℤ) (ha : a = n * twoPow u) (hb : b = m * twoPow u)
    (hab : a < b) : twoPow u ≤ b - a := by
  have hupos := twoPow_pos u
  have hnm : n < m := by
    by_contra hc
    have : (m : ℚ) ≤ n := by exact_mod_cast not_lt.mp hc
    have := mul_le_mul_of_nonneg_right this hupos.le
    rw [← ha, ← hb] at this
    linarith
  have h1 : (1 : ℚ) ≤ (m : ℚ) - n := by
    have : (1 : ℤ) ≤ m - n := by omega
    exact_mod_cast this
  have : b - a = ((m : ℚ) - n) * twoPow u := by
    rw [ha, hb]
    ring
  rw [this]
  nlinarith

theorem fl64_gap_pos (v P : ℚ) (hv : fl64 v = some v) (hP : fl64 P = some P) (hne : v ≠ P)
    (hP0 : 0 < P) :
    twoPow (-53) * P ≤ |v - P| ∧ (P < |v| → twoPow (-53) * P < |v - P|) := by
  have h53 := twoPow_pos (-53)
  have h53lt : twoPow (-53) < 1 := by
    rw [twoPow_eq]
    norm_num
  have hsmall : twoPow (-53) * P < P := by nlinarith
  have hPlt := abs_lt_ulp P hP0.ne'
  rw [abs_of_pos hP0] at hPlt
  have hPu : twoPow (-53) * P < twoPow (ulpExp P) := by
    have e : twoPow (-53) * twoPow (ulpExp P + 53) = twoPow (ulpExp P) := by
      rw [← twoPow_add]
      congr 1
      ring
    rw [← e]
    exact mul_lt_mul_of_pos_left hPlt h53
  obtain ⟨nP, eP⟩ := fl64_fixed_grid P hP0.ne' hP
  rcases le_or_lt v 0 with hv0 | hv0
  · have e : |v - P| = P + |v| := by
      rw [abs_of_nonpos (by linarith), abs_of_nonpos hv0]
      ring
    rw [e]
    have := abs_nonneg v
    exact ⟨by linarith, fun _ => by linarith⟩
  · obtain ⟨nv, ev⟩ := fl64_fixed_grid v hv0.ne' hv
    rcases lt_or_gt_of_ne hne with hlt | hgt
    · -- 0 < v < P
      have hu := ulpExp_mono v P hv0.ne' (by
        rw [abs_of_pos hv0, abs_of_pos hP0]
        exact hlt.le)
      refine ⟨?_, fun h => absurd h (by rw [abs_of_pos hv0]; exact not_lt.mpr hlt.le)⟩
      rw [abs_of_neg (by linarith), neg_sub]
      obtain ⟨mP, eP2⟩ := grid_coarser P nP _ _ eP hu
      have hgap := grid_gap v P nv mP _ ev eP2 hlt
      rcases eq_or_lt_of_le hu with he | hult
      · rw [he] at hgap
        linarith
      · -- the grid of `v` is finer: `P` is in the normal range
        have hbP : -1022 < binade P := by
          have : ulpExp v < ulpExp P := hult
          unfold ulpExp at this
          rcases max_cases (binade v) (-1022) with ⟨h1, -⟩ | ⟨h1, -⟩ <;>
            rcases max_cases (binade P) (-1022) with ⟨h2, h3⟩ | ⟨h2, h3⟩ <;> omega
        have hPn : twoPow (-1022) ≤ |P| := by
          obtain ⟨b1, -⟩ := binade_spec P hP0.ne'
          exact le_trans ((twoPow_le _ _).mpr hbP.le) b1
        have hB := ulp_le_abs P hPn
        rw [abs_of_pos hP0] at hB
        have hvlt := abs_lt_ulp v hv0.ne'
        rw [abs_of_pos hv0] at hvlt
        have h52 : twoPow 52 = ((2 ^ 52 : ℤ) : ℚ) := by
          rw [twoPow_eq]
          norm_num
        have eB : twoPow (ulpExp P + 52) = ((2 ^ 52 : ℤ) : ℚ) * twoPow (ulpExp P) := by
          rw [twoPow_add, mul_comm, h52]
        rcases eq_or_lt_of_le hB with hPB | hPB
        · -- `P` is the power of two at the bottom of its binade
          have e1 : twoPow (-53) * P = twoPow (ulpExp P - 1) := by
            have e2 : twoPow (-53) * twoPow (ulpExp P + 52) = twoPow (ulpExp P - 1) := by
              rw [← twoPow_add]
              congr 1
              ring
            rw [← e2, hPB]
          rw [e1]
          rcases eq_or_lt_of_le (by omega : ulpExp v ≤ ulpExp P - 1) with h1 | h1
          · rw [← h1]
            exact hgap
          · have h2 : twoPow (ulpExp v + 53) ≤ twoPow (ulpExp P + 51) :=
              (twoPow_le _ _).mpr (by omega)
            have h3 : twoPow (ulpExp P + 52) = 2 * twoPow (ulpExp P + 51) := by
              rw [← twoPow_succ]
              congr 1
              ring
            have h4 : twoPow (ulpExp P - 1) ≤ twoPow (ulpExp P + 51) :=
              (twoPow_le _ _).mpr (by omega)
            linarith
        · have hgapB := grid_gap _ P _ nP _ eB eP hPB
          have hvB : v < twoPow (ulpExp P + 52) :=
            lt_of_lt_of_le hvlt ((twoPow_le _ _).mpr (by omega))
          linarith
    · -- 0 < P < v
      have hu := ulpExp_mono P v hP0.ne' (by
        rw [abs_of_pos hv0, abs_of_pos hP0]
        exact hgt.le)
      obtain ⟨mv, ev2⟩ := grid_coarser v nv _ _ ev hu
      have hgap := grid_gap P v nP mv _ eP ev2 hgt
      rw [abs_of_pos (by linarith)]
      exact ⟨by linarith, fun _ => by linarith⟩

/-- Two different binary64 values differ by at least `2^-53` of either of them,
and by more than that of the one that is smaller in absolute value. -/
theorem fl64_gap (v P : ℚ) (hv : fl64 v = some v) (hP : fl64 P = some P) (hne : v ≠ P)
    (hP0 : P ≠ 0) :
    twoPow (-53) * |P| ≤ |v - P| ∧ (|P| < |v| → twoPow (-53) * |P| < |v - P|) := by
  rcases lt_or_gt_of_ne hP0 with hneg | hpos
  · have hv2 : fl64 (-v) = some (-v) := by
      rw [fl64_neg, hv]
      rfl
    have hP2 : fl64 (-P) = some (-P) := by
      rw [fl64_neg, hP]
      rfl
    have := fl64_gap_pos (-v) (-P) hv2 hP2 (by simpa using hne) (by linarith)
    have e : |-v - -P| = |v - P| := by
      rw [← abs_neg]
      congr 1
      ring
    rw [e, abs_neg] at this
    rw [abs_of_neg hneg]
    exact this
  · rw [abs_of_pos hpos]
    exact fl64_gap_pos v P hv hP hne hpos

theorem double_large_int (X : ℚ) (hX : fl64 X = some X) (hbig : twoPow 52 ≤ |X|) :
    ∃ n : ℤ, X = n := by
  have hX0 : X ≠ 0 := by
    rintro rfl
    have := twoPow_pos 52
    simp at hbig
    linarith
  obtain ⟨N, eN⟩ := fl64_fixed_grid X hX0 hX
  obtain ⟨-, b2⟩ := binade_spec X hX0
  have hb : (52 : ℤ) < binade X + 1 := (twoPow_lt _ _).mp (lt_of_le_of_lt hbig b2)
  have hu : 0 ≤ ulpExp X := by
    unfold ulpExp
    have := le_max_left (binade X) (-1022)
    omega
  obtain ⟨d, hd⟩ := Int.eq_ofNat_of_zero_le hu
  refine ⟨N * (2 ^ d : ℕ), ?_⟩
  rw [eN, hd, twoPow_natCast]
  push_cast
  ring

theorem RoundFn.apply_bounds (fn : RoundFn) (X : ℚ) :
    (fn.apply X : ℚ) - 1 < X + 1 / 2 ∧ X - 1 / 2 < (fn.apply X : ℚ) + 1 := by
  cases fn
  · have h1 := Int.floor_le (X + 1 / 2)
    have h2 := Int.lt_floor_add_one (X + 1 / 2)
    constructor
    · show ((⌊X + 1 / 2⌋ : ℤ) : ℚ) - 1 < X + 1 / 2
      linarith
    · show X - 1 / 2 < ((⌊X + 1 / 2⌋ : ℤ) : ℚ) + 1
      linarith
  · have h1 := Int.le_ceil X
    have h2 := Int.ceil_lt_add_one X
    constructor
    · show ((⌈X⌉ : ℤ) : ℚ) - 1 < X + 1 / 2
      linarith
    · show X - 1 / 2 < ((⌈X⌉ : ℤ) : ℚ) + 1
      linarith
  · have h1 := Int.floor_le X
    have h2 := Int.lt_floor_add_one X
    constructor
    · show ((⌊X⌋ : ℤ) : ℚ) - 1 < X + 1 / 2
      linarith
    · show X - 1 / 2 < ((⌊X⌋ : ℤ) : ℚ) + 1
      linarith

/-- `Math.round`, `Math.ceil` and `Math.floor` of a binary64 value are binary64
values. -/
theorem apply_double (fn : RoundFn) (X : ℚ) (hX : fl64 X = some X) :
    fl64 (fn.apply X : ℚ) = some (fn.apply X : ℚ) := by
  rcases le_or_lt (twoPow 52) |X| with hbig | hsmall
  · obtain ⟨n, rfl⟩ := double_large_int X hX hbig
    rw [RoundFn.apply_intCast]
    exact hX
  · apply fl64_intCast
    have h52 : twoPow 52 = (2 : ℚ) ^ 52 := by
      rw [twoPow_eq]
      norm_num
    rw [h52] at hsmall
    obtain ⟨b1, b2⟩ := RoundFn.apply_bounds fn X
    have hs := abs_lt.mp hsmall
    have c1 : ((fn.apply X : ℤ) : ℚ) < ((2 ^ 53 : ℤ) : ℚ) := by
      push_cast
      linarith
    have c2 : ((-(2 ^ 53) : ℤ) : ℚ) < (fn.apply X : ℚ) := by
      push_cast
      linarith
    have d1 : fn.apply X < 2 ^ 53 := by exact_mod_cast c1
    have d2 : -(2 ^ 53) < fn.apply X := by exact_mod_cast c2
    exact abs_lt.mpr ⟨d2, d1⟩

theorem fl64_twoPow_min : fl64 (twoPow (-1022)) = some (twoPow (-1022)) := by
  have h := fl64_dyadic 1 (-1022) (by norm_num) (by norm_num) (by
    rw [Int.cast_one, one_mul, abs_of_pos (twoPow_pos _)]
    exact (twoPow_lt _ _).mpr (by norm_num))
  rwa [Int.cast_one, one_mul] at h

theorem normal_of_fl64 (x y : ℚ) (h : fl64 x = some y) (hy : twoPow (-1022) < |y|) :
    twoPow (-1022) ≤ |x| := by
  by_contra hc
  have hx := abs_lt.mp (not_le.mp hc)
  have h1 := fl64_mono x _ y _ hx.2.le h fl64_twoPow_min
  have hneg : fl64 (-twoPow (-1022)) = some (-twoPow (-1022)) := by
    rw [fl64_neg, fl64_twoPow_min]
    rfl
  have h2 := fl64_mono _ x _ y hx.1.le hneg h
  have := abs_le.mpr ⟨h2, h1⟩
  linarith

/-- If the quotient of a binary64 value `v` by `q` rounds to `y` and the product
`y * q` is a binary64 value, the quotient is `y` itself. -/
theorem quotient_exact (v q y : ℚ) (hq : 0 < q) (hv : fl64 v = some v)
    (hy : fl64 (v / q) = some y) (hP : fl64 (y * q) = some (y * q))
    (hn : twoPow (-1022) < |y|) : v / q = y := by
  by_contra hne
  have hxn := normal_of_fl64 _ _ hy hn
  obtain ⟨e1, e2⟩ := fl64_error _ _ hxn hy
  have hy0 : y ≠ 0 := by
    rintro rfl
    have := twoPow_pos (-1022)
    simp at hn
    linarith
  have hP0 : y * q ≠ 0 := mul_ne_zero hy0 hq.ne'
  have hvP : v ≠ y * q := by
    intro h
    apply hne
    rw [h]
    field_simp
  obtain ⟨g1, g2⟩ := fl64_gap v (y * q) hv hP hvP hP0
  have habsP : |y * q| = |y| * q := by rw [abs_mul, abs_of_pos hq]
  have habsv : |v| = |v / q| * q := by
    rw [abs_div, abs_of_pos hq]
    field_simp
  have hdiff : |v - y * q| = |v / q - y| * q := by
    have : v - y * q = (v / q - y) * q := by
      field_simp
      ring
    rw [this, abs_mul, abs_of_pos hq]
  rw [habsP, hdiff] at g1 g2
  rw [habsv] at g2
  have h53 := twoPow_pos (-53)
  rcases lt_trichotomy |v / q| |y| with hlt | heq | hgt
  · have := e2 hlt
    nlinarith
  · have hneg : v / q = -y := by
      rcases abs_eq_abs.mp heq with h | h
      · exact absurd h hne
      · exact h
    rw [hneg] at e1
    have e3 : |-y - y| = 2 * |y| := by
      rw [show -y - y = -(2 * y) by ring, abs_neg, abs_mul]
      norm_num
    rw [e3] at e1
    have h53lt : twoPow (-53) < 1 := by
      rw [twoPow_eq]
      norm_num
    have hypos : 0 < |y| := abs_pos.mpr hy0
    nlinarith
  · have := g2 (mul_lt_mul_of_pos_right hgt hq)
    nlinarith

theorem fl64_twoPow52 : fl64 (twoPow 52) = some (twoPow 52) := by
  have h := fl64_dyadic 1 52 (by norm_num) (by norm_num) (by
    rw [Int.cast_one, one_mul, abs_of_pos (twoPow_pos _)]
    exact (twoPow_lt _ _).mpr (by norm_num))
  rwa [Int.cast_one, one_mul] at h

theorem abs_le_of_fl64_lt (x X : ℚ) (h : fl64 x = some X) (hX : |X| < twoPow 52) :
    |x| ≤ twoPow 52 := by
  by_contra hc
  have hc := not_le.mp hc
  rcases le_or_lt 0 x with h0 | h0
  · rw [abs_of_nonneg h0] at hc
    have := fl64_mono _ x _ X hc.le fl64_twoPow52 h
    have := le_abs_self X
    linarith
  · rw [abs_of_neg h0] at hc
    have hneg : fl64 (-twoPow 52) = some (-twoPow 52) := by
      rw [fl64_neg, fl64_twoPow52]
      rfl
    have := fl64_mono x _ X _ (by linarith) h hneg
    have := neg_abs_le X
    linarith

theorem twoPow52_eq : twoPow 52 = ((2 ^ 52 : ℤ) : ℚ) := by
  rw [twoPow_eq]
  norm_num

theorem floor_core (v q X : ℚ) (hq : 0 < q) (hv : fl64 v = some v)
    (hX : fl64 (v / q) = some X) (hP : fl64 ((⌊X⌋ : ℚ) * q) = some ((⌊X⌋ : ℚ) * q))
    (hz : X = 0 → v = 0) :
    ((⌊X⌋ : ℤ) : ℚ) ≤ v / q ∧ ∀ j : ℤ, (j : ℚ) ≤ v / q → j ≤ ⌊X⌋ := by
  have hXX := fl64_idem _ _ hX
  have hk : fl64 ((⌊X⌋ : ℤ) : ℚ) = some ((⌊X⌋ : ℤ) : ℚ) := apply_double .floor X hXX
  have hmin : twoPow (-1022) < 1 := by
    rw [twoPow_eq]
    norm_num
  have exact_of_eq : X = ((⌊X⌋ : ℤ) : ℚ) → X ≠ 0 → v / q = X := by
    intro he hne
    have h1 : (1 : ℚ) ≤ |X| := by
      rw [he, ← Int.cast_abs]
      have : (1 : ℤ) ≤ |⌊X⌋| := by
        apply Int.one_le_abs
        intro h0
        rw [h0] at he
        exact hne (by simpa using he)
      exact_mod_cast this
    refine quotient_exact v q X hq hv hX ?_ (by linarith)
    rw [he]
    rw [← he]
    rw [he] at hP ⊢
    simpa using hP
  constructor
  · by_contra hc
    have hc := not_le.mp hc
    have h1 := fl64_mono _ _ _ _ hc.le hX hk
    have h2 := Int.floor_le X
    have he : X = ((⌊X⌋ : ℤ) : ℚ) := le_antisymm h1 h2
    by_cases h0 : X = 0
    · have := hz h0
      rw [this, zero_div] at hc
      rw [h0] at hc
      simp at hc
    · have := exact_of_eq he h0
      rw [this] at hc
      linarith
  · intro j hj
    by_contra hc
    have hc : ⌊X⌋ + 1 ≤ j := by omega
    have hlt : X < j := by
      have := Int.lt_floor_add_one X
      have h3 : ((⌊X⌋ + 1 : ℤ) : ℚ) ≤ j := by exact_mod_cast hc
      push_cast at h3
      linarith
    rcases le_or_lt (twoPow 52) |X| with hbig | hsmall
    · obtain ⟨n, hn⟩ := double_large_int X hXX hbig
      have he : X = ((⌊X⌋ : ℤ) : ℚ) := by
        rw [hn]
        simp
      have h0 : X ≠ 0 := by
        rintro rfl
        have := twoPow_pos 52
        simp at hbig
        linarith
      have := exact_of_eq he h0
      linarith
    · have hx := abs_le_of_fl64_lt _ _ hX hsmall
      rw [twoPow52_eq] at hx hsmall
      have hs := abs_lt.mp hsmall
      have hxx := abs_le.mp hx
      have hj1 : ((j : ℤ) : ℚ) ≤ ((2 ^ 52 : ℤ) : ℚ) := le_trans hj hxx.2
      have hj2 : ((-(2 ^ 52) : ℤ) : ℚ) < (j : ℚ) := by
        push_cast
        push_cast at hs
        linarith
      have hj3 : j ≤ 2 ^ 52 := by exact_mod_cast hj1
      have hj4 : -(2 ^ 52) < j := by exact_mod_cast hj2
      have hjd := fl64_intCast j (abs_lt.mpr ⟨by omega, by omega⟩)
      have := fl64_mono _ _ _ _ hj hjd hX
      linarith

theorem ceil_core (v q X : ℚ) (hq : 0 < q) (hv : fl64 v = some v)
    (hX : fl64 (v / q) = some X) (hP : fl64 ((⌈X⌉ : ℚ) * q) = some ((⌈X⌉ : ℚ) * q))
    (hz : X = 0 → v = 0) :
    v / q ≤ ((⌈X⌉ : ℤ) : ℚ) ∧ ∀ j : ℤ, v / q ≤ (j : ℚ) → ⌈X⌉ ≤ j := by
  have hv2 : fl64 (-v) = some (-v) := by
    rw [fl64_neg, hv]
    rfl
  have hX2 : fl64 (-v / q) = some (-X) := by
    rw [neg_div, fl64_neg, hX]
    rfl
  have hfl : ⌊-X⌋ = -⌈X⌉ := Int.floor_neg
  have hP2 : fl64 ((⌊-X⌋ : ℚ) * q) = some ((⌊-X⌋ : ℚ) * q) := by
    rw [hfl]
    push_cast
    rw [neg_mul, fl64_neg, hP]
    rfl
  obtain ⟨h1, h2⟩ := floor_core (-v) q (-X) hq hv2 hX2 hP2 (by
    intro h
    rw [hz (neg_eq_zero.mp h)]
    simp)
  rw [hfl] at h1 h2
  constructor
  · push_cast at h1
    rw [neg_div] at h1
    linarith
  · intro j hj
    have := h2 (-j) (by
      push_cast
      rw [neg_div]
      linarith)
    omega

theorem half_double (k : ℤ) (h1 : -(2 ^ 53) < 2 * k - 1) (h2 : 2 * k - 1 < 2 ^ 53) :
    fl64 ((k : ℚ) - 1 / 2) = some ((k : ℚ) - 1 / 2) := by
  have e : (k : ℚ) - 1 / 2 = ((2 * k - 1 : ℤ) : ℚ) * twoPow (-1) := by
    rw [twoPow_eq]
    push_cast
    norm_num
    ring
  rw [e]
  refine fl64_dyadic _ _ (by norm_num) (abs_lt.mpr ⟨h1, h2⟩) ?_
  rw [← e]
  have hq1 : ((-(2 ^ 53) : ℤ) : ℚ) < ((2 * k - 1 : ℤ) : ℚ) := by exact_mod_cast h1
  have hq2 : ((2 * k - 1 : ℤ) : ℚ) < ((2 ^ 53 : ℤ) : ℚ) := by exact_mod_cast h2
  push_cast at hq1 hq2
  have h1024 : (2 : ℚ) ^ 53 < twoPow 1024 := by
    rw [twoPow_eq]
    norm_num
  rw [abs_lt]
  constructor <;> linarith

theorem round_core (v q X : ℚ) (hq : 0 < q) (hv : fl64 v = some v)
    (hX : fl64 (v / q) = some X)
    (hP : fl64 ((⌊X + 1 / 2⌋ : ℚ) * q) = some ((⌊X + 1 / 2⌋ : ℚ) * q))
    (hM : fl64 (((⌊X + 1 / 2⌋ : ℚ) - 1 / 2) * q) = some (((⌊X + 1 / 2⌋ : ℚ) - 1 / 2) * q)) :
    |((⌊X + 1 / 2⌋ : ℤ) : ℚ) - v / q| ≤ 1 / 2 := by
  have hXX := fl64_idem _ _ hX
  have hmin : twoPow (-1022) < 1 / 2 := by
    rw [twoPow_eq]
    norm_num
  have f1 := Int.floor_le (X + 1 / 2)
  have f2 := Int.lt_floor_add_one (X + 1 / 2)
  rcases le_or_lt (twoPow 52) |X| with hbig | hsmall
  · obtain ⟨n, hn⟩ := double_large_int X hXX hbig
    have hk : ⌊X + 1 / 2⌋ = n := by
      rw [hn]
      exact RoundFn.apply_intCast .round n
    have h52 : (1 : ℚ) ≤ twoPow 52 := by
      rw [twoPow_eq]
      norm_num
    have := quotient_exact v q X hq hv hX (by
      rw [hk, ← hn] at hP
      exact hP) (by linarith)
    rw [this, hk, hn]
    simp
  · have hx := abs_le_of_fl64_lt _ _ hX hsmall
    rw [twoPow52_eq] at hx hsmall
    have hs := abs_lt.mp hsmall
    have hxx := abs_le.mp hx
    push_cast at hs hxx
    rw [abs_le]
    constructor
    · -- the quotient is at most `k + 1/2`
      by_contra hc
      have hc := not_le.mp hc
      have hk1 : ((⌊X + 1 / 2⌋ : ℤ) : ℚ) + 1 < 2 ^ 52 + 1 / 2 := by linarith
      have hk2 : -(2 : ℚ) ^ 52 - 1 / 2 < ((⌊X + 1 / 2⌋ : ℤ) : ℚ) := by linarith
      have c1 : ((2 * (⌊X + 1 / 2⌋ + 1) - 1 : ℤ) : ℚ) < ((2 ^ 53 : ℤ) : ℚ) := by
        push_cast
        linarith
      have c2 : ((-(2 ^ 53) : ℤ) : ℚ) < ((2 * (⌊X + 1 / 2⌋ + 1) - 1 : ℤ) : ℚ) := by
        push_cast
        linarith
      have d1 : 2 * (⌊X + 1 / 2⌋ + 1) - 1 < 2 ^ 53 := by exact_mod_cast c1
      have d2 : -(2 ^ 53) < 2 * (⌊X + 1 / 2⌋ + 1) - 1 := by exact_mod_cast c2
      have hh := half_double (⌊X + 1 / 2⌋ + 1) d2 d1
      push_cast at hh
      have := fl64_mono _ _ _ _ (by linarith : ((⌊X + 1 / 2⌋ : ℤ) : ℚ) + 1 - 1 / 2 ≤ v / q) hh hX
      linarith
    · -- the quotient is at least `k - 1/2`
      by_contra hc
      have hc := not_le.mp hc
      have c1 : ((2 * ⌊X + 1 / 2⌋ - 1 : ℤ) : ℚ) < ((2 ^ 53 : ℤ) : ℚ) := by
        push_cast
        linarith
      have c2 : ((-(2 ^ 53) : ℤ) : ℚ) < ((2 * ⌊X + 1 / 2⌋ - 1 : ℤ) : ℚ) := by
        push_cast
        linarith
      have d1 : 2 * ⌊X + 1 / 2⌋ - 1 < 2 ^ 53 := by exact_mod_cast c1
      have d2 : -(2 ^ 53) < 2 * ⌊X + 1 / 2⌋ - 1 := by exact_mod_cast c2
      have hh := half_double ⌊X + 1 / 2⌋ d2 d1
      have h1 := fl64_mono _ _ _ _ (by linarith : v / q ≤ ((⌊X + 1 / 2⌋ : ℤ) : ℚ) - 1 / 2) hX hh
      have he : X = ((⌊X + 1 / 2⌋ : ℤ) : ℚ) - 1 / 2 := le_antisymm h1 (by linarith)
      have habs : (1 : ℚ) / 2 ≤ |X| := by
        rw [he]
        have : (1 : ℤ) ≤ |2 * ⌊X + 1 / 2⌋ - 1| := by
          apply Int.one_le_abs
          omega
        have h3 : ((1 : ℤ) : ℚ) ≤ ((|2 * ⌊X + 1 / 2⌋ - 1| : ℤ) : ℚ) := by exact_mod_cast this
        rw [Int.cast_abs] at h3
        push_cast at h3
        have e : ((⌊X + 1 / 2⌋ : ℤ) : ℚ) - 1 / 2 = (2 * (⌊X + 1 / 2⌋ : ℚ) - 1) / 2 := by ring
        rw [e, abs_div, abs_of_pos (by norm_num : (0 : ℚ) < 2)]
        linarith
      have := quotient_exact v q X hq hv hX (by
        rw [← he] at hM
        exact hM) (by linarith)
      rw [this] at hc
      linarith

theorem fl64_exists (x : ℚ) (h : |x| < twoPow 1023) : ∃ y, fl64 x = some y := by
  by_cases hx : x = 0
  · exact ⟨0, by rw [hx]; exact fl64_zero⟩
  · refine ⟨_, (fl64_eq_some x _ hx).mpr ⟨rfl, ?_⟩⟩
    obtain ⟨b1, -⟩ := binade_spec x hx
    have hb : binade x < 1023 := (twoPow_lt _ _).mp (lt_of_le_of_lt b1 h)
    have hu : ulpExp x + 53 ≤ 1023 := by
      unfold ulpExp
      rcases max_cases (binade x) (-1022) with ⟨h1, -⟩ | ⟨h1, -⟩ <;> omega
    have hupos := twoPow_pos (ulpExp x)
    have hq : |x / twoPow (ulpExp x)| ≤ ((2 ^ 53 : ℤ) : ℚ) := by
      rw [abs_div, abs_of_pos hupos, div_le_iff₀ hupos]
      have h1 := abs_lt_ulp x hx
      rw [twoPow_add, mul_comm] at h1
      have h53 : twoPow 53 = ((2 ^ 53 : ℤ) : ℚ) := by
        rw [twoPow_eq]
        norm_num
      rw [h53] at h1
      exact h1.le
    have hN := roundHalfEven_abs_le _ _ hq
    have hNq : |(roundHalfEven (x / twoPow (ulpExp x)) : ℚ)| ≤ twoPow 53 := by
      have h53 : twoPow 53 = ((2 ^ 53 : ℤ) : ℚ) := by
        rw [twoPow_eq]
        norm_num
      rw [h53, ← Int.cast_abs]
      exact_mod_cast hN
    rw [abs_mul, abs_of_pos hupos]
    calc |(roundHalfEven (x / twoPow (ulpExp x)) : ℚ)| * twoPow (ulpExp x)
        ≤ twoPow 53 * twoPow (ulpExp x) := mul_le_mul_of_nonneg_right hNq hupos.le
      _ = twoPow (ulpExp x + 53) := by rw [twoPow_add, mul_comm]
      _ ≤ twoPow 1023 := (twoPow_le _ _).mpr hu
      _ < twoPow 1024 := (twoPow_lt _ _).mpr (by norm_num)

theorem subnormal_multiple (s : ℚ) (k : ℤ) (hs : fl64 s = some s)
    (hlt : |(k : ℚ) * s| < twoPow (-1022)) : fl64 ((k : ℚ) * s) = some ((k : ℚ) * s) := by
  by_cases h0 : s = 0
  · rw [h0, mul_zero]
    exact fl64_zero
  · obtain ⟨N, eN⟩ := fl64_fixed_grid s h0 hs
    obtain ⟨M, eM⟩ := grid_coarser s N (-1074) _ eN (ulpExp_ge s)
    have e : (k : ℚ) * s = ((k * M : ℤ) : ℚ) * twoPow (-1074) := by
      rw [eM]
      push_cast
      ring
    have hpos := twoPow_pos (-1074)
    have hKM : |k * M| < 2 ^ 53 := by
      have h1 : |((k * M : ℤ) : ℚ)| * twoPow (-1074) < twoPow (-1022) := by
        have : |((k * M : ℤ) : ℚ)| * twoPow (-1074) = |(k : ℚ) * s| := by
          rw [e, abs_mul, abs_of_pos hpos]
        rw [this]
        exact hlt
      have h2 : twoPow (-1022) = ((2 ^ 52 : ℤ) : ℚ) * twoPow (-1074) := by
        rw [twoPow52_eq.symm, ← twoPow_add]
        congr 1
      rw [h2] at h1
      have h3 := lt_of_mul_lt_mul_right h1 hpos.le
      rw [← Int.cast_abs] at h3
      have h4 : |k * M| < 2 ^ 52 := by exact_mod_cast h3
      omega
    rw [e]
    refine fl64_dyadic _ _ (by norm_num) hKM ?_
    rw [← e]
    exact lt_trans hlt ((twoPow_lt _ _).mpr (by norm_num))

/-- The quotient of the rounded product `k * s` by `s` is within `1/4` of `k`,
for `|k| ≤ 2^50` and a binary64 value `s > 0`. -/
theorem requotient_near (s r : ℚ) (k : ℤ) (hs0 : 0 < s) (hs : fl64 s = some s)
    (hk : |k| ≤ 2 ^ 50) (hr : fl64 ((k : ℚ) * s) = some r) : |r / s - k| ≤ 1 / 4 := by
  rcases lt_or_le |(k : ℚ) * s| (twoPow (-1022)) with hsub | hnorm
  · have := subnormal_multiple s k hs hsub
    rw [this] at hr
    have hr := Option.some.inj hr
    rw [← hr]
    have : (k : ℚ) * s / s - k = 0 := by
      field_simp
    rw [this]
    norm_num
  · obtain ⟨e1, -⟩ := fl64_error _ _ hnorm hr
    have h53 : twoPow (-53) = 1 / 2 ^ 53 := by
      rw [twoPow_eq]
      norm_num
    rw [h53] at e1
    have hkq : |(k : ℚ)| ≤ 2 ^ 50 := by
      rw [← Int.cast_abs]
      exact_mod_cast hk
    have hks : |(k : ℚ) * s| ≤ 2 ^ 50 * s := by
      rw [abs_mul, abs_of_pos hs0]
      exact mul_le_mul_of_nonneg_right hkq hs0.le
    have htri : |r| ≤ |(k : ℚ) * s| + |(k : ℚ) * s - r| := by
      have := abs_sub_abs_le_abs_sub r ((k : ℚ) * s)
      rw [abs_sub_comm r] at this
      linarith
    have he0 := abs_nonneg ((k : ℚ) * s - r)
    have he : |(k : ℚ) * s - r| ≤ s / 4 := by
      have : (1 : ℚ) / 2 ^ 53 * |r| ≤ 1 / 2 ^ 53 * (2 ^ 50 * s + |(k : ℚ) * s - r|) :=
        mul_le_mul_of_nonneg_left (by linarith) (by norm_num)
      norm_num at this e1 ⊢
      linarith
    have : r / s - k = -(((k : ℚ) * s - r) / s) := by
      field_simp
      ring
    rw [this, abs_neg, abs_div, abs_of_pos hs0, div_le_iff₀ hs0]
    linarith

theorem quarter_double (k : ℤ) (hk : |k| ≤ 2 ^ 50) :
    fl64 ((k : ℚ) - 1 / 4) = some ((k : ℚ) - 1 / 4) ∧
      fl64 ((k : ℚ) + 1 / 4) = some ((k : ℚ) + 1 / 4) := by
  have hk2 := abs_le.mp hk
  have h1024 : (2 : ℚ) ^ 53 < twoPow 1024 := by
    rw [twoPow_eq]
    norm_num
  have hkq1 : (k : ℚ) ≤ 2 ^ 50 := by exact_mod_cast hk2.2
  have hkq2 : -(2 : ℚ) ^ 50 ≤ k := by exact_mod_cast hk2.1
  constructor
  · have e : (k : ℚ) - 1 / 4 = ((4 * k - 1 : ℤ) : ℚ) * twoPow (-2) := by
      rw [twoPow_eq]
      push_cast
      norm_num
      ring
    rw [e]
    refine fl64_dyadic _ _ (by norm_num) (abs_lt.mpr ⟨by omega, by omega⟩) ?_
    rw [← e, abs_lt]
    constructor <;> linarith
  · have e : (k : ℚ) + 1 / 4 = ((4 * k + 1 : ℤ) : ℚ) * twoPow (-2) := by
      rw [twoPow_eq]
      push_cast
      norm_num
      ring
    rw [e]
    refine fl64_dyadic _ _ (by norm_num) (abs_lt.mpr ⟨by omega, by omega⟩) ?_
    rw [← e, abs_lt]
    constructor <;> linarith

/-- Quantizing the rounded product `r` of `k` and `s` once more finds `k`
again: the rounded quotient `r / s` is within `1/4` of `k`, and on the side of
`k` on which `r` lies of `k * s`. -/
theorem requotient (s r : ℚ) (k : ℤ) (hs0 : 0 < s) (hs : fl64 s = some s)
    (hk : |k| ≤ 2 ^ 50) (hr : fl64 ((k : ℚ) * s) = some r) :
    ∃ X, fl64 (r / s) = some X ∧ (k : ℚ) - 1 / 4 ≤ X ∧ X ≤ (k : ℚ) + 1 / 4 ∧
      (r ≤ (k : ℚ) * s → X ≤ k) ∧ ((k : ℚ) * s ≤ r → (k : ℚ) ≤ X) := by
  have hnear := abs_le.mp (requotient_near s r k hs0 hs hk hr)
  have hkq : |(k : ℚ)| ≤ 2 ^ 50 := by
    rw [← Int.cast_abs]
    exact_mod_cast hk
  have hkq2 := abs_le.mp hkq
  have hfin : |r / s| < twoPow 1023 := by
    have : (2 : ℚ) ^ 51 < twoPow 1023 := by
      rw [twoPow_eq]
      norm_num
    rw [abs_lt]
    constructor <;> linarith [hnear.1, hnear.2]
  obtain ⟨X, hX⟩ := fl64_exists _ hfin
  obtain ⟨q1, q2⟩ := quarter_double k hk
  have hkd := fl64_intCast k (lt_of_le_of_lt hk (by norm_num))
  refine ⟨X, hX, ?_, ?_, ?_, ?_⟩
  · exact fl64_mono _ _ _ _ (by linarith [hnear.1]) q1 hX
  · exact fl64_mono _ _ _ _ (by linarith [hnear.2]) hX q2
  · intro h
    exact fl64_mono _ _ _ _ ((div_le_iff₀ hs0).mpr h) hX hkd
  · intro h
    exact fl64_mono _ _ _ _ ((le_div_iff₀ hs0).mpr h) hkd hX

theorem quantize64_eq (v s : ℚ) (fn : Option RoundFn) :
    quantize64 v s fn = (div64 v s).bind fun q => mul64 ((modeOf fn).apply q : ℚ) s := by
  cases fn <;> rfl

theorem isDouble_iff (x : ℚ) : isDouble x = true ↔ fl64 x = some x := by
  simp [isDouble]

theorem div64_eq (a b : ℚ) (hb : b ≠ 0) : div64 a b = fl64 (a / b) := by
  simp [div64, hb]

theorem apply_eq_of_near (fn : RoundFn) (X : ℚ) (k : ℤ) (h1 : (k : ℚ) - 1 / 4 ≤ X)
    (h2 : X ≤ (k : ℚ) + 1 / 4) (hc : fn = .ceil → X ≤ k) (hf : fn = .floor → (k : ℚ) ≤ X) :
    fn.apply X = k := by
  cases fn
  · show ⌊X + 1 / 2⌋ = k
    rw [Int.floor_eq_iff]
    constructor <;> linarith
  · show ⌈X⌉ = k
    rw [Int.ceil_eq_iff]
    have := hc rfl
    constructor <;> linarith
  · show ⌊X⌋ = k
    rw [Int.floor_eq_iff]
    have := hf rfl
    constructor <;> linarith

/-- C4, amended. In binary64 arithmetic `quantize` is idempotent for every value
`v`, every positive binary64 spacing `s` and every rounding mode for which the
integer `k = Math[mode](v / s)` has `|k| ≤ 2^50` and the product `k * s` is
finite and, in mode `ceil`, not rounded upwards, in mode `floor`, not rounded
downwards (in mode `round` the product may be rounded either way): the call
returns a number, and quantizing that number again returns it unchanged. -/
theorem quantize64_idempotent (v s : ℚ) (hs : 0 < s) (hsd : isDouble s = true)
    (fn : Option RoundFn) (hsafe : productSafe64 v s fn = true) :
    ∃ r, quantize64 v s fn = some r ∧ quantize64 r s fn = some r := by
  rw [isDouble_iff] at hsd
  unfold productSafe64 at hsafe
  cases hX : div64 v s with
  | none => rw [hX] at hsafe; simp at hsafe
  | some X =>
    rw [hX] at hsafe
    simp only [] at hsafe
    cases hr : mul64 ((modeOf fn).apply X : ℚ) s with
    | none => rw [hr] at hsafe; simp at hsafe
    | some r =>
      rw [hr] at hsafe
      simp only [Bool.and_eq_true, decide_eq_true_eq] at hsafe
      obtain ⟨hk, hside⟩ := hsafe
      refine ⟨r, ?_, ?_⟩
      · rw [quantize64_eq, hX]
        exact hr
      · obtain ⟨X2, hX2, n1, n2, c1, c2⟩ := requotient s r _ hs hsd hk hr
        have hap : (modeOf fn).apply X2 = (modeOf fn).apply X := by
          apply apply_eq_of_near _ _ _ n1 n2
          · intro hm
            rw [hm] at hside
            simp only [decide_eq_true_eq] at hside
            apply c1
            rw [hm]
            exact hside
          · intro hm
            rw [hm] at hside
            simp only [decide_eq_true_eq] at hside
            apply c2
            rw [hm]
            exact hside
        rw [quantize64_eq, div64_eq _ _ hs.ne', hX2]
        simp only [Option.some_bind]
        rw [hap]
        exact hr

theorem quantize64_of_exact (v q : ℚ) (fn : Option RoundFn)
    (hex : productExact64 v q fn = true) :
    ∃ X, div64 v q = some X ∧
      fl64 (((modeOf fn).apply X : ℚ) * q) = some (((modeOf fn).apply X : ℚ) * q) ∧
      quantize64 v q fn = some (((modeOf fn).apply X : ℚ) * q) := by
  unfold productExact64 at hex
  cases hX : div64 v q with
  | none => rw [hX] at hex; simp at hex
  | some X =>
    rw [hX] at hex
    simp only [isDouble_iff] at hex
    refine ⟨X, rfl, hex, ?_⟩
    rw [quantize64_eq, hX]
    exact hex

/-- C5, amended. In binary64 arithmetic, for a binary64 value `v` and a positive
quantum `q`: whenever the multiplication `Math[mode](v / q) * q` is exact,
`quantize v q mode` is that integer multiple of `q`; if moreover the quotient
`v / q` does not round to zero unless `v` is zero, then with `floor` it is the
greatest multiple at most `v` and with `ceil` the least multiple at least `v`;
with `round` (also the default), if also `(k - 1/2) * q` is a binary64 value for
`k = Math.round(v / q)`, it is within `q / 2` of `v`; and `quantize 17 10 = 20`,
`quantize 14 10 = 10`, the grid spacing being 10. -/
theorem quantize64_spec (v q : ℚ) (hv : isDouble v = true) (hq : 0 < q) :
    (∀ fn : Option RoundFn, productExact64 v q fn = true →
      ∃ k : ℤ, quantize64 v q fn = some ((k : ℚ) * q)) ∧
    (productExact64 v q (some .floor) = true → quotientNonzero64 v q = true →
      ∃ r, quantize64 v q (some .floor) = some r ∧ r ≤ v ∧
        ∀ k : ℤ, (k : ℚ) * q ≤ v → (k : ℚ) * q ≤ r) ∧
    (productExact64 v q (some .ceil) = true → quotientNonzero64 v q = true →
      ∃ r, quantize64 v q (some .ceil) = some r ∧ v ≤ r ∧
        ∀ k : ℤ, v ≤ (k : ℚ) * q → r ≤ (k : ℚ) * q) ∧
    (productExact64 v q none = true → midpointExact64 v q = true →
      ∃ r, quantize64 v q none = some r ∧ quantize64 v q (some .round) = some r ∧
        |r - v| ≤ q / 2) ∧
    quantize64 17 10 none = some 20 ∧ quantize64 14 10 none = some 10 ∧ SPACING = 10 := by
  rw [isDouble_iff] at hv
  refine ⟨?_, ?_, ?_, ?_, by decide!, by decide!, rfl⟩
  · intro fn hex
    obtain ⟨X, -, -, h⟩ := quantize64_of_exact v q fn hex
    exact ⟨_, h⟩
  · intro hex hz
    obtain ⟨X, hX, hP, h⟩ := quantize64_of_exact v q _ hex
    have hX2 : fl64 (v / q) = some X := by rwa [div64_eq _ _ hq.ne'] at hX
    have hz2 : X = 0 → v = 0 := by
      intro h0
      simp only [quotientNonzero64, decide_eq_true_eq] at hz
      exact hz (by rw [hX, h0])
    obtain ⟨c1, c2⟩ := floor_core v q X hq hv hX2 hP hz2
    refine ⟨_, h, ?_, ?_⟩
    · exact (le_div_iff₀ hq).mp c1
    · intro k hk
      apply mul_le_mul_of_nonneg_right _ hq.le
      have := c2 k ((le_div_iff₀ hq).mpr hk)
      exact_mod_cast this
  · intro hex hz
    obtain ⟨X, hX, hP, h⟩ := quantize64_of_exact v q _ hex
    have hX2 : fl64 (v / q) = some X := by rwa [div64_eq _ _ hq.ne'] at hX
    have hz2 : X = 0 → v = 0 := by
      intro h0
      simp only [quotientNonzero64, decide_eq_true_eq] at hz
      exact hz (by rw [hX, h0])
    obtain ⟨c1, c2⟩ := ceil_core v q X hq hv hX2 hP hz2
    refine ⟨_, h, ?_, ?_⟩
    · exact (div_le_iff₀ hq).mp c1
    · intro k hk
      apply mul_le_mul_of_nonneg_right _ hq.le
      have := c2 k ((div_le_iff₀ hq).mpr hk)
      exact_mod_cast this
  · intro hex hmid
    obtain ⟨X, hX, hP, h⟩ := quantize64_of_exact v q _ hex
    have hX2 : fl64 (v / q) = some X := by rwa [div64_eq _ _ hq.ne'] at hX
    have hM : fl64 (((⌊X + 1 / 2⌋ : ℚ) - 1 / 2) * q) = some (((⌊X + 1 / 2⌋ : ℚ) - 1 / 2) * q) := by
      unfold midpointExact64 at hmid
      rw [hX] at hmid
      simp only [isDouble_iff] at hmid
      exact hmid
    have c := round_core v q X hq hv hX2 hP hM
    refine ⟨_, h, h, ?_⟩
    have e : ((modeOf none).apply X : ℚ) * q - v = (((⌊X + 1 / 2⌋ : ℤ) : ℚ) - v / q) * q := by
      show ((⌊X + 1 / 2⌋ : ℤ) : ℚ) * q - v = _
      field_simp
    rw [e, abs_mul, abs_of_pos hq]
    calc |((⌊X + 1 / 2⌋ : ℤ) : ℚ) - v / q| * q ≤ 1 / 2 * q :=
          mul_le_mul_of_nonneg_right c hq.le
      _ = q / 2 := by ring

theorem quantize64_idempotent_witness :
    ∃ r, quantize64 (literal64 (173 / 10)) (literal64 (1 / 100)) (some .floor) = some r ∧
      quantize64 r (literal64 (1 / 100)) (some .floor) = some r :=
  quantize64_idempotent (literal64 (173 / 10)) (literal64 (1 / 100)) (by decide!) (by decide!)
    (some .floor) (by decide!)

/-- C4, counterexample. In binary64 arithmetic `quantize(38.299, 0.01, 'ceil')`
is `38.300000000000004`: the product `3830 * 0.01` is rounded upwards; and
`quantize(38.300000000000004, 0.01, 'ceil')` is `38.31`.  In mode `round`,
`quantize(1350000000000001, 0.3)` is not reproduced by a second call either;
there `Math.round(v / s)` is about `2^52`. -/
theorem quantize64_ceil_counterexample :
    quantize64 (literal64 (38299 / 1000)) (literal64 (1 / 100)) (some .ceil) =
      some (literal64 (38300000000000004 / 1000000000000000)) ∧
    quantize64 (literal64 (38300000000000004 / 1000000000000000)) (literal64 (1 / 100))
      (some .ceil) = some (literal64 (3831 / 100)) ∧
    literal64 (3831 / 100) ≠ literal64 (38300000000000004 / 1000000000000000) ∧
    productSafe64 (literal64 (38299 / 1000)) (literal64 (1 / 100)) (some .ceil) = false ∧
    (quantize64 1350000000000001 (literal64 (3 / 10)) none).bind
      (fun r => quantize64 r (literal64 (3 / 10)) none) ≠
        quantize64 1350000000000001 (literal64 (3 / 10)) none ∧
    (quantize64 1350000000000001 (literal64 (3 / 10)) none).isSome = true := by
  decide!

theorem quantize64_spec_witness :
    ∃ r, quantize64 (literal64 (549 / 10)) 10 (some .floor) = some r ∧
      r ≤ literal64 (549 / 10) ∧
      ∀ k : ℤ, (k : ℚ) * 10 ≤ literal64 (549 / 10) → (k : ℚ) * 10 ≤ r :=
  (quantize64_spec (literal64 (549 / 10)) 10 (by decide!) (by norm_num)).2.1 (by decide!)
    (by decide!)

/-- C5, counterexample. In binary64 arithmetic `quantize(54.9, 0.1, 'floor')` is
`54.900000000000006`, above `54.9`, and `quantize(63, 0.7, 'ceil')` is
`62.99999999999999`, below 63; in both the product is rounded.  With an exact
product: `quantize(5e-324, 10, 'ceil')` is 0, below the value, the quotient
having rounded to zero; and `quantize(0.44999999999999996, 0.3)` is `0.6`,
farther than `0.3 / 2` from the value, the quotient having rounded to `1.5`. -/
theorem quantize64_bounds_counterexample :
    quantize64 (literal64 (549 / 10)) (literal64 (1 / 10)) (some .floor) =
      some (literal64 (54900000000000006 / 1000000000000000)) ∧
    literal64 (549 / 10) < literal64 (54900000000000006 / 1000000000000000) ∧
    quantize64 63 (literal64 (7 / 10)) (some .ceil) =
      some (literal64 (6299999999999999 / 100000000000000)) ∧
    literal64 (6299999999999999 / 100000000000000) < 63 ∧
    quantize64 (twoPow (-1074)) 10 (some .ceil) = some 0 ∧ 0 < twoPow (-1074) ∧
    isDouble (twoPow (-1074)) = true ∧
    productExact64 (twoPow (-1074)) 10 (some .ceil) = true ∧
    quantize64 (literal64 (44999999999999996 / 100000000000000000)) (literal64 (3 / 10)) none =
      some (literal64 (6 / 10)) ∧
    ¬ |literal64 (6 / 10) - literal64 (44999999999999996 / 100000000000000000)| ≤
      literal64 (3 / 10) / 2 ∧
    productExact64 (literal64 (44999999999999996 / 100000000000000000)) (literal64 (3 / 10))
      none = true := by
  decide!

theorem snapValue64_double (v s : ℚ) (options : Option SnapOptions)
    (h : snapValue64 v options = some s) : fl64 s = some s := by
  unfold snapValue64 at h
  simp only [Option.bind_eq_bind, Option.bind_eq_some] at h
  obtain ⟨_, _, _, _, _, _, _, _, hlast⟩ := h
  exact fl64_idem _ _ hlast

/-- C6, amended. In binary64 arithmetic, for an event whose coordinate
`event[a]` and delta `event['d' + a]` are numbers, an axis `a` in {x, y} and
options for which `snapValue(old event[a], options)` is finite: whenever the
difference `snapValue(old event[a], options) - old event[a]` is a binary64 value
(the subtraction does not round) and its sum with the old delta is finite,
`snapEvent(event, a, options)` does not raise, sets `event[a]` to
`snapValue(old event[a], options)`, adds the difference to `event['d' + a]`
(rounding the sum), and marks the axis snapped (`isSnapped(event, a)` is
`true`). -/
theorem snapEvent64_spec (ev : Event) (a : String) (ha : a = "x" ∨ a = "y") (v d s d2 : ℚ)
    (hv : getProp ev.fields a = some (.val v))
    (hd : getProp ev.fields ("d" ++ a) = some (.val d)) (options : Option SnapOptions)
    (hs : snapValue64 v options = some s) (hex : isDouble (s - v) = true)
    (hd2 : add64 d (s - v) = some d2) :
    ∃ ev2, snapEvent64 ev a options = some (ev2, .ok ()) ∧
      getProp ev2.fields a = some (.val s) ∧
      getProp ev2.fields ("d" ++ a) = some (.val d2) ∧
      isSnapped ev2 (.str a) = .bool true := by
  have hne := delta_axis_ne a ha
  have hsd := snapValue64_double v s options hs
  rw [isDouble_iff] at hex
  have hsub : sub64 s v = some (s - v) := hex
  have hadd : add64 v (s - v) = some s := by
    unfold add64
    rw [show v + (s - v) = s by ring]
    exact hsd
  refine ⟨⟨setProp (setProp ev.fields a (.val s)) ("d" ++ a) (.val d2),
    some (setProp (ev.snapped.getD []) a true)⟩, ?_, ?_, ?_, ?_⟩
  · simp [snapEvent64, snapValueJs64, setSnapped64, hv, hd, hs, toNum, JsNum.sub64, JsNum.add64,
      hsub, hadd, hd2, getProp_setProp_ne _ _ _ _ hne, Except.map]
  · rw [getProp_setProp_ne _ _ _ _ (Ne.symm hne), getProp_setProp_same]
  · rw [getProp_setProp_same]
  · simp [isSnapped, getProp_setProp_same]

theorem snapEvent64_spec_witness :
    ∃ ev2, snapEvent64 ⟨[("x", .val (literal64 (173 / 10))), ("y", .val 4), ("dx", .val 0),
        ("dy", .val 0)], none⟩ "x" none = some (ev2, .ok ()) ∧
      getProp ev2.fields "x" = some (.val 20) ∧
      getProp ev2.fields ("d" ++ "x") = some (.val (20 - literal64 (173 / 10))) ∧
      isSnapped ev2 (.str "x") = .bool true :=
  snapEvent64_spec ⟨[("x", .val (literal64 (173 / 10))), ("y", .val 4), ("dx", .val 0),
      ("dy", .val 0)], none⟩ "x" (Or.inl rfl)
    (literal64 (173 / 10)) 0 20 (20 - literal64 (173 / 10)) (by decide!) (by decide!) none
    (by decide!) (by decide!) (by decide!)

/-- C6, counterexample. The event `{x: -0.3, y: 4, dx: 0, dy: 0}` snapped on `x`
with the offset 18: `snapValue(-0.3, {offset: 18})` is 2, the difference
`2 - (-0.3)` rounds to `2.3 = 2.29999999999999982…`, and `event.x` becomes
`-0.3 + 2.3 = 1.9999999999999998`, not 2. -/
theorem snapEvent64_rounding_counterexample :
    snapValue64 (literal64 (-3 / 10)) (some ⟨some 18, none, none⟩) = some 2 ∧
    (snapEvent64 ⟨[("x", .val (literal64 (-3 / 10))), ("y", .val 4), ("dx", .val 0),
        ("dy", .val 0)], none⟩ "x" (some ⟨some 18, none, none⟩)).map
      (fun r => getProp r.1.fields "x") =
      some (some (.val (literal64 (19999999999999998 / 10000000000000000)))) ∧
    literal64 (19999999999999998 / 10000000000000000) ≠ 2 ∧
    isDouble (2 - literal64 (-3 / 10)) = false := by
  decide!

end BpmnJs
